import Mathlib

/-!
# EPC page cache: allocator, reclaimer and the enclave-page owner

A shallow embedding of `arch/x86/kernel/cpu/intel_sgx.c`,
`arch/x86/include/asm/sgx.h` and
`drivers/platform/x86/intel_sgx/sgx_encl_page.c`.

Conventions of the embedding.

* The C globals live in one record, `State`; every C function becomes a
  function on `State` that returns its C return value together with the
  new state.
* A memory access that is undefined in C (an index outside an array, a
  dereference of `NULL` or of a pointer to no object) is the explicit
  outcome `Stuck.fault`; a loop that is cut off by the fuel argument of its
  model is `Stuck.fuel`.
* `atomic_t` counters are unbounded integers: the page arrays are obtained
  from `kzalloc`, which keeps every page count far below `2^31`.
* Locks are not modelled: the embedding is the sequential behaviour of each
  function.
-/

namespace Sgx

/-! ## Outcomes -/

/-- Reasons for which a modelled C function produces no result. -/
inductive Stuck where
  | fault
  | fuel
deriving DecidableEq, Repr

instance {ε α : Type} [DecidableEq ε] [DecidableEq α] : DecidableEq (Except ε α)
  | .ok a, .ok b =>
    if h : a = b then isTrue (by rw [h]) else isFalse (fun h2 => h (by cases h2; rfl))
  | .error a, .error b =>
    if h : a = b then isTrue (by rw [h]) else isFalse (fun h2 => h (by cases h2; rfl))
  | .ok _, .error _ => isFalse (fun h => by cases h)
  | .error _, .ok _ => isFalse (fun h => by cases h)

/-! ## Data model (`asm/sgx.h`) -/

/-- A `struct sgx_epc_page *`: the address `&sgx_epc_banks[bank].pages_data[idx]`. -/
structure PagePtr where
  bank : Nat
  idx : Nat
deriving DecidableEq, Repr

/-- A `struct sgx_epc_page_impl *`: the address of the `impl` member embedded in
the owner's per-page object.  `NULL` is `none` where the pointer is used. -/
abbrev ImplPtr := Nat

/-- The `struct sgx_epc_page` of `asm/sgx.h`.  The `list` member is represented by the
position of the page in `State.sgx_active_page_list`. -/
structure sgx_epc_page where
  desc : Nat
  impl : Option ImplPtr
deriving DecidableEq, Repr

/-- The `struct sgx_epc_bank` of `asm/sgx.h`.  `pages` is the array of `nr_pages` page
pointers of which the first `free_cnt` are the free stack. -/
structure sgx_epc_bank where
  pa : Nat
  va : Nat
  size : Nat
  pages_data : List sgx_epc_page
  pages : List PagePtr
  free_cnt : Nat
deriving DecidableEq, Repr

/-- Privileged instructions and the cross-CPU flush, as they are issued.  `ETRACK` and
`FLUSH` name the enclave they act on. -/
inductive HwOp where
  | EREMOVE (epc : PagePtr)
  | EBLOCK (epc : PagePtr)
  | ETRACK (encl : Nat)
  | EWB (epc : PagePtr) (va : PagePtr) (va_offset : Nat)
  | EPA (epc : PagePtr)
  | FLUSH (encl : Nat)
deriving DecidableEq, Repr

/-- The globals of `intel_sgx.c` together with the environment they run in.

* `sgx_epc_banks` holds the initialised prefix of the static array, so that
  `sgx_nr_epc_banks` is its length.
* `hw_results` are the values the next instruction wrappers will return, in
  call order (an exhausted list answers `0`); `hw_log` records the
  instructions issued so far.
* `signal_pending` is `signal_pending(current)`.
* `ksgxswapd_wakeups` counts the calls of `wake_up(&ksgxswapd_waitq)`. -/
structure State where
  sgx_epc_banks : List sgx_epc_bank
  sgx_nr_free_pages : Int
  sgx_active_page_list : List PagePtr
  hw_results : List Int
  hw_log : List HwOp
  signal_pending : Bool
  ksgxswapd_wakeups : Nat
deriving DecidableEq, Repr

def PAGE_SHIFT : Nat := 12

def PAGE_SIZE : Nat := 2 ^ PAGE_SHIFT

/-- The value of `~PAGE_MASK`, the low twelve bits. -/
def PAGE_OFFSET_MASK : Nat := PAGE_SIZE - 1

/-- The 64-bit `PAGE_MASK`. -/
def PAGE_MASK : Nat := 2 ^ 64 - PAGE_SIZE

def SGX_MAX_EPC_BANKS : Nat := 8

def SGX_NR_TO_SCAN : Nat := 16

def SGX_NR_LOW_PAGES : Int := 32

def SGX_NR_HIGH_PAGES : Int := 64

/-- The index computed by `SGX_EPC_BANK(epc_page)`: `desc & ~PAGE_MASK`. -/
def SGX_EPC_BANK (page : sgx_epc_page) : Nat := page.desc &&& PAGE_OFFSET_MASK

/-- The macro `SGX_EPC_PFN(epc_page)`: `PFN_DOWN(desc)`. -/
def SGX_EPC_PFN (page : sgx_epc_page) : Nat := page.desc >>> PAGE_SHIFT

/-- The macro `SGX_EPC_ADDR(epc_page)`: `desc & PAGE_MASK`. -/
def SGX_EPC_ADDR (page : sgx_epc_page) : Nat := page.desc &&& PAGE_MASK

def State.sgx_nr_epc_banks (s : State) : Nat := s.sgx_epc_banks.length

/-- Dereference of a page pointer in the bank array; `none` when it points to no
descriptor. -/
def page_at (banks : List sgx_epc_bank) (p : PagePtr) : Option sgx_epc_page :=
  match banks[p.bank]? with
  | none => none
  | some bank => bank.pages_data[p.idx]?

/-- Dereference of a page pointer. -/
def State.page (s : State) (p : PagePtr) : Option sgx_epc_page :=
  page_at s.sgx_epc_banks p

/-- The store `page->impl = impl` on the bank array. -/
def store_impl (banks : List sgx_epc_bank) (p : PagePtr) (impl : Option ImplPtr) :
    Except Stuck (List sgx_epc_bank) :=
  match banks[p.bank]? with
  | none => .error .fault
  | some bank =>
    match bank.pages_data[p.idx]? with
    | none => .error .fault
    | some pg =>
      .ok (banks.set p.bank
        { bank with pages_data := bank.pages_data.set p.idx { pg with impl := impl } })

/-- The live part of a bank's free stack: the entries below `free_cnt`. -/
def sgx_epc_bank.live (bank : sgx_epc_bank) : List PagePtr :=
  bank.pages.take bank.free_cnt

/-! ## Hardware environment -/

/-- Issue one instruction: it is logged and answers with the next value of
`hw_results`. -/
def encls (op : HwOp) (s : State) : Int × State :=
  (s.hw_results.headD 0,
   { s with hw_results := s.hw_results.tail, hw_log := s.hw_log ++ [op] })

/-- Modelled from the spec: `sgx_eremove` (declared in `asm/sgx_pr.h`, not under src/) is
the wrapper of the `REMOVE` opcode, "invalidate an enclave page"; it issues
`EREMOVE` on the page and returns the instruction's result. -/
def sgx_eremove (page : PagePtr) (s : State) : Int × State :=
  encls (.EREMOVE page) s

/-! ## `sgx_try_alloc_page` -/

/-- The loop of `sgx_try_alloc_page` over `sgx_epc_banks[i]`, `i < sgx_nr_epc_banks`:
the first bank with a non-zero `free_cnt` gives up the top of its stack. -/
def try_alloc_scan : List sgx_epc_bank → Except Stuck (Option PagePtr × List sgx_epc_bank)
  | [] => .ok (none, [])
  | bank :: rest =>
    if bank.free_cnt ≠ 0 then
      match bank.pages[bank.free_cnt - 1]? with
      | none => .error .fault
      | some page => .ok (some page, { bank with free_cnt := bank.free_cnt - 1 } :: rest)
    else
      match try_alloc_scan rest with
      | .error e => .error e
      | .ok (r, rest') => .ok (r, bank :: rest')

def sgx_try_alloc_page (impl : Option ImplPtr) (s : State) :
    Except Stuck (Option PagePtr × State) :=
  match try_alloc_scan s.sgx_epc_banks with
  | .error e => .error e
  | .ok (none, banks) => .ok (none, { s with sgx_epc_banks := banks })
  | .ok (some page, banks) =>
    match store_impl banks page impl with
    | .error e => .error e
    | .ok banks' =>
      .ok (some page,
        { s with sgx_epc_banks := banks', sgx_nr_free_pages := s.sgx_nr_free_pages - 1 })

/-! ## `sgx_free_page` -/

def sgx_free_page (page : PagePtr) (s : State) : Except Stuck (Int × State) :=
  match s.page page with
  | none => .error .fault
  | some pg =>
    let i := SGX_EPC_BANK pg
    let (ret, s1) := sgx_eremove page s
    if ret ≠ 0 then .ok (ret, s1)
    else
      match s1.sgx_epc_banks[i]? with
      | none => .error .fault
      | some bank =>
        if bank.free_cnt < bank.pages.length then
          .ok (0, { s1 with
            sgx_epc_banks := s1.sgx_epc_banks.set i
              { bank with pages := bank.pages.set bank.free_cnt page,
                          free_cnt := bank.free_cnt + 1 },
            sgx_nr_free_pages := s1.sgx_nr_free_pages + 1 })
        else .error .fault

/-! ## `sgx_init_epc_bank` -/

def ENOMEM : Int := 12

def EBUSY : Int := 16

def ERESTARTSYS : Int := 512

/-- The descriptor array built by the loop of `sgx_init_epc_bank`:
`desc = (addr + (i << PAGE_SHIFT)) | index` in 64-bit arithmetic, `impl` zeroed by
`kzalloc`. -/
def init_pages_data (addr nr_pages index : Nat) : List sgx_epc_page :=
  (List.range nr_pages).map fun i =>
    { desc := ((addr + (i <<< PAGE_SHIFT)) % 2 ^ 64) ||| index, impl := none }

/-- The pointer array built by the loop of `sgx_init_epc_bank`:
`bank->pages[i] = &bank->pages_data[i]`, for the bank stored at position `slot` of
`sgx_epc_banks`. -/
def init_pages (slot nr_pages : Nat) : List PagePtr :=
  (List.range nr_pages).map fun i => { bank := slot, idx := i }

/-- What the kernel services used by `sgx_init_epc_bank` answer: the address returned by
`ioremap_cache` (`none` for `NULL`) and whether the two `kzalloc` calls succeed. -/
structure InitEnv where
  ioremap_cache : Option Nat
  kzalloc_pages_data : Bool
  kzalloc_pages : Bool
deriving DecidableEq, Repr

/-- The function `sgx_init_epc_bank(addr, size, index, bank)` with `bank` the next unused
element of `sgx_epc_banks`, as in its caller `sgx_page_cache_init`, which increments
`sgx_nr_epc_banks` after a successful return.  The result is the C return value. -/
def sgx_init_epc_bank (e : InitEnv) (addr size index : Nat) (s : State) : Int × State :=
  let nr_pages := size >>> PAGE_SHIFT
  match e.ioremap_cache with
  | none => (-ENOMEM, s)
  | some va =>
    if !e.kzalloc_pages_data then (-ENOMEM, s)
    else if !e.kzalloc_pages then (-ENOMEM, s)
    else
      let bank : sgx_epc_bank :=
        { pa := addr, va := va, size := size,
          pages_data := init_pages_data addr nr_pages index,
          pages := init_pages s.sgx_epc_banks.length nr_pages,
          free_cnt := nr_pages }
      (0, { s with sgx_epc_banks := s.sgx_epc_banks ++ [bank],
                   sgx_nr_free_pages := s.sgx_nr_free_pages + nr_pages })

/-- The globals as the static initialisers of `intel_sgx.c` leave them. -/
def State.boot (hw_results : List Int) (signal_pending : Bool) : State :=
  { sgx_epc_banks := [], sgx_nr_free_pages := 0, sgx_active_page_list := [],
    hw_results := hw_results, hw_log := [], signal_pending := signal_pending,
    ksgxswapd_wakeups := 0 }

/-! ## Owner callbacks and `sgx_swap_cluster` -/

/-- Kernel globals together with the state of the page owners. -/
abbrev World (Ω : Type) := State × Ω

/-- The `struct sgx_epc_page_ops` of `asm/sgx.h`: five function pointers.  A callback is
arbitrary code: it may change the globals as well as the owner state, and it may
fault. -/
structure sgx_epc_page_ops (Ω : Type) where
  get : PagePtr → World Ω → Except Stuck (Bool × World Ω)
  put : PagePtr → World Ω → Except Stuck (World Ω)
  reclaim : PagePtr → World Ω → Except Stuck (Bool × World Ω)
  block : PagePtr → World Ω → Except Stuck (World Ω)
  write : PagePtr → World Ω → Except Stuck (World Ω)

/-- The calls `sgx_swap_cluster` makes, in program order. -/
inductive Event where
  | get (p : PagePtr) (r : Bool)
  | put (p : PagePtr)
  | reclaim (p : PagePtr) (r : Bool)
  | block (p : PagePtr)
  | write (p : PagePtr)
  | free_page (p : PagePtr) (ret : Int)
deriving DecidableEq, Repr

/-- The environment of the reclaimer: the operations table reached from an `impl`
pointer (`impl->ops`), and what the other threads do during `schedule()`. -/
structure Env (Ω : Type) where
  ops_of : ImplPtr → sgx_epc_page_ops Ω
  schedule : World Ω → World Ω

/-- The double dereference `epc_page->impl->ops`. -/
def page_ops {Ω : Type} (env : Env Ω) (s : State) (p : PagePtr) :
    Except Stuck (sgx_epc_page_ops Ω) :=
  match s.page p with
  | none => .error .fault
  | some pg =>
    match pg.impl with
    | none => .error .fault
    | some impl => .ok (env.ops_of impl)

def list_del (p : PagePtr) (l : List PagePtr) : List PagePtr := l.erase p

def list_add_tail (p : PagePtr) (l : List PagePtr) : List PagePtr := l ++ [p]

def list_move_tail (p : PagePtr) (l : List PagePtr) : List PagePtr :=
  list_add_tail p (list_del p l)

def State.with_list (s : State) (l : List PagePtr) : State :=
  { s with sgx_active_page_list := l }

/-- One iteration of the first loop of `sgx_swap_cluster`; `cluster` holds `cluster[0..j)`.
The result `none` is the `break` taken on an empty list. -/
def swap_scan_iter {Ω : Type} (env : Env Ω) (cluster : List PagePtr) (tr : List Event)
    (w : World Ω) : Except Stuck (Option (List PagePtr × List Event × World Ω)) :=
  match w.1.sgx_active_page_list with
  | [] => .ok none
  | epc_page :: _ =>
    match page_ops env w.1 epc_page with
    | .error e => .error e
    | .ok ops =>
      match ops.get epc_page w with
      | .error e => .error e
      | .ok (false, w1) =>
        .ok (some (cluster, tr ++ [.get epc_page false],
          (w1.1.with_list (list_move_tail epc_page w1.1.sgx_active_page_list), w1.2)))
      | .ok (true, w1) =>
        let w2 : World Ω :=
          (w1.1.with_list (list_del epc_page w1.1.sgx_active_page_list), w1.2)
        match page_ops env w2.1 epc_page with
        | .error e => .error e
        | .ok ops2 =>
          match ops2.reclaim epc_page w2 with
          | .error e => .error e
          | .ok (true, w3) =>
            .ok (some (cluster ++ [epc_page],
              tr ++ [.get epc_page true, .reclaim epc_page true], w3))
          | .ok (false, w3) =>
            let w4 : World Ω :=
              (w3.1.with_list (list_add_tail epc_page w3.1.sgx_active_page_list), w3.2)
            match page_ops env w4.1 epc_page with
            | .error e => .error e
            | .ok ops3 =>
              match ops3.put epc_page w4 with
              | .error e => .error e
              | .ok w5 =>
                .ok (some (cluster,
                  tr ++ [.get epc_page true, .reclaim epc_page false, .put epc_page], w5))

/-- The first loop of `sgx_swap_cluster`, with `n` iterations left
(`n = SGX_NR_TO_SCAN - i`). -/
def swap_scan {Ω : Type} (env : Env Ω) :
    Nat → List PagePtr → List Event → World Ω →
      Except Stuck (List PagePtr × List Event × World Ω)
  | 0, cluster, tr, w => .ok (cluster, tr, w)
  | n + 1, cluster, tr, w =>
    match swap_scan_iter env cluster tr w with
    | .error e => .error e
    | .ok none => .ok (cluster, tr, w)
    | .ok (some (cluster', tr', w')) => swap_scan env n cluster' tr' w'

/-- The second loop of `sgx_swap_cluster`: `block` on every `cluster[i]`. -/
def swap_block {Ω : Type} (env : Env Ω) :
    List PagePtr → List Event → World Ω → Except Stuck (List Event × World Ω)
  | [], tr, w => .ok (tr, w)
  | epc_page :: rest, tr, w =>
    match page_ops env w.1 epc_page with
    | .error e => .error e
    | .ok ops =>
      match ops.block epc_page w with
      | .error e => .error e
      | .ok w1 => swap_block env rest (tr ++ [.block epc_page]) w1

/-- One iteration of the third loop of `sgx_swap_cluster`: `write`, `put` and
`sgx_free_page` on `cluster[i]`; the return value of `sgx_free_page` is dropped. -/
def swap_write_iter {Ω : Type} (env : Env Ω) (epc_page : PagePtr) (tr : List Event)
    (w : World Ω) : Except Stuck (List Event × World Ω) :=
  match page_ops env w.1 epc_page with
  | .error e => .error e
  | .ok ops =>
    match ops.write epc_page w with
    | .error e => .error e
    | .ok w1 =>
      match page_ops env w1.1 epc_page with
      | .error e => .error e
      | .ok ops2 =>
        match ops2.put epc_page w1 with
        | .error e => .error e
        | .ok w2 =>
          match sgx_free_page epc_page w2.1 with
          | .error e => .error e
          | .ok (ret, s3) =>
            .ok (tr ++ [.write epc_page, .put epc_page, .free_page epc_page ret], (s3, w2.2))

/-- The third loop of `sgx_swap_cluster`. -/
def swap_write {Ω : Type} (env : Env Ω) :
    List PagePtr → List Event → World Ω → Except Stuck (List Event × World Ω)
  | [], tr, w => .ok (tr, w)
  | epc_page :: rest, tr, w =>
    match swap_write_iter env epc_page tr w with
    | .error e => .error e
    | .ok (tr', w') => swap_write env rest tr' w'

/-- The function `sgx_swap_cluster`; the result carries the trace of its calls. -/
def sgx_swap_cluster {Ω : Type} (env : Env Ω) (w : World Ω) :
    Except Stuck (List Event × World Ω) :=
  match swap_scan env SGX_NR_TO_SCAN [] [] w with
  | .error e => .error e
  | .ok (cluster, tr, w1) =>
    match swap_block env cluster tr w1 with
    | .error e => .error e
    | .ok (tr2, w2) => swap_write env cluster tr2 w2

/-- The pages `sgx_swap_cluster` puts in `cluster[]`. -/
def swap_cluster_pages {Ω : Type} (env : Env Ω) (w : World Ω) : Except Stuck (List PagePtr) :=
  match swap_scan env SGX_NR_TO_SCAN [] [] w with
  | .error e => .error e
  | .ok (cluster, _, _) => .ok cluster

/-! ## `sgx_alloc_page` -/

def SGX_ALLOC_ATOMIC : Nat := 1

/-- The return value of `sgx_alloc_page`: a page, or `ERR_PTR(-errno)`. -/
inductive AllocRet where
  | page (p : PagePtr)
  | err (errno : Int)
deriving DecidableEq, Repr

/-- The tail of `sgx_alloc_page` after the loop: the low watermark check. -/
def alloc_finish (s : State) : State :=
  if s.sgx_nr_free_pages < SGX_NR_LOW_PAGES then
    { s with ksgxswapd_wakeups := s.ksgxswapd_wakeups + 1 }
  else s

/-- The function `sgx_alloc_page(impl, flags)`; `fuel` bounds the number of iterations of
its `for ( ; ; )` loop. -/
def sgx_alloc_page {Ω : Type} (env : Env Ω) (impl : Option ImplPtr) (flags : Nat) :
    Nat → World Ω → Except Stuck (AllocRet × World Ω)
  | 0, _ => .error .fuel
  | fuel + 1, w =>
    match sgx_try_alloc_page impl w.1 with
    | .error e => .error e
    | .ok (some entry, s1) => .ok (.page entry, (alloc_finish s1, w.2))
    | .ok (none, s1) =>
      if s1.sgx_active_page_list = [] then .ok (.err (-ENOMEM), (s1, w.2))
      else if flags &&& SGX_ALLOC_ATOMIC ≠ 0 then .ok (.err (-EBUSY), (alloc_finish s1, w.2))
      else if s1.signal_pending then .ok (.err (-ERESTARTSYS), (alloc_finish s1, w.2))
      else
        match sgx_swap_cluster env (s1, w.2) with
        | .error e => .error e
        | .ok (_, w2) => sgx_alloc_page env impl flags fuel (env.schedule w2)

/-! ## `sgx_alloc_va_page` (`sgx_encl_page.c`) -/

/-- Modelled from the spec: `sgx_epa` (not under src/) is the wrapper of the `PA` opcode,
"type the page as a version-array"; it issues `EPA` on the page and returns the
instruction's result. -/
def sgx_epa (page : PagePtr) (s : State) : Int × State :=
  encls (.EPA page) s

def sgx_alloc_va_page {Ω : Type} (env : Env Ω) (flags : Nat) (fuel : Nat) (w : World Ω) :
    Except Stuck (AllocRet × World Ω) :=
  match sgx_alloc_page env none flags fuel w with
  | .error e => .error e
  | .ok (.err errno, w1) => .ok (.err errno, w1)
  | .ok (.page epc_page, w1) =>
    let (ret, s2) := sgx_epa epc_page w1.1
    if ret ≠ 0 then
      match sgx_free_page epc_page s2 with
      | .error e => .error e
      | .ok (_, s3) => .ok (.err ret, (s3, w1.2))
    else .ok (.page epc_page, (s2, w1.2))

/-! ## Predicates used by the statements -/

/-- The free stack of a bank as the allocator sees it: the pointer array and the count. -/
def sgx_epc_bank.stack (bank : sgx_epc_bank) : List PagePtr × Nat :=
  (bank.pages, bank.free_cnt)

/-- Layout invariant of the banks: in the bank at position `i` the free count does not
exceed the pointer array, and every live entry of the free stack points to a descriptor
that `SGX_EPC_BANK` resolves to `i`.  It holds after `sgx_init_epc_bank` and is kept by
`sgx_try_alloc_page` and `sgx_free_page`. -/
def State.WellFormed (s : State) : Prop :=
  ∀ x ∈ s.sgx_epc_banks.enum,
    x.2.free_cnt ≤ x.2.pages.length ∧
    ∀ p ∈ x.2.live, (s.page p).map SGX_EPC_BANK = some x.1

instance (s : State) : Decidable s.WellFormed := by
  unfold State.WellFormed; infer_instance

/-- Sum of `free_cnt` over all banks. -/
def sum_free_cnt (banks : List sgx_epc_bank) : Nat :=
  (banks.map fun b => b.free_cnt).sum

/-- The counter invariant: the sum of the per-bank free counts is the global count. -/
def State.CountersAgree (s : State) : Prop :=
  (sum_free_cnt s.sgx_epc_banks : Int) = s.sgx_nr_free_pages

instance (s : State) : Decidable s.CountersAgree := by
  unfold State.CountersAgree; infer_instance

/-- Number of occurrences of `p` among the live entries of the free stack of the bank
that `SGX_EPC_BANK` resolves for `p`; `none` when `p` or that bank does not exist. -/
def live_occurrences (s : State) (p : PagePtr) : Option Nat :=
  match s.page p with
  | none => none
  | some pg => (s.sgx_epc_banks[SGX_EPC_BANK pg]?).map fun b => b.live.count p

/-- The view of the free pool that the round trip restores: of every bank the pointer
array, the free count and the live entries. -/
def pool_view (s : State) : List (List PagePtr × Nat) × Int :=
  (s.sgx_epc_banks.map sgx_epc_bank.stack, s.sgx_nr_free_pages)

/-! ## Example states -/

/-- One bank of two pages at `0x70000000`, as `sgx_init_epc_bank` leaves it; `hw` are the
results the hardware will give. -/
def example_init (hw : List Int) : State :=
  (sgx_init_epc_bank ⟨some 0xffffc90000000000, true, true⟩ 0x70000000 0x2000 0
    (State.boot hw false)).2

/-- The bank of `example_init` after one `sgx_try_alloc_page (some 7)`: page 1 is
allocated, page 0 is still on the free stack. -/
def example_one_allocated (hw : List Int) : State :=
  { sgx_epc_banks :=
      [{ pa := 0x70000000, va := 0xffffc90000000000, size := 0x2000,
         pages_data := [⟨0x70000000, none⟩, ⟨0x70001000, some 7⟩],
         pages := [⟨0, 0⟩, ⟨0, 1⟩], free_cnt := 1 }],
    sgx_nr_free_pages := 1, sgx_active_page_list := [],
    hw_results := hw, hw_log := [], signal_pending := false, ksgxswapd_wakeups := 0 }

/-- The state `example_one_allocated` after `sgx_free_page` of page 0, which was
not allocated. -/
def example_double_free : State :=
  { sgx_epc_banks :=
      [{ pa := 0x70000000, va := 0xffffc90000000000, size := 0x2000,
         pages_data := [⟨0x70000000, none⟩, ⟨0x70001000, some 7⟩],
         pages := [⟨0, 0⟩, ⟨0, 0⟩], free_cnt := 2 }],
    sgx_nr_free_pages := 2, sgx_active_page_list := [],
    hw_results := [], hw_log := [.EREMOVE ⟨0, 0⟩], signal_pending := false,
    ksgxswapd_wakeups := 0 }

/-- Callbacks of an owner that always agrees: `get` and `reclaim` answer `true`, the
others do nothing. -/
def accept_ops : sgx_epc_page_ops Unit :=
  { get := fun _ w => .ok (true, w),
    put := fun _ w => .ok w,
    reclaim := fun _ w => .ok (true, w),
    block := fun _ w => .ok w,
    write := fun _ w => .ok w }

/-- Every page is owned by the agreeing owner; no other thread runs during `schedule()`. -/
def accept_env : Env Unit :=
  { ops_of := fun _ => accept_ops, schedule := fun w => w }

/-- One bank of one page; the page is allocated to owner 7 and on the active page list. -/
def example_reclaimable : State :=
  { sgx_epc_banks :=
      [{ pa := 0x70000000, va := 0xffffc90000000000, size := 0x1000,
         pages_data := [⟨0x70000000, some 7⟩], pages := [⟨0, 0⟩], free_cnt := 0 }],
    sgx_nr_free_pages := 0, sgx_active_page_list := [⟨0, 0⟩],
    hw_results := [], hw_log := [], signal_pending := false, ksgxswapd_wakeups := 0 }

/-- The state `example_reclaimable` after `sgx_alloc_page` for owner 9 went through one
reclaim pass. -/
def example_reclaimed_allocated : State :=
  { sgx_epc_banks :=
      [{ pa := 0x70000000, va := 0xffffc90000000000, size := 0x1000,
         pages_data := [⟨0x70000000, some 9⟩], pages := [⟨0, 0⟩], free_cnt := 0 }],
    sgx_nr_free_pages := 0, sgx_active_page_list := [],
    hw_results := [], hw_log := [.EREMOVE ⟨0, 0⟩], signal_pending := false,
    ksgxswapd_wakeups := 1 }

/-- A property of the globals is kept by the five callbacks of an operations table. -/
def sgx_epc_page_ops.Preserves {Ω : Type} (P : State → Prop) (ops : sgx_epc_page_ops Ω) :
    Prop :=
  (∀ p w r w', P w.1 → ops.get p w = .ok (r, w') → P w'.1) ∧
  (∀ p w w', P w.1 → ops.put p w = .ok w' → P w'.1) ∧
  (∀ p w r w', P w.1 → ops.reclaim p w = .ok (r, w') → P w'.1) ∧
  (∀ p w w', P w.1 → ops.block p w = .ok w' → P w'.1) ∧
  (∀ p w w', P w.1 → ops.write p w = .ok w' → P w'.1)

/-- A property of the globals is kept by every owner callback and by the other threads
that run during `schedule()`. -/
def Env.Preserves {Ω : Type} (P : State → Prop) (env : Env Ω) : Prop :=
  (∀ impl, (env.ops_of impl).Preserves P) ∧ ∀ w, P w.1 → P (env.schedule w).1

/-- The page of a `block` call of the trace. -/
def Event.blocked : Event → Option PagePtr
  | .block p => some p
  | _ => none

/-- The page of a `write` call of the trace. -/
def Event.written : Event → Option PagePtr
  | .write p => some p
  | _ => none

/-- The pages on which `block` was called, in call order. -/
def blocked_pages (tr : List Event) : List PagePtr := tr.filterMap Event.blocked

/-- The pages on which `write` was called, in call order. -/
def written_pages (tr : List Event) : List PagePtr := tr.filterMap Event.written

/-- The state `example_reclaimable` after one `sgx_swap_cluster` with the agreeing owner:
the page is back on the free stack. -/
def example_reclaimed : State :=
  { sgx_epc_banks :=
      [{ pa := 0x70000000, va := 0xffffc90000000000, size := 0x1000,
         pages_data := [⟨0x70000000, some 7⟩], pages := [⟨0, 0⟩], free_cnt := 1 }],
    sgx_nr_free_pages := 1, sgx_active_page_list := [],
    hw_results := [], hw_log := [.EREMOVE ⟨0, 0⟩], signal_pending := false,
    ksgxswapd_wakeups := 0 }

/-! ## The enclave-page owner (`sgx_encl_page.c`)

The driver's private header, which declares `struct sgx_encl`, `struct sgx_encl_page`
and `struct sgx_va_page`, and the files that create and release these objects are not
under src/.  The objects are kept in total maps from addresses to objects. -/

/-- Modelled from the spec: the per-page metadata of the owner (`struct sgx_encl_page`,
declared in a header that is not under src/).  `desc` packs the flags `RESERVED`,
`LOADED` and the VA offset; `epc_page` is the loaded EPC page; `va_page` is "the VA page
identity"; `young` is the accessed state that `sgx_test_and_clear_young` reads and
clears. -/
structure sgx_encl_page where
  desc : Nat
  epc_page : Option PagePtr
  va_page : Option Nat
  encl : Nat
  young : Bool
deriving DecidableEq, Repr

/-- Modelled from the spec: a version-array page (`struct sgx_va_page`, declared in a
header that is not under src/): its EPC page and the bitmap of its slots. -/
structure sgx_va_page where
  epc_page : PagePtr
  slots : Nat
deriving DecidableEq, Repr

/-- Modelled from the spec: the enclave (`struct sgx_encl`, declared in a header that is
not under src/), reduced to the members `sgx_encl_page.c` uses: `flags`, the 32-bit
counter `secs_child_cnt`, the list `va_pages` (head first), the address of the `impl`
member of the embedded `secs` page, and the `refcount`. -/
structure sgx_encl where
  flags : Nat
  secs_child_cnt : Nat
  va_pages : List Nat
  secs : ImplPtr
  refcount : Nat
deriving DecidableEq, Repr

/-- The memory of the driver. -/
structure Driver where
  encl_pages : ImplPtr → sgx_encl_page
  encls : Nat → sgx_encl
  va_store : Nat → sgx_va_page

def Driver.set_encl_page (d : Driver) (i : ImplPtr) (pg : sgx_encl_page) : Driver :=
  { d with encl_pages := Function.update d.encl_pages i pg }

def Driver.set_encl (d : Driver) (i : Nat) (e : sgx_encl) : Driver :=
  { d with encls := Function.update d.encls i e }

def Driver.set_va_page (d : Driver) (i : Nat) (v : sgx_va_page) : Driver :=
  { d with va_store := Function.update d.va_store i v }

/-- What `sgx_encl_page.c` takes from files that are not under src/: the status code
`SGX_NOT_TRACKED` of `asm/sgx_arch.h`, the flag masks of the driver's private header, and
`sgx_encl_release`, the release function that `kref_put` calls on the last reference. -/
structure DriverParams where
  SGX_NOT_TRACKED : Int
  SGX_ENCL_DEAD : Nat
  SGX_ENCL_INITIALIZED : Nat
  SGX_ENCL_PAGE_RESERVED : Nat
  SGX_ENCL_PAGE_LOADED : Nat
  sgx_encl_release : Nat → World Driver → World Driver

/-- Modelled from the spec: `SGX_VA_SLOT_COUNT` (not under src/) is `SLOTS_PER_VA_PAGE = 32`. -/
def SGX_VA_SLOT_COUNT : Nat := 32

/-- The C expression `x & ~mask`. -/
def clear_bits (x mask : Nat) : Nat := x ^^^ (x &&& mask)

/-- The bitmap primitive `find_first_zero_bit(bits, size)`: the lowest clear bit below
`size`, or `size`. -/
def find_first_zero_bit (bits size : Nat) : Nat :=
  ((List.range size).find? fun i => !bits.testBit i).getD size

/-- The bitmap primitive `set_bit(nr, bits)`. -/
def set_bit (nr bits : Nat) : Nat := bits ||| (1 <<< nr)

/-- The bitmap primitive `clear_bit(nr, bits)`. -/
def clear_bit (nr bits : Nat) : Nat := clear_bits bits (1 <<< nr)

/-- The function `sgx_alloc_va_slot`: the returned offset and the new bitmap. -/
def sgx_alloc_va_slot (va_page : sgx_va_page) : Nat × sgx_va_page :=
  let slot := find_first_zero_bit va_page.slots SGX_VA_SLOT_COUNT
  if slot < SGX_VA_SLOT_COUNT then
    (slot <<< 3, { va_page with slots := set_bit slot va_page.slots })
  else (slot <<< 3, va_page)

def sgx_free_va_slot (va_page : sgx_va_page) (offset : Nat) : sgx_va_page :=
  { va_page with slots := clear_bit (offset >>> 3) va_page.slots }

def sgx_va_page_full (va_page : sgx_va_page) : Bool :=
  find_first_zero_bit va_page.slots SGX_VA_SLOT_COUNT = SGX_VA_SLOT_COUNT

/-- The expression `container_of(epc_page->impl, struct sgx_encl_page, impl)`, used to
reach the members of the enclave page. -/
def encl_page_of (s : State) (epc_page : PagePtr) : Except Stuck ImplPtr :=
  match s.page epc_page with
  | none => .error .fault
  | some pg =>
    match pg.impl with
    | none => .error .fault
    | some impl => .ok impl

def sgx_encl_page_get (epc_page : PagePtr) (w : World Driver) :
    Except Stuck (Bool × World Driver) :=
  match encl_page_of w.1 epc_page with
  | .error e => .error e
  | .ok ip =>
    let encl := (w.2.encl_pages ip).encl
    let e := w.2.encls encl
    -- kref_get_unless_zero(&encl->refcount) != 0
    if e.refcount = 0 then .ok (false, w)
    else .ok (true, (w.1, w.2.set_encl encl { e with refcount := e.refcount + 1 }))

def sgx_encl_page_put (c : DriverParams) (epc_page : PagePtr) (w : World Driver) :
    Except Stuck (World Driver) :=
  match encl_page_of w.1 epc_page with
  | .error e => .error e
  | .ok ip =>
    let encl := (w.2.encl_pages ip).encl
    let e := w.2.encls encl
    -- kref_put(&encl->refcount, sgx_encl_release)
    let w1 : World Driver := (w.1, w.2.set_encl encl { e with refcount := e.refcount - 1 })
    if e.refcount = 1 then .ok (c.sgx_encl_release encl w1) else .ok w1

/-- Modelled from the spec: `sgx_test_and_clear_young` (not under src/) is
"reading-and-clearing the young bit" of the page. -/
def sgx_test_and_clear_young (ip : ImplPtr) (d : Driver) : Bool × Driver :=
  ((d.encl_pages ip).young, d.set_encl_page ip { d.encl_pages ip with young := false })

def sgx_encl_page_reclaim (c : DriverParams) (epc_page : PagePtr) (w : World Driver) :
    Except Stuck (Bool × World Driver) :=
  match encl_page_of w.1 epc_page with
  | .error e => .error e
  | .ok ip =>
    let encl := w.2.encls (w.2.encl_pages ip).encl
    if encl.flags &&& c.SGX_ENCL_DEAD ≠ 0 then
      .ok (true, (w.1, w.2.set_encl_page ip
        { w.2.encl_pages ip with desc := (w.2.encl_pages ip).desc ||| c.SGX_ENCL_PAGE_RESERVED }))
    else
      let (young, d1) := sgx_test_and_clear_young ip w.2
      if young = false ∧ (d1.encl_pages ip).desc &&& c.SGX_ENCL_PAGE_RESERVED = 0 then
        .ok (true, (w.1, d1.set_encl_page ip
          { d1.encl_pages ip with desc := (d1.encl_pages ip).desc ||| c.SGX_ENCL_PAGE_RESERVED }))
      else .ok (false, (w.1, d1))

/-- Modelled from the spec: `sgx_encl_block` (not under src/) is "invoke `BLOCK`" on the
page. -/
def sgx_encl_block (epc_page : PagePtr) (w : World Driver) : World Driver :=
  ((encls (.EBLOCK epc_page) w.1).2, w.2)

def sgx_encl_page_block (epc_page : PagePtr) (w : World Driver) :
    Except Stuck (World Driver) :=
  match encl_page_of w.1 epc_page with
  | .error e => .error e
  | .ok _ => .ok (sgx_encl_block epc_page w)

/-- Modelled from the spec: `sgx_ewb` (not under src/) is the wrapper of the `WRITEBACK`
opcode on the page, the EPC page of the VA page and the slot offset; it returns the
instruction's result. -/
def sgx_ewb (epc_page va_epc_page : PagePtr) (va_offset : Nat) (s : State) : Int × State :=
  encls (.EWB epc_page va_epc_page va_offset) s

/-- Modelled from the spec: `sgx_encl_track` (not under src/) is "execute `TRACK`" for the
enclave. -/
def sgx_encl_track (encl : Nat) (s : State) : State :=
  (encls (.ETRACK encl) s).2

/-- Modelled from the spec: `sgx_flush_cpus` (not under src/) is "request cross-CPU flush
of all CPUs that entered this owner". -/
def sgx_flush_cpus (encl : Nat) (s : State) : State :=
  { s with hw_log := s.hw_log ++ [.FLUSH encl] }

/-- Modelled from the spec: the macro `SGX_INVD(ret, encl, ...)` (not under src/): on a
non-zero `ret` "mark the owner dead". -/
def SGX_INVD (c : DriverParams) (ret : Int) (encl : Nat) (d : Driver) : Driver :=
  if ret ≠ 0 then
    d.set_encl encl { d.encls encl with flags := (d.encls encl).flags ||| c.SGX_ENCL_DEAD }
  else d

/-- The three `sgx_ewb` attempts of `sgx_write_page`, with `sgx_encl_track` and
`sgx_flush_cpus` between them; the result is the last `ret`. -/
def write_page_ewb (c : DriverParams) (epc_page va_epc_page : PagePtr) (va_offset : Nat)
    (encl : Nat) (s : State) : Int × State :=
  let (ret, s1) := sgx_ewb epc_page va_epc_page va_offset s
  if ret = c.SGX_NOT_TRACKED then
    let s2 := sgx_encl_track encl s1
    let (ret2, s3) := sgx_ewb epc_page va_epc_page va_offset s2
    if ret2 = c.SGX_NOT_TRACKED then
      let s4 := sgx_flush_cpus encl s3
      sgx_ewb epc_page va_epc_page va_offset s4
    else (ret2, s3)
  else (ret, s1)

/-- The part of `sgx_write_page` that a dead enclave skips: take a VA slot, write the page
back, record the slot on the enclave page and clear `RESERVED`. -/
def write_page_swap (c : DriverParams) (epc_page : PagePtr) (ip : ImplPtr)
    (w : World Driver) : Except Stuck (World Driver) :=
  let encl := (w.2.encl_pages ip).encl
  -- list_first_entry(&encl->va_pages, struct sgx_va_page, list)
  match (w.2.encls encl).va_pages with
  | [] => .error .fault
  | va :: rest =>
    let slot := sgx_alloc_va_slot (w.2.va_store va)
    let va_offset := slot.1
    let va_page := slot.2
    let d1 := w.2.set_va_page va va_page
    let d2 :=
      if sgx_va_page_full va_page then
        d1.set_encl encl { d1.encls encl with va_pages := rest ++ [va] }
      else d1
    let r := write_page_ewb c epc_page va_page.epc_page va_offset encl w.1
    let d3 := SGX_INVD c r.1 encl d2
    let pg := d3.encl_pages ip
    .ok (r.2, d3.set_encl_page ip
      { pg with desc := clear_bits (pg.desc ||| va_offset) c.SGX_ENCL_PAGE_RESERVED,
                va_page := some va })

/-- The part of `sgx_write_page` after the label `out:`. -/
def write_page_out (c : DriverParams) (epc_page : PagePtr) (ip : ImplPtr) (do_free : Bool)
    (w : World Driver) : Except Stuck (World Driver) :=
  let pg := w.2.encl_pages ip
  let d := w.2.set_encl_page ip { pg with desc := clear_bits pg.desc c.SGX_ENCL_PAGE_LOADED }
  if do_free then
    match sgx_free_page epc_page w.1 with
    | .error e => .error e
    | .ok (_, s2) => .ok (s2, d)
  else .ok (w.1, d)

def sgx_write_page (c : DriverParams) (epc_page : PagePtr) (do_free : Bool)
    (w : World Driver) : Except Stuck (World Driver) :=
  match encl_page_of w.1 epc_page with
  | .error e => .error e
  | .ok ip =>
    if (w.2.encls (w.2.encl_pages ip).encl).flags &&& c.SGX_ENCL_DEAD ≠ 0 then
      write_page_out c epc_page ip do_free w
    else
      match write_page_swap c epc_page ip w with
      | .error e => .error e
      | .ok w1 => write_page_out c epc_page ip do_free w1

def sgx_encl_page_write (c : DriverParams) (epc_page : PagePtr) (w : World Driver) :
    Except Stuck (World Driver) :=
  match encl_page_of w.1 epc_page with
  | .error e => .error e
  | .ok ip =>
    let encl := (w.2.encl_pages ip).encl
    match sgx_write_page c epc_page false w with
    | .error e => .error e
    | .ok w1 =>
      -- encl->secs_child_cnt--, an unsigned int
      let e := w1.2.encls encl
      let cnt := (e.secs_child_cnt + 2 ^ 32 - 1) % 2 ^ 32
      let w2 : World Driver := (w1.1, w1.2.set_encl encl { e with secs_child_cnt := cnt })
      if cnt = 0 ∧ e.flags &&& c.SGX_ENCL_INITIALIZED ≠ 0 then
        match (w2.2.encl_pages e.secs).epc_page with
        | none => .error .fault
        | some secs_epc_page => sgx_write_page c secs_epc_page true w2
      else .ok w2

/-- The table `sgx_encl_page_ops`. -/
def sgx_encl_page_ops (c : DriverParams) : sgx_epc_page_ops Driver :=
  { get := sgx_encl_page_get,
    put := sgx_encl_page_put c,
    reclaim := sgx_encl_page_reclaim c,
    block := sgx_encl_page_block,
    write := sgx_encl_page_write c }

/-- The environment in which every `impl->ops` is `&sgx_encl_page_ops`. -/
def encl_env (c : DriverParams) (schedule : World Driver → World Driver) : Env Driver :=
  { ops_of := fun _ => sgx_encl_page_ops c, schedule := schedule }

/-- The function `sgx_set_epc_page`. -/
def sgx_set_epc_page (c : DriverParams) (ip : ImplPtr) (epc_page : PagePtr) (d : Driver) :
    Driver :=
  d.set_encl_page ip
    { d.encl_pages ip with desc := (d.encl_pages ip).desc ||| c.SGX_ENCL_PAGE_LOADED,
                           epc_page := some epc_page }

/-- The function `sgx_set_page_reclaimable`. -/
def sgx_set_page_reclaimable (ip : ImplPtr) (w : World Driver) : Except Stuck (World Driver) :=
  let (_, d1) := sgx_test_and_clear_young ip w.2
  match (d1.encl_pages ip).epc_page with
  | none => .error .fault
  | some epc_page =>
    .ok (w.1.with_list (list_add_tail epc_page w.1.sgx_active_page_list), d1)

/-- Number of `WRITEBACK` instructions in a log. -/
def ewb_count (log : List HwOp) : Nat :=
  log.countP fun op => match op with
    | .EWB _ _ _ => true
    | _ => false

/-- Number of `BLOCK` instructions in a log. -/
def eblock_count (log : List HwOp) : Nat :=
  log.countP fun op => match op with
    | .EBLOCK _ => true
    | _ => false

/-- The pages written back, in the order of the `WRITEBACK` instructions of a log. -/
def ewb_pages (log : List HwOp) : List PagePtr :=
  log.filterMap fun op => match op with
    | .EWB epc _ _ => some epc
    | _ => none

/-- A choice of the parameters: `SGX_NOT_TRACKED = 11`, distinct flag bits (the page
flags below the bits of the VA offset), and a release function that does nothing. -/
def example_params : DriverParams :=
  { SGX_NOT_TRACKED := 11, SGX_ENCL_DEAD := 16, SGX_ENCL_INITIALIZED := 1,
    SGX_ENCL_PAGE_RESERVED := 4, SGX_ENCL_PAGE_LOADED := 2,
    sgx_encl_release := fun _ w => w }

/-- One bank of 18 allocated pages: pages 0 to 15 are the loaded child pages of enclave 0
(page `i` belongs to the enclave page at address `i`), page 16 is the enclave's control
page (enclave page at address 100), page 17 is a VA page.  The child pages are on the
active page list.  The hardware answers `NOT_TRACKED` to the first two `WRITEBACK`
attempts on every page and `0` to everything else. -/
def example_enclave_state : State :=
  { sgx_epc_banks :=
      [{ pa := 0x70000000, va := 0xffffc90000000000, size := 0x12000,
         pages_data :=
           (List.range 16).map (fun i => ⟨0x70000000 + i * 4096, some i⟩) ++
             [⟨0x70010000, some 100⟩, ⟨0x70011000, none⟩],
         pages := init_pages 0 18, free_cnt := 0 }],
    sgx_nr_free_pages := 0,
    sgx_active_page_list := init_pages 0 16,
    hw_results :=
      List.replicate 16 0 ++ (List.replicate 15 [11, 0, 11, 0, 0]).flatten ++
        [11, 0, 11, 0, 11, 0, 11, 0, 0, 0],
    hw_log := [], signal_pending := false, ksgxswapd_wakeups := 0 }

/-- The enclave of `example_enclave_state`: initialised, 16 children loaded, one VA page
with all slots free, one reference. -/
def example_enclave_driver : Driver :=
  { encl_pages := fun i =>
      if i = 100 then
        { desc := 2, epc_page := some ⟨0, 16⟩, va_page := none, encl := 0, young := false }
      else { desc := 2, epc_page := some ⟨0, i⟩, va_page := none, encl := 0, young := false },
    encls := fun _ =>
      { flags := 1, secs_child_cnt := 16, va_pages := [0], secs := 100, refcount := 1 },
    va_store := fun _ => { epc_page := ⟨0, 17⟩, slots := 0 } }

/-- Number of `get` calls in a trace: the list entries one pass has looked at. -/
def get_count (tr : List Event) : Nat :=
  tr.countP fun e => match e with
    | .get _ _ => true
    | _ => false

/-- The environment of the example: every owner is an enclave page, and no other thread
runs during `schedule()`. -/
def example_encl_env : Env Driver := encl_env example_params fun w => w

/-- The result of a run, or `d` when the run is stuck. -/
def result_or {α : Type} (x : Except Stuck α) (d : α) : α :=
  match x with
  | .ok r => r
  | .error _ => d

/-- The trace and the world after `sgx_swap_cluster` on the example enclave. -/
@[irreducible]
def example_enclave_result : List Event × World Driver :=
  result_or
    (sgx_swap_cluster example_encl_env (example_enclave_state, example_enclave_driver))
    ([], (example_enclave_state, example_enclave_driver))

/-! ## Reachable states -/

/-- The pages on the free stacks: the live entries of all banks. -/
def all_live (s : State) : List PagePtr :=
  (s.sgx_epc_banks.map sgx_epc_bank.live).flatten

/-- One step of code that uses the page cache through its interface while the pages of
`P` are in the hands of the reclaimer: an allocation attempt, the release of a page that
is allocated and not in `P`, the registration of such a page on the active page list, the
removal of a page not in `P` from that list, or a step that leaves the banks and the
active page list alone (owner-private work, instructions, signals, wake-ups). -/
inductive OwnerStep (P : List PagePtr) : State → State → Prop where
  | try_alloc (impl : Option ImplPtr) (r : Option PagePtr) {s s' : State} :
      sgx_try_alloc_page impl s = .ok (r, s') → OwnerStep P s s'
  | free (q : PagePtr) (ret : Int) {s s' : State} :
      q ∉ P → q ∉ all_live s → q ∉ s.sgx_active_page_list →
      sgx_free_page q s = .ok (ret, s') → OwnerStep P s s'
  | mark (q : PagePtr) {s : State} :
      q ∉ P → q ∉ all_live s → q ∉ s.sgx_active_page_list → (s.page q).isSome →
      OwnerStep P s (s.with_list (list_add_tail q s.sgx_active_page_list))
  | unmark (q : PagePtr) {s : State} :
      q ∉ P → OwnerStep P s (s.with_list (list_del q s.sgx_active_page_list))
  | frame {s s' : State} :
      s'.sgx_epc_banks = s.sgx_epc_banks →
      s'.sgx_active_page_list = s.sgx_active_page_list → OwnerStep P s s'

/-- A sequence of such steps. -/
inductive OwnerSteps (P : List PagePtr) : State → State → Prop where
  | refl (s : State) : OwnerSteps P s s
  | step {s s' s'' : State} : OwnerStep P s s' → OwnerSteps P s' s'' → OwnerSteps P s s''

/-- The worlds reachable from the boot state by `sgx_init_epc_bank` (called, as in
`sgx_page_cache_init`, on a page-aligned address with the index of the next unused bank,
below `SGX_MAX_EPC_BANKS`), by steps of code that
uses the interface as `OwnerStep` describes, by `schedule()`, and by the steps of a
reclaim pass: a callback, taking a page off the active page list, putting it back,
rotating the list, and `sgx_free_page` on a page taken off.  The first index lists the
pages that the running reclaim pass has taken off the list and not yet released. -/
inductive Reach {Ω : Type} (env : Env Ω) : List PagePtr → World Ω → Prop where
  | boot (hw : List Int) (sig : Bool) (ω : Ω) : Reach env [] (State.boot hw sig, ω)
  | init (e : InitEnv) (addr size : Nat) {w : World Ω} :
      Reach env [] w → addr % PAGE_SIZE = 0 → w.1.sgx_epc_banks.length < SGX_MAX_EPC_BANKS →
      Reach env [] ((sgx_init_epc_bank e addr size w.1.sgx_epc_banks.length w.1).2, w.2)
  | owner {H : List PagePtr} {w : World Ω} (s' : State) (ω' : Ω) :
      Reach env H w → OwnerStep H w.1 s' → Reach env H (s', ω')
  | schedule {w : World Ω} : Reach env [] w → Reach env [] (env.schedule w)
  | get {H : List PagePtr} {w w' : World Ω} (impl : ImplPtr) (p : PagePtr) (r : Bool) :
      Reach env H w → (env.ops_of impl).get p w = .ok (r, w') → Reach env H w'
  | put {H : List PagePtr} {w w' : World Ω} (impl : ImplPtr) (p : PagePtr) :
      Reach env H w → (env.ops_of impl).put p w = .ok w' → Reach env H w'
  | reclaim {H : List PagePtr} {w w' : World Ω} (impl : ImplPtr) (p : PagePtr) (r : Bool) :
      Reach env H w → (env.ops_of impl).reclaim p w = .ok (r, w') → Reach env H w'
  | block {H : List PagePtr} {w w' : World Ω} (impl : ImplPtr) (p : PagePtr) :
      Reach env H w → (env.ops_of impl).block p w = .ok w' → Reach env H w'
  | write {H : List PagePtr} {w w' : World Ω} (impl : ImplPtr) (p : PagePtr) :
      Reach env H w → (env.ops_of impl).write p w = .ok w' → Reach env H w'
  | detach {H : List PagePtr} {w : World Ω} (p : PagePtr) :
      Reach env H w → p ∈ w.1.sgx_active_page_list →
      Reach env (H ++ [p]) (w.1.with_list (list_del p w.1.sgx_active_page_list), w.2)
  | reattach {H : List PagePtr} {w : World Ω} (p : PagePtr) :
      Reach env (H ++ [p]) w →
      Reach env H (w.1.with_list (list_add_tail p w.1.sgx_active_page_list), w.2)
  | rotate {H : List PagePtr} {w : World Ω} (p : PagePtr) :
      Reach env H w → p ∈ w.1.sgx_active_page_list →
      Reach env H (w.1.with_list (list_move_tail p w.1.sgx_active_page_list), w.2)
  | free_held {H : List PagePtr} {w : World Ω} (p : PagePtr) (ret : Int) (s' : State) :
      Reach env (p :: H) w → sgx_free_page p w.1 = .ok (ret, s') → Reach env H (s', w.2)

/-- The owners use the interface with discipline: in every reachable world, what a
callback invoked on the page `p` does to the globals is a sequence of `OwnerStep`s that
leave alone `p` and the pages the reclaim pass has taken off the list, and so is what the
other threads do during `schedule()`. -/
def Disciplined {Ω : Type} (env : Env Ω) : Prop :=
  (∀ (H : List PagePtr) (w : World Ω) (impl : ImplPtr) (p : PagePtr), Reach env H w →
    (∀ r w', (env.ops_of impl).get p w = .ok (r, w') → OwnerSteps (H ++ [p]) w.1 w'.1) ∧
    (∀ w', (env.ops_of impl).put p w = .ok w' → OwnerSteps (H ++ [p]) w.1 w'.1) ∧
    (∀ r w', (env.ops_of impl).reclaim p w = .ok (r, w') → OwnerSteps (H ++ [p]) w.1 w'.1) ∧
    (∀ w', (env.ops_of impl).block p w = .ok w' → OwnerSteps (H ++ [p]) w.1 w'.1) ∧
    (∀ w', (env.ops_of impl).write p w = .ok w' → OwnerSteps (H ++ [p]) w.1 w'.1)) ∧
  (∀ w : World Ω, Reach env [] w → OwnerSteps [] w.1 (env.schedule w).1)

/-- No page is in two places: the pages taken off by the reclaim pass, the live entries
of the free stacks and the active page list have no page in common and no page twice;
and all these pointers point into existing banks. -/
def Separated (H : List PagePtr) (s : State) : Prop :=
  (H ++ all_live s ++ s.sgx_active_page_list).Nodup ∧
  ∀ p ∈ H ++ all_live s ++ s.sgx_active_page_list, p.bank < s.sgx_epc_banks.length

/-- Number of places in which the page `a` is: among the pages taken off by the reclaim
pass, among the live entries of the free stacks, on the active page list. -/
def occ (H : List PagePtr) (s : State) (a : PagePtr) : Nat :=
  List.count a H + List.count a (all_live s) + List.count a s.sgx_active_page_list

/-- One bank of one page at `0x70000000`, as `sgx_init_epc_bank` leaves it. -/
def example_init_one : State :=
  (sgx_init_epc_bank ⟨some 0xffffc90000000000, true, true⟩ 0x70000000 0x1000 0
    (State.boot [] false)).2

/-- A sequence of calls of the interface on the two-page bank: both pages are allocated,
page 1 is released twice, then `sgx_alloc_page` is called. -/
def example_misuse_run : Except Stuck (AllocRet × World Unit) :=
  match sgx_try_alloc_page (some 7) (example_init []) with
  | .error e => .error e
  | .ok (_, s1) =>
    match sgx_try_alloc_page (some 8) s1 with
    | .error e => .error e
    | .ok (_, s2) =>
      match sgx_free_page ⟨0, 1⟩ s2 with
      | .error e => .error e
      | .ok (_, s3) =>
        match sgx_free_page ⟨0, 1⟩ s3 with
        | .error e => .error e
        | .ok (_, s4) => sgx_alloc_page accept_env (some 9) 0 1 (s4, ())

/-- An enclave that is marked dead (`flags` holds `SGX_ENCL_DEAD` of `example_params`):
every enclave page is hot, `RESERVED` and `LOADED`, and its EPC page is page 0 of bank 0. -/
def example_dead_driver : Driver :=
  { encl_pages := fun _ =>
      { desc := 6, epc_page := some ⟨0, 0⟩, va_page := none, encl := 0, young := true },
    encls := fun _ =>
      { flags := 17, secs_child_cnt := 1, va_pages := [0], secs := 100, refcount := 1 },
    va_store := fun _ => { epc_page := ⟨0, 17⟩, slots := 0 } }

/-- The instructions and flush requests of the three `sgx_ewb` attempts of `sgx_write_page`
on the page `epc`, when the first attempt answers `r1` and the second `r2`. -/
def ewb_attempts (c : DriverParams) (epc va : PagePtr) (va_offset encl : Nat) (r1 r2 : Int) :
    List HwOp :=
  if r1 = c.SGX_NOT_TRACKED then
    if r2 = c.SGX_NOT_TRACKED then
      [.EWB epc va va_offset, .ETRACK encl, .EWB epc va va_offset, .FLUSH encl,
        .EWB epc va va_offset]
    else [.EWB epc va va_offset, .ETRACK encl, .EWB epc va va_offset]
  else [.EWB epc va va_offset]

/-- The example enclave state when the hardware answers `NOT_TRACKED` to the first two
`WRITEBACK` attempts and `0` to everything else. -/
def example_not_tracked_state : State :=
  { example_enclave_state with hw_results := [11, 0, 11, 0] }

/-! ## `ENCLS_TO_ERR` (`asm/sgx.h`) -/

/-- What `ENCLS_TO_ERR` takes from `asm/sgx_arch.h`, which is not under src/: the values
of three status codes of `enum sgx_return_codes`. -/
structure EnclsCodes where
  SGX_UNMASKED_EVENT : Int
  SGX_MAC_COMPARE_FAIL : Int
  SGX_ENTRYEPOCH_LOCKED : Int
deriving DecidableEq, Repr

def EPERM : Int := 1

def EINTR : Int := 4

def EIO : Int := 5

def EFAULT : Int := 14

/-- The macro `IS_ENCLS_FAULT(r)`: `r & 0xffff0000`, with the `int` value `r` converted to
`unsigned int` by the usual arithmetic conversions. -/
def IS_ENCLS_FAULT (r : Int) : Nat := (r % 2 ^ 32).toNat &&& 0xffff0000

/-- The macro `ENCLS_TO_ERR(r)`. -/
def ENCLS_TO_ERR (k : EnclsCodes) (r : Int) : Int :=
  if IS_ENCLS_FAULT r ≠ 0 then -EFAULT
  else if r = k.SGX_UNMASKED_EVENT then -EINTR
  else if r = k.SGX_MAC_COMPARE_FAIL then - EIO
  else if r = k.SGX_ENTRYEPOCH_LOCKED then -EBUSY
  else -EPERM

/-- The values of the three codes in the kernel tree: 128, 9 and 15. -/
def example_codes : EnclsCodes :=
  { SGX_UNMASKED_EVENT := 128, SGX_MAC_COMPARE_FAIL := 9, SGX_ENTRYEPOCH_LOCKED := 15 }

/-! ## Page resolution and pinning (`intel_sgx.c`, `cpu/sgx/sgx.h`) -/

/-- Modelled from the spec: the kernel configuration option `CONFIG_X86_64` and the atomic
kmap service (`kmap_atomic_pfn`, `kunmap_atomic`, not under src/) that `sgx_get_page` and
`sgx_put_page` use on a 32-bit address space, where unpin is "a scoped atomic-map release".
`kmap_atomic_pfn` gives the address at which a page frame gets mapped. -/
structure KmapEnv where
  CONFIG_X86_64 : Bool
  kmap_atomic_pfn : Nat → Nat

/-- The function `sgx_get_page`.  `kmaps` are the atomic kmaps in place.  A bank behind
the initialised ones is a zeroed element of the static array `sgx_epc_banks`. -/
def sgx_get_page (k : KmapEnv) (page : PagePtr) (s : State) (kmaps : List Nat) :
    Except Stuck (Nat × List Nat) :=
  match s.page page with
  | none => .error .fault
  | some pg =>
    if k.CONFIG_X86_64 then
      match s.sgx_epc_banks[SGX_EPC_BANK pg]? with
      | some bank =>
        .ok (((bank.va + SGX_EPC_ADDR pg) % 2 ^ 64 + 2 ^ 64 - bank.pa % 2 ^ 64) % 2 ^ 64, kmaps)
      | none =>
        if SGX_EPC_BANK pg < SGX_MAX_EPC_BANKS then .ok (SGX_EPC_ADDR pg % 2 ^ 64, kmaps)
        else .error .fault
    else
      .ok (k.kmap_atomic_pfn (SGX_EPC_PFN pg), k.kmap_atomic_pfn (SGX_EPC_PFN pg) :: kmaps)

/-- The function `sgx_put_page`. -/
def sgx_put_page (k : KmapEnv) (ptr : Nat) (kmaps : List Nat) : List Nat :=
  if k.CONFIG_X86_64 then kmaps else kmaps.erase ptr

namespace Sections

/-- The `struct sgx_epc_page` of `cpu/sgx/sgx.h`. -/
structure sgx_epc_page where
  desc : Nat
  owner : Option Nat
deriving DecidableEq, Repr

/-- The `struct sgx_epc_section` of `cpu/sgx/sgx.h`; the two lists hold page addresses. -/
structure sgx_epc_section where
  pa : Nat
  va : Nat
  free_cnt : Nat
  page_list : List Nat
  unsanitized_page_list : List Nat
deriving DecidableEq, Repr

/-- The mask `GENMASK(7, 0)`. -/
def SGX_EPC_SECTION_MASK : Nat := 0xff

def SGX_MAX_EPC_SECTIONS : Nat := SGX_EPC_SECTION_MASK + 1

def SGX_EPC_PAGE_RECLAIMABLE : Nat := 1 <<< 8

def SGX_EPC_PAGE_RECLAIM_IN_PROGRESS : Nat := 1 <<< 9

def SGX_EPC_PAGE_ENCLAVE : Nat := 1 <<< 10

def SGX_EPC_PAGE_VERSION_ARRAY : Nat := 1 <<< 11

/-- The function `sgx_get_epc_section`: the index in `sgx_epc_sections` of the section it
returns the address of. -/
def sgx_get_epc_section (page : sgx_epc_page) : Nat :=
  page.desc &&& SGX_EPC_SECTION_MASK

/-- The function `sgx_get_epc_addr`; `sgx_epc_sections` is the array of
`SGX_MAX_EPC_SECTIONS` sections. -/
def sgx_get_epc_addr (sgx_epc_sections : Nat → sgx_epc_section) (page : sgx_epc_page) : Nat :=
  let sec := sgx_epc_sections (sgx_get_epc_section page)
  ((sec.va + (page.desc &&& PAGE_MASK)) % 2 ^ 64 + 2 ^ 64 - sec.pa % 2 ^ 64) % 2 ^ 64

end Sections

/-- A 64-bit kernel. -/
def example_kmap_env : KmapEnv :=
  { CONFIG_X86_64 := true, kmap_atomic_pfn := fun pfn => pfn }

/-! ## `sgx_einit` and the cache of the launch-authority registers (`intel_sgx.c`) -/

/-- The constant `MSR_IA32_SGXLEPUBKEYHASH0` of `asm/msr-index.h` (not under src/). -/
def MSR_IA32_SGXLEPUBKEYHASH0 : Nat := 0x8C

/-- What `sgx_einit` does to the processor: a `wrmsrl` of a value to a register, or the
`EINIT` instruction on a sigstruct, a token and the address of the SECS page. -/
inductive LaunchOp where
  | WRMSR (msr : Nat) (val : Nat)
  | EINIT (sigstruct : Nat) (token : Nat) (secs : Nat)
deriving DecidableEq, Repr

/-- What `sgx_einit` works on besides the banks: the global `sgx_lc_enabled`, the CPU the
caller runs on (`smp_processor_id()`), the per-CPU array `sgx_le_pubkey_hash_cache` (four
64-bit words for every CPU), the values the next `EINIT` instructions will return (an
exhausted list answers `0`), and the register writes and `EINIT` instructions made so far,
in program order. -/
structure LaunchControl where
  sgx_lc_enabled : Bool
  smp_processor_id : Nat
  sgx_le_pubkey_hash_cache : Nat → List Nat
  einit_results : List Int
  launch_log : List LaunchOp

/-- The wrapper `__einit` of `asm/sgx.h`: the instruction is recorded and answers with the
next value of `einit_results`. -/
def __einit (sigstruct token secs : Nat) (l : LaunchControl) : Int × LaunchControl :=
  (l.einit_results.headD 0,
   { l with einit_results := l.einit_results.tail,
            launch_log := l.launch_log ++ [.EINIT sigstruct token secs] })

/-- One iteration of the loop of `sgx_einit`, for the index `i`; `cache` is the array of
the current CPU. -/
def einit_write_hash (le_pubkey_hash : List Nat) (i : Nat) (l : LaunchControl) :
    Except Stuck LaunchControl :=
  match le_pubkey_hash[i]?, (l.sgx_le_pubkey_hash_cache l.smp_processor_id)[i]? with
  | some h, some c =>
    if h = c then .ok l
    else
      .ok { l with
        launch_log := l.launch_log ++ [.WRMSR (MSR_IA32_SGXLEPUBKEYHASH0 + i) h],
        sgx_le_pubkey_hash_cache :=
          Function.update l.sgx_le_pubkey_hash_cache l.smp_processor_id
            ((l.sgx_le_pubkey_hash_cache l.smp_processor_id).set i h) }
  | _, _ => .error .fault

/-- The loop of `sgx_einit` over the remaining values of `i`. -/
def einit_write_hashes (le_pubkey_hash : List Nat) :
    List Nat → LaunchControl → Except Stuck LaunchControl
  | [], l => .ok l
  | i :: rest, l =>
    match einit_write_hash le_pubkey_hash i l with
    | .error e => .error e
    | .ok l1 => einit_write_hashes le_pubkey_hash rest l1

/-- The function `sgx_einit`; the result is the C return value, the atomic kmaps and the
launch-control state. -/
def sgx_einit (k : KmapEnv) (sigstruct token : Nat) (secs_page : PagePtr)
    (le_pubkey_hash : List Nat) (s : State) (kmaps : List Nat) (l : LaunchControl) :
    Except Stuck (Int × List Nat × LaunchControl) :=
  match sgx_get_page k secs_page s kmaps with
  | .error e => .error e
  | .ok (secs, kmaps1) =>
    if !l.sgx_lc_enabled then
      let r := __einit sigstruct token secs l
      .ok (r.1, sgx_put_page k secs kmaps1, r.2)
    else
      match einit_write_hashes le_pubkey_hash [0, 1, 2, 3] l with
      | .error e => .error e
      | .ok l1 =>
        let r := __einit sigstruct token secs l1
        .ok (r.1, sgx_put_page k secs kmaps1, r.2)

/-- The registers that `sgx_einit` has to write when the cache holds `c` and the desired
hash is `h`: those of the indices at which the two differ, with the desired value. -/
def differing_words (h c : List Nat) : List LaunchOp :=
  ((List.range 4).filter fun i => decide (h.getD i 0 ≠ c.getD i 0)).map fun i =>
    .WRMSR (MSR_IA32_SGXLEPUBKEYHASH0 + i) (h.getD i 0)

/-- Launch control enabled on CPU 0, whose cache holds `[10, 21, 12, 13]`; the next `EINIT`
answers 128 (`SGX_UNMASKED_EVENT`). -/
def example_launch_control : LaunchControl :=
  { sgx_lc_enabled := true, smp_processor_id := 0,
    sgx_le_pubkey_hash_cache := fun _ => [10, 21, 12, 13],
    einit_results := [128], launch_log := [] }

/-- A sequence of calls of the interface on a bank of 34 pages: three
`sgx_try_alloc_page` take the free count to 33, 32 and 31, two `sgx_free_page` on the first
two pages take it back to 33, and `sgx_alloc_page` then returns a page.  The result lists
the free count after the second and after the third `sgx_try_alloc_page`, what
`sgx_alloc_page` returns, and the free count and the number of wake-ups of `ksgxswapd`
(0 in the boot state) when it has returned. -/
def example_watermark_run : Except Stuck (Int × Int × AllocRet × Int × Nat) :=
  match sgx_try_alloc_page (some 1)
      (sgx_init_epc_bank ⟨some 0xffffc90000000000, true, true⟩ 0x70000000 0x22000 0
        (State.boot [] false)).2 with
  | .error e => .error e
  | .ok (_, s1) =>
    match sgx_try_alloc_page (some 2) s1 with
    | .error e => .error e
    | .ok (_, s2) =>
      match sgx_try_alloc_page (some 3) s2 with
      | .error e => .error e
      | .ok (_, s3) =>
        match sgx_free_page ⟨0, 33⟩ s3 with
        | .error e => .error e
        | .ok (_, s4) =>
          match sgx_free_page ⟨0, 32⟩ s4 with
          | .error e => .error e
          | .ok (_, s5) =>
            match sgx_alloc_page accept_env (some 4) 0 1 (s5, ()) with
            | .error e => .error e
            | .ok (r, w) =>
              .ok (s2.sgx_nr_free_pages, s3.sgx_nr_free_pages, r, w.1.sgx_nr_free_pages,
                w.1.ksgxswapd_wakeups)

/-- Callbacks that fault when they are called. -/
def fault_ops (Ω : Type) : sgx_epc_page_ops Ω :=
  { get := fun _ _ => .error .fault,
    put := fun _ _ => .error .fault,
    reclaim := fun _ _ => .error .fault,
    block := fun _ _ => .error .fault,
    write := fun _ _ => .error .fault }

/-- The environment in which every owner callback faults. -/
def fault_env (Ω : Type) : Env Ω :=
  { ops_of := fun _ => fault_ops Ω, schedule := fun w => w }

/-! ## `sgx_paging_fn` (`intel_sgx.c`) -/

/-- Modelled from the spec: the `struct sgx_pageinfo` of `asm/sgx_arch.h` (not under src/),
"`pginfo` contains source and metadata pointers": the four members that `sgx_paging_fn`
stores to. -/
structure sgx_pageinfo where
  linaddr : Nat
  srcpge : Nat
  pcmd : Nat
  secs : Nat
deriving DecidableEq, Repr

/-- Modelled from the spec: the backing-store collaborator and the kernel kmap service
(not under src/).  `shmem_read_mapping_page_gfp` gives, for a file and a block index, a
page or an `ERR_PTR` value; `kmap_atomic` gives the address at which a page is mapped. -/
structure BackingEnv where
  shmem_read_mapping_page_gfp : Nat → Nat → Except Int Nat
  kmap_atomic : Nat → Nat

/-- What `sgx_paging_fn` does to its collaborators, in program order. -/
inductive PagingOp where
  | get_backing (file : Nat) (index : Nat)
  | put_backing (page : Nat) (write : Bool)
  | kmap_atomic (page : Nat)
  | kunmap_atomic (addr : Nat)
  | fn (pginfo : sgx_pageinfo) (epc : Nat) (va : Nat)
deriving DecidableEq, Repr

/-- The function `sgx_get_backing`: the page of the file's mapping at `index`. -/
def sgx_get_backing (b : BackingEnv) (file index : Nat) : Except Int Nat :=
  b.shmem_read_mapping_page_gfp file index

/-- The statement `secs = secs_page ? sgx_get_page(secs_page) : NULL`. -/
def paging_pin_secs (k : KmapEnv) (secs_page : Option PagePtr) (s : State)
    (kmaps : List Nat) : Except Stuck (Nat × List Nat) :=
  match secs_page with
  | none => .ok (0, kmaps)
  | some sp => sgx_get_page k sp s kmaps

/-- The function `sgx_paging_fn`.  `fn` is the instruction wrapper passed in: it gets the
`pginfo`, which it may change, and the two addresses, and returns its result.  `addr` is
the argument `unsigned long *addr` (`none` for `NULL`).  The result holds the C return
value, the new `*addr`, the atomic kmaps of `sgx_get_page` and the operations made. -/
def sgx_paging_fn (k : KmapEnv) (b : BackingEnv) (epc_page va_page : PagePtr)
    (va_offset : Nat) (secs_page : Option PagePtr) (backing_file pcmd_file index : Nat)
    (addr : Option Nat) (write : Bool) (fn : sgx_pageinfo → Nat → Nat → Int × sgx_pageinfo)
    (s : State) (kmaps : List Nat) :
    Except Stuck (Int × Option Nat × List Nat × List PagingOp) :=
  let pcmd_offset := (index &&& 0x1f) * 128
  match sgx_get_backing b backing_file index with
  | .error e => .ok (e, addr, kmaps, [.get_backing backing_file index])
  | .ok backing =>
    match sgx_get_backing b pcmd_file (index >>> 5) with
    | .error e =>
      .ok (e, addr, kmaps,
        [.get_backing backing_file index, .get_backing pcmd_file (index >>> 5),
         .put_backing backing (e = 0 && write)])
    | .ok pcmd =>
      match paging_pin_secs k secs_page s kmaps with
      | .error e => .error e
      | .ok (secs, kmaps1) =>
        match sgx_get_page k epc_page s kmaps1 with
        | .error e => .error e
        | .ok (epc, kmaps2) =>
          match sgx_get_page k va_page s kmaps2 with
          | .error e => .error e
          | .ok (va, kmaps3) =>
            let pginfo : sgx_pageinfo :=
              { srcpge := b.kmap_atomic backing,
                pcmd := (b.kmap_atomic pcmd + pcmd_offset) % 2 ^ 64,
                linaddr := addr.getD 0,
                secs := secs }
            let r := fn pginfo epc ((va + va_offset) % 2 ^ 64)
            let addr' := if r.1 = 0 && write then addr.map fun _ => r.2.linaddr else addr
            let kmaps4 := sgx_put_page k epc (sgx_put_page k va kmaps3)
            let kmaps5 := if secs ≠ 0 then sgx_put_page k secs kmaps4 else kmaps4
            .ok (r.1, addr', kmaps5,
              [.get_backing backing_file index, .get_backing pcmd_file (index >>> 5),
               .kmap_atomic backing, .kmap_atomic pcmd,
               .fn pginfo epc ((va + va_offset) % 2 ^ 64),
               .kunmap_atomic ((r.2.pcmd + 2 ^ 64 - pcmd_offset) % 2 ^ 64),
               .kunmap_atomic r.2.srcpge,
               .put_backing pcmd (r.1 = 0 && write),
               .put_backing backing (r.1 = 0 && write)])

/-- A backing store in which block `i` of file `f` is the page `1000 * f + i`, mapped at
`4096 * (1000 * f + i)`. -/
def example_backing_env : BackingEnv :=
  { shmem_read_mapping_page_gfp := fun f i => .ok (1000 * f + i),
    kmap_atomic := fun page => 4096 * page }

/-! ## The launch-authority registers -/

/-- The value that the register `msr` holds after the operations of a log, when `boot`
gives the values the registers had before: that of the last `wrmsrl` to it. -/
def msr_value (boot : Nat → Nat) : List LaunchOp → Nat → Nat
  | [], msr => boot msr
  | .WRMSR m v :: rest, msr => msr_value (Function.update boot m v) rest msr
  | .EINIT _ _ _ :: rest, msr => msr_value boot rest msr

/-- Launch control enabled on CPU 0, whose cache is still zeroed, as the static
initialisation of `sgx_le_pubkey_hash_cache` leaves it; no register has been written. -/
def example_launch_boot : LaunchControl :=
  { sgx_lc_enabled := true, smp_processor_id := 0,
    sgx_le_pubkey_hash_cache := fun _ => [0, 0, 0, 0],
    einit_results := [], launch_log := [] }

/-! ## The shape of the banks -/

/-- The part of a bank that neither `sgx_try_alloc_page` nor `sgx_free_page` changes: the
length of the pointer array and the `desc` of every descriptor. -/
def sgx_epc_bank.shape (bank : sgx_epc_bank) : Nat × List Nat :=
  (bank.pages.length, bank.pages_data.map sgx_epc_page.desc)

/-- Every bank has as many pointers as descriptors, and `SGX_EPC_BANK` resolves every
descriptor to the bank that holds it. -/
def State.Shaped (s : State) : Prop :=
  ∀ x ∈ (s.sgx_epc_banks.map sgx_epc_bank.shape).enum,
    x.2.1 = x.2.2.length ∧ ∀ d ∈ x.2.2, d &&& PAGE_OFFSET_MASK = x.1

instance (s : State) : Decidable s.Shaped := by
  unfold State.Shaped; infer_instance

/-! ## The visits of a reclaim pass -/

/-- What one iteration of the first loop of `sgx_swap_cluster` does with the page at the
head of the list: `get` refuses; or `get` agrees and `reclaim` refuses, followed by `put`;
or both agree and the page joins `cluster[]`. -/
inductive Visit where
  | refused (p : PagePtr)
  | vetoed (p : PagePtr)
  | taken (p : PagePtr)
deriving DecidableEq, Repr

/-- The calls made in a visit, in program order. -/
def Visit.events : Visit → List Event
  | .refused p => [.get p false]
  | .vetoed p => [.get p true, .reclaim p false, .put p]
  | .taken p => [.get p true, .reclaim p true]

/-- The page that a visit puts in `cluster[]`. -/
def Visit.clustered : Visit → Option PagePtr
  | .taken p => some p
  | _ => none

/-- The calls of the third loop of `sgx_swap_cluster` on the pages of `cluster[]`, when
`rets` are the values that `sgx_free_page` returns. -/
def write_events (cluster : List PagePtr) (rets : List Int) : List Event :=
  ((cluster.zip rets).map fun x => [Event.write x.1, .put x.1, .free_page x.1 x.2]).flatten

/-- The calls that can follow a refused `get`: the `get` of the next visit, or the first
`block`. -/
def Event.opens : Event → Bool
  | .get _ _ => true
  | .block _ => true
  | _ => false

/-- The relation between two consecutive calls of a pass: after a `get` that answered
`false` comes a call that opens the next visit or the second loop. -/
def after_refusal (a b : Event) : Bool :=
  match a with
  | .get _ false => b.opens
  | _ => true

/-- The page a visit looks at. -/
def Visit.page : Visit → PagePtr
  | .refused p => p
  | .vetoed p => p
  | .taken p => p

/-- The page that a visit puts back at the tail of the active page list: `list_move_tail`
after a refused `get`, `list_add_tail` after a refused `reclaim`. -/
def Visit.requeued : Visit → Option PagePtr
  | .refused p => some p
  | .vetoed p => some p
  | .taken _ => none

/-- The call is a `get` on page `q`. -/
def Event.visits (q : PagePtr) : Event → Bool
  | .get p _ => decide (p = q)
  | _ => false

/-- The pass has looked at page `q`: its trace has a `get` on `q`. -/
def visited (tr : List Event) (q : PagePtr) : Bool := tr.any (Event.visits q)

/-- The owner callbacks leave the active page list as it is. -/
def Env.KeepsList {Ω : Type} (env : Env Ω) : Prop :=
  ∀ (L : List PagePtr) impl,
    (env.ops_of impl).Preserves fun s => s.sgx_active_page_list = L

/-- Callbacks of an owner that agrees to everything except the `reclaim` of the page
`rej`. -/
def veto_ops (rej : PagePtr) : sgx_epc_page_ops Unit :=
  { get := fun _ w => .ok (true, w),
    put := fun _ w => .ok w,
    reclaim := fun p w => .ok (decide (p ≠ rej), w),
    block := fun _ w => .ok w,
    write := fun _ w => .ok w }

/-- Every page is owned by the owner that refuses the `reclaim` of `rej`; no other thread
runs during `schedule()`. -/
def veto_env (rej : PagePtr) : Env Unit :=
  { ops_of := fun _ => veto_ops rej, schedule := fun w => w }

/-- One bank of 17 pages, all allocated (page `i` to owner `i`) and all on the active page
list, in the order of their index; no page is free. -/
def example_seventeen : State :=
  { sgx_epc_banks :=
      [{ pa := 0x70000000, va := 0xffffc90000000000, size := 0x11000,
         pages_data := (List.range 17).map (fun i => ⟨0x70000000 + i * 4096, some i⟩),
         pages := init_pages 0 17, free_cnt := 0 }],
    sgx_nr_free_pages := 0,
    sgx_active_page_list := init_pages 0 17,
    hw_results := [], hw_log := [], signal_pending := false, ksgxswapd_wakeups := 0 }

/-- The trace and the world after `sgx_swap_cluster` on `example_seventeen`, the owner
refusing the `reclaim` of page 0. -/
@[irreducible]
def example_seventeen_result : List Event × World Unit :=
  result_or (sgx_swap_cluster (veto_env ⟨0, 0⟩) (example_seventeen, ()))
    ([], (example_seventeen, ()))

/-- One bank of three allocated pages: page 0 is a loaded child page of enclave 0 (the
enclave page at address 0) and the only entry of the active page list, page 1 is the
enclave's control page (enclave page at address 100), page 2 is a VA page.  The hardware
answers `0` to every instruction. -/
def example_young_state : State :=
  { sgx_epc_banks :=
      [{ pa := 0x70000000, va := 0xffffc90000000000, size := 0x3000,
         pages_data := [⟨0x70000000, some 0⟩, ⟨0x70001000, some 100⟩, ⟨0x70002000, none⟩],
         pages := init_pages 0 3, free_cnt := 0 }],
    sgx_nr_free_pages := 0,
    sgx_active_page_list := [⟨0, 0⟩],
    hw_results := [], hw_log := [], signal_pending := false, ksgxswapd_wakeups := 0 }

/-- The enclave of `example_young_state`: initialised, two children (one of them loaded
in page 0 and recently accessed), one VA page with all slots free, one reference. -/
def example_young_driver : Driver :=
  { encl_pages := fun i =>
      if i = 100 then
        { desc := 2, epc_page := some ⟨0, 1⟩, va_page := none, encl := 0, young := false }
      else { desc := 2, epc_page := some ⟨0, i⟩, va_page := none, encl := 0, young := true },
    encls := fun _ =>
      { flags := 1, secs_child_cnt := 2, va_pages := [0], secs := 100, refcount := 1 },
    va_store := fun _ => { epc_page := ⟨0, 2⟩, slots := 0 } }

/-- The trace and the world after `sgx_swap_cluster` on the example with the recently
accessed page. -/
@[irreducible]
def example_young_result : List Event × World Driver :=
  result_or
    (sgx_swap_cluster example_encl_env (example_young_state, example_young_driver))
    ([], (example_young_state, example_young_driver))

/-- One bank of four allocated pages: page 0 is a loaded child page of enclave 0 (the
enclave page at address 0), page 1 is the enclave's control page (enclave page at address
100), pages 2 and 3 are VA pages.  The hardware answers `0` to every instruction. -/
def example_two_va_state : State :=
  { sgx_epc_banks :=
      [{ pa := 0x70000000, va := 0xffffc90000000000, size := 0x4000,
         pages_data := [⟨0x70000000, some 0⟩, ⟨0x70001000, some 100⟩, ⟨0x70002000, none⟩,
           ⟨0x70003000, none⟩],
         pages := init_pages 0 4, free_cnt := 0 }],
    sgx_nr_free_pages := 0,
    sgx_active_page_list := [],
    hw_results := [], hw_log := [], signal_pending := false, ksgxswapd_wakeups := 0 }

/-- The enclave of `example_two_va_state` with a ring of two VA pages: VA page 0 (EPC page
2), at the head, has `slots` as bitmap; VA page 1 (EPC page 3) has all slots free. -/
def example_two_va_driver (slots : Nat) : Driver :=
  { encl_pages := fun i =>
      if i = 100 then
        { desc := 2, epc_page := some ⟨0, 1⟩, va_page := none, encl := 0, young := false }
      else { desc := 2, epc_page := some ⟨0, i⟩, va_page := none, encl := 0, young := false },
    encls := fun _ =>
      { flags := 1, secs_child_cnt := 2, va_pages := [0, 1], secs := 100, refcount := 1 },
    va_store := fun i =>
      if i = 0 then { epc_page := ⟨0, 2⟩, slots := slots }
      else { epc_page := ⟨0, 3⟩, slots := 0 } }

/-- The hardware answers `0` to every instruction still to come. -/
def State.HwQuiet (s : State) : Prop := ∀ r ∈ s.hw_results, r = 0

instance (s : State) : Decidable s.HwQuiet := by
  unfold State.HwQuiet; infer_instance

/-- What a step that does not use the page cache leaves alone: the banks, the global free
count and the active page list; and the hardware goes on answering `0` if it did. -/
def State.Frame (s s' : State) : Prop :=
  s'.sgx_epc_banks = s.sgx_epc_banks ∧ s'.sgx_nr_free_pages = s.sgx_nr_free_pages ∧
    s'.sgx_active_page_list = s.sgx_active_page_list ∧ (s.HwQuiet → s'.HwQuiet)

/-- The page is allocated to an owner: its descriptor exists and its `impl` is set. -/
def State.Owned (s : State) (p : PagePtr) : Prop :=
  ((s.page p).bind sgx_epc_page.impl).isSome = true

instance (s : State) (p : PagePtr) : Decidable (s.Owned p) := by
  unfold State.Owned; infer_instance

/-- Owners that never fault, always agree to `get`, refuse `reclaim` on the page `rej` and
on no other, and whose callbacks, like the threads that run during `schedule()`, leave the
banks, the free count and the active page list alone. -/
structure Env.RejectsOnly {Ω : Type} (env : Env Ω) (rej : PagePtr) : Prop where
  get : ∀ impl p (w : World Ω), ∃ w',
    (env.ops_of impl).get p w = .ok (true, w') ∧ w.1.Frame w'.1
  reclaim : ∀ impl p (w : World Ω), ∃ w',
    (env.ops_of impl).reclaim p w = .ok (decide (p ≠ rej), w') ∧ w.1.Frame w'.1
  put : ∀ impl p (w : World Ω), ∃ w', (env.ops_of impl).put p w = .ok w' ∧ w.1.Frame w'.1
  block : ∀ impl p (w : World Ω), ∃ w', (env.ops_of impl).block p w = .ok w' ∧ w.1.Frame w'.1
  write : ∀ impl p (w : World Ω), ∃ w', (env.ops_of impl).write p w = .ok w' ∧ w.1.Frame w'.1
  schedule : ∀ w : World Ω, w.1.Frame (env.schedule w).1

/-- Callbacks of an owner that agrees to everything and whose `block` puts the page back on
the active page list, as a call of `sgx_set_page_reclaimable` from the callback does. -/
def relist_ops : sgx_epc_page_ops Unit :=
  { get := fun _ w => .ok (true, w),
    put := fun _ w => .ok w,
    reclaim := fun _ w => .ok (true, w),
    block := fun p w => .ok (w.1.with_list (list_add_tail p w.1.sgx_active_page_list), w.2),
    write := fun _ w => .ok w }

/-- Every page is owned by the owner of `relist_ops`; no other thread runs during
`schedule()`. -/
def relist_env : Env Unit :=
  { ops_of := fun _ => relist_ops, schedule := fun w => w }

/-- One bank of 19 allocated pages: pages 0 to 15 are the loaded child pages of enclave 0,
page 16 is its control page (enclave page at address 100), page 17 is a VA page, page 18 is
a loaded page of enclave 1.  The active page list holds the 16 children of enclave 0
followed by page 18; no page is free and the hardware answers `0` to every instruction. -/
def example_nineteen_state : State :=
  { sgx_epc_banks :=
      [{ pa := 0x70000000, va := 0xffffc90000000000, size := 0x13000,
         pages_data :=
           (List.range 16).map (fun i => ⟨0x70000000 + i * 4096, some i⟩) ++
             [⟨0x70010000, some 100⟩, ⟨0x70011000, none⟩, ⟨0x70012000, some 18⟩],
         pages := init_pages 0 19, free_cnt := 0 }],
    sgx_nr_free_pages := 0,
    sgx_active_page_list := init_pages 0 16 ++ [⟨0, 18⟩],
    hw_results := [], hw_log := [], signal_pending := false, ksgxswapd_wakeups := 0 }

/-- The enclaves of `example_nineteen_state`: enclave 0 is initialised and has its 16
children loaded, none recently accessed; the page of enclave 1 is recently accessed (young),
so that its owner refuses its `reclaim`. -/
def example_nineteen_driver : Driver :=
  { encl_pages := fun i =>
      if i = 100 then
        { desc := 2, epc_page := some ⟨0, 16⟩, va_page := none, encl := 0, young := false }
      else if i = 18 then
        { desc := 2, epc_page := some ⟨0, 18⟩, va_page := none, encl := 1, young := true }
      else { desc := 2, epc_page := some ⟨0, i⟩, va_page := none, encl := 0, young := false },
    encls := fun e =>
      if e = 0 then
        { flags := 1, secs_child_cnt := 16, va_pages := [0], secs := 100, refcount := 1 }
      else { flags := 1, secs_child_cnt := 1, va_pages := [0], secs := 101, refcount := 1 },
    va_store := fun _ => { epc_page := ⟨0, 17⟩, slots := 0 } }

/-! # Theorems -/

/-! ## Bank array lemmas -/

theorem store_impl_stack {banks banks' : List sgx_epc_bank} {p : PagePtr}
    {impl : Option ImplPtr} (h : store_impl banks p impl = .ok banks') :
    banks'.map sgx_epc_bank.stack = banks.map sgx_epc_bank.stack := by
  unfold store_impl at h
  split at h
  · cases h
  · rename_i bank hb
    split at h
    · cases h
    · cases h
      rw [List.map_set]
      apply List.ext_getElem?
      intro j
      rw [List.getElem?_set]
      split
      · rename_i hj
        subst hj
        split
        · simp [List.getElem?_map, hb, sgx_epc_bank.stack]
        · rename_i hlt
          simp at hlt
          have : (banks.map sgx_epc_bank.stack)[p.bank]? = none := by
            simp [List.getElem?_eq_none_iff, hlt]
          rw [this]
      · rfl

theorem store_impl_length {banks banks' : List sgx_epc_bank} {p : PagePtr}
    {impl : Option ImplPtr} (h : store_impl banks p impl = .ok banks') :
    banks'.length = banks.length := by
  have := congrArg List.length (store_impl_stack h)
  simpa using this

theorem store_impl_stack_at {banks banks' : List sgx_epc_bank} {p : PagePtr}
    {impl : Option ImplPtr} (h : store_impl banks p impl = .ok banks') (j : Nat) :
    (banks'[j]?).map sgx_epc_bank.stack = (banks[j]?).map sgx_epc_bank.stack := by
  have := congrArg (fun l => l[j]?) (store_impl_stack h)
  simpa [List.getElem?_map] using this

theorem store_impl_ok {banks : List sgx_epc_bank} {p : PagePtr} {pg : sgx_epc_page}
    (impl : Option ImplPtr) (h : page_at banks p = some pg) :
    ∃ banks', store_impl banks p impl = .ok banks' := by
  unfold page_at at h
  unfold store_impl
  split at h
  · cases h
  · rename_i bank hb
    simp [hb, h]

theorem store_impl_page_self {banks banks' : List sgx_epc_bank} {p : PagePtr}
    {impl : Option ImplPtr} (h : store_impl banks p impl = .ok banks') :
    ∃ pg, page_at banks p = some pg ∧ page_at banks' p = some { pg with impl := impl } := by
  unfold store_impl at h
  split at h
  · cases h
  · rename_i bank hb
    split at h
    · cases h
    · rename_i pg hpg
      cases h
      refine ⟨pg, ?_, ?_⟩
      · simp [page_at, hb, hpg]
      · have h1 : p.bank < banks.length := (List.getElem?_eq_some_iff.mp hb).1
        have h2 : p.idx < bank.pages_data.length := (List.getElem?_eq_some_iff.mp hpg).1
        simp [page_at, List.getElem?_set_self h1, List.getElem?_set_self h2]

theorem store_impl_page_other {banks banks' : List sgx_epc_bank} {p q : PagePtr}
    {impl : Option ImplPtr} (h : store_impl banks p impl = .ok banks') (hq : q ≠ p) :
    page_at banks' q = page_at banks q := by
  unfold store_impl at h
  split at h
  · cases h
  · rename_i bank hb
    split at h
    · cases h
    · rename_i pg hpg
      cases h
      unfold page_at
      by_cases hbk : p.bank = q.bank
      · have h1 : p.bank < banks.length := (List.getElem?_eq_some_iff.mp hb).1
        have hidx : p.idx ≠ q.idx := by
          intro hi
          apply hq
          cases p; cases q; simp_all
        rw [← hbk, List.getElem?_set_self h1, hb]
        simp [List.getElem?_set_ne hidx]
      · rw [List.getElem?_set_ne hbk]

theorem store_impl_desc {banks banks' : List sgx_epc_bank} {p : PagePtr}
    {impl : Option ImplPtr} (h : store_impl banks p impl = .ok banks') (q : PagePtr) :
    (page_at banks' q).map sgx_epc_page.desc = (page_at banks q).map sgx_epc_page.desc := by
  by_cases hq : q = p
  · subst hq
    obtain ⟨pg, h1, h2⟩ := store_impl_page_self h
    rw [h1, h2]
    rfl
  · rw [store_impl_page_other h hq]

/-! ## The scan of `sgx_try_alloc_page` -/

theorem try_alloc_scan_none {banks banks' : List sgx_epc_bank}
    (h : try_alloc_scan banks = .ok (none, banks')) :
    banks' = banks ∧ ∀ b ∈ banks, b.free_cnt = 0 := by
  induction banks generalizing banks' with
  | nil =>
    simp [try_alloc_scan] at h
    simp [h]
  | cons bank rest ih =>
    unfold try_alloc_scan at h
    split at h
    · split at h <;> cases h
    · rename_i hz
      simp at hz
      split at h
      · cases h
      · rename_i r rest' hrest
        cases h
        obtain ⟨h1, h2⟩ := ih hrest
        subst h1
        refine ⟨rfl, ?_⟩
        intro b hb
        rcases List.mem_cons.mp hb with rfl | hb
        · exact hz
        · exact h2 b hb

theorem try_alloc_scan_all_zero {banks : List sgx_epc_bank}
    (h : ∀ b ∈ banks, b.free_cnt = 0) : try_alloc_scan banks = .ok (none, banks) := by
  induction banks with
  | nil => rfl
  | cons bank rest ih =>
    have h0 : bank.free_cnt = 0 := h bank (List.mem_cons_self _ _)
    have hr := ih (fun b hb => h b (List.mem_cons_of_mem _ hb))
    simp [try_alloc_scan, h0, hr]

theorem try_alloc_scan_first {banks : List sgx_epc_bank} {i : Nat} {bank : sgx_epc_bank}
    {p : PagePtr} (hi : banks[i]? = some bank)
    (hlow : ∀ j b, j < i → banks[j]? = some b → b.free_cnt = 0)
    (hfree : bank.free_cnt ≠ 0) (htop : bank.pages[bank.free_cnt - 1]? = some p) :
    try_alloc_scan banks =
      .ok (some p, banks.set i { bank with free_cnt := bank.free_cnt - 1 }) := by
  induction banks generalizing i with
  | nil => simp at hi
  | cons b0 rest ih =>
    cases i with
    | zero =>
      simp at hi
      subst hi
      simp [try_alloc_scan, hfree, htop]
    | succ i =>
      have h0 : b0.free_cnt = 0 := hlow 0 b0 (Nat.succ_pos _) (by simp)
      have hi2 : rest[i]? = some bank := by simpa using hi
      have hlow2 : ∀ j b, j < i → rest[j]? = some b → b.free_cnt = 0 := by
        intro j b hj hb
        exact hlow (j + 1) b (Nat.succ_lt_succ hj) (by simpa using hb)
      simp [try_alloc_scan, h0, ih hi2 hlow2]

theorem exists_first_free {banks : List sgx_epc_bank}
    (h : ∃ b ∈ banks, 0 < b.free_cnt) :
    ∃ (i : Nat) (bank : sgx_epc_bank), banks[i]? = some bank ∧ 0 < bank.free_cnt ∧
      ∀ (j : Nat) (b : sgx_epc_bank), j < i → banks[j]? = some b → b.free_cnt = 0 := by
  induction banks with
  | nil => simp at h
  | cons b0 rest ih =>
    by_cases h0 : b0.free_cnt = 0
    · have : ∃ b ∈ rest, 0 < b.free_cnt := by
        obtain ⟨b, hb, hpos⟩ := h
        rcases List.mem_cons.mp hb with rfl | hb
        · omega
        · exact ⟨b, hb, hpos⟩
      obtain ⟨i, bank, hi, hpos, hlow⟩ := ih this
      refine ⟨i + 1, bank, by simp [hi], hpos, ?_⟩
      intro j b hj hb
      cases j with
      | zero =>
        simp at hb
        subst hb
        exact h0
      | succ j => exact hlow j b (by omega) (by simpa using hb)
    · exact ⟨0, b0, by simp, by omega, by intro j b hj; omega⟩

theorem wellFormed_at {s : State} (hwf : s.WellFormed) {i : Nat} {bank : sgx_epc_bank}
    (hi : s.sgx_epc_banks[i]? = some bank) :
    bank.free_cnt ≤ bank.pages.length ∧
      ∀ p ∈ bank.live, (s.page p).map SGX_EPC_BANK = some i :=
  hwf (i, bank) (List.mk_mem_enum_iff_getElem?.mpr hi)

theorem live_top {bank : sgx_epc_bank} (hpos : 0 < bank.free_cnt)
    (hle : bank.free_cnt ≤ bank.pages.length) :
    ∃ p, bank.pages[bank.free_cnt - 1]? = some p ∧ p ∈ bank.live := by
  have hlt : bank.free_cnt - 1 < bank.pages.length := by omega
  refine ⟨bank.pages[bank.free_cnt - 1], List.getElem?_eq_getElem hlt, ?_⟩
  unfold sgx_epc_bank.live
  rw [List.mem_iff_getElem?]
  refine ⟨bank.free_cnt - 1, ?_⟩
  rw [List.getElem?_take_of_lt (by omega)]
  exact List.getElem?_eq_getElem hlt

/-! ## `sgx_try_alloc_page` -/

theorem sgx_try_alloc_page_first_free (impl : Option ImplPtr) (s : State)
    (hwf : s.WellFormed) (hfree : ∃ b ∈ s.sgx_epc_banks, 0 < b.free_cnt) :
    ∃ (i : Nat) (bank : sgx_epc_bank) (p : PagePtr) (s' : State),
      s.sgx_epc_banks[i]? = some bank ∧ 0 < bank.free_cnt ∧
      (∀ (j : Nat) (b : sgx_epc_bank), j < i → s.sgx_epc_banks[j]? = some b →
        b.free_cnt = 0) ∧
      bank.pages[bank.free_cnt - 1]? = some p ∧
      sgx_try_alloc_page impl s = .ok (some p, s') ∧
      (s'.sgx_epc_banks[i]?).map sgx_epc_bank.stack = some (bank.pages, bank.free_cnt - 1) ∧
      s'.sgx_nr_free_pages = s.sgx_nr_free_pages - 1 ∧
      (s'.page p).map sgx_epc_page.impl = some impl ∧
      (∀ j : Nat, j ≠ i →
        (s'.sgx_epc_banks[j]?).map sgx_epc_bank.stack =
          (s.sgx_epc_banks[j]?).map sgx_epc_bank.stack) := by
  obtain ⟨i, bank, hi, hpos, hlow⟩ := exists_first_free hfree
  obtain ⟨hle, hlive⟩ := wellFormed_at hwf hi
  obtain ⟨p, htop, hmem⟩ := live_top hpos hle
  have hscan := try_alloc_scan_first hi hlow (by omega) htop
  have hilt : i < s.sgx_epc_banks.length := (List.getElem?_eq_some_iff.mp hi).1
  -- the popped pointer is valid before and after the pop
  have hpg : ∃ pg, page_at s.sgx_epc_banks p = some pg := by
    have := hlive p hmem
    unfold State.page at this
    cases hp : page_at s.sgx_epc_banks p with
    | none => simp [hp] at this
    | some pg => exact ⟨pg, rfl⟩
  obtain ⟨pg, hpg⟩ := hpg
  have hpg2 : page_at (s.sgx_epc_banks.set i { bank with free_cnt := bank.free_cnt - 1 }) p
      = some pg := by
    unfold page_at at hpg ⊢
    by_cases hb : i = p.bank
    · subst hb
      rw [List.getElem?_set_self hilt]
      rw [hi] at hpg
      exact hpg
    · rw [List.getElem?_set_ne hb]
      exact hpg
  obtain ⟨banks', hstore⟩ := store_impl_ok impl hpg2
  refine ⟨i, bank, p,
    { s with sgx_epc_banks := banks', sgx_nr_free_pages := s.sgx_nr_free_pages - 1 },
    hi, hpos, hlow, htop, ?_, ?_, ?_, ?_, ?_⟩
  · unfold sgx_try_alloc_page
    rw [hscan]
    simp only [hstore]
  · simp only
    rw [store_impl_stack_at hstore i, List.getElem?_set_self hilt]
    rfl
  · rfl
  · obtain ⟨pg', _, h2⟩ := store_impl_page_self hstore
    simp [State.page, h2]
  · intro j hj
    simp only
    rw [store_impl_stack_at hstore j, List.getElem?_set_ne (Ne.symm hj)]

/-- C1: in a well-formed state where some bank has a free page, `sgx_try_alloc_page`
returns the entry `free_cnt - 1` of the free stack of the lowest-indexed bank whose
`free_cnt` is non-zero, lowers that bank's `free_cnt` by one and the global free count by
one, stores the `impl` argument in the returned page, and leaves the pointer array and
the `free_cnt` of every other bank as they were. -/
theorem sgx_try_alloc_page_pops_first_free (impl : Option ImplPtr) (s : State)
    (hwf : s.WellFormed) (hfree : ∃ b ∈ s.sgx_epc_banks, 0 < b.free_cnt) :
    ∃ (i : Nat) (bank : sgx_epc_bank) (p : PagePtr) (s' : State),
      s.sgx_epc_banks[i]? = some bank ∧ 0 < bank.free_cnt ∧
      (∀ (j : Nat) (b : sgx_epc_bank), j < i → s.sgx_epc_banks[j]? = some b →
        b.free_cnt = 0) ∧
      bank.pages[bank.free_cnt - 1]? = some p ∧
      sgx_try_alloc_page impl s = .ok (some p, s') ∧
      (s'.sgx_epc_banks[i]?).map sgx_epc_bank.stack = some (bank.pages, bank.free_cnt - 1) ∧
      s'.sgx_nr_free_pages = s.sgx_nr_free_pages - 1 ∧
      (s'.page p).map sgx_epc_page.impl = some impl ∧
      (∀ j : Nat, j ≠ i →
        (s'.sgx_epc_banks[j]?).map sgx_epc_bank.stack =
          (s.sgx_epc_banks[j]?).map sgx_epc_bank.stack) :=
  sgx_try_alloc_page_first_free impl s hwf hfree

/-- C1, instance: a bank of two pages after `sgx_init_epc_bank`. -/
theorem sgx_try_alloc_page_pops_first_free_witness :
    ∃ (i : Nat) (bank : sgx_epc_bank) (p : PagePtr) (s' : State),
      (sgx_init_epc_bank ⟨some 0, true, true⟩ 0x70000000 0x2000 0
          (State.boot [] false)).2.sgx_epc_banks[i]? = some bank ∧ 0 < bank.free_cnt ∧
      (∀ (j : Nat) (b : sgx_epc_bank), j < i →
        (sgx_init_epc_bank ⟨some 0, true, true⟩ 0x70000000 0x2000 0
          (State.boot [] false)).2.sgx_epc_banks[j]? = some b → b.free_cnt = 0) ∧
      bank.pages[bank.free_cnt - 1]? = some p ∧
      sgx_try_alloc_page (some 7)
        (sgx_init_epc_bank ⟨some 0, true, true⟩ 0x70000000 0x2000 0 (State.boot [] false)).2
        = .ok (some p, s') ∧
      (s'.sgx_epc_banks[i]?).map sgx_epc_bank.stack = some (bank.pages, bank.free_cnt - 1) ∧
      s'.sgx_nr_free_pages =
        (sgx_init_epc_bank ⟨some 0, true, true⟩ 0x70000000 0x2000 0
          (State.boot [] false)).2.sgx_nr_free_pages - 1 ∧
      (s'.page p).map sgx_epc_page.impl = some (some 7) ∧
      (∀ j : Nat, j ≠ i →
        (s'.sgx_epc_banks[j]?).map sgx_epc_bank.stack =
          ((sgx_init_epc_bank ⟨some 0, true, true⟩ 0x70000000 0x2000 0
            (State.boot [] false)).2.sgx_epc_banks[j]?).map sgx_epc_bank.stack) :=
  sgx_try_alloc_page_pops_first_free (some 7)
    (sgx_init_epc_bank ⟨some 0, true, true⟩ 0x70000000 0x2000 0 (State.boot [] false)).2
    (by decide) (by decide)

theorem sgx_try_alloc_page_none_inv {impl : Option ImplPtr} {s s' : State}
    (h : sgx_try_alloc_page impl s = .ok (none, s')) :
    s' = s ∧ ∀ b ∈ s.sgx_epc_banks, b.free_cnt = 0 := by
  unfold sgx_try_alloc_page at h
  split at h
  · cases h
  · rename_i banks hscan
    cases h
    obtain ⟨h1, h2⟩ := try_alloc_scan_none hscan
    subst h1
    exact ⟨rfl, h2⟩
  · split at h <;> cases h

theorem sgx_try_alloc_page_all_zero (impl : Option ImplPtr) {s : State}
    (h : ∀ b ∈ s.sgx_epc_banks, b.free_cnt = 0) :
    sgx_try_alloc_page impl s = .ok (none, s) := by
  unfold sgx_try_alloc_page
  rw [try_alloc_scan_all_zero h]

/-- C2: `sgx_try_alloc_page` returns `NULL` exactly when every bank has `free_cnt == 0`,
and then the whole state (global free count, every free stack and `free_cnt`, the active
page list) is unchanged. -/
theorem sgx_try_alloc_page_null_iff (impl : Option ImplPtr) (s : State) :
    ((∃ s', sgx_try_alloc_page impl s = .ok (none, s')) ↔
        ∀ b ∈ s.sgx_epc_banks, b.free_cnt = 0) ∧
      ∀ s', sgx_try_alloc_page impl s = .ok (none, s') → s' = s := by
  refine ⟨⟨?_, ?_⟩, fun s' h => (sgx_try_alloc_page_none_inv h).1⟩
  · rintro ⟨s', h⟩
    exact (sgx_try_alloc_page_none_inv h).2
  · intro h
    exact ⟨s, sgx_try_alloc_page_all_zero impl h⟩

theorem try_alloc_scan_some_inv {banks banks' : List sgx_epc_bank} {p : PagePtr}
    (h : try_alloc_scan banks = .ok (some p, banks')) :
    ∃ (i : Nat) (bank : sgx_epc_bank), banks[i]? = some bank ∧ bank.free_cnt ≠ 0 ∧
      (∀ (j : Nat) (b : sgx_epc_bank), j < i → banks[j]? = some b → b.free_cnt = 0) ∧
      bank.pages[bank.free_cnt - 1]? = some p ∧
      banks' = banks.set i { bank with free_cnt := bank.free_cnt - 1 } := by
  induction banks generalizing banks' with
  | nil => simp [try_alloc_scan] at h
  | cons b0 rest ih =>
    unfold try_alloc_scan at h
    split at h
    · rename_i hnz
      split at h
      · cases h
      · rename_i page hpage
        cases h
        exact ⟨0, b0, by simp, hnz, by intro j b hj; omega, hpage, by simp⟩
    · rename_i hz
      simp at hz
      split at h
      · cases h
      · rename_i r rest' hrest
        cases h
        obtain ⟨i, bank, hi, hnz, hlow, htop, hset⟩ := ih hrest
        refine ⟨i + 1, bank, by simp [hi], hnz, ?_, htop, by simp [hset]⟩
        intro j b hj hb
        cases j with
        | zero =>
          simp at hb
          subst hb
          exact hz
        | succ j => exact hlow j b (by omega) (by simpa using hb)

theorem sgx_try_alloc_page_some_inv {impl : Option ImplPtr} {s s1 : State} {p : PagePtr}
    (h : sgx_try_alloc_page impl s = .ok (some p, s1)) :
    ∃ (i : Nat) (bank : sgx_epc_bank) (banks' : List sgx_epc_bank),
      s.sgx_epc_banks[i]? = some bank ∧ bank.free_cnt ≠ 0 ∧
      (∀ (j : Nat) (b : sgx_epc_bank), j < i → s.sgx_epc_banks[j]? = some b →
        b.free_cnt = 0) ∧
      bank.pages[bank.free_cnt - 1]? = some p ∧
      store_impl (s.sgx_epc_banks.set i { bank with free_cnt := bank.free_cnt - 1 }) p impl
        = .ok banks' ∧
      s1 = { s with sgx_epc_banks := banks',
                    sgx_nr_free_pages := s.sgx_nr_free_pages - 1 } := by
  unfold sgx_try_alloc_page at h
  split at h
  · cases h
  · cases h
  · rename_i page banks hscan
    split at h
    · cases h
    · rename_i banks' hstore
      cases h
      obtain ⟨i, bank, hi, hnz, hlow, htop, hset⟩ := try_alloc_scan_some_inv hscan
      subst hset
      exact ⟨i, bank, banks', hi, hnz, hlow, htop, hstore, rfl⟩

/-! ## `sgx_free_page` -/

theorem take_set_push {α : Type} (l : List α) (n : Nat) (a : α) (h : n < l.length) :
    (l.set n a).take (n + 1) = l.take n ++ [a] := by
  induction l generalizing n with
  | nil => simp at h
  | cons x xs ih =>
    cases n with
    | zero => simp
    | succ n =>
      have h2 : n < xs.length := by simpa using h
      simp [ih n h2]

theorem sgx_free_page_remove_failed {s : State} {p : PagePtr} {pg : sgx_epc_page}
    (hp : s.page p = some pg) (hrem : (sgx_eremove p s).1 ≠ 0) :
    sgx_free_page p s = .ok ((sgx_eremove p s).1, (sgx_eremove p s).2) := by
  unfold sgx_free_page
  simp only [hp]
  simp [hrem]

theorem sgx_free_page_pushed {s : State} {p : PagePtr} {pg : sgx_epc_page}
    {bank : sgx_epc_bank} (hp : s.page p = some pg) (hrem : (sgx_eremove p s).1 = 0)
    (hb : s.sgx_epc_banks[SGX_EPC_BANK pg]? = some bank)
    (hlt : bank.free_cnt < bank.pages.length) :
    sgx_free_page p s = .ok (0,
      { (sgx_eremove p s).2 with
        sgx_epc_banks := s.sgx_epc_banks.set (SGX_EPC_BANK pg)
          { bank with pages := bank.pages.set bank.free_cnt p,
                      free_cnt := bank.free_cnt + 1 },
        sgx_nr_free_pages := s.sgx_nr_free_pages + 1 }) := by
  unfold sgx_free_page
  simp only [hp]
  have hb' : (sgx_eremove p s).2.sgx_epc_banks[SGX_EPC_BANK pg]? = some bank := hb
  simp [hrem, hb', hlt]
  exact ⟨rfl, rfl⟩

theorem sgx_free_page_inv {s s' : State} {p : PagePtr} {ret : Int}
    (h : sgx_free_page p s = .ok (ret, s')) :
    ∃ pg, s.page p = some pg ∧ ret = (sgx_eremove p s).1 ∧
      ((ret ≠ 0 ∧ s' = (sgx_eremove p s).2) ∨
       (ret = 0 ∧ ∃ bank, s.sgx_epc_banks[SGX_EPC_BANK pg]? = some bank ∧
          bank.free_cnt < bank.pages.length ∧
          s' = { (sgx_eremove p s).2 with
            sgx_epc_banks := s.sgx_epc_banks.set (SGX_EPC_BANK pg)
              { bank with pages := bank.pages.set bank.free_cnt p,
                          free_cnt := bank.free_cnt + 1 },
            sgx_nr_free_pages := s.sgx_nr_free_pages + 1 })) := by
  unfold sgx_free_page at h
  split at h
  · cases h
  · rename_i pg hp
    refine ⟨pg, hp, ?_⟩
    simp only at h
    split at h
    · rename_i hne
      cases h
      exact ⟨rfl, Or.inl ⟨hne, rfl⟩⟩
    · rename_i hz
      simp at hz
      split at h
      · cases h
      · rename_i bank hb
        split at h
        · rename_i hlt
          cases h
          exact ⟨hz.symm, Or.inr ⟨rfl, bank, hb, hlt, rfl⟩⟩
        · cases h

theorem page_at_set_stack {banks : List sgx_epc_bank} {i : Nat} {bank : sgx_epc_bank}
    (hb : banks[i]? = some bank) (pages : List PagePtr) (cnt : Nat) (q : PagePtr) :
    page_at (banks.set i { bank with pages := pages, free_cnt := cnt }) q
      = page_at banks q := by
  unfold page_at
  have hi : i < banks.length := (List.getElem?_eq_some_iff.mp hb).1
  by_cases h : i = q.bank
  · subst h
    rw [List.getElem?_set_self hi, hb]
  · rw [List.getElem?_set_ne h]

theorem example_one_allocated_reached (hw : List Int) :
    sgx_try_alloc_page (some 7) (example_init hw)
      = .ok (some ⟨0, 1⟩, example_one_allocated hw) := by
  rfl

/-- C6: when `REMOVE` on the page `p` fails with `ret`, `sgx_free_page(p)` returns `ret`
and only records that the instruction was issued: the banks (every free stack and
`free_cnt`), the global free count and the active page list are unchanged. -/
theorem sgx_free_page_remove_fails (s : State) (p : PagePtr) (pg : sgx_epc_page)
    (ret : Int) (hp : s.page p = some pg) (hret : (sgx_eremove p s).1 = ret)
    (hne : ret ≠ 0) :
    ∃ s', sgx_free_page p s = .ok (ret, s') ∧
      s' = { s with hw_results := s.hw_results.tail, hw_log := s.hw_log ++ [.EREMOVE p] } ∧
      s'.sgx_epc_banks = s.sgx_epc_banks ∧
      s'.sgx_nr_free_pages = s.sgx_nr_free_pages ∧
      s'.sgx_active_page_list = s.sgx_active_page_list := by
  subst hret
  exact ⟨_, sgx_free_page_remove_failed hp hne, rfl, rfl, rfl, rfl⟩

/-- C6, instance: `REMOVE` answers `SGX_CHILD_PRESENT`-like code 13 on an allocated page. -/
theorem sgx_free_page_remove_fails_witness :
    ∃ s', sgx_free_page ⟨0, 1⟩ (example_one_allocated [13]) = .ok (13, s') ∧
      s' = { example_one_allocated [13] with
              hw_results := (example_one_allocated [13]).hw_results.tail,
              hw_log := (example_one_allocated [13]).hw_log ++ [.EREMOVE ⟨0, 1⟩] } ∧
      s'.sgx_epc_banks = (example_one_allocated [13]).sgx_epc_banks ∧
      s'.sgx_nr_free_pages = (example_one_allocated [13]).sgx_nr_free_pages ∧
      s'.sgx_active_page_list = (example_one_allocated [13]).sgx_active_page_list :=
  sgx_free_page_remove_fails (example_one_allocated [13]) ⟨0, 1⟩ ⟨0x70001000, some 7⟩ 13
    (by decide) (by decide) (by decide)

/-- C7, as stated, fails: page 0 of `example_one_allocated` is on the free stack of its
bank; `sgx_free_page` on it returns 0 and the page is then on that stack twice. -/
theorem sgx_free_page_on_free_page_twice :
    sgx_free_page ⟨0, 0⟩ (example_one_allocated []) = .ok (0, example_double_free) ∧
      live_occurrences (example_one_allocated []) ⟨0, 0⟩ = some 1 ∧
      live_occurrences example_double_free ⟨0, 0⟩ = some 2 := by
  decide

/-- C7, amended: if `sgx_free_page(p)` returns 0 in a state where `p` is not among the live
entries of the free stack of its bank, then `REMOVE` on `p` succeeded and afterwards `p`
occurs exactly once among the live entries of the free stack of its bank. -/
theorem sgx_free_page_success_once (s s' : State) (p : PagePtr)
    (h : sgx_free_page p s = .ok (0, s')) (hoff : live_occurrences s p = some 0) :
    (sgx_eremove p s).1 = 0 ∧ live_occurrences s' p = some 1 := by
  obtain ⟨pg, hp, hret, hcase⟩ := sgx_free_page_inv h
  rcases hcase with ⟨hne, _⟩ | ⟨_, bank, hb, hlt, hs'⟩
  · exact absurd rfl hne
  · refine ⟨hret.symm, ?_⟩
    have hcount : bank.live.count p = 0 := by
      unfold live_occurrences at hoff
      simp only [hp, hb] at hoff
      simpa using hoff
    have hi : SGX_EPC_BANK pg < s.sgx_epc_banks.length := (List.getElem?_eq_some_iff.mp hb).1
    have hp' : s'.page p = some pg := by
      subst hs'
      unfold State.page
      simp only
      rw [page_at_set_stack hb]
      exact hp
    unfold live_occurrences
    rw [hp']
    subst hs'
    simp only
    rw [List.getElem?_set_self hi]
    simp only [Option.map_some', sgx_epc_bank.live]
    rw [take_set_push _ _ _ hlt]
    unfold sgx_epc_bank.live at hcount
    simp [hcount]

/-- C7, amended, instance: freeing the allocated page 1 of `example_one_allocated`. -/
theorem sgx_free_page_success_once_witness :
    (sgx_eremove ⟨0, 1⟩ (example_one_allocated [])).1 = 0 ∧
      live_occurrences
        { example_one_allocated [] with
          sgx_epc_banks :=
            [{ pa := 0x70000000, va := 0xffffc90000000000, size := 0x2000,
               pages_data := [⟨0x70000000, none⟩, ⟨0x70001000, some 7⟩],
               pages := [⟨0, 0⟩, ⟨0, 1⟩], free_cnt := 2 }],
          sgx_nr_free_pages := 2, hw_log := [.EREMOVE ⟨0, 1⟩] } ⟨0, 1⟩ = some 1 :=
  sgx_free_page_success_once (example_one_allocated []) _ ⟨0, 1⟩ (by decide) (by decide)

/-! ## Alloc/free round trip -/

theorem set_same {α : Type} (l : List α) (n : Nat) (a : α) (h : l[n]? = some a) :
    l.set n a = l := by
  induction l generalizing n with
  | nil => rfl
  | cons x xs ih =>
    cases n with
    | zero =>
      simp at h
      simp [h]
    | succ n =>
      simp at h
      simp [ih n h]

theorem round_trip_core {impl : Option ImplPtr} {s s1 : State} {p : PagePtr}
    (hwf : s.WellFormed) (h1 : sgx_try_alloc_page impl s = .ok (some p, s1))
    (hw : List Int) (hlog : List HwOp) (sig : Bool) (wk : Nat)
    (hrem : hw.headD 0 = 0) :
    ∃ s2, sgx_free_page p
        { s1 with hw_results := hw, hw_log := hlog, signal_pending := sig,
                  ksgxswapd_wakeups := wk } = .ok (0, s2) ∧
      pool_view s2 = pool_view s := by
  obtain ⟨i, bank, banks', hi, hnz, hlow, htop, hstore, hs1⟩ := sgx_try_alloc_page_some_inv h1
  obtain ⟨hle, hlive⟩ := wellFormed_at hwf hi
  have hilt : i < s.sgx_epc_banks.length := (List.getElem?_eq_some_iff.mp hi).1
  have hmem : p ∈ bank.live := by
    unfold sgx_epc_bank.live
    rw [List.mem_iff_getElem?]
    exact ⟨bank.free_cnt - 1, by rw [List.getElem?_take_of_lt (by omega)]; exact htop⟩
  obtain ⟨pg0, hpg0, hpg1⟩ := store_impl_page_self hstore
  have hpg : page_at s.sgx_epc_banks p = some pg0 := by
    rw [← hpg0]
    exact (page_at_set_stack hi bank.pages (bank.free_cnt - 1) p).symm
  have hbank : SGX_EPC_BANK pg0 = i := by
    have := hlive p hmem
    unfold State.page at this
    rw [hpg] at this
    simpa using this
  have hb1 := store_impl_stack_at hstore i
  rw [List.getElem?_set_self hilt] at hb1
  cases hb1' : banks'[i]? with
  | none => simp [hb1'] at hb1
  | some b1 =>
    rw [hb1'] at hb1
    simp only [Option.map_some', sgx_epc_bank.stack, Option.some.injEq, Prod.mk.injEq] at hb1
    obtain ⟨hpages, hcnt⟩ := hb1
    subst hs1
    have hfree := @sgx_free_page_pushed
      { sgx_epc_banks := banks', sgx_nr_free_pages := s.sgx_nr_free_pages - 1,
        sgx_active_page_list := s.sgx_active_page_list, hw_results := hw, hw_log := hlog,
        signal_pending := sig, ksgxswapd_wakeups := wk }
      p { pg0 with impl := impl } b1 hpg1 hrem (by rw [show SGX_EPC_BANK { pg0 with impl := impl } = i from hbank]; exact hb1')
      (by rw [hpages, hcnt]; omega)
    refine ⟨_, hfree, ?_⟩
    unfold pool_view
    simp only [show SGX_EPC_BANK { pg0 with impl := impl } = i from hbank]
    refine Prod.ext ?_ ?_
    · simp only
      rw [List.map_set, store_impl_stack hstore, List.map_set, List.set_set]
      apply set_same
      rw [List.getElem?_map, hi]
      simp only [Option.map_some', sgx_epc_bank.stack, hpages, hcnt, Option.some.injEq,
        Prod.mk.injEq]
      constructor
      · exact (set_same _ _ _ htop).symm
      · omega
    · simp only
      omega

/-- C4, as stated, fails for `sgx_alloc_page`: with no free page and one reclaimable page
the call reclaims that page and returns it; after the following `sgx_free_page`, whose
`REMOVE` succeeds, the global free count is 1 and the bank's `free_cnt` is 1, while both
were 0 before the allocation. -/
theorem sgx_alloc_page_reclaim_then_free_not_restored :
    sgx_alloc_page accept_env (some 9) 0 2 (example_reclaimable, ())
        = .ok (.page ⟨0, 0⟩, (example_reclaimed_allocated, ())) ∧
      (sgx_eremove ⟨0, 0⟩ example_reclaimed_allocated).1 = 0 ∧
      (sgx_free_page ⟨0, 0⟩ example_reclaimed_allocated).map
          (fun r => (r.1, pool_view r.2)) = .ok (0, ([([⟨0, 0⟩], 1)], 1)) ∧
      pool_view example_reclaimable = ([([⟨0, 0⟩], 0)], 0) := by
  decide

/-- In a well-formed state in which `sgx_try_alloc_page` returns a page `p`,
an immediately following `sgx_free_page(p)` whose `REMOVE` succeeds restores the global
free count and, in every bank, the pointer array and `free_cnt` (hence the live entries of
the free stack) to their values before the allocation; in such a state `sgx_alloc_page`
returns the same page without a reclaim pass and the same holds for it. -/
theorem round_trip_first_attempt (impl : Option ImplPtr) (s s1 : State) (p : PagePtr)
    (hwf : s.WellFormed) (h1 : sgx_try_alloc_page impl s = .ok (some p, s1))
    (hrem : (sgx_eremove p s1).1 = 0) :
    (∃ s2, sgx_free_page p s1 = .ok (0, s2) ∧ pool_view s2 = pool_view s) ∧
    (∀ (Ω : Type) (env : Env Ω) (ω : Ω) (flags fuel : Nat),
      sgx_alloc_page env impl flags (fuel + 1) (s, ω) = .ok (.page p, (alloc_finish s1, ω)) ∧
      ∃ s2, sgx_free_page p (alloc_finish s1) = .ok (0, s2) ∧ pool_view s2 = pool_view s) := by
  have hrem' : s1.hw_results.headD 0 = 0 := hrem
  constructor
  · exact round_trip_core hwf h1 s1.hw_results s1.hw_log s1.signal_pending
      s1.ksgxswapd_wakeups hrem'
  · intro Ω env ω flags fuel
    constructor
    · simp [sgx_alloc_page, h1]
    · unfold alloc_finish
      split
      · exact round_trip_core hwf h1 s1.hw_results s1.hw_log s1.signal_pending
          (s1.ksgxswapd_wakeups + 1) hrem'
      · exact round_trip_core hwf h1 s1.hw_results s1.hw_log s1.signal_pending
          s1.ksgxswapd_wakeups hrem'

/-! ## `sgx_alloc_page`: failures -/

theorem sgx_try_alloc_page_not_none (impl : Option ImplPtr) {s : State}
    (h : ∃ b ∈ s.sgx_epc_banks, 0 < b.free_cnt) (s' : State) :
    sgx_try_alloc_page impl s ≠ .ok (none, s') := by
  intro hn
  obtain ⟨b, hb, hpos⟩ := h
  have := (sgx_try_alloc_page_none_inv hn).2 b hb
  omega

/-- C3: when no bank has a free page, `sgx_alloc_page` returns `-ENOMEM` if the active
page list is empty, whatever the flags and the pending signal; otherwise `-EBUSY` if
`SGX_ALLOC_ATOMIC` is set; otherwise `-ERESTARTSYS` if a signal is pending.  When some
bank has a free page it returns no error, and in a well-formed state it returns the page
of `sgx_try_alloc_page`. -/
theorem sgx_alloc_page_failure_order {Ω : Type} (env : Env Ω) (impl : Option ImplPtr)
    (flags fuel : Nat) (w : World Ω) :
    ((∀ b ∈ w.1.sgx_epc_banks, b.free_cnt = 0) →
      (w.1.sgx_active_page_list = [] →
        sgx_alloc_page env impl flags (fuel + 1) w = .ok (.err (-ENOMEM), w)) ∧
      (w.1.sgx_active_page_list ≠ [] → flags &&& SGX_ALLOC_ATOMIC ≠ 0 →
        sgx_alloc_page env impl flags (fuel + 1) w
          = .ok (.err (-EBUSY), (alloc_finish w.1, w.2))) ∧
      (w.1.sgx_active_page_list ≠ [] → flags &&& SGX_ALLOC_ATOMIC = 0 →
        w.1.signal_pending = true →
        sgx_alloc_page env impl flags (fuel + 1) w
          = .ok (.err (-ERESTARTSYS), (alloc_finish w.1, w.2)))) ∧
    ((∃ b ∈ w.1.sgx_epc_banks, 0 < b.free_cnt) →
      (∀ errno w', sgx_alloc_page env impl flags (fuel + 1) w ≠ .ok (.err errno, w')) ∧
      (w.1.WellFormed → ∃ p s1, sgx_try_alloc_page impl w.1 = .ok (some p, s1) ∧
        sgx_alloc_page env impl flags (fuel + 1) w = .ok (.page p, (alloc_finish s1, w.2)))) := by
  constructor
  · intro hz
    have htry := sgx_try_alloc_page_all_zero impl hz
    refine ⟨?_, ?_, ?_⟩
    · intro hl
      simp [sgx_alloc_page, htry, hl]
    · intro hl hat
      simp [sgx_alloc_page, htry, hl, hat]
    · intro hl hat hsig
      simp [sgx_alloc_page, htry, hl, hat, hsig]
  · intro hfree
    constructor
    · intro errno w' h
      unfold sgx_alloc_page at h
      split at h
      · cases h
      · cases h
      · rename_i s1 htry
        exact sgx_try_alloc_page_not_none impl hfree s1 htry
    · intro hwf
      obtain ⟨i, bank, p, s1, _, _, _, _, htry, _⟩ :=
        sgx_try_alloc_page_first_free impl w.1 hwf hfree
      exact ⟨p, s1, htry, by simp [sgx_alloc_page, htry]⟩

/-- C3, instance: an atomic allocation with no free page and a non-empty active list. -/
theorem sgx_alloc_page_failure_order_witness :
    sgx_alloc_page accept_env (some 9) 1 (0 + 1) (example_reclaimable, ())
      = .ok (.err (-EBUSY), (alloc_finish example_reclaimable, ())) :=
  ((sgx_alloc_page_failure_order accept_env (some 9) 1 0 (example_reclaimable, ())).1
    (by decide)).2.1 (by decide) (by decide)

/-! ## Properties kept by `sgx_swap_cluster` and `sgx_alloc_page` -/

theorem page_ops_inv {Ω : Type} {env : Env Ω} {s : State} {p : PagePtr}
    {ops : sgx_epc_page_ops Ω} (h : page_ops env s p = .ok ops) :
    ∃ pg impl, s.page p = some pg ∧ pg.impl = some impl ∧ ops = env.ops_of impl := by
  unfold page_ops at h
  split at h
  · cases h
  · rename_i pg hpg
    split at h
    · cases h
    · rename_i impl himpl
      cases h
      exact ⟨pg, impl, hpg, himpl, rfl⟩

theorem swap_scan_iter_preserves {Ω : Type} {env : Env Ω} {P : State → Prop}
    (hlist : ∀ s l, P s → P (s.with_list l))
    (henv : ∀ impl, (env.ops_of impl).Preserves P)
    {cluster cluster' : List PagePtr} {tr tr' : List Event} {w w' : World Ω}
    (hP : P w.1) (h : swap_scan_iter env cluster tr w = .ok (some (cluster', tr', w'))) :
    P w'.1 := by
  unfold swap_scan_iter at h
  split at h
  · cases h
  · rename_i epc_page rest hl
    split at h
    · cases h
    · rename_i ops hops
      obtain ⟨_, impl, _, _, rfl⟩ := page_ops_inv hops
      split at h
      · cases h
      · rename_i w1 hget
        cases h
        exact hlist _ _ ((henv impl).1 _ _ _ _ hP hget)
      · rename_i w1 hget
        have hP1 := (henv impl).1 _ _ _ _ hP hget
        simp only at h
        split at h
        · cases h
        · rename_i ops2 hops2
          obtain ⟨_, impl2, _, _, rfl⟩ := page_ops_inv hops2
          have hP2 : P (w1.1.with_list (list_del epc_page w1.1.sgx_active_page_list)) :=
            hlist _ _ hP1
          split at h
          · cases h
          · rename_i w3 hrec
            cases h
            exact (henv impl2).2.2.1 _ _ _ _ hP2 hrec
          · rename_i w3 hrec
            have hP3 := (henv impl2).2.2.1 _ _ _ _ hP2 hrec
            split at h
            · cases h
            · rename_i ops3 hops3
              obtain ⟨_, impl3, _, _, rfl⟩ := page_ops_inv hops3
              split at h
              · cases h
              · rename_i w5 hput
                cases h
                exact (henv impl3).2.1 epc_page
                  (w3.1.with_list (list_add_tail epc_page w3.1.sgx_active_page_list), w3.2)
                  _ (hlist _ _ hP3) hput

theorem swap_scan_preserves {Ω : Type} {env : Env Ω} {P : State → Prop}
    (hlist : ∀ s l, P s → P (s.with_list l))
    (henv : ∀ impl, (env.ops_of impl).Preserves P) (n : Nat)
    {cluster cluster' : List PagePtr} {tr tr' : List Event} {w w' : World Ω}
    (hP : P w.1) (h : swap_scan env n cluster tr w = .ok (cluster', tr', w')) :
    P w'.1 := by
  induction n generalizing cluster tr w with
  | zero =>
    simp only [swap_scan] at h
    cases h
    exact hP
  | succ n ih =>
    unfold swap_scan at h
    split at h
    · cases h
    · cases h
      exact hP
    · rename_i c1 tr1 w1 hiter
      exact ih (swap_scan_iter_preserves hlist henv hP hiter) h

theorem swap_block_preserves {Ω : Type} {env : Env Ω} {P : State → Prop}
    (henv : ∀ impl, (env.ops_of impl).Preserves P) (cluster : List PagePtr)
    {tr tr' : List Event} {w w' : World Ω}
    (hP : P w.1) (h : swap_block env cluster tr w = .ok (tr', w')) :
    P w'.1 := by
  induction cluster generalizing tr w with
  | nil =>
    simp only [swap_block] at h
    cases h
    exact hP
  | cons epc_page rest ih =>
    unfold swap_block at h
    split at h
    · cases h
    · rename_i ops hops
      obtain ⟨_, impl, _, _, rfl⟩ := page_ops_inv hops
      split at h
      · cases h
      · rename_i w1 hblock
        exact ih ((henv impl).2.2.2.1 _ _ _ hP hblock) h

theorem swap_write_iter_preserves {Ω : Type} {env : Env Ω} {P : State → Prop}
    (hfree : ∀ p s ret s', P s → sgx_free_page p s = .ok (ret, s') → P s')
    (henv : ∀ impl, (env.ops_of impl).Preserves P) {epc_page : PagePtr}
    {tr tr' : List Event} {w w' : World Ω}
    (hP : P w.1) (h : swap_write_iter env epc_page tr w = .ok (tr', w')) :
    P w'.1 := by
  unfold swap_write_iter at h
  split at h
  · cases h
  · rename_i ops hops
    obtain ⟨_, impl, _, _, rfl⟩ := page_ops_inv hops
    split at h
    · cases h
    · rename_i w1 hwrite
      have hP1 := (henv impl).2.2.2.2 _ _ _ hP hwrite
      split at h
      · cases h
      · rename_i ops2 hops2
        obtain ⟨_, impl2, _, _, rfl⟩ := page_ops_inv hops2
        split at h
        · cases h
        · rename_i w2 hput
          have hP2 := (henv impl2).2.1 _ _ _ hP1 hput
          split at h
          · cases h
          · rename_i ret s3 hfr
            cases h
            exact hfree _ _ _ _ hP2 hfr

theorem swap_write_preserves {Ω : Type} {env : Env Ω} {P : State → Prop}
    (hfree : ∀ p s ret s', P s → sgx_free_page p s = .ok (ret, s') → P s')
    (henv : ∀ impl, (env.ops_of impl).Preserves P) (cluster : List PagePtr)
    {tr tr' : List Event} {w w' : World Ω}
    (hP : P w.1) (h : swap_write env cluster tr w = .ok (tr', w')) :
    P w'.1 := by
  induction cluster generalizing tr w with
  | nil =>
    simp only [swap_write] at h
    cases h
    exact hP
  | cons epc_page rest ih =>
    unfold swap_write at h
    split at h
    · cases h
    · rename_i tr1 w1 hiter
      exact ih (swap_write_iter_preserves hfree henv hP hiter) h

theorem sgx_swap_cluster_preserves {Ω : Type} {env : Env Ω} {P : State → Prop}
    (hlist : ∀ s l, P s → P (s.with_list l))
    (hfree : ∀ p s ret s', P s → sgx_free_page p s = .ok (ret, s') → P s')
    (henv : ∀ impl, (env.ops_of impl).Preserves P)
    {tr : List Event} {w w' : World Ω}
    (hP : P w.1) (h : sgx_swap_cluster env w = .ok (tr, w')) :
    P w'.1 := by
  unfold sgx_swap_cluster at h
  split at h
  · cases h
  · rename_i cluster tr1 w1 hscan
    split at h
    · cases h
    · rename_i tr2 w2 hblock
      exact swap_write_preserves hfree henv cluster
        (swap_block_preserves henv cluster (swap_scan_preserves hlist henv _ hP hscan) hblock) h

theorem sgx_alloc_page_preserves {Ω : Type} {env : Env Ω} {P : State → Prop}
    (hlist : ∀ s l, P s → P (s.with_list l))
    (hfree : ∀ p s ret s', P s → sgx_free_page p s = .ok (ret, s') → P s')
    (htry : ∀ impl s r s', P s → sgx_try_alloc_page impl s = .ok (r, s') → P s')
    (hfin : ∀ s, P s → P (alloc_finish s))
    (henv : env.Preserves P) (impl : Option ImplPtr) (flags fuel : Nat)
    {r : AllocRet} {w w' : World Ω}
    (hP : P w.1) (h : sgx_alloc_page env impl flags fuel w = .ok (r, w')) :
    P w'.1 := by
  induction fuel generalizing w with
  | zero => simp [sgx_alloc_page] at h
  | succ fuel ih =>
    unfold sgx_alloc_page at h
    split at h
    · cases h
    · rename_i entry s1 htry1
      cases h
      exact hfin _ (htry _ _ _ _ hP htry1)
    · rename_i s1 htry1
      have hP1 := htry _ _ _ _ hP htry1
      split at h
      · cases h
        exact hP1
      · split at h
        · cases h
          exact hfin _ hP1
        · split at h
          · cases h
            exact hfin _ hP1
          · split at h
            · cases h
            · rename_i tr w2 hswap
              have hP2 : P w2.1 :=
                sgx_swap_cluster_preserves hlist hfree henv.1 (w := (s1, w.2)) hP1 hswap
              exact ih (henv.2 _ hP2) h

/-! ## The counter invariant -/

theorem sum_free_cnt_eq_of_stack {banks banks' : List sgx_epc_bank}
    (h : banks'.map sgx_epc_bank.stack = banks.map sgx_epc_bank.stack) :
    sum_free_cnt banks' = sum_free_cnt banks := by
  have key : ∀ l : List sgx_epc_bank,
      sum_free_cnt l = ((l.map sgx_epc_bank.stack).map Prod.snd).sum := by
    intro l
    unfold sum_free_cnt
    rw [List.map_map]
    rfl
  rw [key, key, h]

theorem sum_free_cnt_set {banks : List sgx_epc_bank} {i : Nat} {bank : sgx_epc_bank}
    (hi : banks[i]? = some bank) (b' : sgx_epc_bank) :
    sum_free_cnt (banks.set i b') + bank.free_cnt = sum_free_cnt banks + b'.free_cnt := by
  induction banks generalizing i with
  | nil => simp at hi
  | cons b0 rest ih =>
    cases i with
    | zero =>
      simp at hi
      subst hi
      simp [sum_free_cnt]
      omega
    | succ i =>
      have hi2 : rest[i]? = some bank := by simpa using hi
      have := ih hi2
      simp [sum_free_cnt] at this ⊢
      omega

theorem countersAgree_with_list (s : State) (l : List PagePtr) (h : s.CountersAgree) :
    (s.with_list l).CountersAgree := h

theorem countersAgree_alloc_finish (s : State) (h : s.CountersAgree) :
    (alloc_finish s).CountersAgree := by
  unfold alloc_finish
  split
  · exact h
  · exact h

theorem countersAgree_boot (hw : List Int) (sig : Bool) : (State.boot hw sig).CountersAgree := by
  simp [State.CountersAgree, State.boot, sum_free_cnt]

theorem countersAgree_init (e : InitEnv) (addr size index : Nat) (s : State)
    (h : s.CountersAgree) : (sgx_init_epc_bank e addr size index s).2.CountersAgree := by
  unfold sgx_init_epc_bank
  simp only
  split
  · exact h
  · split
    · exact h
    · split
      · exact h
      · unfold State.CountersAgree at h ⊢
        simp only [sum_free_cnt, List.map_append, List.sum_append, List.map_cons,
          List.map_nil, List.sum_cons, List.sum_nil, add_zero] at h ⊢
        rw [← h]
        push_cast
        rfl

theorem countersAgree_try_alloc (impl : Option ImplPtr) (s : State) (r : Option PagePtr)
    (s' : State) (h : s.CountersAgree) (htry : sgx_try_alloc_page impl s = .ok (r, s')) :
    s'.CountersAgree := by
  cases r with
  | none =>
    rw [(sgx_try_alloc_page_none_inv htry).1]
    exact h
  | some p =>
    obtain ⟨i, bank, banks', hi, hnz, _, _, hstore, hs'⟩ := sgx_try_alloc_page_some_inv htry
    subst hs'
    unfold State.CountersAgree at h ⊢
    simp only
    rw [sum_free_cnt_eq_of_stack (store_impl_stack hstore)]
    have := sum_free_cnt_set hi { bank with free_cnt := bank.free_cnt - 1 }
    simp only at this
    omega

theorem countersAgree_free (p : PagePtr) (s : State) (ret : Int) (s' : State)
    (h : s.CountersAgree) (hfree : sgx_free_page p s = .ok (ret, s')) :
    s'.CountersAgree := by
  obtain ⟨pg, _, _, hcase⟩ := sgx_free_page_inv hfree
  rcases hcase with ⟨_, hs'⟩ | ⟨_, bank, hb, _, hs'⟩
  · subst hs'
    exact h
  · subst hs'
    unfold State.CountersAgree at h ⊢
    simp only
    have := sum_free_cnt_set hb
      { bank with pages := bank.pages.set bank.free_cnt p, free_cnt := bank.free_cnt + 1 }
    simp only at this
    omega

theorem accept_env_preserves (P : State → Prop) : accept_env.Preserves P := by
  refine ⟨fun impl => ⟨?_, ?_, ?_, ?_, ?_⟩, fun w h => h⟩
  · intro p w r w' hP h
    cases h
    exact hP
  · intro p w w' hP h
    cases h
    exact hP
  · intro p w r w' hP h
    cases h
    exact hP
  · intro p w w' hP h
    cases h
    exact hP
  · intro p w w' hP h
    cases h
    exact hP

/-! ## The trace of `sgx_swap_cluster` -/

theorem swap_scan_iter_trace {Ω : Type} {env : Env Ω}
    {cluster cluster' : List PagePtr} {tr tr' : List Event} {w w' : World Ω}
    (h : swap_scan_iter env cluster tr w = .ok (some (cluster', tr', w'))) :
    ∃ t, tr' = tr ++ t ∧ blocked_pages t = [] ∧ written_pages t = [] := by
  unfold swap_scan_iter at h
  split at h
  · cases h
  · split at h
    · cases h
    · split at h
      · cases h
      · cases h
        exact ⟨_, rfl, rfl, rfl⟩
      · simp only at h
        split at h
        · cases h
        · split at h
          · cases h
          · cases h
            exact ⟨_, rfl, rfl, rfl⟩
          · split at h
            · cases h
            · split at h
              · cases h
              · cases h
                exact ⟨_, rfl, rfl, rfl⟩

theorem swap_scan_trace {Ω : Type} {env : Env Ω} (n : Nat)
    {cluster cluster' : List PagePtr} {tr tr' : List Event} {w w' : World Ω}
    (h : swap_scan env n cluster tr w = .ok (cluster', tr', w')) :
    ∃ t, tr' = tr ++ t ∧ blocked_pages t = [] ∧ written_pages t = [] := by
  induction n generalizing cluster tr w with
  | zero =>
    simp only [swap_scan] at h
    cases h
    exact ⟨[], by simp, rfl, rfl⟩
  | succ n ih =>
    unfold swap_scan at h
    split at h
    · cases h
    · cases h
      exact ⟨[], by simp, rfl, rfl⟩
    · rename_i c1 tr1 w1 hiter
      obtain ⟨t1, rfl, hb1, hw1⟩ := swap_scan_iter_trace hiter
      obtain ⟨t2, rfl, hb2, hw2⟩ := ih h
      refine ⟨t1 ++ t2, by simp, ?_, ?_⟩
      · simp [blocked_pages, List.filterMap_append] at hb1 hb2 ⊢
        exact ⟨hb1, hb2⟩
      · simp [written_pages, List.filterMap_append] at hw1 hw2 ⊢
        exact ⟨hw1, hw2⟩

theorem swap_block_trace {Ω : Type} {env : Env Ω} (cluster : List PagePtr)
    {tr tr' : List Event} {w w' : World Ω}
    (h : swap_block env cluster tr w = .ok (tr', w')) :
    tr' = tr ++ cluster.map Event.block := by
  induction cluster generalizing tr w with
  | nil =>
    simp only [swap_block] at h
    cases h
    simp
  | cons epc_page rest ih =>
    unfold swap_block at h
    split at h
    · cases h
    · split at h
      · cases h
      · rw [ih h]
        simp

theorem swap_write_iter_trace {Ω : Type} {env : Env Ω} {epc_page : PagePtr}
    {tr tr' : List Event} {w w' : World Ω}
    (h : swap_write_iter env epc_page tr w = .ok (tr', w')) :
    ∃ ret, tr' = tr ++ [.write epc_page, .put epc_page, .free_page epc_page ret] := by
  unfold swap_write_iter at h
  split at h
  · cases h
  · split at h
    · cases h
    · split at h
      · cases h
      · split at h
        · cases h
        · split at h
          · cases h
          · cases h
            exact ⟨_, rfl⟩

theorem swap_write_trace {Ω : Type} {env : Env Ω} (cluster : List PagePtr)
    {tr tr' : List Event} {w w' : World Ω}
    (h : swap_write env cluster tr w = .ok (tr', w')) :
    ∃ t, tr' = tr ++ t ∧ blocked_pages t = [] ∧ written_pages t = cluster := by
  induction cluster generalizing tr w with
  | nil =>
    simp only [swap_write] at h
    cases h
    exact ⟨[], by simp, rfl, rfl⟩
  | cons epc_page rest ih =>
    unfold swap_write at h
    split at h
    · cases h
    · rename_i tr1 w1 hiter
      obtain ⟨ret, rfl⟩ := swap_write_iter_trace hiter
      obtain ⟨t2, rfl, hb2, hw2⟩ := ih h
      refine ⟨[.write epc_page, .put epc_page, .free_page epc_page ret] ++ t2, by simp, ?_, ?_⟩
      · simp only [blocked_pages] at hb2 ⊢
        rw [List.filterMap_append, hb2]
        rfl
      · simp only [written_pages] at hw2 ⊢
        rw [List.filterMap_append, hw2]
        rfl

theorem filterMap_eq_nil_getElem {α β : Type} {f : α → Option β} {l : List α}
    (h : l.filterMap f = []) {i : Nat} {a : α} (hi : l[i]? = some a) : f a = none := by
  have hmem : a ∈ l := List.mem_iff_getElem?.mpr ⟨i, hi⟩
  cases hf : f a with
  | none => rfl
  | some b =>
    have : b ∈ l.filterMap f := List.mem_filterMap.mpr ⟨a, hmem, hf⟩
    rw [h] at this
    cases this

theorem blocked_pages_map_block (l : List PagePtr) :
    blocked_pages (l.map Event.block) = l := by
  induction l with
  | nil => rfl
  | cons p rest ih =>
    simp only [blocked_pages, List.map_cons] at ih ⊢
    rw [List.filterMap_cons_some (b := p) (by rfl), ih]

theorem written_pages_map_block (l : List PagePtr) :
    written_pages (l.map Event.block) = [] := by
  induction l with
  | nil => rfl
  | cons p rest ih =>
    simp only [written_pages, List.map_cons] at ih ⊢
    rw [List.filterMap_cons_none (by rfl), ih]

theorem sgx_swap_cluster_trace {Ω : Type} {env : Env Ω} {w w' : World Ω} {tr : List Event}
    (h : sgx_swap_cluster env w = .ok (tr, w')) :
    ∃ (cluster : List PagePtr) (t1 t3 : List Event),
      swap_cluster_pages env w = .ok cluster ∧
      tr = t1 ++ cluster.map Event.block ++ t3 ∧
      blocked_pages t1 = [] ∧ written_pages t1 = [] ∧
      blocked_pages t3 = [] ∧ written_pages t3 = cluster := by
  unfold sgx_swap_cluster at h
  split at h
  · cases h
  · rename_i cluster tr1 w1 hscan
    split at h
    · cases h
    · rename_i tr2 w2 hblock
      obtain ⟨t1, ht1, hb1, hw1⟩ := swap_scan_trace _ hscan
      have ht2 := swap_block_trace cluster hblock
      obtain ⟨t3, ht3, hb3, hw3⟩ := swap_write_trace cluster h
      refine ⟨cluster, t1, t3, ?_, ?_, hb1, hw1, hb3, hw3⟩
      · unfold swap_cluster_pages
        rw [hscan]
      · rw [ht3, ht2, ht1]
        simp

theorem block_before_write {X Y : List Event} (hX : written_pages X = [])
    (hY : blocked_pages Y = []) {i j : Nat} {p q : PagePtr}
    (hi : (X ++ Y)[i]? = some (.block p)) (hj : (X ++ Y)[j]? = some (.write q)) :
    i < j := by
  have h1 : i < X.length := by
    by_contra hge
    rw [List.getElem?_append_right (by omega)] at hi
    have := filterMap_eq_nil_getElem hY hi
    simp [Event.blocked] at this
  have h2 : X.length ≤ j := by
    by_contra hlt
    rw [List.getElem?_append_left (by omega)] at hj
    have := filterMap_eq_nil_getElem hX hj
    simp [Event.written] at this
  omega

/-! ## Bounds on one `sgx_swap_cluster` -/

theorem swap_scan_iter_length {Ω : Type} {env : Env Ω}
    {cluster cluster' : List PagePtr} {tr tr' : List Event} {w w' : World Ω}
    (h : swap_scan_iter env cluster tr w = .ok (some (cluster', tr', w'))) :
    cluster'.length ≤ cluster.length + 1 := by
  unfold swap_scan_iter at h
  split at h
  · cases h
  · split at h
    · cases h
    · split at h
      · cases h
      · cases h
        omega
      · simp only at h
        split at h
        · cases h
        · split at h
          · cases h
          · cases h
            simp
          · split at h
            · cases h
            · split at h
              · cases h
              · cases h
                omega

theorem swap_scan_length {Ω : Type} {env : Env Ω} (n : Nat)
    {cluster cluster' : List PagePtr} {tr tr' : List Event} {w w' : World Ω}
    (h : swap_scan env n cluster tr w = .ok (cluster', tr', w')) :
    cluster'.length ≤ cluster.length + n := by
  induction n generalizing cluster tr w with
  | zero =>
    simp only [swap_scan] at h
    cases h
    omega
  | succ n ih =>
    unfold swap_scan at h
    split at h
    · cases h
    · cases h
      omega
    · rename_i c1 tr1 w1 hiter
      have h1 := swap_scan_iter_length hiter
      have h2 := ih h
      omega

theorem swap_cluster_pages_length {Ω : Type} {env : Env Ω} {w : World Ω}
    {cluster : List PagePtr} (h : swap_cluster_pages env w = .ok cluster) :
    cluster.length ≤ SGX_NR_TO_SCAN := by
  unfold swap_cluster_pages at h
  split at h
  · cases h
  · rename_i c tr w1 hscan
    cases h
    simpa using swap_scan_length _ hscan

theorem swap_scan_iter_measure {Ω : Type} {env : Env Ω} (μ : State → Nat)
    (hlist : ∀ s l, μ (s.with_list l) = μ s)
    (hget : ∀ impl p w r w', (env.ops_of impl).get p w = .ok (r, w') → μ w'.1 ≤ μ w.1)
    (hreclaim : ∀ impl p w r w',
      (env.ops_of impl).reclaim p w = .ok (r, w') → μ w'.1 ≤ μ w.1)
    (hput : ∀ impl p w w', (env.ops_of impl).put p w = .ok w' → μ w'.1 ≤ μ w.1)
    {cluster cluster' : List PagePtr} {tr tr' : List Event} {w w' : World Ω}
    (h : swap_scan_iter env cluster tr w = .ok (some (cluster', tr', w'))) :
    μ w'.1 ≤ μ w.1 := by
  unfold swap_scan_iter at h
  split at h
  · cases h
  · rename_i epc_page rest hl
    split at h
    · cases h
    · rename_i ops hops
      obtain ⟨_, impl, _, _, rfl⟩ := page_ops_inv hops
      split at h
      · cases h
      · rename_i w1 hg
        cases h
        have := hget _ _ _ _ _ hg
        simp only [hlist]
        exact this
      · rename_i w1 hg
        have h1 := hget _ _ _ _ _ hg
        simp only at h
        split at h
        · cases h
        · rename_i ops2 hops2
          obtain ⟨_, impl2, _, _, rfl⟩ := page_ops_inv hops2
          split at h
          · cases h
          · rename_i w3 hrec
            cases h
            have h2 := hreclaim _ _ _ _ _ hrec
            simp only [hlist] at h2
            omega
          · rename_i w3 hrec
            have h2 := hreclaim _ _ _ _ _ hrec
            simp only [hlist] at h2
            split at h
            · cases h
            · rename_i ops3 hops3
              obtain ⟨_, impl3, _, _, rfl⟩ := page_ops_inv hops3
              split at h
              · cases h
              · rename_i w5 hp
                cases h
                have h3 := hput _ _ _ _ hp
                simp only [hlist] at h3
                omega

theorem swap_scan_measure {Ω : Type} {env : Env Ω} (μ : State → Nat)
    (hlist : ∀ s l, μ (s.with_list l) = μ s)
    (hget : ∀ impl p w r w', (env.ops_of impl).get p w = .ok (r, w') → μ w'.1 ≤ μ w.1)
    (hreclaim : ∀ impl p w r w',
      (env.ops_of impl).reclaim p w = .ok (r, w') → μ w'.1 ≤ μ w.1)
    (hput : ∀ impl p w w', (env.ops_of impl).put p w = .ok w' → μ w'.1 ≤ μ w.1)
    (n : Nat) {cluster cluster' : List PagePtr} {tr tr' : List Event} {w w' : World Ω}
    (h : swap_scan env n cluster tr w = .ok (cluster', tr', w')) :
    μ w'.1 ≤ μ w.1 := by
  induction n generalizing cluster tr w with
  | zero =>
    simp only [swap_scan] at h
    cases h
    exact Nat.le_refl _
  | succ n ih =>
    unfold swap_scan at h
    split at h
    · cases h
    · cases h
      exact Nat.le_refl _
    · rename_i c1 tr1 w1 hiter
      have h1 := swap_scan_iter_measure μ hlist hget hreclaim hput hiter
      have h2 := ih h
      omega

theorem swap_block_measure {Ω : Type} {env : Env Ω} (μ : State → Nat) (k : Nat)
    (hblock : ∀ impl p w w', (env.ops_of impl).block p w = .ok w' → μ w'.1 ≤ μ w.1 + k)
    (cluster : List PagePtr) {tr tr' : List Event} {w w' : World Ω}
    (h : swap_block env cluster tr w = .ok (tr', w')) :
    μ w'.1 ≤ μ w.1 + k * cluster.length := by
  induction cluster generalizing tr w with
  | nil =>
    simp only [swap_block] at h
    cases h
    simp
  | cons epc_page rest ih =>
    unfold swap_block at h
    split at h
    · cases h
    · rename_i ops hops
      obtain ⟨_, impl, _, _, rfl⟩ := page_ops_inv hops
      split at h
      · cases h
      · rename_i w1 hb
        have h1 := hblock _ _ _ _ hb
        have h2 := ih h
        simp only [List.length_cons, Nat.mul_succ]
        omega

theorem swap_write_iter_measure {Ω : Type} {env : Env Ω} (μ : State → Nat) (k : Nat)
    (hwrite : ∀ impl p w w', (env.ops_of impl).write p w = .ok w' → μ w'.1 ≤ μ w.1 + k)
    (hput : ∀ impl p w w', (env.ops_of impl).put p w = .ok w' → μ w'.1 ≤ μ w.1)
    (hfree : ∀ p s ret s', sgx_free_page p s = .ok (ret, s') → μ s' ≤ μ s)
    {epc_page : PagePtr} {tr tr' : List Event} {w w' : World Ω}
    (h : swap_write_iter env epc_page tr w = .ok (tr', w')) :
    μ w'.1 ≤ μ w.1 + k := by
  unfold swap_write_iter at h
  split at h
  · cases h
  · rename_i ops hops
    obtain ⟨_, impl, _, _, rfl⟩ := page_ops_inv hops
    split at h
    · cases h
    · rename_i w1 hw
      have h1 := hwrite _ _ _ _ hw
      split at h
      · cases h
      · rename_i ops2 hops2
        obtain ⟨_, impl2, _, _, rfl⟩ := page_ops_inv hops2
        split at h
        · cases h
        · rename_i w2 hp
          have h2 := hput _ _ _ _ hp
          split at h
          · cases h
          · rename_i ret s3 hfr
            cases h
            have h3 := hfree _ _ _ _ hfr
            simp only
            omega

theorem swap_write_measure {Ω : Type} {env : Env Ω} (μ : State → Nat) (k : Nat)
    (hwrite : ∀ impl p w w', (env.ops_of impl).write p w = .ok w' → μ w'.1 ≤ μ w.1 + k)
    (hput : ∀ impl p w w', (env.ops_of impl).put p w = .ok w' → μ w'.1 ≤ μ w.1)
    (hfree : ∀ p s ret s', sgx_free_page p s = .ok (ret, s') → μ s' ≤ μ s)
    (cluster : List PagePtr) {tr tr' : List Event} {w w' : World Ω}
    (h : swap_write env cluster tr w = .ok (tr', w')) :
    μ w'.1 ≤ μ w.1 + k * cluster.length := by
  induction cluster generalizing tr w with
  | nil =>
    simp only [swap_write] at h
    cases h
    simp
  | cons epc_page rest ih =>
    unfold swap_write at h
    split at h
    · cases h
    · rename_i tr1 w1 hiter
      have h1 := swap_write_iter_measure μ k hwrite hput hfree hiter
      have h2 := ih h
      simp only [List.length_cons, Nat.mul_succ]
      omega

theorem sgx_swap_cluster_measure {Ω : Type} {env : Env Ω} (μ : State → Nat) (kb kw : Nat)
    (hlist : ∀ s l, μ (s.with_list l) = μ s)
    (hget : ∀ impl p w r w', (env.ops_of impl).get p w = .ok (r, w') → μ w'.1 ≤ μ w.1)
    (hreclaim : ∀ impl p w r w',
      (env.ops_of impl).reclaim p w = .ok (r, w') → μ w'.1 ≤ μ w.1)
    (hput : ∀ impl p w w', (env.ops_of impl).put p w = .ok w' → μ w'.1 ≤ μ w.1)
    (hblock : ∀ impl p w w', (env.ops_of impl).block p w = .ok w' → μ w'.1 ≤ μ w.1 + kb)
    (hwrite : ∀ impl p w w', (env.ops_of impl).write p w = .ok w' → μ w'.1 ≤ μ w.1 + kw)
    (hfree : ∀ p s ret s', sgx_free_page p s = .ok (ret, s') → μ s' ≤ μ s)
    {tr : List Event} {w w' : World Ω} (h : sgx_swap_cluster env w = .ok (tr, w')) :
    μ w'.1 ≤ μ w.1 + (kb + kw) * SGX_NR_TO_SCAN := by
  unfold sgx_swap_cluster at h
  split at h
  · cases h
  · rename_i cluster tr1 w1 hscan
    split at h
    · cases h
    · rename_i tr2 w2 hblk
      have h0 : cluster.length ≤ SGX_NR_TO_SCAN := by
        simpa using swap_scan_length _ hscan
      have h1 := swap_scan_measure μ hlist hget hreclaim hput _ hscan
      have h2 := swap_block_measure μ kb hblock cluster hblk
      have h3 := swap_write_measure μ kw hwrite hput hfree cluster h
      have h4 : kb * cluster.length ≤ kb * SGX_NR_TO_SCAN := Nat.mul_le_mul_left _ h0
      have h5 : kw * cluster.length ≤ kw * SGX_NR_TO_SCAN := Nat.mul_le_mul_left _ h0
      rw [Nat.add_mul]
      omega

/-! ## The instructions issued by the enclave-page owner -/

theorem sgx_free_page_log {p : PagePtr} {s s' : State} {ret : Int}
    (h : sgx_free_page p s = .ok (ret, s')) : s'.hw_log = s.hw_log ++ [.EREMOVE p] := by
  obtain ⟨pg, _, _, hcase⟩ := sgx_free_page_inv h
  rcases hcase with ⟨_, hs'⟩ | ⟨_, bank, _, _, hs'⟩
  · subst hs'
    rfl
  · subst hs'
    rfl

theorem sgx_free_page_counts {p : PagePtr} {s s' : State} {ret : Int}
    (h : sgx_free_page p s = .ok (ret, s')) :
    ewb_count s'.hw_log = ewb_count s.hw_log ∧
      eblock_count s'.hw_log = eblock_count s.hw_log := by
  rw [sgx_free_page_log h]
  simp [ewb_count, eblock_count, List.countP_append]

theorem sgx_encl_page_get_state {p : PagePtr} {w w' : World Driver} {r : Bool}
    (h : sgx_encl_page_get p w = .ok (r, w')) : w'.1 = w.1 := by
  unfold sgx_encl_page_get at h
  split at h
  · cases h
  · simp only at h
    split at h
    · cases h
      rfl
    · cases h
      rfl

theorem sgx_encl_page_reclaim_state {c : DriverParams} {p : PagePtr} {w w' : World Driver}
    {r : Bool} (h : sgx_encl_page_reclaim c p w = .ok (r, w')) : w'.1 = w.1 := by
  unfold sgx_encl_page_reclaim at h
  split at h
  · cases h
  · simp only at h
    split at h
    · cases h
      rfl
    · split at h
      · cases h
        rfl
      · cases h
        rfl

theorem sgx_encl_page_put_state {c : DriverParams} {p : PagePtr} {w w' : World Driver}
    (h : sgx_encl_page_put c p w = .ok w') :
    w'.1 = w.1 ∨ ∃ encl d, w' = c.sgx_encl_release encl (w.1, d) := by
  unfold sgx_encl_page_put at h
  split at h
  · cases h
  · simp only at h
    split at h
    · cases h
      exact Or.inr ⟨_, _, rfl⟩
    · cases h
      exact Or.inl rfl

theorem sgx_encl_page_block_log {p : PagePtr} {w w' : World Driver}
    (h : sgx_encl_page_block p w = .ok w') : w'.1.hw_log = w.1.hw_log ++ [.EBLOCK p] := by
  unfold sgx_encl_page_block at h
  split at h
  · cases h
  · cases h
    rfl

theorem write_page_ewb_counts (c : DriverParams) (epc_page va_epc_page : PagePtr)
    (va_offset encl : Nat) (s : State) :
    ewb_count (write_page_ewb c epc_page va_epc_page va_offset encl s).2.hw_log
        ≤ ewb_count s.hw_log + 3 ∧
      eblock_count (write_page_ewb c epc_page va_epc_page va_offset encl s).2.hw_log
        = eblock_count s.hw_log := by
  unfold write_page_ewb
  simp only [sgx_ewb, encls, sgx_encl_track, sgx_flush_cpus]
  split
  · split
    · simp [ewb_count, eblock_count, List.countP_append]
    · simp [ewb_count, eblock_count, List.countP_append]
  · simp [ewb_count, eblock_count, List.countP_append]

theorem write_page_swap_counts {c : DriverParams} {p : PagePtr} {ip : ImplPtr}
    {w w' : World Driver} (h : write_page_swap c p ip w = .ok w') :
    ewb_count w'.1.hw_log ≤ ewb_count w.1.hw_log + 3 ∧
      eblock_count w'.1.hw_log = eblock_count w.1.hw_log := by
  unfold write_page_swap at h
  simp only at h
  split at h
  · cases h
  · cases h
    exact write_page_ewb_counts _ _ _ _ _ _

theorem write_page_out_counts {c : DriverParams} {p : PagePtr} {ip : ImplPtr}
    {do_free : Bool} {w w' : World Driver} (h : write_page_out c p ip do_free w = .ok w') :
    ewb_count w'.1.hw_log = ewb_count w.1.hw_log ∧
      eblock_count w'.1.hw_log = eblock_count w.1.hw_log := by
  unfold write_page_out at h
  simp only at h
  split at h
  · split at h
    · cases h
    · rename_i ret s2 hfr
      cases h
      exact sgx_free_page_counts hfr
  · cases h
    exact ⟨rfl, rfl⟩

theorem sgx_write_page_counts {c : DriverParams} {p : PagePtr} {do_free : Bool}
    {w w' : World Driver} (h : sgx_write_page c p do_free w = .ok w') :
    ewb_count w'.1.hw_log ≤ ewb_count w.1.hw_log + 3 ∧
      eblock_count w'.1.hw_log = eblock_count w.1.hw_log := by
  unfold sgx_write_page at h
  split at h
  · cases h
  · split at h
    · have := write_page_out_counts h
      omega
    · split at h
      · cases h
      · rename_i w1 hw1
        have h1 := write_page_swap_counts hw1
        have h2 := write_page_out_counts h
        omega

theorem sgx_encl_page_write_counts {c : DriverParams} {p : PagePtr}
    {w w' : World Driver} (h : sgx_encl_page_write c p w = .ok w') :
    ewb_count w'.1.hw_log ≤ ewb_count w.1.hw_log + 6 ∧
      eblock_count w'.1.hw_log = eblock_count w.1.hw_log := by
  unfold sgx_encl_page_write at h
  split at h
  · cases h
  · simp only at h
    split at h
    · cases h
    · rename_i w1 hw1
      have h1 := sgx_write_page_counts hw1
      split at h
      · split at h
        · cases h
        · have h2 := sgx_write_page_counts h
          simp only at h2
          omega
      · cases h
        simp only
        omega

theorem swap_scan_iter_get_count {Ω : Type} {env : Env Ω}
    {cluster cluster' : List PagePtr} {tr tr' : List Event} {w w' : World Ω}
    (h : swap_scan_iter env cluster tr w = .ok (some (cluster', tr', w'))) :
    get_count tr' = get_count tr + 1 := by
  unfold swap_scan_iter at h
  split at h
  · cases h
  · split at h
    · cases h
    · split at h
      · cases h
      · cases h
        simp [get_count, List.countP_append]
      · simp only at h
        split at h
        · cases h
        · split at h
          · cases h
          · cases h
            simp [get_count, List.countP_append, List.countP_cons]
          · split at h
            · cases h
            · split at h
              · cases h
              · cases h
                simp [get_count, List.countP_append, List.countP_cons]

theorem swap_scan_get_count {Ω : Type} {env : Env Ω} (n : Nat)
    {cluster cluster' : List PagePtr} {tr tr' : List Event} {w w' : World Ω}
    (h : swap_scan env n cluster tr w = .ok (cluster', tr', w')) :
    get_count tr' ≤ get_count tr + n := by
  induction n generalizing cluster tr w with
  | zero =>
    simp only [swap_scan] at h
    cases h
    omega
  | succ n ih =>
    unfold swap_scan at h
    split at h
    · cases h
    · cases h
      omega
    · rename_i c1 tr1 w1 hiter
      have h1 := swap_scan_iter_get_count hiter
      have h2 := ih h
      omega

theorem swap_block_get_count {Ω : Type} {env : Env Ω} (cluster : List PagePtr)
    {tr tr' : List Event} {w w' : World Ω}
    (h : swap_block env cluster tr w = .ok (tr', w')) :
    get_count tr' = get_count tr := by
  rw [swap_block_trace cluster h]
  unfold get_count
  rw [List.countP_append]
  have : List.countP (fun e => match e with
      | .get _ _ => true
      | _ => false) (cluster.map Event.block) = 0 := by
    rw [List.countP_eq_zero]
    intro e he
    obtain ⟨p, _, rfl⟩ := List.mem_map.mp he
    simp
  omega

theorem swap_write_get_count {Ω : Type} {env : Env Ω} (cluster : List PagePtr)
    {tr tr' : List Event} {w w' : World Ω}
    (h : swap_write env cluster tr w = .ok (tr', w')) :
    get_count tr' = get_count tr := by
  induction cluster generalizing tr w with
  | nil =>
    simp only [swap_write] at h
    cases h
    rfl
  | cons epc_page rest ih =>
    unfold swap_write at h
    split at h
    · cases h
    · rename_i tr1 w1 hiter
      obtain ⟨ret, rfl⟩ := swap_write_iter_trace hiter
      rw [ih h]
      simp [get_count, List.countP_append, List.countP_cons]

theorem sgx_swap_cluster_get_count {Ω : Type} {env : Env Ω} {w w' : World Ω}
    {tr : List Event} (h : sgx_swap_cluster env w = .ok (tr, w')) :
    get_count tr ≤ SGX_NR_TO_SCAN := by
  unfold sgx_swap_cluster at h
  split at h
  · cases h
  · rename_i cluster tr1 w1 hscan
    split at h
    · cases h
    · rename_i tr2 w2 hblk
      have h1 := swap_scan_get_count _ hscan
      have h2 := swap_block_get_count cluster hblk
      have h3 := swap_write_get_count cluster h
      have h0 : get_count ([] : List Event) = 0 := rfl
      omega

set_option maxRecDepth 100000 in
/-- C10, as stated, fails: the 16 loaded children of an initialised enclave are on the
active page list; one `sgx_swap_cluster` blocks and writes back the 16 pages, and the
write callback of the last child also writes back the enclave's control page: 17 pages
are written back, with 51 `WRITEBACK` instructions when the first two attempts on every
page answer `NOT_TRACKED`. -/
theorem sgx_swap_cluster_seventeen_write_backs :
    (sgx_swap_cluster example_encl_env (example_enclave_state, example_enclave_driver)).map
        (fun r => ((blocked_pages r.1).length, eblock_count r.2.1.hw_log,
          ewb_count r.2.1.hw_log, (ewb_pages r.2.1.hw_log).dedup.length))
      = .ok (16, 16, 51, 17) := by
  decide!

theorem ok_of_toBool {α : Type} (x : Except Stuck α) (d : α) (h : x.toBool = true) :
    x = .ok (result_or x d) := by
  cases x with
  | ok r => rfl
  | error e => simp [Except.toBool] at h

theorem example_enclave_result_ok :
    sgx_swap_cluster (encl_env example_params fun w => w)
        (example_enclave_state, example_enclave_driver)
      = .ok (example_enclave_result.1, example_enclave_result.2) := by
  rw [Prod.mk.eta]
  unfold example_enclave_result
  exact ok_of_toBool _ _ (by decide!)

/-- C10, amended: one `sgx_swap_cluster` over enclave pages looks at no more than 16 list
entries, clusters no more than 16 pages, issues no more than 16 `BLOCK` instructions and
calls the write callback on no more than 16 pages.  One `sgx_write_page` issues at most 3
`WRITEBACK` instructions; the write callback `sgx_encl_page_write` is one
`sgx_write_page` of the page followed by at most one `sgx_write_page` of the enclave's
control page, at most 6 `WRITEBACK` instructions; so a pass issues at most 96 `WRITEBACK`
instructions for at most 32 page write-backs.  `sgx_encl_release` is assumed to issue no
`BLOCK` and no `WRITEBACK`. -/
theorem sgx_swap_cluster_bounds (c : DriverParams) (schedule : World Driver → World Driver)
    (w w' : World Driver) (tr : List Event)
    (hrel : ∀ encl w0,
      ewb_count (c.sgx_encl_release encl w0).1.hw_log ≤ ewb_count w0.1.hw_log ∧
      eblock_count (c.sgx_encl_release encl w0).1.hw_log ≤ eblock_count w0.1.hw_log)
    (h : sgx_swap_cluster (encl_env c schedule) w = .ok (tr, w')) :
    get_count tr ≤ 16 ∧ (blocked_pages tr).length ≤ 16 ∧ (written_pages tr).length ≤ 16 ∧
    eblock_count w'.1.hw_log ≤ eblock_count w.1.hw_log + 16 ∧
    ewb_count w'.1.hw_log ≤ ewb_count w.1.hw_log + 96 ∧
    (∀ p do_free w0 w1, sgx_write_page c p do_free w0 = .ok w1 →
      ewb_count w1.1.hw_log ≤ ewb_count w0.1.hw_log + 3) ∧
    (∀ p w0 w1, sgx_encl_page_write c p w0 = .ok w1 →
      ewb_count w1.1.hw_log ≤ ewb_count w0.1.hw_log + 6) := by
  obtain ⟨cluster, t1, t3, hcl, htr, hb1, hw1, hb3, hw3⟩ := sgx_swap_cluster_trace h
  have hlen := swap_cluster_pages_length hcl
  have hb : blocked_pages tr = cluster := by
    rw [htr]
    simp only [blocked_pages, List.filterMap_append] at hb1 hb3 ⊢
    rw [hb1, hb3]
    simpa [blocked_pages] using blocked_pages_map_block cluster
  have hw : written_pages tr = cluster := by
    rw [htr]
    simp only [written_pages, List.filterMap_append] at hw1 hw3 ⊢
    rw [hw1, hw3]
    simpa [written_pages] using written_pages_map_block cluster
  have hput : ∀ (μ : List HwOp → Nat),
      (∀ encl w0, μ (c.sgx_encl_release encl w0).1.hw_log ≤ μ w0.1.hw_log) →
      ∀ (impl : ImplPtr) p (w0 w1 : World Driver),
        ((encl_env c schedule).ops_of impl).put p w0 = .ok w1 →
        μ w1.1.hw_log ≤ μ w0.1.hw_log := by
    intro μ hμ impl p w0 w1 hp
    rcases sgx_encl_page_put_state hp with h1 | ⟨encl, d, h1⟩
    · rw [h1]
    · rw [h1]
      exact hμ encl (w0.1, d)
  refine ⟨?_, ?_, ?_, ?_, ?_, ?_, ?_⟩
  · simpa [SGX_NR_TO_SCAN] using sgx_swap_cluster_get_count h
  · rw [hb]
    simpa [SGX_NR_TO_SCAN] using hlen
  · rw [hw]
    simpa [SGX_NR_TO_SCAN] using hlen
  · have := @sgx_swap_cluster_measure Driver (encl_env c schedule)
      (fun s => eblock_count s.hw_log) 1 0 (fun _ _ => rfl)
      (fun impl p w0 r w1 hg => by
        change eblock_count w1.1.hw_log ≤ eblock_count w0.1.hw_log
        rw [sgx_encl_page_get_state hg])
      (fun impl p w0 r w1 hr => by
        change eblock_count w1.1.hw_log ≤ eblock_count w0.1.hw_log
        rw [sgx_encl_page_reclaim_state hr])
      (hput eblock_count fun encl w0 => (hrel encl w0).2)
      (fun impl p w0 w1 hbk => by
        change eblock_count w1.1.hw_log ≤ eblock_count w0.1.hw_log + 1
        rw [sgx_encl_page_block_log hbk]
        simp [eblock_count, List.countP_append])
      (fun impl p w0 w1 hwr => by
        change eblock_count w1.1.hw_log ≤ eblock_count w0.1.hw_log + 0
        rw [(sgx_encl_page_write_counts hwr).2]
        omega)
      (fun p s0 ret s1 hfr => by
        change eblock_count s1.hw_log ≤ eblock_count s0.hw_log
        rw [(sgx_free_page_counts hfr).2])
      tr w w' h
    simpa [SGX_NR_TO_SCAN] using this
  · have := @sgx_swap_cluster_measure Driver (encl_env c schedule)
      (fun s => ewb_count s.hw_log) 0 6 (fun _ _ => rfl)
      (fun impl p w0 r w1 hg => by
        change ewb_count w1.1.hw_log ≤ ewb_count w0.1.hw_log
        rw [sgx_encl_page_get_state hg])
      (fun impl p w0 r w1 hr => by
        change ewb_count w1.1.hw_log ≤ ewb_count w0.1.hw_log
        rw [sgx_encl_page_reclaim_state hr])
      (hput ewb_count fun encl w0 => (hrel encl w0).1)
      (fun impl p w0 w1 hbk => by
        change ewb_count w1.1.hw_log ≤ ewb_count w0.1.hw_log + 0
        rw [sgx_encl_page_block_log hbk]
        simp [ewb_count, List.countP_append])
      (fun impl p w0 w1 hwr => (sgx_encl_page_write_counts hwr).1)
      (fun p s0 ret s1 hfr => by
        change ewb_count s1.hw_log ≤ ewb_count s0.hw_log
        rw [(sgx_free_page_counts hfr).1])
      tr w w' h
    simpa [SGX_NR_TO_SCAN] using this
  · intro p do_free w0 w1 hwp
    exact (sgx_write_page_counts hwp).1
  · intro p w0 w1 hwr
    exact (sgx_encl_page_write_counts hwr).1

/-- C10, amended, instance: the reclaim pass over the 16 children of the example enclave. -/
theorem sgx_swap_cluster_bounds_witness :
    get_count example_enclave_result.1 ≤ 16 ∧
    (blocked_pages example_enclave_result.1).length ≤ 16 ∧
    (written_pages example_enclave_result.1).length ≤ 16 ∧
    eblock_count example_enclave_result.2.1.hw_log
      ≤ eblock_count (example_enclave_state, example_enclave_driver).1.hw_log + 16 ∧
    ewb_count example_enclave_result.2.1.hw_log
      ≤ ewb_count (example_enclave_state, example_enclave_driver).1.hw_log + 96 ∧
    (∀ p do_free w0 w1, sgx_write_page example_params p do_free w0 = .ok w1 →
      ewb_count w1.1.hw_log ≤ ewb_count w0.1.hw_log + 3) ∧
    (∀ p w0 w1, sgx_encl_page_write example_params p w0 = .ok w1 →
      ewb_count w1.1.hw_log ≤ ewb_count w0.1.hw_log + 6) :=
  sgx_swap_cluster_bounds example_params (fun w => w)
    (example_enclave_state, example_enclave_driver) example_enclave_result.2
    example_enclave_result.1 (fun _ _ => ⟨Nat.le_refl _, Nat.le_refl _⟩)
    example_enclave_result_ok

/-! ## Pages are in one place at a time -/

theorem flatten_set_split {α : Type} {L : List (List α)} {i : Nat} {a : List α}
    (h : L[i]? = some a) :
    ∃ pre post, L.flatten = pre ++ a ++ post ∧
      ∀ b, (L.set i b).flatten = pre ++ b ++ post := by
  induction L generalizing i with
  | nil => simp at h
  | cons x xs ih =>
    cases i with
    | zero =>
      simp at h
      subst h
      exact ⟨[], xs.flatten, by simp, by intro b; simp⟩
    | succ i =>
      have h2 : xs[i]? = some a := by simpa using h
      obtain ⟨pre, post, h1, h3⟩ := ih h2
      refine ⟨x ++ pre, post, by simp [h1], ?_⟩
      intro b
      simp [h3 b]

theorem all_live_of_stack {banks banks' : List sgx_epc_bank}
    (h : banks'.map sgx_epc_bank.stack = banks.map sgx_epc_bank.stack) :
    (banks'.map sgx_epc_bank.live).flatten = (banks.map sgx_epc_bank.live).flatten := by
  have key : ∀ l : List sgx_epc_bank,
      l.map sgx_epc_bank.live = (l.map sgx_epc_bank.stack).map fun st => st.1.take st.2 := by
    intro l
    rw [List.map_map]
    rfl
  rw [key, key, h]

theorem all_live_try_alloc {impl : Option ImplPtr} {s s' : State} {p : PagePtr}
    (h : sgx_try_alloc_page impl s = .ok (some p, s')) :
    (all_live s).Perm (p :: all_live s') ∧
      s'.sgx_active_page_list = s.sgx_active_page_list ∧
      s'.sgx_epc_banks.length = s.sgx_epc_banks.length := by
  obtain ⟨i, bank, banks', hi, hnz, _, htop, hstore, hs'⟩ := sgx_try_alloc_page_some_inv h
  subst hs'
  refine ⟨?_, rfl, ?_⟩
  · unfold all_live
    simp only
    rw [all_live_of_stack (store_impl_stack hstore), List.map_set]
    have hlive : (s.sgx_epc_banks.map sgx_epc_bank.live)[i]?
        = some (bank.pages.take (bank.free_cnt - 1) ++ [p]) := by
      rw [List.getElem?_map, hi]
      simp only [Option.map_some', sgx_epc_bank.live, Option.some.injEq]
      have : bank.free_cnt = (bank.free_cnt - 1) + 1 := by omega
      rw [this, List.take_succ, htop]
      simp
    obtain ⟨pre, post, h1, h2⟩ := flatten_set_split hlive
    rw [h1, h2]
    simp only [sgx_epc_bank.live]
    have : (pre ++ (List.take (bank.free_cnt - 1) bank.pages ++ [p]) ++ post).Perm
        (p :: (pre ++ List.take (bank.free_cnt - 1) bank.pages ++ post)) := by
      rw [show pre ++ (List.take (bank.free_cnt - 1) bank.pages ++ [p]) ++ post
        = (pre ++ List.take (bank.free_cnt - 1) bank.pages) ++ p :: post by simp]
      exact List.perm_middle
    exact this
  · simp only
    rw [store_impl_length hstore, List.length_set]

theorem all_live_free {p : PagePtr} {s s' : State} {ret : Int}
    (h : sgx_free_page p s = .ok (ret, s')) :
    (all_live s' = all_live s ∨ (all_live s').Perm (p :: all_live s)) ∧
      s'.sgx_active_page_list = s.sgx_active_page_list ∧
      s'.sgx_epc_banks.length = s.sgx_epc_banks.length ∧
      p.bank < s.sgx_epc_banks.length := by
  obtain ⟨pg, hp, _, hcase⟩ := sgx_free_page_inv h
  have hvalid : p.bank < s.sgx_epc_banks.length := by
    unfold State.page page_at at hp
    split at hp
    · cases hp
    · rename_i bank hb
      exact (List.getElem?_eq_some_iff.mp hb).1
  rcases hcase with ⟨_, hs'⟩ | ⟨_, bank, hb, hlt, hs'⟩
  · subst hs'
    exact ⟨Or.inl rfl, rfl, rfl, hvalid⟩
  · subst hs'
    refine ⟨Or.inr ?_, rfl, by simp, hvalid⟩
    unfold all_live
    simp only
    rw [List.map_set]
    have hlive : (s.sgx_epc_banks.map sgx_epc_bank.live)[SGX_EPC_BANK pg]?
        = some (bank.pages.take bank.free_cnt) := by
      rw [List.getElem?_map, hb]
      rfl
    obtain ⟨pre, post, h1, h2⟩ := flatten_set_split hlive
    rw [h1, h2]
    simp only [sgx_epc_bank.live]
    rw [take_set_push _ _ _ hlt]
    rw [show pre ++ (List.take bank.free_cnt bank.pages ++ [p]) ++ post
      = (pre ++ List.take bank.free_cnt bank.pages) ++ p :: post by simp]
    exact List.perm_middle

theorem all_live_try_alloc_any {impl : Option ImplPtr} {s s' : State} {r : Option PagePtr}
    (h : sgx_try_alloc_page impl s = .ok (r, s')) :
    (all_live s').Sublist (all_live s) ∨ ∃ p, (all_live s).Perm (p :: all_live s') := by
  cases r with
  | none =>
    rw [(sgx_try_alloc_page_none_inv h).1]
    exact Or.inl (List.Sublist.refl _)
  | some p => exact Or.inr ⟨p, (all_live_try_alloc h).1⟩

theorem separated_iff (H : List PagePtr) (s : State) :
    Separated H s ↔
      ∀ a, occ H s a ≤ 1 ∧ (0 < occ H s a → a.bank < s.sgx_epc_banks.length) := by
  unfold Separated occ
  rw [List.nodup_iff_count_le_one]
  constructor
  · rintro ⟨h1, h2⟩ a
    have := h1 a
    simp only [List.count_append] at this
    refine ⟨this, ?_⟩
    intro hpos
    apply h2
    rw [← List.count_pos_iff]
    simp only [List.count_append]
    exact hpos
  · intro h
    constructor
    · intro a
      simp only [List.count_append]
      exact (h a).1
    · intro p hp
      apply (h p).2
      rw [← List.count_pos_iff] at hp
      simpa only [List.count_append] using hp

theorem separated_mono {H H' : List PagePtr} {s s' : State} (hS : Separated H s)
    (hocc : ∀ a, occ H' s' a ≤ occ H s a)
    (hlen : s.sgx_epc_banks.length ≤ s'.sgx_epc_banks.length) : Separated H' s' := by
  rw [separated_iff] at hS ⊢
  intro a
  have h1 := hS a
  have h2 := hocc a
  refine ⟨by omega, fun hpos => ?_⟩
  have := h1.2 (by omega)
  omega

theorem separated_add {H H' : List PagePtr} {s s' : State} (hS : Separated H s)
    (q : PagePtr) (hq0 : occ H s q = 0) (hqb : q.bank < s'.sgx_epc_banks.length)
    (hocc : ∀ a, occ H' s' a ≤ occ H s a + if a = q then 1 else 0)
    (hlen : s.sgx_epc_banks.length ≤ s'.sgx_epc_banks.length) : Separated H' s' := by
  rw [separated_iff] at hS ⊢
  intro a
  have h1 := hS a
  have h2 := hocc a
  by_cases haq : a = q
  · subst haq
    simp only [if_true] at h2
    exact ⟨by omega, fun _ => hqb⟩
  · simp only [haq, if_false] at h2
    refine ⟨by omega, fun hpos => ?_⟩
    have := h1.2 (by omega)
    omega

theorem count_all_live_try_alloc {impl : Option ImplPtr} {s s' : State}
    {r : Option PagePtr} (h : sgx_try_alloc_page impl s = .ok (r, s')) (a : PagePtr) :
    List.count a (all_live s') ≤ List.count a (all_live s) := by
  rcases all_live_try_alloc_any h with hsub | ⟨p, hperm⟩
  · exact hsub.count_le a
  · rw [hperm.count_eq a, List.count_cons]
    omega

theorem count_all_live_free {p : PagePtr} {s s' : State} {ret : Int}
    (h : sgx_free_page p s = .ok (ret, s')) (a : PagePtr) :
    List.count a (all_live s') ≤ List.count a (all_live s) + if a = p then 1 else 0 := by
  rcases (all_live_free h).1 with heq | hperm
  · rw [heq]
    omega
  · rw [hperm.count_eq a, List.count_cons]
    by_cases hap : a = p
    · subst hap
      simp
    · have : (p == a) = false := by
        simp only [beq_eq_false_iff_ne, ne_eq]
        exact fun h => hap h.symm
      simp [this, hap]

theorem try_alloc_list_length {impl : Option ImplPtr} {s s' : State} {r : Option PagePtr}
    (h : sgx_try_alloc_page impl s = .ok (r, s')) :
    s'.sgx_active_page_list = s.sgx_active_page_list ∧
      s'.sgx_epc_banks.length = s.sgx_epc_banks.length := by
  cases r with
  | none =>
    rw [(sgx_try_alloc_page_none_inv h).1]
    exact ⟨rfl, rfl⟩
  | some p => exact (all_live_try_alloc h).2

theorem occ_zero_of_not_mem {H : List PagePtr} {s : State} {q : PagePtr}
    (h1 : q ∉ H) (h2 : q ∉ all_live s) (h3 : q ∉ s.sgx_active_page_list) :
    occ H s q = 0 := by
  unfold occ
  rw [List.count_eq_zero_of_not_mem h1, List.count_eq_zero_of_not_mem h2,
    List.count_eq_zero_of_not_mem h3]

theorem page_isSome_bank {s : State} {q : PagePtr} (h : (s.page q).isSome) :
    q.bank < s.sgx_epc_banks.length := by
  unfold State.page page_at at h
  split at h
  · simp at h
  · rename_i bank hb
    exact (List.getElem?_eq_some_iff.mp hb).1

theorem ownerStep_separated {P H : List PagePtr} {s s' : State} (hstep : OwnerStep P s s')
    (hHP : ∀ q, q ∈ H → q ∈ P) (hS : Separated H s) : Separated H s' := by
  cases hstep with
  | try_alloc impl r h =>
    have hl := try_alloc_list_length h
    refine separated_mono hS (fun a => ?_) (by omega)
    unfold occ
    rw [hl.1]
    have := count_all_live_try_alloc h a
    omega
  | free q ret hqP hql hqa h =>
    have hl := all_live_free h
    refine separated_add hS q (occ_zero_of_not_mem (fun hq => hqP (hHP q hq)) hql hqa)
      (by omega) (fun a => ?_) (by omega)
    unfold occ
    rw [hl.2.1]
    have := count_all_live_free h a
    omega
  | mark q hqP hql hqa hv =>
    refine separated_add hS q (occ_zero_of_not_mem (fun hq => hqP (hHP q hq)) hql hqa)
      (page_isSome_bank hv) (fun a => ?_) (Nat.le_refl _)
    unfold occ State.with_list list_add_tail all_live
    simp only [List.count_append, List.count_singleton]
    by_cases haq : a = q
    · subst haq
      simp only [beq_self_eq_true, if_true]
      omega
    · have : (q == a) = false := by
        simp only [beq_eq_false_iff_ne, ne_eq]
        exact fun h => haq h.symm
      simp [this, haq]
  | unmark q hqP =>
    refine separated_mono hS (fun a => ?_) (Nat.le_refl _)
    unfold occ State.with_list list_del all_live
    simp only
    have := (List.erase_sublist q s.sgx_active_page_list).count_le a
    omega
  | frame hb hl =>
    refine separated_mono hS (fun a => ?_) (by rw [hb])
    unfold occ all_live
    rw [hb, hl]

theorem ownerStep_keeps_listed {P : List PagePtr} {s s' : State} (hstep : OwnerStep P s s')
    {p : PagePtr} (hp : p ∈ P) (hl : p ∈ s.sgx_active_page_list) :
    p ∈ s'.sgx_active_page_list := by
  cases hstep with
  | try_alloc impl r h =>
    rw [(try_alloc_list_length h).1]
    exact hl
  | free q ret hqP hql hqa h =>
    rw [(all_live_free h).2.1]
    exact hl
  | mark q hqP hql hqa hv =>
    simp only [State.with_list, list_add_tail, List.mem_append]
    exact Or.inl hl
  | unmark q hqP =>
    simp only [State.with_list, list_del]
    have hne : p ≠ q := fun h => hqP (h ▸ hp)
    exact (List.mem_erase_of_ne hne).mpr hl
  | frame hb hl' =>
    rw [hl']
    exact hl

theorem ownerSteps_separated {P H : List PagePtr} {s s' : State} (hsteps : OwnerSteps P s s')
    (hHP : ∀ q, q ∈ H → q ∈ P) (hS : Separated H s) : Separated H s' := by
  induction hsteps with
  | refl s => exact hS
  | step h1 _ ih => exact ih (ownerStep_separated h1 hHP hS)

theorem ownerSteps_keeps_listed {P : List PagePtr} {s s' : State}
    (hsteps : OwnerSteps P s s') {p : PagePtr} (hp : p ∈ P)
    (hl : p ∈ s.sgx_active_page_list) : p ∈ s'.sgx_active_page_list := by
  induction hsteps with
  | refl s => exact hl
  | step h1 _ ih => exact ih (ownerStep_keeps_listed h1 hp hl)

theorem count_init_pages (slot n : Nat) (a : PagePtr) :
    List.count a (init_pages slot n) ≤ 1 ∧
      (0 < List.count a (init_pages slot n) → a.bank = slot) := by
  constructor
  · have hnd : (init_pages slot n).Nodup := by
      unfold init_pages
      refine List.Nodup.map ?_ (List.nodup_range n)
      intro i j hij
      simpa using congrArg PagePtr.idx hij
    exact List.nodup_iff_count_le_one.mp hnd a
  · intro hpos
    rw [List.count_pos_iff] at hpos
    unfold init_pages at hpos
    obtain ⟨i, _, rfl⟩ := List.mem_map.mp hpos
    rfl

theorem init_pages_length (slot n : Nat) : (init_pages slot n).length = n := by
  simp [init_pages]

theorem separated_init (e : InitEnv) (addr size : Nat) {s : State} (hS : Separated [] s) :
    Separated [] (sgx_init_epc_bank e addr size s.sgx_epc_banks.length s).2 := by
  unfold sgx_init_epc_bank
  simp only
  split
  · exact hS
  · split
    · exact hS
    · split
      · exact hS
      · rename_i x va heq hk1 hk2
        rw [separated_iff] at hS ⊢
        intro a
        have h1 := hS a
        have h2 := count_init_pages s.sgx_epc_banks.length (size >>> PAGE_SHIFT) a
        have hocc : occ []
            { s with
              sgx_epc_banks := s.sgx_epc_banks ++
                [{ pa := addr, va := va, size := size,
                   pages_data := init_pages_data addr (size >>> PAGE_SHIFT)
                     s.sgx_epc_banks.length,
                   pages := init_pages s.sgx_epc_banks.length (size >>> PAGE_SHIFT),
                   free_cnt := size >>> PAGE_SHIFT }],
              sgx_nr_free_pages := s.sgx_nr_free_pages + ↑(size >>> PAGE_SHIFT) } a
            = occ [] s a
              + List.count a (init_pages s.sgx_epc_banks.length (size >>> PAGE_SHIFT)) := by
          unfold occ all_live
          simp only [List.map_append, List.flatten_append, List.map_cons, List.map_nil,
            List.flatten_cons, List.flatten_nil, List.append_nil, List.count_append,
            sgx_epc_bank.live]
          rw [List.take_of_length_le (by rw [init_pages_length])]
          omega
        rw [hocc]
        simp only [List.length_append, List.length_cons, List.length_nil]
        by_cases hb : a.bank = s.sgx_epc_banks.length
        · have h0 : occ [] s a = 0 := by
            by_contra hne
            have := h1.2 (by omega)
            omega
          exact ⟨by omega, fun _ => by omega⟩
        · have h0 : List.count a (init_pages s.sgx_epc_banks.length (size >>> PAGE_SHIFT))
              = 0 := by
            by_contra hne
            exact hb (h2.2 (by omega))
          refine ⟨by omega, fun hpos => ?_⟩
          have := h1.2 (by omega)
          omega

theorem count_snoc (a p : PagePtr) (l : List PagePtr) :
    List.count a (l ++ [p]) = List.count a l + if a = p then 1 else 0 := by
  rw [List.count_append, List.count_singleton]
  by_cases h : a = p
  · subst h
    simp
  · have : (p == a) = false := by
      simp only [beq_eq_false_iff_ne, ne_eq]
      exact fun h' => h h'.symm
    simp [this, h]

theorem count_cons_eq (a p : PagePtr) (l : List PagePtr) :
    List.count a (p :: l) = List.count a l + if a = p then 1 else 0 := by
  rw [List.count_cons]
  by_cases h : a = p
  · subst h
    simp
  · have : (p == a) = false := by
      simp only [beq_eq_false_iff_ne, ne_eq]
      exact fun h' => h h'.symm
    simp [this, h]

theorem count_erase_eq (a p : PagePtr) (l : List PagePtr) (hp : p ∈ l) :
    List.count a (l.erase p) + (if a = p then 1 else 0) = List.count a l := by
  by_cases h : a = p
  · subst h
    have := List.count_pos_iff.mpr hp
    rw [List.count_erase_self]
    simp only [if_true]
    omega
  · rw [List.count_erase_of_ne h]
    simp [h]

theorem separated_detach {H : List PagePtr} {s : State} {p : PagePtr}
    (hS : Separated H s) (hp : p ∈ s.sgx_active_page_list) :
    Separated (H ++ [p]) (s.with_list (list_del p s.sgx_active_page_list)) := by
  refine separated_mono hS (fun a => ?_) (Nat.le_refl _)
  unfold occ State.with_list list_del all_live
  simp only
  have h1 := count_snoc a p H
  have h2 := count_erase_eq a p s.sgx_active_page_list hp
  omega

theorem separated_reattach {H : List PagePtr} {s : State} {p : PagePtr}
    (hS : Separated (H ++ [p]) s) :
    Separated H (s.with_list (list_add_tail p s.sgx_active_page_list)) := by
  refine separated_mono hS (fun a => ?_) (Nat.le_refl _)
  unfold occ State.with_list list_add_tail all_live
  simp only
  have h1 := count_snoc a p H
  have h2 := count_snoc a p s.sgx_active_page_list
  omega

theorem separated_rotate {H : List PagePtr} {s : State} {p : PagePtr}
    (hS : Separated H s) (hp : p ∈ s.sgx_active_page_list) :
    Separated H (s.with_list (list_move_tail p s.sgx_active_page_list)) := by
  refine separated_mono hS (fun a => ?_) (Nat.le_refl _)
  unfold occ State.with_list list_move_tail list_add_tail list_del all_live
  simp only
  have h1 := count_snoc a p (s.sgx_active_page_list.erase p)
  have h2 := count_erase_eq a p s.sgx_active_page_list hp
  omega

theorem separated_free_held {H : List PagePtr} {s s' : State} {p : PagePtr} {ret : Int}
    (hS : Separated (p :: H) s) (h : sgx_free_page p s = .ok (ret, s')) :
    Separated H s' := by
  have hl := all_live_free h
  refine separated_mono hS (fun a => ?_) (by omega)
  unfold occ
  rw [hl.2.1]
  have h1 := count_all_live_free h a
  have h2 := count_cons_eq a p H
  omega

theorem reach_separated {Ω : Type} {env : Env Ω} (hd : Disciplined env)
    {H : List PagePtr} {w : World Ω} (hr : Reach env H w) : Separated H w.1 := by
  induction hr with
  | boot hw sig ω =>
    rw [separated_iff]
    intro a
    simp [occ, all_live, State.boot]
  | init e addr size _ _ _ ih => exact separated_init e addr size ih
  | owner s' ω' _ hstep ih => exact ownerStep_separated hstep (fun q hq => hq) ih
  | schedule hr ih => exact ownerSteps_separated (hd.2 _ hr) (fun q hq => hq) ih
  | get impl p r hr hcb ih =>
    exact ownerSteps_separated ((hd.1 _ _ impl p hr).1 _ _ hcb)
      (fun q hq => List.mem_append_left _ hq) ih
  | put impl p hr hcb ih =>
    exact ownerSteps_separated ((hd.1 _ _ impl p hr).2.1 _ hcb)
      (fun q hq => List.mem_append_left _ hq) ih
  | reclaim impl p r hr hcb ih =>
    exact ownerSteps_separated ((hd.1 _ _ impl p hr).2.2.1 _ _ hcb)
      (fun q hq => List.mem_append_left _ hq) ih
  | block impl p hr hcb ih =>
    exact ownerSteps_separated ((hd.1 _ _ impl p hr).2.2.2.1 _ hcb)
      (fun q hq => List.mem_append_left _ hq) ih
  | write impl p hr hcb ih =>
    exact ownerSteps_separated ((hd.1 _ _ impl p hr).2.2.2.2 _ hcb)
      (fun q hq => List.mem_append_left _ hq) ih
  | detach p _ hp ih => exact separated_detach ih hp
  | reattach p _ ih => exact separated_reattach ih
  | rotate p _ hp ih => exact separated_rotate ih hp
  | free_held p ret s' _ hfree ih => exact separated_free_held ih hfree

/-! ## A reclaim pass and an allocation stay among the reachable worlds -/

theorem reach_scan_iter {Ω : Type} {env : Env Ω} (hd : Disciplined env)
    {cluster cluster' : List PagePtr} {tr tr' : List Event} {w w' : World Ω}
    (hr : Reach env cluster w)
    (h : swap_scan_iter env cluster tr w = .ok (some (cluster', tr', w'))) :
    Reach env cluster' w' := by
  unfold swap_scan_iter at h
  split at h
  · cases h
  · rename_i epc_page rest hl
    have hhead : epc_page ∈ w.1.sgx_active_page_list := by
      rw [hl]
      exact List.mem_cons_self _ _
    split at h
    · cases h
    · rename_i ops hops
      obtain ⟨_, impl, _, _, rfl⟩ := page_ops_inv hops
      split at h
      · cases h
      · rename_i w1 hget
        cases h
        have hr1 := Reach.get impl epc_page false hr hget
        have hin := ownerSteps_keeps_listed ((hd.1 _ _ impl epc_page hr).1 _ _ hget)
          (List.mem_append_right _ (List.mem_singleton_self _)) hhead
        exact Reach.rotate epc_page hr1 hin
      · rename_i w1 hget
        have hr1 := Reach.get impl epc_page true hr hget
        have hin := ownerSteps_keeps_listed ((hd.1 _ _ impl epc_page hr).1 _ _ hget)
          (List.mem_append_right _ (List.mem_singleton_self _)) hhead
        have hr2 := Reach.detach epc_page hr1 hin
        simp only at h
        split at h
        · cases h
        · rename_i ops2 hops2
          obtain ⟨_, impl2, _, _, rfl⟩ := page_ops_inv hops2
          split at h
          · cases h
          · rename_i w3 hrec
            cases h
            exact Reach.reclaim impl2 epc_page true hr2 hrec
          · rename_i w3 hrec
            have hr3 := Reach.reclaim impl2 epc_page false hr2 hrec
            have hr4 := Reach.reattach epc_page hr3
            split at h
            · cases h
            · rename_i ops3 hops3
              obtain ⟨_, impl3, _, _, rfl⟩ := page_ops_inv hops3
              split at h
              · cases h
              · rename_i w5 hput
                cases h
                exact Reach.put impl3 epc_page hr4 hput

theorem reach_scan {Ω : Type} {env : Env Ω} (hd : Disciplined env) (n : Nat)
    {cluster cluster' : List PagePtr} {tr tr' : List Event} {w w' : World Ω}
    (hr : Reach env cluster w)
    (h : swap_scan env n cluster tr w = .ok (cluster', tr', w')) :
    Reach env cluster' w' := by
  induction n generalizing cluster tr w with
  | zero =>
    simp only [swap_scan] at h
    cases h
    exact hr
  | succ n ih =>
    unfold swap_scan at h
    split at h
    · cases h
    · cases h
      exact hr
    · rename_i c1 tr1 w1 hiter
      exact ih (reach_scan_iter hd hr hiter) h

theorem reach_block {Ω : Type} {env : Env Ω} {H : List PagePtr} (cluster : List PagePtr)
    {tr tr' : List Event} {w w' : World Ω} (hr : Reach env H w)
    (h : swap_block env cluster tr w = .ok (tr', w')) : Reach env H w' := by
  induction cluster generalizing tr w with
  | nil =>
    simp only [swap_block] at h
    cases h
    exact hr
  | cons epc_page rest ih =>
    unfold swap_block at h
    split at h
    · cases h
    · rename_i ops hops
      obtain ⟨_, impl, _, _, rfl⟩ := page_ops_inv hops
      split at h
      · cases h
      · rename_i w1 hblock
        exact ih (Reach.block impl epc_page hr hblock) h

theorem reach_write {Ω : Type} {env : Env Ω} (cluster : List PagePtr)
    {tr tr' : List Event} {w w' : World Ω} (hr : Reach env cluster w)
    (h : swap_write env cluster tr w = .ok (tr', w')) : Reach env [] w' := by
  induction cluster generalizing tr w with
  | nil =>
    simp only [swap_write] at h
    cases h
    exact hr
  | cons epc_page rest ih =>
    unfold swap_write at h
    split at h
    · cases h
    · rename_i tr1 w1 hiter
      refine ih ?_ h
      unfold swap_write_iter at hiter
      split at hiter
      · cases hiter
      · rename_i ops hops
        obtain ⟨_, impl, _, _, rfl⟩ := page_ops_inv hops
        split at hiter
        · cases hiter
        · rename_i w2 hwrite
          have hr2 := Reach.write impl epc_page hr hwrite
          split at hiter
          · cases hiter
          · rename_i ops2 hops2
            obtain ⟨_, impl2, _, _, rfl⟩ := page_ops_inv hops2
            split at hiter
            · cases hiter
            · rename_i w3 hput
              have hr3 := Reach.put impl2 epc_page hr2 hput
              split at hiter
              · cases hiter
              · rename_i ret s4 hfree
                cases hiter
                exact Reach.free_held epc_page ret s4 hr3 hfree

theorem reach_swap_cluster {Ω : Type} {env : Env Ω} (hd : Disciplined env)
    {tr : List Event} {w w' : World Ω} (hr : Reach env [] w)
    (h : sgx_swap_cluster env w = .ok (tr, w')) : Reach env [] w' := by
  unfold sgx_swap_cluster at h
  split at h
  · cases h
  · rename_i cluster tr1 w1 hscan
    split at h
    · cases h
    · rename_i tr2 w2 hblock
      exact reach_write cluster (reach_block cluster (reach_scan hd _ hr hscan) hblock) h

theorem reach_alloc_finish {Ω : Type} {env : Env Ω} {s : State} {ω ω' : Ω}
    (hr : Reach env [] (s, ω)) : Reach env [] (alloc_finish s, ω') := by
  refine Reach.owner (alloc_finish s) ω' hr (OwnerStep.frame ?_ ?_)
  · unfold alloc_finish
    split <;> rfl
  · unfold alloc_finish
    split <;> rfl

theorem popped_on_no_list {impl : Option ImplPtr} {s s1 : State} {p : PagePtr}
    (hS : Separated [] s) (h : sgx_try_alloc_page impl s = .ok (some p, s1)) :
    (s1.page p).map sgx_epc_page.impl = some impl ∧ p ∉ all_live s1 ∧
      p ∉ s1.sgx_active_page_list := by
  have hl := all_live_try_alloc h
  obtain ⟨i, bank, banks', _, _, _, _, hstore, hs1⟩ := sgx_try_alloc_page_some_inv h
  refine ⟨?_, ?_, ?_⟩
  · obtain ⟨pg, _, h2⟩ := store_impl_page_self hstore
    subst hs1
    simp [State.page, h2]
  · rw [separated_iff] at hS
    have h1 := (hS p).1
    unfold occ at h1
    have h2 := hl.1.count_eq p
    rw [count_cons_eq] at h2
    simp only [if_true] at h2
    rw [← List.count_eq_zero]
    omega
  · rw [separated_iff] at hS
    have h1 := (hS p).1
    unfold occ at h1
    have h2 := hl.1.count_eq p
    rw [count_cons_eq] at h2
    simp only [if_true] at h2
    rw [hl.2.1, ← List.count_eq_zero]
    omega

theorem alloc_finish_fields (s : State) :
    (alloc_finish s).sgx_epc_banks = s.sgx_epc_banks ∧
      (alloc_finish s).sgx_active_page_list = s.sgx_active_page_list := by
  unfold alloc_finish
  split <;> exact ⟨rfl, rfl⟩

theorem reach_alloc {Ω : Type} {env : Env Ω} (hd : Disciplined env)
    (impl : Option ImplPtr) (flags fuel : Nat) {r : AllocRet} {w w' : World Ω}
    (hr : Reach env [] w) (h : sgx_alloc_page env impl flags fuel w = .ok (r, w')) :
    Reach env [] w' ∧
      ∀ p, r = .page p →
        (w'.1.page p).map sgx_epc_page.impl = some impl ∧ p ∉ all_live w'.1 ∧
          p ∉ w'.1.sgx_active_page_list := by
  induction fuel generalizing w with
  | zero => simp [sgx_alloc_page] at h
  | succ fuel ih =>
    unfold sgx_alloc_page at h
    split at h
    · cases h
    · rename_i entry s1 htry
      cases h
      have hr1 : Reach env [] (s1, w.2) :=
        Reach.owner s1 w.2 hr (OwnerStep.try_alloc impl (some entry) htry)
      refine ⟨reach_alloc_finish hr1, ?_⟩
      intro p hp
      cases hp
      have := popped_on_no_list (reach_separated hd hr) htry
      have hf := alloc_finish_fields s1
      unfold State.page all_live at this ⊢
      simp only
      rw [hf.1, hf.2]
      exact this
    · rename_i s1 htry
      have hr1 : Reach env [] (s1, w.2) :=
        Reach.owner s1 w.2 hr (OwnerStep.try_alloc impl none htry)
      split at h
      · cases h
        exact ⟨hr1, fun p hp => by cases hp⟩
      · split at h
        · cases h
          exact ⟨reach_alloc_finish hr1, fun p hp => by cases hp⟩
        · split at h
          · cases h
            exact ⟨reach_alloc_finish hr1, fun p hp => by cases hp⟩
          · split at h
            · cases h
            · rename_i tr w2 hswap
              exact ih (Reach.schedule (reach_swap_cluster hd hr1 hswap)) h

theorem accept_env_disciplined : Disciplined accept_env := by
  refine ⟨fun H w impl p _ => ⟨?_, ?_, ?_, ?_, ?_⟩, fun w _ => OwnerSteps.refl _⟩
  · intro r w' h
    cases h
    exact OwnerSteps.refl _
  · intro w' h
    cases h
    exact OwnerSteps.refl _
  · intro r w' h
    cases h
    exact OwnerSteps.refl _
  · intro w' h
    cases h
    exact OwnerSteps.refl _
  · intro w' h
    cases h
    exact OwnerSteps.refl _

theorem example_reclaimable_reach : Reach accept_env [] (example_reclaimable, ()) := by
  have h0 : Reach accept_env [] (example_init_one, ()) :=
    Reach.init ⟨some 0xffffc90000000000, true, true⟩ 0x70000000 0x1000
      (Reach.boot [] false ()) (by decide) (by decide)
  have h1 : sgx_try_alloc_page (some 7) example_init_one
      = .ok (some ⟨0, 0⟩, example_reclaimable.with_list []) := by decide
  have h2 := Reach.owner (example_reclaimable.with_list []) () h0
    (OwnerStep.try_alloc (some 7) (some ⟨0, 0⟩) h1)
  exact Reach.owner example_reclaimable () h2
    (OwnerStep.mark ⟨0, 0⟩ (by decide) (by decide) (by decide) (by decide))

/-- C8, as stated, fails: after the calls `sgx_try_alloc_page`, `sgx_try_alloc_page`,
`sgx_free_page(p)`, `sgx_free_page(p)` on a freshly initialised bank of two pages,
`sgx_alloc_page` returns `p` while `p` is still a live entry of the free stack. -/
theorem sgx_alloc_page_after_double_free_listed :
    example_misuse_run.map (fun r => (r.1, decide ((⟨0, 1⟩ : PagePtr) ∈ all_live r.2.1)))
      = .ok (.page ⟨0, 1⟩, true) := by
  decide

/-- C8, amended: in every world reachable from section initialisation by code that uses
the interface with discipline (`sgx_free_page` and the registration on the active page
list only for pages that are allocated and on no list, the pages held by a running
reclaim pass left alone), a page returned by `sgx_alloc_page` has its `impl` equal to the
argument of the call, is not a live entry of any free stack and is not on the active page
list; the same holds for `sgx_alloc_va_page`, whose argument is `NULL`. -/
theorem sgx_alloc_page_returns_unlisted {Ω : Type} (env : Env Ω) (impl : Option ImplPtr)
    (flags fuel : Nat) (w : World Ω) (hd : Disciplined env) (hr : Reach env [] w) :
    (∀ p w', sgx_alloc_page env impl flags fuel w = .ok (.page p, w') →
      (w'.1.page p).map sgx_epc_page.impl = some impl ∧ p ∉ all_live w'.1 ∧
        p ∉ w'.1.sgx_active_page_list) ∧
    (∀ p w', sgx_alloc_va_page env flags fuel w = .ok (.page p, w') →
      (w'.1.page p).map sgx_epc_page.impl = some none ∧ p ∉ all_live w'.1 ∧
        p ∉ w'.1.sgx_active_page_list) := by
  constructor
  · intro p w' h
    exact (reach_alloc hd impl flags fuel hr h).2 p rfl
  · intro p w' h
    unfold sgx_alloc_va_page at h
    split at h
    · cases h
    · cases h
    · rename_i epc_page w1 halloc
      have := (reach_alloc hd none flags fuel hr halloc).2 epc_page rfl
      simp only at h
      split at h
      · split at h
        · cases h
        · cases h
      · cases h
        exact this

/-- C8, amended, instance: the allocation on `example_reclaimable`, which reclaims the
page of owner 7 and hands it to owner 9. -/
theorem sgx_alloc_page_returns_unlisted_witness :
    (example_reclaimed_allocated.page ⟨0, 0⟩).map sgx_epc_page.impl = some (some 9) ∧
      (⟨0, 0⟩ : PagePtr) ∉ all_live example_reclaimed_allocated ∧
      (⟨0, 0⟩ : PagePtr) ∉ example_reclaimed_allocated.sgx_active_page_list :=
  (sgx_alloc_page_returns_unlisted accept_env (some 9) 0 2 (example_reclaimable, ())
    accept_env_disciplined example_reclaimable_reach).1 ⟨0, 0⟩
    (example_reclaimed_allocated, ()) (by decide)

/-! ## The layout invariant holds in reachable states -/

theorem desc_bank (addr k index : Nat) (ha : addr % PAGE_SIZE = 0) (hi : index < PAGE_SIZE) :
    (((addr + (k <<< PAGE_SHIFT)) % 2 ^ 64) ||| index) &&& PAGE_OFFSET_MASK = index := by
  have hv : ((addr + (k <<< PAGE_SHIFT)) % 2 ^ 64) % 2 ^ 12 = 0 := by
    rw [Nat.mod_mod_of_dvd _ (by norm_num : (2 : Nat) ^ 12 ∣ 2 ^ 64)]
    simp only [PAGE_SHIFT, PAGE_SIZE, Nat.shiftLeft_eq] at ha ⊢
    omega
  obtain ⟨q, hq⟩ : ∃ q, (addr + (k <<< PAGE_SHIFT)) % 2 ^ 64 = 2 ^ 12 * q :=
    ⟨_, (Nat.div_add_mod _ (2 ^ 12)).symm.trans (by rw [hv]; rfl)⟩
  have hi' : index < 2 ^ 12 := by simpa [PAGE_SIZE, PAGE_SHIFT] using hi
  rw [hq, ← Nat.mul_add_lt_is_or hi' q]
  have : PAGE_OFFSET_MASK = 2 ^ 12 - 1 := rfl
  rw [this, Nat.and_pow_two_sub_one_eq_mod]
  omega

theorem wellFormed_iff (s : State) :
    s.WellFormed ↔
      ∀ (i : Nat) (bank : sgx_epc_bank), s.sgx_epc_banks[i]? = some bank →
        bank.free_cnt ≤ bank.pages.length ∧
          ∀ p ∈ bank.live, (page_at s.sgx_epc_banks p).map SGX_EPC_BANK = some i := by
  unfold State.WellFormed
  constructor
  · intro h i bank hi
    exact h (i, bank) (List.mk_mem_enum_iff_getElem?.mpr hi)
  · intro h x hx
    exact h x.1 x.2 (List.mem_enum_iff_getElem?.mp hx)

theorem wellFormed_boot (hw : List Int) (sig : Bool) : (State.boot hw sig).WellFormed := by
  rw [wellFormed_iff]
  intro i bank hi
  simp [State.boot] at hi

theorem page_at_append {banks : List sgx_epc_bank} {p : PagePtr} {pg : sgx_epc_page}
    (extra : List sgx_epc_bank) (h : page_at banks p = some pg) :
    page_at (banks ++ extra) p = some pg := by
  unfold page_at at h ⊢
  split at h
  · cases h
  · rename_i bank hb
    have hlt : p.bank < banks.length := (List.getElem?_eq_some_iff.mp hb).1
    rw [List.getElem?_append_left hlt, hb]
    exact h

theorem wellFormed_init (e : InitEnv) (addr size : Nat) {s : State} (hwf : s.WellFormed)
    (ha : addr % PAGE_SIZE = 0) (hi : s.sgx_epc_banks.length < PAGE_SIZE) :
    (sgx_init_epc_bank e addr size s.sgx_epc_banks.length s).2.WellFormed := by
  unfold sgx_init_epc_bank
  simp only
  split
  · exact hwf
  · split
    · exact hwf
    · split
      · exact hwf
      · rename_i x va heq hk1 hk2
        rw [wellFormed_iff] at hwf ⊢
        intro i bank hbank
        simp only at hbank ⊢
        by_cases hlt : i < s.sgx_epc_banks.length
        · rw [List.getElem?_append_left hlt] at hbank
          obtain ⟨h1, h2⟩ := hwf i bank hbank
          refine ⟨h1, fun p hp => ?_⟩
          have := h2 p hp
          cases hpg : page_at s.sgx_epc_banks p with
          | none => simp [hpg] at this
          | some pg =>
            rw [page_at_append _ hpg]
            rw [hpg] at this
            exact this
        · have hlen : (s.sgx_epc_banks ++
              [({ pa := addr, va := va, size := size,
                  pages_data := init_pages_data addr (size >>> PAGE_SHIFT)
                    s.sgx_epc_banks.length,
                  pages := init_pages s.sgx_epc_banks.length (size >>> PAGE_SHIFT),
                  free_cnt := size >>> PAGE_SHIFT } : sgx_epc_bank)]).length
              = s.sgx_epc_banks.length + 1 := by simp
          have hi2 : i = s.sgx_epc_banks.length := by
            have := (List.getElem?_eq_some_iff.mp hbank).1
            omega
          subst hi2
          rw [List.getElem?_append_right (Nat.le_refl _)] at hbank
          simp only [Nat.sub_self, List.getElem?_cons_zero, Option.some.injEq] at hbank
          subst hbank
          refine ⟨by simp [init_pages_length], fun p hp => ?_⟩
          simp only [sgx_epc_bank.live] at hp
          have hp' := List.mem_of_mem_take hp
          unfold init_pages at hp'
          obtain ⟨k, hk, rfl⟩ := List.mem_map.mp hp'
          have hk' : k < size >>> PAGE_SHIFT := List.mem_range.mp hk
          unfold page_at
          simp only
          rw [List.getElem?_append_right (Nat.le_refl _)]
          simp only [Nat.sub_self, List.getElem?_cons_zero]
          unfold init_pages_data
          rw [List.getElem?_map, List.getElem?_range hk']
          simp only [Option.map_some', SGX_EPC_BANK, Option.some.injEq]
          exact desc_bank addr k _ ha hi

theorem wellFormed_try_alloc {impl : Option ImplPtr} {s s' : State} {r : Option PagePtr}
    (hwf : s.WellFormed) (h : sgx_try_alloc_page impl s = .ok (r, s')) : s'.WellFormed := by
  cases r with
  | none =>
    rw [(sgx_try_alloc_page_none_inv h).1]
    exact hwf
  | some p =>
    obtain ⟨i, bank, banks', hi, hnz, _, htop, hstore, hs'⟩ := sgx_try_alloc_page_some_inv h
    subst hs'
    rw [wellFormed_iff] at hwf ⊢
    intro j bj hj
    simp only at hj ⊢
    have hilt : i < s.sgx_epc_banks.length := (List.getElem?_eq_some_iff.mp hi).1
    have hst := store_impl_stack_at hstore j
    rw [hj] at hst
    have hdesc : ∀ q, (page_at banks' q).map SGX_EPC_BANK
        = (page_at s.sgx_epc_banks q).map SGX_EPC_BANK := by
      intro q
      have h1 := store_impl_desc hstore q
      rw [page_at_set_stack hi bank.pages (bank.free_cnt - 1) q] at h1
      cases hq1 : page_at banks' q with
      | none =>
        cases hq2 : page_at s.sgx_epc_banks q with
        | none => rfl
        | some pg2 => simp [hq1, hq2] at h1
      | some pg1 =>
        cases hq2 : page_at s.sgx_epc_banks q with
        | none => simp [hq1, hq2] at h1
        | some pg2 =>
          simp only [hq1, hq2, Option.map_some', Option.some.injEq] at h1
          simp [SGX_EPC_BANK, h1]
    by_cases hji : j = i
    · subst hji
      rw [List.getElem?_set_self hilt] at hst
      simp only [Option.map_some', sgx_epc_bank.stack, Option.some.injEq,
        Prod.mk.injEq] at hst
      obtain ⟨h1, h2⟩ := hwf j bank hi
      refine ⟨by rw [hst.1, hst.2]; omega, fun q hq => ?_⟩
      rw [hdesc q]
      apply h2
      unfold sgx_epc_bank.live at hq ⊢
      rw [hst.1, hst.2] at hq
      exact (List.take_sublist_take_left bank.pages (Nat.sub_le _ _)).subset hq
    · rw [List.getElem?_set_ne (Ne.symm hji)] at hst
      cases hb : s.sgx_epc_banks[j]? with
      | none => simp [hb] at hst
      | some b0 =>
        rw [hb] at hst
        simp only [Option.map_some', sgx_epc_bank.stack, Option.some.injEq,
          Prod.mk.injEq] at hst
        obtain ⟨h1, h2⟩ := hwf j b0 hb
        refine ⟨by rw [hst.1, hst.2]; exact h1, fun q hq => ?_⟩
        rw [hdesc q]
        apply h2
        unfold sgx_epc_bank.live at hq ⊢
        rw [hst.1, hst.2] at hq
        exact hq

theorem wellFormed_free {p : PagePtr} {s s' : State} {ret : Int}
    (hwf : s.WellFormed) (h : sgx_free_page p s = .ok (ret, s')) : s'.WellFormed := by
  obtain ⟨pg, hp, _, hcase⟩ := sgx_free_page_inv h
  rcases hcase with ⟨_, hs'⟩ | ⟨_, bank, hb, hlt, hs'⟩
  · subst hs'
    exact hwf
  · subst hs'
    rw [wellFormed_iff] at hwf ⊢
    intro j bj hj
    simp only at hj ⊢
    have hilt : SGX_EPC_BANK pg < s.sgx_epc_banks.length :=
      (List.getElem?_eq_some_iff.mp hb).1
    have hpage : ∀ q, page_at (s.sgx_epc_banks.set (SGX_EPC_BANK pg)
          { bank with pages := bank.pages.set bank.free_cnt p,
                      free_cnt := bank.free_cnt + 1 }) q
        = page_at s.sgx_epc_banks q := fun q => page_at_set_stack hb _ _ q
    by_cases hji : j = SGX_EPC_BANK pg
    · subst hji
      rw [List.getElem?_set_self hilt] at hj
      cases hj
      obtain ⟨h1, h2⟩ := hwf _ bank hb
      refine ⟨by simp only [List.length_set]; omega, fun q hq => ?_⟩
      rw [hpage q]
      simp only [sgx_epc_bank.live] at hq
      rw [take_set_push _ _ _ hlt, List.mem_append] at hq
      rcases hq with hq | hq
      · exact h2 q hq
      · rw [List.mem_singleton] at hq
        subst hq
        unfold State.page at hp
        rw [hp]
        rfl
    · rw [List.getElem?_set_ne (Ne.symm hji)] at hj
      obtain ⟨h1, h2⟩ := hwf j bj hj
      exact ⟨h1, fun q hq => by rw [hpage q]; exact h2 q hq⟩

theorem wellFormed_of_banks {s s' : State} (hb : s'.sgx_epc_banks = s.sgx_epc_banks)
    (hwf : s.WellFormed) : s'.WellFormed := by
  rw [wellFormed_iff] at hwf ⊢
  rw [hb]
  exact hwf

theorem ownerStep_wellFormed {P : List PagePtr} {s s' : State} (hstep : OwnerStep P s s')
    (hwf : s.WellFormed) : s'.WellFormed := by
  cases hstep with
  | try_alloc impl r h => exact wellFormed_try_alloc hwf h
  | free q ret _ _ _ h => exact wellFormed_free hwf h
  | mark q _ _ _ _ => exact wellFormed_of_banks rfl hwf
  | unmark q _ => exact wellFormed_of_banks rfl hwf
  | frame hb _ => exact wellFormed_of_banks hb hwf

theorem ownerSteps_wellFormed {P : List PagePtr} {s s' : State} (hsteps : OwnerSteps P s s')
    (hwf : s.WellFormed) : s'.WellFormed := by
  induction hsteps with
  | refl s => exact hwf
  | step h1 _ ih => exact ih (ownerStep_wellFormed h1 hwf)

theorem reach_wellFormed {Ω : Type} {env : Env Ω} (hd : Disciplined env)
    {H : List PagePtr} {w : World Ω} (hr : Reach env H w) : w.1.WellFormed := by
  induction hr with
  | boot hw sig ω => exact wellFormed_boot hw sig
  | init e addr size _ ha hlen ih =>
    exact wellFormed_init e addr size ih ha
      (Nat.lt_trans hlen (by decide : SGX_MAX_EPC_BANKS < PAGE_SIZE))
  | owner s' ω' _ hstep ih => exact ownerStep_wellFormed hstep ih
  | schedule hr ih => exact ownerSteps_wellFormed (hd.2 _ hr) ih
  | get impl p r hr hcb ih => exact ownerSteps_wellFormed ((hd.1 _ _ impl p hr).1 _ _ hcb) ih
  | put impl p hr hcb ih => exact ownerSteps_wellFormed ((hd.1 _ _ impl p hr).2.1 _ hcb) ih
  | reclaim impl p r hr hcb ih =>
    exact ownerSteps_wellFormed ((hd.1 _ _ impl p hr).2.2.1 _ _ hcb) ih
  | block impl p hr hcb ih =>
    exact ownerSteps_wellFormed ((hd.1 _ _ impl p hr).2.2.2.1 _ hcb) ih
  | write impl p hr hcb ih =>
    exact ownerSteps_wellFormed ((hd.1 _ _ impl p hr).2.2.2.2 _ hcb) ih
  | detach p _ _ ih => exact wellFormed_of_banks rfl ih
  | reattach p _ ih => exact wellFormed_of_banks rfl ih
  | rotate p _ _ ih => exact wellFormed_of_banks rfl ih
  | free_held p ret s' _ hfree ih => exact wellFormed_free ih hfree

/-! ## The enclave-page owner keeps the counter invariant -/

theorem write_page_ewb_frame (c : DriverParams) (epc_page va_epc_page : PagePtr)
    (va_offset encl : Nat) (s : State) :
    (write_page_ewb c epc_page va_epc_page va_offset encl s).2.sgx_epc_banks
        = s.sgx_epc_banks ∧
      (write_page_ewb c epc_page va_epc_page va_offset encl s).2.sgx_nr_free_pages
        = s.sgx_nr_free_pages ∧
      (write_page_ewb c epc_page va_epc_page va_offset encl s).2.sgx_active_page_list
        = s.sgx_active_page_list := by
  unfold write_page_ewb
  simp only [sgx_ewb, encls, sgx_encl_track, sgx_flush_cpus]
  split
  · split
    · exact ⟨rfl, rfl, rfl⟩
    · exact ⟨rfl, rfl, rfl⟩
  · exact ⟨rfl, rfl, rfl⟩

theorem countersAgree_of_fields {s s' : State} (hb : s'.sgx_epc_banks = s.sgx_epc_banks)
    (hn : s'.sgx_nr_free_pages = s.sgx_nr_free_pages) (h : s.CountersAgree) :
    s'.CountersAgree := by
  unfold State.CountersAgree at h ⊢
  rw [hb, hn]
  exact h

theorem write_page_swap_frame {c : DriverParams} {p : PagePtr} {ip : ImplPtr}
    {w w' : World Driver} (h : write_page_swap c p ip w = .ok w') :
    w'.1.sgx_epc_banks = w.1.sgx_epc_banks ∧
      w'.1.sgx_nr_free_pages = w.1.sgx_nr_free_pages ∧
      w'.1.sgx_active_page_list = w.1.sgx_active_page_list := by
  unfold write_page_swap at h
  simp only at h
  split at h
  · cases h
  · cases h
    exact write_page_ewb_frame _ _ _ _ _ _

theorem sgx_write_page_counters {c : DriverParams} {p : PagePtr} {do_free : Bool}
    {w w' : World Driver} (hP : w.1.CountersAgree)
    (h : sgx_write_page c p do_free w = .ok w') : w'.1.CountersAgree := by
  have hout : ∀ {ip : ImplPtr} {w1 w2 : World Driver}, w1.1.CountersAgree →
      write_page_out c p ip do_free w1 = .ok w2 → w2.1.CountersAgree := by
    intro ip w1 w2 hP1 ho
    unfold write_page_out at ho
    simp only at ho
    split at ho
    · split at ho
      · cases ho
      · rename_i ret s2 hfr
        cases ho
        exact countersAgree_free _ _ _ _ hP1 hfr
    · cases ho
      exact hP1
  unfold sgx_write_page at h
  split at h
  · cases h
  · split at h
    · exact hout hP h
    · split at h
      · cases h
      · rename_i w1 hw1
        have hf := write_page_swap_frame hw1
        exact hout (countersAgree_of_fields hf.1 hf.2.1 hP) h

theorem sgx_encl_page_ops_counters (c : DriverParams)
    (hrel : ∀ encl w, w.1.CountersAgree → (c.sgx_encl_release encl w).1.CountersAgree) :
    (sgx_encl_page_ops c).Preserves State.CountersAgree := by
  refine ⟨?_, ?_, ?_, ?_, ?_⟩
  · intro p w r w' hP h
    rw [sgx_encl_page_get_state h]
    exact hP
  · intro p w w' hP h
    rcases sgx_encl_page_put_state h with h1 | ⟨encl, d, h1⟩
    · rw [h1]
      exact hP
    · rw [h1]
      exact hrel encl (w.1, d) hP
  · intro p w r w' hP h
    rw [sgx_encl_page_reclaim_state h]
    exact hP
  · intro p w w' hP h
    unfold sgx_encl_page_ops sgx_encl_page_block at h
    simp only at h
    split at h
    · cases h
    · cases h
      exact hP
  · intro p w w' hP h
    unfold sgx_encl_page_ops sgx_encl_page_write at h
    simp only at h
    split at h
    · cases h
    · split at h
      · cases h
      · rename_i w1 hw1
        have hP1 := sgx_write_page_counters hP hw1
        split at h
        · split at h
          · cases h
          · refine sgx_write_page_counters ?_ h
            exact hP1
        · cases h
          exact hP1

/-- C5: the sum of `free_cnt` over all banks equals `sgx_nr_free_pages` in the boot state,
and the equality is kept by `sgx_init_epc_bank` (successful or not), by
`sgx_try_alloc_page`, by `sgx_free_page` (whether `REMOVE` succeeds or fails), and by
`sgx_swap_cluster` and `sgx_alloc_page` whenever the owner callbacks (and the threads run
by `schedule()`) keep it; the callbacks of `sgx_encl_page_ops` keep it, provided
`sgx_encl_release` does. -/
theorem counters_agree_invariant :
    (∀ hw sig, (State.boot hw sig).CountersAgree) ∧
    (∀ e addr size index s, s.CountersAgree →
      (sgx_init_epc_bank e addr size index s).2.CountersAgree) ∧
    (∀ impl s r s', s.CountersAgree → sgx_try_alloc_page impl s = .ok (r, s') →
      s'.CountersAgree) ∧
    (∀ p s ret s', s.CountersAgree → sgx_free_page p s = .ok (ret, s') →
      s'.CountersAgree) ∧
    (∀ (Ω : Type) (env : Env Ω) (w : World Ω) tr w',
      (∀ impl, (env.ops_of impl).Preserves State.CountersAgree) → w.1.CountersAgree →
      sgx_swap_cluster env w = .ok (tr, w') → w'.1.CountersAgree) ∧
    (∀ (Ω : Type) (env : Env Ω) impl flags fuel (w : World Ω) r w',
      env.Preserves State.CountersAgree → w.1.CountersAgree →
      sgx_alloc_page env impl flags fuel w = .ok (r, w') → w'.1.CountersAgree) ∧
    (∀ c : DriverParams,
      (∀ encl w, w.1.CountersAgree → (c.sgx_encl_release encl w).1.CountersAgree) →
      (sgx_encl_page_ops c).Preserves State.CountersAgree) := by
  refine ⟨countersAgree_boot, countersAgree_init, countersAgree_try_alloc,
    countersAgree_free, ?_, ?_, sgx_encl_page_ops_counters⟩
  · intro Ω env w tr w' henv hP h
    exact sgx_swap_cluster_preserves countersAgree_with_list
      (fun p s ret s' => countersAgree_free p s ret s') henv hP h
  · intro Ω env impl flags fuel w r w' henv hP h
    exact sgx_alloc_page_preserves countersAgree_with_list
      (fun p s ret s' => countersAgree_free p s ret s')
      (fun impl s r s' => countersAgree_try_alloc impl s r s')
      countersAgree_alloc_finish henv impl flags fuel hP h

/-- C5, instance: the allocation of `example_reclaimable`, which runs one reclaim pass. -/
theorem counters_agree_invariant_witness : example_reclaimed_allocated.CountersAgree :=
  counters_agree_invariant.2.2.2.2.2.1 Unit accept_env (some 9) 0 2 (example_reclaimable, ())
    (.page ⟨0, 0⟩) (example_reclaimed_allocated, ())
    (accept_env_preserves State.CountersAgree) (by decide) (by decide)

/-! ## The instructions of a reclaim pass, in order -/

theorem swap_scan_iter_log {Ω : Type} {env : Env Ω} (Q : List HwOp → Prop)
    (hQa : ∀ a b, Q a → Q b → Q (a ++ b))
    (hget : ∀ impl p w r w', (env.ops_of impl).get p w = .ok (r, w') →
      ∃ d, w'.1.hw_log = w.1.hw_log ++ d ∧ Q d)
    (hreclaim : ∀ impl p w r w', (env.ops_of impl).reclaim p w = .ok (r, w') →
      ∃ d, w'.1.hw_log = w.1.hw_log ++ d ∧ Q d)
    (hput : ∀ impl p w w', (env.ops_of impl).put p w = .ok w' →
      ∃ d, w'.1.hw_log = w.1.hw_log ++ d ∧ Q d)
    {cluster cluster' : List PagePtr} {tr tr' : List Event} {w w' : World Ω}
    (h : swap_scan_iter env cluster tr w = .ok (some (cluster', tr', w'))) :
    ∃ d, w'.1.hw_log = w.1.hw_log ++ d ∧ Q d := by
  unfold swap_scan_iter at h
  split at h
  · cases h
  · rename_i epc_page rest hl
    split at h
    · cases h
    · rename_i ops hops
      obtain ⟨_, impl, _, _, rfl⟩ := page_ops_inv hops
      split at h
      · cases h
      · rename_i w1 hg
        cases h
        obtain ⟨d1, h1, hq1⟩ := hget _ _ _ _ _ hg
        exact ⟨d1, h1, hq1⟩
      · rename_i w1 hg
        obtain ⟨d1, h1, hq1⟩ := hget _ _ _ _ _ hg
        simp only at h
        split at h
        · cases h
        · rename_i ops2 hops2
          obtain ⟨_, impl2, _, _, rfl⟩ := page_ops_inv hops2
          split at h
          · cases h
          · rename_i w3 hrec
            cases h
            obtain ⟨d2, h2, hq2⟩ := hreclaim _ _ _ _ _ hrec
            refine ⟨d1 ++ d2, ?_, hQa _ _ hq1 hq2⟩
            rw [h2]
            simp only [State.with_list]
            rw [h1, List.append_assoc]
          · rename_i w3 hrec
            obtain ⟨d2, h2, hq2⟩ := hreclaim _ _ _ _ _ hrec
            split at h
            · cases h
            · rename_i ops3 hops3
              obtain ⟨_, impl3, _, _, rfl⟩ := page_ops_inv hops3
              split at h
              · cases h
              · rename_i w5 hp
                cases h
                obtain ⟨d3, h3, hq3⟩ := hput _ _ _ _ hp
                refine ⟨d1 ++ d2 ++ d3, ?_, hQa _ _ (hQa _ _ hq1 hq2) hq3⟩
                rw [h3]
                simp only [State.with_list]
                rw [h2]
                simp only [State.with_list]
                rw [h1]
                simp only [List.append_assoc]

theorem swap_scan_log {Ω : Type} {env : Env Ω} (Q : List HwOp → Prop) (hQ0 : Q [])
    (hQa : ∀ a b, Q a → Q b → Q (a ++ b))
    (hget : ∀ impl p w r w', (env.ops_of impl).get p w = .ok (r, w') →
      ∃ d, w'.1.hw_log = w.1.hw_log ++ d ∧ Q d)
    (hreclaim : ∀ impl p w r w', (env.ops_of impl).reclaim p w = .ok (r, w') →
      ∃ d, w'.1.hw_log = w.1.hw_log ++ d ∧ Q d)
    (hput : ∀ impl p w w', (env.ops_of impl).put p w = .ok w' →
      ∃ d, w'.1.hw_log = w.1.hw_log ++ d ∧ Q d)
    (n : Nat) {cluster cluster' : List PagePtr} {tr tr' : List Event} {w w' : World Ω}
    (h : swap_scan env n cluster tr w = .ok (cluster', tr', w')) :
    ∃ d, w'.1.hw_log = w.1.hw_log ++ d ∧ Q d := by
  induction n generalizing cluster tr w with
  | zero =>
    simp only [swap_scan] at h
    cases h
    exact ⟨[], by simp, hQ0⟩
  | succ n ih =>
    unfold swap_scan at h
    split at h
    · cases h
    · cases h
      exact ⟨[], by simp, hQ0⟩
    · rename_i c1 tr1 w1 hiter
      obtain ⟨d1, h1, hq1⟩ := swap_scan_iter_log Q hQa hget hreclaim hput hiter
      obtain ⟨d2, h2, hq2⟩ := ih h
      exact ⟨d1 ++ d2, by rw [h2, h1, List.append_assoc], hQa _ _ hq1 hq2⟩

theorem swap_block_log {Ω : Type} {env : Env Ω}
    (hblock : ∀ impl p w w', (env.ops_of impl).block p w = .ok w' →
      w'.1.hw_log = w.1.hw_log ++ [.EBLOCK p])
    (cluster : List PagePtr) {tr tr' : List Event} {w w' : World Ω}
    (h : swap_block env cluster tr w = .ok (tr', w')) :
    w'.1.hw_log = w.1.hw_log ++ cluster.map HwOp.EBLOCK := by
  induction cluster generalizing tr w with
  | nil =>
    simp only [swap_block] at h
    cases h
    simp
  | cons epc_page rest ih =>
    unfold swap_block at h
    split at h
    · cases h
    · rename_i ops hops
      obtain ⟨_, impl, _, _, rfl⟩ := page_ops_inv hops
      split at h
      · cases h
      · rename_i w1 hb
        rw [ih h, hblock _ _ _ _ hb]
        simp

theorem swap_write_log {Ω : Type} {env : Env Ω} (Q : List HwOp → Prop) (hQ0 : Q [])
    (hQa : ∀ a b, Q a → Q b → Q (a ++ b))
    (hwrite : ∀ impl p w w', (env.ops_of impl).write p w = .ok w' →
      ∃ d, w'.1.hw_log = w.1.hw_log ++ d ∧ Q d)
    (hput : ∀ impl p w w', (env.ops_of impl).put p w = .ok w' →
      ∃ d, w'.1.hw_log = w.1.hw_log ++ d ∧ Q d)
    (hfree : ∀ p, Q [.EREMOVE p])
    (cluster : List PagePtr) {tr tr' : List Event} {w w' : World Ω}
    (h : swap_write env cluster tr w = .ok (tr', w')) :
    ∃ d, w'.1.hw_log = w.1.hw_log ++ d ∧ Q d := by
  induction cluster generalizing tr w with
  | nil =>
    simp only [swap_write] at h
    cases h
    exact ⟨[], by simp, hQ0⟩
  | cons epc_page rest ih =>
    unfold swap_write at h
    split at h
    · cases h
    · rename_i tr1 w1 hiter
      obtain ⟨d4, h4, hq4⟩ := ih h
      unfold swap_write_iter at hiter
      split at hiter
      · cases hiter
      · rename_i ops hops
        obtain ⟨_, impl, _, _, rfl⟩ := page_ops_inv hops
        split at hiter
        · cases hiter
        · rename_i w2 hw
          obtain ⟨d1, h1, hq1⟩ := hwrite _ _ _ _ hw
          split at hiter
          · cases hiter
          · rename_i ops2 hops2
            obtain ⟨_, impl2, _, _, rfl⟩ := page_ops_inv hops2
            split at hiter
            · cases hiter
            · rename_i w3 hp
              obtain ⟨d2, h2, hq2⟩ := hput _ _ _ _ hp
              split at hiter
              · cases hiter
              · rename_i ret s4 hfr
                cases hiter
                have h3 := sgx_free_page_log hfr
                refine ⟨d1 ++ d2 ++ [.EREMOVE epc_page] ++ d4, ?_,
                  hQa _ _ (hQa _ _ (hQa _ _ hq1 hq2) (hfree _)) hq4⟩
                rw [h4]
                simp only
                rw [h3, h2, h1]
                simp

theorem write_page_ewb_log (c : DriverParams) (epc_page va_epc_page : PagePtr)
    (va_offset encl : Nat) (s : State) :
    ∃ d, (write_page_ewb c epc_page va_epc_page va_offset encl s).2.hw_log = s.hw_log ++ d ∧
      eblock_count d = 0 := by
  unfold write_page_ewb
  simp only [sgx_ewb, encls, sgx_encl_track, sgx_flush_cpus]
  split
  · split
    · exact ⟨[.EWB epc_page va_epc_page va_offset, .ETRACK encl,
        .EWB epc_page va_epc_page va_offset, .FLUSH encl,
        .EWB epc_page va_epc_page va_offset], by simp, by simp [eblock_count]⟩
    · exact ⟨[.EWB epc_page va_epc_page va_offset, .ETRACK encl,
        .EWB epc_page va_epc_page va_offset], by simp, by simp [eblock_count]⟩
  · exact ⟨[.EWB epc_page va_epc_page va_offset], by simp, by simp [eblock_count]⟩

theorem eblock_count_append (a b : List HwOp) :
    eblock_count (a ++ b) = eblock_count a + eblock_count b := by
  simp [eblock_count, List.countP_append]

theorem ewb_count_append (a b : List HwOp) :
    ewb_count (a ++ b) = ewb_count a + ewb_count b := by
  simp [ewb_count, List.countP_append]

theorem sgx_write_page_log {c : DriverParams} {p : PagePtr} {do_free : Bool}
    {w w' : World Driver} (h : sgx_write_page c p do_free w = .ok w') :
    ∃ d, w'.1.hw_log = w.1.hw_log ++ d ∧ eblock_count d = 0 := by
  have hout : ∀ {ip : ImplPtr} {w1 w2 : World Driver},
      write_page_out c p ip do_free w1 = .ok w2 →
      ∃ d, w2.1.hw_log = w1.1.hw_log ++ d ∧ eblock_count d = 0 := by
    intro ip w1 w2 ho
    unfold write_page_out at ho
    simp only at ho
    split at ho
    · split at ho
      · cases ho
      · rename_i ret s2 hfr
        cases ho
        exact ⟨[.EREMOVE p], sgx_free_page_log hfr, by simp [eblock_count]⟩
    · cases ho
      exact ⟨[], by simp, rfl⟩
  unfold sgx_write_page at h
  split at h
  · cases h
  · split at h
    · exact hout h
    · split at h
      · cases h
      · rename_i w1 hw1
        obtain ⟨d2, h2, hq2⟩ := hout h
        have h1 : ∃ d, w1.1.hw_log = w.1.hw_log ++ d ∧ eblock_count d = 0 := by
          unfold write_page_swap at hw1
          simp only at hw1
          split at hw1
          · cases hw1
          · cases hw1
            exact write_page_ewb_log _ _ _ _ _ _
        obtain ⟨d1, h1, hq1⟩ := h1
        refine ⟨d1 ++ d2, by rw [h2, h1, List.append_assoc], ?_⟩
        rw [eblock_count_append, hq1, hq2]

theorem sgx_encl_page_write_log {c : DriverParams} {p : PagePtr}
    {w w' : World Driver} (h : sgx_encl_page_write c p w = .ok w') :
    ∃ d, w'.1.hw_log = w.1.hw_log ++ d ∧ eblock_count d = 0 := by
  unfold sgx_encl_page_write at h
  split at h
  · cases h
  · simp only at h
    split at h
    · cases h
    · rename_i w1 hw1
      obtain ⟨d1, h1, hq1⟩ := sgx_write_page_log hw1
      split at h
      · split at h
        · cases h
        · obtain ⟨d2, h2, hq2⟩ := sgx_write_page_log h
          simp only at h2
          refine ⟨d1 ++ d2, by rw [h2, h1, List.append_assoc], ?_⟩
          rw [eblock_count_append, hq1, hq2]
      · cases h
        exact ⟨d1, h1, hq1⟩

theorem encl_env_swap_cluster_log (c : DriverParams) (schedule : World Driver → World Driver)
    (hrel : ∀ encl w0, ∃ d, (c.sgx_encl_release encl w0).1.hw_log = w0.1.hw_log ++ d ∧
      ewb_count d = 0 ∧ eblock_count d = 0)
    {w w' : World Driver} {tr : List Event}
    (h : sgx_swap_cluster (encl_env c schedule) w = .ok (tr, w')) :
    ∃ d1 d3, w'.1.hw_log
        = w.1.hw_log ++ d1 ++ (blocked_pages tr).map HwOp.EBLOCK ++ d3 ∧
      ewb_count d1 = 0 ∧ eblock_count d1 = 0 ∧ eblock_count d3 = 0 := by
  obtain ⟨cluster, t1, t3, hcl, htr, hb1, hw1, hb3, hw3⟩ := sgx_swap_cluster_trace h
  have hb : blocked_pages tr = cluster := by
    rw [htr]
    simp only [blocked_pages, List.filterMap_append] at hb1 hb3 ⊢
    rw [hb1, hb3]
    simpa [blocked_pages] using blocked_pages_map_block cluster
  have hputs : ∀ (impl : ImplPtr) p (w0 w1 : World Driver),
      ((encl_env c schedule).ops_of impl).put p w0 = .ok w1 →
      ∃ d, w1.1.hw_log = w0.1.hw_log ++ d ∧ ewb_count d = 0 ∧ eblock_count d = 0 := by
    intro impl p w0 w1 hp
    rcases sgx_encl_page_put_state hp with h1 | ⟨encl, d, h1⟩
    · exact ⟨[], by rw [h1]; simp, rfl, rfl⟩
    · rw [h1]
      exact hrel encl (w0.1, d)
  unfold sgx_swap_cluster at h
  split at h
  · cases h
  · rename_i cluster' tr1 w1 hscan
    have hcl' : cluster' = cluster := by
      unfold swap_cluster_pages at hcl
      rw [hscan] at hcl
      cases hcl
      rfl
    subst hcl'
    split at h
    · cases h
    · rename_i tr2 w2 hblk
      obtain ⟨d1, h1, hq1⟩ := @swap_scan_log Driver (encl_env c schedule)
        (fun d => ewb_count d = 0 ∧ eblock_count d = 0) ⟨rfl, rfl⟩
        (fun a b ha hb' => by
          simp only at ha hb' ⊢
          rw [ewb_count_append, eblock_count_append]
          omega)
        (fun impl p w0 r w1 hg => ⟨[], by
          change w1.1.hw_log = w0.1.hw_log ++ []
          rw [sgx_encl_page_get_state hg]
          simp, rfl, rfl⟩)
        (fun impl p w0 r w1 hr => ⟨[], by
          change w1.1.hw_log = w0.1.hw_log ++ []
          rw [sgx_encl_page_reclaim_state hr]
          simp, rfl, rfl⟩)
        hputs _ _ _ _ _ _ _ hscan
      have h2 := @swap_block_log Driver (encl_env c schedule)
        (fun impl p w0 w1 hbk => sgx_encl_page_block_log hbk) cluster' _ _ _ _ hblk
      obtain ⟨d3, h3, hq3⟩ := @swap_write_log Driver (encl_env c schedule)
        (fun d => eblock_count d = 0) rfl
        (fun a b ha hb' => by
          simp only at ha hb' ⊢
          rw [eblock_count_append]
          omega)
        (fun impl p w0 w1 hwr => sgx_encl_page_write_log hwr)
        (fun impl p w0 w1 hp => by
          obtain ⟨d, hd1, _, hd2⟩ := hputs impl p w0 w1 hp
          exact ⟨d, hd1, hd2⟩)
        (fun p => by simp [eblock_count]) cluster' _ _ _ _ h
      refine ⟨d1, d3, ?_, hq1.1, hq1.2, hq3⟩
      rw [h3, h2, h1, hb]

/-- C9: in the trace of one `sgx_swap_cluster`, whatever the active page list and the
callbacks, the pages on which `block` is called are the pages on which `write` is called,
in the same order, namely the pages of `cluster[]`; and every `block` call comes before
every `write` call.  With the callbacks of `sgx_encl_page_ops` the instructions of the
pass are, in order: some that are neither `BLOCK` nor `WRITEBACK`, then one `BLOCK` for
each clustered page, then some that are not `BLOCK`, among them all the `WRITEBACK`s
(`sgx_encl_release` is assumed to issue neither). -/
theorem sgx_swap_cluster_block_before_write {Ω : Type} (env : Env Ω) (w w' : World Ω)
    (tr : List Event) (h : sgx_swap_cluster env w = .ok (tr, w')) :
    swap_cluster_pages env w = .ok (blocked_pages tr) ∧
    blocked_pages tr = written_pages tr ∧
    (∀ (i j : Nat) (p q : PagePtr),
      tr[i]? = some (.block p) → tr[j]? = some (.write q) → i < j) ∧
    (∀ (c : DriverParams) (schedule : World Driver → World Driver) (v v' : World Driver)
      (t : List Event),
      (∀ encl w0, ∃ d, (c.sgx_encl_release encl w0).1.hw_log = w0.1.hw_log ++ d ∧
        ewb_count d = 0 ∧ eblock_count d = 0) →
      sgx_swap_cluster (encl_env c schedule) v = .ok (t, v') →
      ∃ d1 d3, v'.1.hw_log
          = v.1.hw_log ++ d1 ++ (blocked_pages t).map HwOp.EBLOCK ++ d3 ∧
        ewb_count d1 = 0 ∧ eblock_count d1 = 0 ∧ eblock_count d3 = 0) := by
  obtain ⟨cluster, t1, t3, hcl, htr, hb1, hw1, hb3, hw3⟩ := sgx_swap_cluster_trace h
  have hb : blocked_pages tr = cluster := by
    rw [htr]
    simp only [blocked_pages, List.filterMap_append] at hb1 hb3 ⊢
    rw [hb1, hb3]
    simpa [blocked_pages] using blocked_pages_map_block cluster
  have hw : written_pages tr = cluster := by
    rw [htr]
    simp only [written_pages, List.filterMap_append] at hw1 hw3 ⊢
    rw [hw1, hw3]
    simpa [written_pages] using written_pages_map_block cluster
  refine ⟨by rw [hb]; exact hcl, by rw [hb, hw], ?_, ?_⟩
  · intro i j p q hi hj
    rw [htr] at hi hj
    refine block_before_write ?_ hb3 hi hj
    simp only [written_pages, List.filterMap_append] at hw1 ⊢
    rw [hw1]
    simpa [written_pages] using written_pages_map_block cluster
  · intro c schedule v v' t hrel hv
    exact encl_env_swap_cluster_log c schedule hrel hv

/-- C9, instance: the reclaim pass on `example_reclaimable`. -/
theorem sgx_swap_cluster_block_before_write_witness :
    swap_cluster_pages accept_env (example_reclaimable, ())
        = .ok (blocked_pages [.get ⟨0, 0⟩ true, .reclaim ⟨0, 0⟩ true, .block ⟨0, 0⟩,
            .write ⟨0, 0⟩, .put ⟨0, 0⟩, .free_page ⟨0, 0⟩ 0]) ∧
    blocked_pages [.get ⟨0, 0⟩ true, .reclaim ⟨0, 0⟩ true, .block ⟨0, 0⟩,
        .write ⟨0, 0⟩, .put ⟨0, 0⟩, .free_page ⟨0, 0⟩ 0]
      = written_pages [.get ⟨0, 0⟩ true, .reclaim ⟨0, 0⟩ true, .block ⟨0, 0⟩,
        .write ⟨0, 0⟩, .put ⟨0, 0⟩, .free_page ⟨0, 0⟩ 0] ∧
    ∀ (i j : Nat) (p q : PagePtr),
      [Event.get ⟨0, 0⟩ true, .reclaim ⟨0, 0⟩ true, .block ⟨0, 0⟩,
        .write ⟨0, 0⟩, .put ⟨0, 0⟩, .free_page ⟨0, 0⟩ 0][i]? = some (.block p) →
      [Event.get ⟨0, 0⟩ true, .reclaim ⟨0, 0⟩ true, .block ⟨0, 0⟩,
        .write ⟨0, 0⟩, .put ⟨0, 0⟩, .free_page ⟨0, 0⟩ 0][j]? = some (.write q) → i < j :=
  have h := sgx_swap_cluster_block_before_write accept_env (example_reclaimable, ())
    (example_reclaimed, ()) _ (by decide)
  ⟨h.1, h.2.1, h.2.2.1⟩


/-! ## The `reclaim` callback of the enclave-page owner -/

theorem or_and_self_mask (x m : Nat) : (x ||| m) &&& m = m := by
  apply Nat.eq_of_testBit_eq
  intro i
  simp only [Nat.testBit_and, Nat.testBit_or]
  cases x.testBit i <;> cases m.testBit i <;> rfl

theorem set_encl_page_self (d : Driver) (ip : ImplPtr) (pg : sgx_encl_page) :
    (d.set_encl_page ip pg).encl_pages ip = pg := by
  simp [Driver.set_encl_page]

theorem sgx_encl_page_reclaim_spec (c : DriverParams) (p : PagePtr) (w : World Driver)
    (ip : ImplPtr) (hip : encl_page_of w.1 p = .ok ip) :
    ∃ r w', sgx_encl_page_reclaim c p w = .ok (r, w') ∧ w'.1 = w.1 ∧
      (r = false ↔
        (w.2.encls (w.2.encl_pages ip).encl).flags &&& c.SGX_ENCL_DEAD = 0 ∧
          ((w.2.encl_pages ip).young = true ∨
            (w.2.encl_pages ip).desc &&& c.SGX_ENCL_PAGE_RESERVED ≠ 0)) ∧
      (r = false → (w'.2.encl_pages ip).desc = (w.2.encl_pages ip).desc) ∧
      (r = true → (w'.2.encl_pages ip).desc &&& c.SGX_ENCL_PAGE_RESERVED
        = c.SGX_ENCL_PAGE_RESERVED) := by
  unfold sgx_encl_page_reclaim
  rw [hip]
  simp only
  by_cases hdead : (w.2.encls (w.2.encl_pages ip).encl).flags &&& c.SGX_ENCL_DEAD = 0
  · rw [if_neg (by simpa using hdead)]
    simp only [sgx_test_and_clear_young, set_encl_page_self]
    by_cases hy : (w.2.encl_pages ip).young = true
    · rw [if_neg (by simp [hy])]
      refine ⟨false, _, rfl, rfl, ?_, ?_, ?_⟩
      · simp [hdead, hy]
      · intro _; simp [set_encl_page_self]
      · intro h; cases h
    · by_cases hr : (w.2.encl_pages ip).desc &&& c.SGX_ENCL_PAGE_RESERVED = 0
      · rw [if_pos ⟨by simpa using hy, hr⟩]
        refine ⟨true, _, rfl, rfl, ?_, ?_, ?_⟩
        · simp [hy, hr]
        · intro h; cases h
        · intro _
          simp only [set_encl_page_self]
          exact or_and_self_mask _ _
      · rw [if_neg (by simp [hr])]
        refine ⟨false, _, rfl, rfl, ?_, ?_, ?_⟩
        · simp [hdead, hr]
        · intro _; simp [set_encl_page_self]
        · intro h; cases h
  · rw [if_pos hdead]
    refine ⟨true, _, rfl, rfl, ?_, ?_, ?_⟩
    · simp [hdead]
    · intro h; cases h
    · intro _
      simp only [set_encl_page_self]
      exact or_and_self_mask _ _

/-- C11, as stated, fails: the enclave page of `example_dead_driver` is hot and already
`RESERVED`, yet `sgx_encl_page_reclaim` returns `true`, because the enclave is marked
dead. -/
theorem sgx_encl_page_reclaim_dead_hot_page :
    (example_dead_driver.encl_pages 7).young = true ∧
    (example_dead_driver.encl_pages 7).desc &&& example_params.SGX_ENCL_PAGE_RESERVED ≠ 0 ∧
    (sgx_encl_page_reclaim example_params ⟨0, 0⟩
      (example_reclaimable, example_dead_driver)).map Prod.fst = .ok true := by
  decide

/-- C11, amended: on an EPC page owned by an enclave page, `sgx_encl_page_reclaim` returns;
it returns `false` exactly when the enclave is not marked dead and the page is hot (young
bit set) or already `RESERVED`; when it returns `false` the `desc` of the enclave page,
and with it the `RESERVED` flag, is unchanged; when it returns `true` the `RESERVED` flag is
set afterwards; the globals of the page cache are untouched. -/
theorem sgx_encl_page_reclaim_false_iff (c : DriverParams) (p : PagePtr) (w : World Driver)
    (ip : ImplPtr) (hip : encl_page_of w.1 p = .ok ip) :
    ∃ r w', sgx_encl_page_reclaim c p w = .ok (r, w') ∧ w'.1 = w.1 ∧
      (r = false ↔
        (w.2.encls (w.2.encl_pages ip).encl).flags &&& c.SGX_ENCL_DEAD = 0 ∧
          ((w.2.encl_pages ip).young = true ∨
            (w.2.encl_pages ip).desc &&& c.SGX_ENCL_PAGE_RESERVED ≠ 0)) ∧
      (r = false → (w'.2.encl_pages ip).desc = (w.2.encl_pages ip).desc) ∧
      (r = true → (w'.2.encl_pages ip).desc &&& c.SGX_ENCL_PAGE_RESERVED
        = c.SGX_ENCL_PAGE_RESERVED) :=
  sgx_encl_page_reclaim_spec c p w ip hip

/-- C11, amended, instance: page 3 of the example enclave, which is live; the page is
neither hot nor `RESERVED`. -/
theorem sgx_encl_page_reclaim_false_iff_witness :
    ∃ r w', sgx_encl_page_reclaim example_params ⟨0, 3⟩
        (example_enclave_state, example_enclave_driver) = .ok (r, w') ∧
      w'.1 = example_enclave_state ∧
      (r = false ↔
        (example_enclave_driver.encls (example_enclave_driver.encl_pages 3).encl).flags
            &&& example_params.SGX_ENCL_DEAD = 0 ∧
          ((example_enclave_driver.encl_pages 3).young = true ∨
            (example_enclave_driver.encl_pages 3).desc
              &&& example_params.SGX_ENCL_PAGE_RESERVED ≠ 0)) ∧
      (r = false → (w'.2.encl_pages 3).desc = (example_enclave_driver.encl_pages 3).desc) ∧
      (r = true → (w'.2.encl_pages 3).desc &&& example_params.SGX_ENCL_PAGE_RESERVED
        = example_params.SGX_ENCL_PAGE_RESERVED) :=
  sgx_encl_page_reclaim_false_iff example_params ⟨0, 3⟩
    (example_enclave_state, example_enclave_driver) 3 (by decide)

/-! ## The write-back of one enclave page -/

theorem write_page_ewb_log_eq (c : DriverParams) (epc va : PagePtr) (va_offset encl : Nat)
    (s : State) :
    (write_page_ewb c epc va va_offset encl s).2.hw_log
      = s.hw_log ++ ewb_attempts c epc va va_offset encl (s.hw_results.headD 0)
          ((s.hw_results.drop 2).headD 0) := by
  unfold write_page_ewb ewb_attempts
  simp only [sgx_ewb, encls, sgx_encl_track, sgx_flush_cpus]
  have hd : (s.hw_results.drop 2).headD 0 = s.hw_results.tail.tail.headD 0 := by
    cases s.hw_results with
    | nil => rfl
    | cons a t =>
      cases t with
      | nil => rfl
      | cons b t2 => rfl
  rw [hd]
  split
  · split
    · simp
    · simp
  · simp

theorem set_encl_encl_pages (d : Driver) (i : Nat) (e : sgx_encl) :
    (d.set_encl i e).encl_pages = d.encl_pages := rfl

theorem set_va_page_encl_pages (d : Driver) (i : Nat) (v : sgx_va_page) :
    (d.set_va_page i v).encl_pages = d.encl_pages := rfl

theorem SGX_INVD_encl_pages (c : DriverParams) (ret : Int) (encl : Nat) (d : Driver) :
    (SGX_INVD c ret encl d).encl_pages = d.encl_pages := by
  unfold SGX_INVD
  split <;> rfl

theorem write_page_out_spec {c : DriverParams} {p : PagePtr} {ip : ImplPtr} {do_free : Bool}
    {w w' : World Driver} (h : write_page_out c p ip do_free w = .ok w') :
    (w'.2.encl_pages ip).desc = clear_bits (w.2.encl_pages ip).desc c.SGX_ENCL_PAGE_LOADED ∧
    (w'.2.encl_pages ip).va_page = (w.2.encl_pages ip).va_page ∧
    w'.1.hw_log = w.1.hw_log ++ (if do_free then [HwOp.EREMOVE p] else []) := by
  unfold write_page_out at h
  simp only at h
  split at h
  · rename_i hdf
    split at h
    · cases h
    · rename_i ret s2 hfr
      cases h
      refine ⟨?_, ?_, ?_⟩
      · simp [set_encl_page_self]
      · simp [set_encl_page_self]
      · simp only [hdf, if_true]
        exact sgx_free_page_log hfr
  · rename_i hdf
    cases h
    refine ⟨?_, ?_, ?_⟩
    · simp [set_encl_page_self]
    · simp [set_encl_page_self]
    · simp [hdf]

theorem write_page_swap_spec {c : DriverParams} {p : PagePtr} {ip : ImplPtr}
    {w w' : World Driver} {va : Nat} {rest : List Nat}
    (hva : (w.2.encls (w.2.encl_pages ip).encl).va_pages = va :: rest)
    (h : write_page_swap c p ip w = .ok w') :
    (w'.2.encl_pages ip).desc
      = clear_bits ((w.2.encl_pages ip).desc ||| (sgx_alloc_va_slot (w.2.va_store va)).1)
          c.SGX_ENCL_PAGE_RESERVED ∧
    (w'.2.encl_pages ip).va_page = some va ∧
    w'.1 = (write_page_ewb c p (w.2.va_store va).epc_page
      (sgx_alloc_va_slot (w.2.va_store va)).1 (w.2.encl_pages ip).encl w.1).2 := by
  unfold write_page_swap at h
  simp only at h
  rw [hva] at h
  simp only at h
  cases h
  refine ⟨?_, ?_, ?_⟩
  · simp only [set_encl_page_self]
    rw [SGX_INVD_encl_pages]
    split <;> rfl
  · simp [set_encl_page_self]
  · have : (sgx_alloc_va_slot (w.2.va_store va)).2.epc_page = (w.2.va_store va).epc_page := by
      unfold sgx_alloc_va_slot
      simp only
      split <;> rfl
    rw [this]

theorem write_page_swap_ok (c : DriverParams) (p : PagePtr) (ip : ImplPtr)
    (w : World Driver) {va : Nat} {rest : List Nat}
    (hva : (w.2.encls (w.2.encl_pages ip).encl).va_pages = va :: rest) :
    ∃ w', write_page_swap c p ip w = .ok w' := by
  unfold write_page_swap
  simp only
  rw [hva]
  exact ⟨_, rfl⟩

theorem sgx_write_page_live {c : DriverParams} {p : PagePtr} {ip : ImplPtr} {do_free : Bool}
    {w w' : World Driver} {va : Nat} {rest : List Nat}
    (hip : encl_page_of w.1 p = .ok ip)
    (hlive : (w.2.encls (w.2.encl_pages ip).encl).flags &&& c.SGX_ENCL_DEAD = 0)
    (hva : (w.2.encls (w.2.encl_pages ip).encl).va_pages = va :: rest)
    (h : sgx_write_page c p do_free w = .ok w') :
    (w'.2.encl_pages ip).desc
      = clear_bits (clear_bits ((w.2.encl_pages ip).desc
          ||| (sgx_alloc_va_slot (w.2.va_store va)).1) c.SGX_ENCL_PAGE_RESERVED)
          c.SGX_ENCL_PAGE_LOADED ∧
    (w'.2.encl_pages ip).va_page = some va ∧
    w'.1.hw_log = w.1.hw_log
      ++ ewb_attempts c p (w.2.va_store va).epc_page (sgx_alloc_va_slot (w.2.va_store va)).1
          (w.2.encl_pages ip).encl (w.1.hw_results.headD 0)
          ((w.1.hw_results.drop 2).headD 0)
      ++ (if do_free then [HwOp.EREMOVE p] else []) := by
  unfold sgx_write_page at h
  rw [hip] at h
  simp only at h
  rw [if_neg (by simpa using hlive)] at h
  split at h
  · cases h
  · rename_i w1 hw1
    obtain ⟨a1, a2, a3⟩ := write_page_swap_spec hva hw1
    obtain ⟨b1, b2, b3⟩ := write_page_out_spec h
    refine ⟨by rw [b1, a1], by rw [b2, a2], ?_⟩
    rw [b3, a3, write_page_ewb_log_eq]

theorem sgx_write_page_live_ok (c : DriverParams) (p : PagePtr) (ip : ImplPtr)
    (w : World Driver) {va : Nat} {rest : List Nat}
    (hip : encl_page_of w.1 p = .ok ip)
    (hlive : (w.2.encls (w.2.encl_pages ip).encl).flags &&& c.SGX_ENCL_DEAD = 0)
    (hva : (w.2.encls (w.2.encl_pages ip).encl).va_pages = va :: rest) :
    ∃ w', sgx_write_page c p false w = .ok w' := by
  unfold sgx_write_page
  rw [hip]
  simp only
  rw [if_neg (by simpa using hlive)]
  obtain ⟨w1, hw1⟩ := write_page_swap_ok c p ip w hva
  rw [hw1]
  exact ⟨_, rfl⟩

theorem sgx_write_page_dead {c : DriverParams} {p : PagePtr} {ip : ImplPtr} {do_free : Bool}
    {w w' : World Driver}
    (hip : encl_page_of w.1 p = .ok ip)
    (hdead : (w.2.encls (w.2.encl_pages ip).encl).flags &&& c.SGX_ENCL_DEAD ≠ 0)
    (h : sgx_write_page c p do_free w = .ok w') :
    (w'.2.encl_pages ip).desc = clear_bits (w.2.encl_pages ip).desc c.SGX_ENCL_PAGE_LOADED ∧
    (w'.2.encl_pages ip).va_page = (w.2.encl_pages ip).va_page ∧
    w'.1.hw_log = w.1.hw_log ++ (if do_free then [HwOp.EREMOVE p] else []) := by
  unfold sgx_write_page at h
  rw [hip] at h
  simp only at h
  rw [if_pos hdead] at h
  exact write_page_out_spec h

theorem and_testBit_false {a b : Nat} (h : a &&& b = 0) (i : Nat) :
    (a.testBit i && b.testBit i) = false := by
  rw [← Nat.testBit_and, h, Nat.zero_testBit]

theorem clear_bits_testBit (x m i : Nat) :
    (clear_bits x m).testBit i = (x.testBit i && !m.testBit i) := by
  unfold clear_bits
  rw [Nat.testBit_xor, Nat.testBit_and]
  cases x.testBit i <;> cases m.testBit i <;> rfl

theorem clear_bits_and_self (x m : Nat) : clear_bits x m &&& m = 0 := by
  apply Nat.eq_of_testBit_eq
  intro i
  rw [Nat.testBit_and, clear_bits_testBit, Nat.zero_testBit]
  cases x.testBit i <;> cases m.testBit i <;> rfl

theorem clear_bits_and_zero {y r : Nat} (m : Nat) (h : y &&& r = 0) :
    clear_bits y m &&& r = 0 := by
  apply Nat.eq_of_testBit_eq
  intro i
  have := and_testBit_false h i
  rw [Nat.testBit_and, clear_bits_testBit, Nat.zero_testBit]
  revert this
  cases y.testBit i <;> cases m.testBit i <;> cases r.testBit i <;> simp

theorem clear_bits_and_keep (x : Nat) {m a : Nat} (h : a &&& m = 0) :
    clear_bits x m &&& a = x &&& a := by
  apply Nat.eq_of_testBit_eq
  intro i
  have := and_testBit_false h i
  rw [Nat.testBit_and, clear_bits_testBit, Nat.testBit_and]
  revert this
  cases x.testBit i <;> cases m.testBit i <;> cases a.testBit i <;> simp

theorem ewb_mem_ewb_attempts (c : DriverParams) (epc va : PagePtr) (va_offset encl : Nat)
    (r1 r2 : Int) : HwOp.EWB epc va va_offset ∈ ewb_attempts c epc va va_offset encl r1 r2 := by
  unfold ewb_attempts
  split
  · split <;> simp
  · simp

theorem sgx_write_page_va_pages {c : DriverParams} {p : PagePtr} {ip : ImplPtr}
    {do_free : Bool} {w w' : World Driver}
    (hip : encl_page_of w.1 p = .ok ip)
    (hlive : (w.2.encls (w.2.encl_pages ip).encl).flags &&& c.SGX_ENCL_DEAD = 0)
    (h : sgx_write_page c p do_free w = .ok w') :
    ∃ va rest, (w.2.encls (w.2.encl_pages ip).encl).va_pages = va :: rest := by
  unfold sgx_write_page at h
  rw [hip] at h
  simp only at h
  rw [if_neg (by simpa using hlive)] at h
  split at h
  · cases h
  · rename_i w1 hw1
    unfold write_page_swap at hw1
    simp only at hw1
    split at hw1
    · cases hw1
    · rename_i va rest hva
      exact ⟨va, rest, hva⟩

/-- C12: on an enclave that is not marked dead, `sgx_write_page(epc_page, false)` returns,
and what it issues is decided by the results `r1` and `r2` of the first two `WRITEBACK`
attempts: one `WRITEBACK` when `r1` is not `NOT_TRACKED`; `WRITEBACK`, `TRACK`, `WRITEBACK`
when only `r1` is; `WRITEBACK`, `TRACK`, `WRITEBACK`, flush, `WRITEBACK` when both are.
Every attempt names the same page, the same VA page and the same slot offset.  With
`do_free` the same instructions are followed by the `REMOVE` of `sgx_free_page`. -/
theorem sgx_write_page_attempts (c : DriverParams) (p : PagePtr) (ip : ImplPtr)
    (w : World Driver) (va : Nat) (rest : List Nat)
    (hip : encl_page_of w.1 p = .ok ip)
    (hlive : (w.2.encls (w.2.encl_pages ip).encl).flags &&& c.SGX_ENCL_DEAD = 0)
    (hva : (w.2.encls (w.2.encl_pages ip).encl).va_pages = va :: rest) :
    ∃ w', sgx_write_page c p false w = .ok w' ∧
      (w.1.hw_results.headD 0 ≠ c.SGX_NOT_TRACKED →
        w'.1.hw_log = w.1.hw_log ++
          [.EWB p (w.2.va_store va).epc_page (sgx_alloc_va_slot (w.2.va_store va)).1]) ∧
      (w.1.hw_results.headD 0 = c.SGX_NOT_TRACKED →
        (w.1.hw_results.drop 2).headD 0 ≠ c.SGX_NOT_TRACKED →
        w'.1.hw_log = w.1.hw_log ++
          [.EWB p (w.2.va_store va).epc_page (sgx_alloc_va_slot (w.2.va_store va)).1,
           .ETRACK (w.2.encl_pages ip).encl,
           .EWB p (w.2.va_store va).epc_page (sgx_alloc_va_slot (w.2.va_store va)).1]) ∧
      (w.1.hw_results.headD 0 = c.SGX_NOT_TRACKED →
        (w.1.hw_results.drop 2).headD 0 = c.SGX_NOT_TRACKED →
        w'.1.hw_log = w.1.hw_log ++
          [.EWB p (w.2.va_store va).epc_page (sgx_alloc_va_slot (w.2.va_store va)).1,
           .ETRACK (w.2.encl_pages ip).encl,
           .EWB p (w.2.va_store va).epc_page (sgx_alloc_va_slot (w.2.va_store va)).1,
           .FLUSH (w.2.encl_pages ip).encl,
           .EWB p (w.2.va_store va).epc_page (sgx_alloc_va_slot (w.2.va_store va)).1]) ∧
      ∀ w'', sgx_write_page c p true w = .ok w'' →
        w''.1.hw_log = w'.1.hw_log ++ [.EREMOVE p] := by
  obtain ⟨w', h⟩ := sgx_write_page_live_ok c p ip w hip hlive hva
  have hlog := (sgx_write_page_live hip hlive hva h).2.2
  simp only [Bool.false_eq_true, if_false, List.append_nil] at hlog
  refine ⟨w', h, ?_, ?_, ?_, ?_⟩
  · intro h1
    rw [hlog, ewb_attempts, if_neg h1]
  · intro h1 h2
    rw [hlog, ewb_attempts, if_pos h1, if_neg h2]
  · intro h1 h2
    rw [hlog, ewb_attempts, if_pos h1, if_pos h2]
  · intro w'' h''
    have hlog2 := (sgx_write_page_live hip hlive hva h'').2.2
    simp only [if_true] at hlog2
    rw [hlog2, hlog]

/-- C12, instance: the results `NOT_TRACKED`, `NOT_TRACKED`, `0` on page 3 of the example
enclave give `WRITEBACK`, `TRACK`, `WRITEBACK`, flush, `WRITEBACK`. -/
theorem sgx_write_page_attempts_witness :
    ∃ w', sgx_write_page example_params ⟨0, 3⟩ false
        (example_not_tracked_state, example_enclave_driver) = .ok w' ∧
      w'.1.hw_log = [.EWB ⟨0, 3⟩ ⟨0, 17⟩ 0, .ETRACK 0, .EWB ⟨0, 3⟩ ⟨0, 17⟩ 0, .FLUSH 0,
        .EWB ⟨0, 3⟩ ⟨0, 17⟩ 0] := by
  obtain ⟨w', h, _, _, h3, _⟩ := sgx_write_page_attempts example_params ⟨0, 3⟩ 3
    (example_not_tracked_state, example_enclave_driver) 0 [] (by decide) (by decide) rfl
  exact ⟨w', h, h3 (by decide) (by decide)⟩

/-- C13, as stated, fails: on the dead enclave of `example_dead_driver` the page is
`RESERVED` and `LOADED` before `sgx_write_page`; afterwards `RESERVED` is still set, no VA
page is recorded and no `WRITEBACK` was issued. -/
theorem sgx_write_page_dead_keeps_reserved :
    (sgx_write_page example_params ⟨0, 0⟩ false (example_reclaimable, example_dead_driver)).map
      (fun w' => ((w'.2.encl_pages 7).desc &&& example_params.SGX_ENCL_PAGE_RESERVED,
        (w'.2.encl_pages 7).va_page, w'.1.hw_log))
      = .ok (4, none, []) := by
  decide

/-- C13, amended: after `sgx_write_page` returns, the `LOADED` flag of the enclave page is
clear.  When the enclave was not marked dead at the call, the `RESERVED` flag is clear as
well, the record holds the VA page at the head of the enclave's list, `WRITEBACK` was issued
with the EPC page of that VA page and the slot offset taken from it, and (the two flag masks
sharing no bit with the offset) every bit of that offset is set in `desc`.  When the enclave
was marked dead, only `LOADED` is cleared: the VA page of the record is unchanged, no
`WRITEBACK` is issued, and (the two flag masks sharing no bit) `RESERVED` is unchanged. -/
theorem sgx_write_page_record (c : DriverParams) (p : PagePtr) (ip : ImplPtr)
    (do_free : Bool) (w w' : World Driver)
    (hip : encl_page_of w.1 p = .ok ip)
    (h : sgx_write_page c p do_free w = .ok w') :
    (w'.2.encl_pages ip).desc &&& c.SGX_ENCL_PAGE_LOADED = 0 ∧
    ((w.2.encls (w.2.encl_pages ip).encl).flags &&& c.SGX_ENCL_DEAD = 0 →
      ∃ va rest, (w.2.encls (w.2.encl_pages ip).encl).va_pages = va :: rest ∧
        (w'.2.encl_pages ip).desc &&& c.SGX_ENCL_PAGE_RESERVED = 0 ∧
        (w'.2.encl_pages ip).va_page = some va ∧
        HwOp.EWB p (w.2.va_store va).epc_page (sgx_alloc_va_slot (w.2.va_store va)).1
          ∈ w'.1.hw_log ∧
        ((sgx_alloc_va_slot (w.2.va_store va)).1 &&& c.SGX_ENCL_PAGE_RESERVED = 0 →
          (sgx_alloc_va_slot (w.2.va_store va)).1 &&& c.SGX_ENCL_PAGE_LOADED = 0 →
          (w'.2.encl_pages ip).desc &&& (sgx_alloc_va_slot (w.2.va_store va)).1
            = (sgx_alloc_va_slot (w.2.va_store va)).1)) ∧
    ((w.2.encls (w.2.encl_pages ip).encl).flags &&& c.SGX_ENCL_DEAD ≠ 0 →
      (w'.2.encl_pages ip).desc = clear_bits (w.2.encl_pages ip).desc c.SGX_ENCL_PAGE_LOADED ∧
      (w'.2.encl_pages ip).va_page = (w.2.encl_pages ip).va_page ∧
      ewb_count w'.1.hw_log = ewb_count w.1.hw_log ∧
      (c.SGX_ENCL_PAGE_RESERVED &&& c.SGX_ENCL_PAGE_LOADED = 0 →
        (w'.2.encl_pages ip).desc &&& c.SGX_ENCL_PAGE_RESERVED
          = (w.2.encl_pages ip).desc &&& c.SGX_ENCL_PAGE_RESERVED)) := by
  refine ⟨?_, ?_, ?_⟩
  · by_cases hd : (w.2.encls (w.2.encl_pages ip).encl).flags &&& c.SGX_ENCL_DEAD = 0
    · obtain ⟨va, rest, hva⟩ := sgx_write_page_va_pages hip hd h
      rw [(sgx_write_page_live hip hd hva h).1]
      exact clear_bits_and_self _ _
    · rw [(sgx_write_page_dead hip hd h).1]
      exact clear_bits_and_self _ _
  · intro hd
    obtain ⟨va, rest, hva⟩ := sgx_write_page_va_pages hip hd h
    obtain ⟨h1, h2, h3⟩ := sgx_write_page_live hip hd hva h
    refine ⟨va, rest, hva, ?_, h2, ?_, ?_⟩
    · rw [h1]
      exact clear_bits_and_zero _ (clear_bits_and_self _ _)
    · rw [h3]
      exact List.mem_append_left _ (List.mem_append_right _ (ewb_mem_ewb_attempts _ _ _ _ _ _ _))
    · intro hr hl
      rw [h1, clear_bits_and_keep _ hl, clear_bits_and_keep _ hr]
      exact or_and_self_mask _ _
  · intro hd
    obtain ⟨h1, h2, h3⟩ := sgx_write_page_dead hip hd h
    refine ⟨h1, h2, ?_, ?_⟩
    · rw [h3, ewb_count_append]
      cases do_free <;> simp [ewb_count]
    · intro hrl
      rw [h1]
      exact clear_bits_and_keep _ hrl

/-- C13, amended, instance: the write-back of page 3 of the example enclave, which is
live. -/
theorem sgx_write_page_record_witness :
    ∃ w', sgx_write_page example_params ⟨0, 3⟩ false
        (example_not_tracked_state, example_enclave_driver) = .ok w' ∧
      (w'.2.encl_pages 3).desc &&& example_params.SGX_ENCL_PAGE_LOADED = 0 ∧
      (w'.2.encl_pages 3).desc &&& example_params.SGX_ENCL_PAGE_RESERVED = 0 ∧
      (w'.2.encl_pages 3).va_page = some 0 := by
  obtain ⟨w', h⟩ := sgx_write_page_live_ok example_params ⟨0, 3⟩ 3
    (example_not_tracked_state, example_enclave_driver) (by decide) (by decide)
    (rfl : _ = 0 :: [])
  have hall := sgx_write_page_record example_params ⟨0, 3⟩ 3 false
    (example_not_tracked_state, example_enclave_driver) w' (by decide) h
  obtain ⟨va, rest, hva, hr, hv, _, _⟩ := hall.2.1 (by decide)
  have hva0 : va = 0 := by
    have : (0 :: [] : List Nat) = va :: rest := hva
    cases this
    rfl
  subst hva0
  exact ⟨w', h, hall.1, hr, hv⟩

/-! ## `ENCLS_TO_ERR` -/

theorem testBit_range_mask (lo n i : Nat) :
    ((2 ^ n - 1) <<< lo).testBit i = (decide (lo ≤ i) && decide (i < lo + n)) := by
  rw [Nat.testBit_shiftLeft, Nat.testBit_two_pow_sub_one]
  by_cases h1 : lo ≤ i
  · by_cases h2 : i < lo + n
    · have : i - lo < n := by omega
      simp [h1, h2, this]
    · have : ¬ (i - lo < n) := by omega
      simp [h1, h2, this]
  · simp [h1]

theorem testBit_high_mask (i : Nat) :
    (0xffff0000 : Nat).testBit i = (decide (16 ≤ i) && decide (i < 32)) := by
  have h : (0xffff0000 : Nat) = (2 ^ 16 - 1) <<< 16 := by decide
  rw [h, testBit_range_mask]

theorem IS_ENCLS_FAULT_ne_zero_iff (r : Int) :
    IS_ENCLS_FAULT r ≠ 0 ↔
      ∃ i, 16 ≤ i ∧ i < 32 ∧ ((r % 2 ^ 32).toNat).testBit i = true := by
  unfold IS_ENCLS_FAULT
  constructor
  · intro h
    obtain ⟨i, hi⟩ := Nat.ne_zero_implies_bit_true h
    rw [Nat.testBit_and, testBit_high_mask] at hi
    simp only [Bool.and_eq_true, decide_eq_true_eq] at hi
    exact ⟨i, hi.2.1, hi.2.2, hi.1⟩
  · rintro ⟨i, h1, h2, h3⟩ h0
    have : (((r % 2 ^ 32).toNat) &&& 0xffff0000).testBit i = true := by
      rw [Nat.testBit_and, testBit_high_mask, h3]
      simp [h1, h2]
    rw [h0, Nat.zero_testBit] at this
    cases this

theorem ENCLS_TO_ERR_spec (k : EnclsCodes) (r : Int)
    (h1 : k.SGX_UNMASKED_EVENT ≠ k.SGX_MAC_COMPARE_FAIL)
    (h2 : k.SGX_UNMASKED_EVENT ≠ k.SGX_ENTRYEPOCH_LOCKED)
    (h3 : k.SGX_MAC_COMPARE_FAIL ≠ k.SGX_ENTRYEPOCH_LOCKED) :
    ((∃ i, 16 ≤ i ∧ i < 32 ∧ ((r % 2 ^ 32).toNat).testBit i = true) →
      ENCLS_TO_ERR k r = -EFAULT) ∧
    ((∀ i, 16 ≤ i → i < 32 → ((r % 2 ^ 32).toNat).testBit i = false) →
      (r = k.SGX_UNMASKED_EVENT → ENCLS_TO_ERR k r = -EINTR) ∧
      (r = k.SGX_MAC_COMPARE_FAIL → ENCLS_TO_ERR k r = - EIO) ∧
      (r = k.SGX_ENTRYEPOCH_LOCKED → ENCLS_TO_ERR k r = -EBUSY) ∧
      (r ≠ k.SGX_UNMASKED_EVENT → r ≠ k.SGX_MAC_COMPARE_FAIL →
        r ≠ k.SGX_ENTRYEPOCH_LOCKED → ENCLS_TO_ERR k r = -EPERM)) := by
  constructor
  · intro h
    unfold ENCLS_TO_ERR
    rw [if_pos ((IS_ENCLS_FAULT_ne_zero_iff r).mpr h)]
  · intro h
    have hz : ¬ IS_ENCLS_FAULT r ≠ 0 := by
      intro hne
      obtain ⟨i, a, b, c⟩ := (IS_ENCLS_FAULT_ne_zero_iff r).mp hne
      rw [h i a b] at c
      cases c
    unfold ENCLS_TO_ERR
    rw [if_neg hz]
    refine ⟨?_, ?_, ?_, ?_⟩
    · intro e
      rw [if_pos e]
    · intro e
      rw [if_neg (by rw [e]; exact fun x => h1 x.symm), if_pos e]
    · intro e
      rw [if_neg (by rw [e]; exact fun x => h2 x.symm),
        if_neg (by rw [e]; exact fun x => h3 x.symm), if_pos e]
    · intro e1 e2 e3
      rw [if_neg e1, if_neg e2, if_neg e3]

/-- C14: `ENCLS_TO_ERR(r)` is `-EFAULT` whenever one of the bits 16 to 31 of the 32-bit
value `r` is set, whatever the low 16 bits; when none is set it is `-EINTR` for
`r = SGX_UNMASKED_EVENT`, `-EIO` for `r = SGX_MAC_COMPARE_FAIL`, `-EBUSY` for
`r = SGX_ENTRYEPOCH_LOCKED` and `-EPERM` for every other `r`.  The three codes are distinct
values of one `enum`. -/
theorem ENCLS_TO_ERR_cases (k : EnclsCodes) (r : Int)
    (h1 : k.SGX_UNMASKED_EVENT ≠ k.SGX_MAC_COMPARE_FAIL)
    (h2 : k.SGX_UNMASKED_EVENT ≠ k.SGX_ENTRYEPOCH_LOCKED)
    (h3 : k.SGX_MAC_COMPARE_FAIL ≠ k.SGX_ENTRYEPOCH_LOCKED) :
    ((∃ i, 16 ≤ i ∧ i < 32 ∧ ((r % 2 ^ 32).toNat).testBit i = true) →
      ENCLS_TO_ERR k r = -EFAULT) ∧
    ((∀ i, 16 ≤ i → i < 32 → ((r % 2 ^ 32).toNat).testBit i = false) →
      (r = k.SGX_UNMASKED_EVENT → ENCLS_TO_ERR k r = -EINTR) ∧
      (r = k.SGX_MAC_COMPARE_FAIL → ENCLS_TO_ERR k r = - EIO) ∧
      (r = k.SGX_ENTRYEPOCH_LOCKED → ENCLS_TO_ERR k r = -EBUSY) ∧
      (r ≠ k.SGX_UNMASKED_EVENT → r ≠ k.SGX_MAC_COMPARE_FAIL →
        r ≠ k.SGX_ENTRYEPOCH_LOCKED → ENCLS_TO_ERR k r = -EPERM)) :=
  ENCLS_TO_ERR_spec k r h1 h2 h3

/-- C14, instance: a fault with vector 14 on top of the status 128, the status 128 alone,
and the status 0. -/
theorem ENCLS_TO_ERR_cases_witness :
    ENCLS_TO_ERR example_codes 0x000e0080 = -EFAULT ∧
    ENCLS_TO_ERR example_codes 128 = -EINTR ∧
    ENCLS_TO_ERR example_codes 0 = -EPERM :=
  ⟨(ENCLS_TO_ERR_cases example_codes 0x000e0080 (by decide) (by decide) (by decide)).1
      ⟨17, by decide, by decide, by decide⟩,
   ((ENCLS_TO_ERR_cases example_codes 128 (by decide) (by decide) (by decide)).2
      (by intro i h1 h2; interval_cases i <;> rfl)).1 rfl,
   ((ENCLS_TO_ERR_cases example_codes 0 (by decide) (by decide) (by decide)).2
      (by intro i h1 h2; interval_cases i <;> rfl)).2.2.2
        (by decide) (by decide) (by decide)⟩

/-! ## The bank built by `sgx_init_epc_bank` -/

theorem or_index_low (x index n : Nat) (hx : x % 2 ^ 12 = 0) (hn : n ≤ 12)
    (hi : index < 2 ^ n) : (x ||| index) % 2 ^ n = index := by
  apply Nat.eq_of_testBit_eq
  intro i
  rw [Nat.testBit_mod_two_pow, Nat.testBit_or]
  by_cases h : i < n
  · have hxi : x.testBit i = false := by
      have := Nat.testBit_mod_two_pow x 12 i
      rw [hx, Nat.zero_testBit] at this
      have hlt : i < 12 := by omega
      simpa [hlt] using this.symm
    simp [h, hxi]
  · have : index.testBit i = false := by
      apply Nat.testBit_eq_false_of_lt
      have : index < 2 ^ n := hi
      have h2 : 2 ^ n ≤ 2 ^ i := Nat.pow_le_pow_right (by norm_num) (by omega)
      omega
    simp [h, this]

theorem or_index_shift (x index : Nat) (hx : x % 2 ^ 12 = 0) (hi : index < 2 ^ 12) :
    (x ||| index) >>> 12 = x >>> 12 := by
  obtain ⟨q, hq⟩ : ∃ q, x = 2 ^ 12 * q :=
    ⟨_, (Nat.div_add_mod x (2 ^ 12)).symm.trans (by rw [hx]; rfl)⟩
  rw [hq, ← Nat.mul_add_lt_is_or hi q, Nat.shiftRight_eq_div_pow, Nat.shiftRight_eq_div_pow]
  omega

theorem page_mod_aligned (addr i : Nat) (ha : addr % PAGE_SIZE = 0) :
    ((addr + i * 4096) % 2 ^ 64) % 2 ^ 12 = 0 := by
  rw [Nat.mod_mod_of_dvd _ (by norm_num : (2 : Nat) ^ 12 ∣ 2 ^ 64)]
  simp only [PAGE_SHIFT, PAGE_SIZE] at ha
  omega

theorem sgx_init_epc_bank_spec (e : InitEnv) (addr size index : Nat) (s : State) (va : Nat)
    (hio : e.ioremap_cache = some va) (hk1 : e.kzalloc_pages_data = true)
    (hk2 : e.kzalloc_pages = true) (ha : addr % PAGE_SIZE = 0) (hi : index < 256) :
    (sgx_init_epc_bank e addr size index s).1 = 0 ∧
    ∃ bank, (sgx_init_epc_bank e addr size index s).2.sgx_epc_banks
        = s.sgx_epc_banks ++ [bank] ∧
      bank.pa = addr ∧ bank.va = va ∧ bank.size = size ∧
      bank.pages_data.length = size >>> 12 ∧ bank.pages.length = size >>> 12 ∧
      bank.free_cnt = size >>> 12 ∧
      (sgx_init_epc_bank e addr size index s).2.sgx_nr_free_pages
        = s.sgx_nr_free_pages + ((size >>> 12 : Nat) : Int) ∧
      ∀ i, i < size >>> 12 →
        bank.pages[i]? = some ⟨s.sgx_epc_banks.length, i⟩ ∧
        ∃ pg, (sgx_init_epc_bank e addr size index s).2.page ⟨s.sgx_epc_banks.length, i⟩
            = some pg ∧ bank.pages_data[i]? = some pg ∧ pg.impl = none ∧
          pg.desc = ((addr + i * 4096) % 2 ^ 64) ||| index ∧
          pg.desc % 256 = index ∧
          SGX_EPC_PFN pg = ((addr + i * 4096) % 2 ^ 64) >>> 12 ∧
          (addr + size ≤ 2 ^ 64 →
            pg.desc = (addr + i * 4096) ||| index ∧
            SGX_EPC_PFN pg = (addr + i * 4096) >>> 12) := by
  unfold sgx_init_epc_bank
  simp only [hio, hk1, hk2, Bool.not_true, Bool.false_eq_true, if_false]
  refine ⟨by trivial, _, rfl, rfl, rfl, rfl, ?_, ?_, rfl, rfl, ?_⟩
  · simp [init_pages_data, PAGE_SHIFT]
  · simp [init_pages, PAGE_SHIFT]
  · intro i hlt
    have hlt' : i < size >>> PAGE_SHIFT := hlt
    have hsh : i <<< PAGE_SHIFT = i * 4096 := by
      simp [PAGE_SHIFT, Nat.shiftLeft_eq]
    have hal := page_mod_aligned addr i ha
    refine ⟨?_, ?_⟩
    · unfold init_pages
      rw [List.getElem?_map, List.getElem?_range hlt']
      rfl
    · refine ⟨⟨((addr + i * 4096) % 2 ^ 64) ||| index, none⟩, ?_, ?_, rfl, rfl, ?_, ?_, ?_⟩
      · unfold State.page page_at
        simp only
        rw [List.getElem?_append_right (Nat.le_refl _)]
        simp only [Nat.sub_self, List.getElem?_cons_zero]
        unfold init_pages_data
        rw [List.getElem?_map, List.getElem?_range hlt']
        simp [hsh]
      · unfold init_pages_data
        rw [List.getElem?_map, List.getElem?_range hlt']
        simp [hsh]
      · exact or_index_low _ index 8 hal (by norm_num) (by simpa using hi)
      · unfold SGX_EPC_PFN
        exact or_index_shift _ index hal (by norm_num at hi ⊢; omega)
      · intro hfit
        have hsz : i * 4096 < size := by
          have : i < size / 4096 := by
            simpa [Nat.shiftRight_eq_div_pow] using hlt
          omega
        have hmod : (addr + i * 4096) % 2 ^ 64 = addr + i * 4096 :=
          Nat.mod_eq_of_lt (by omega)
        refine ⟨by rw [hmod], ?_⟩
        have hpfn := or_index_shift _ index hal (by norm_num at hi ⊢; omega)
        rw [hmod] at hpfn
        rw [hmod]
        exact hpfn

/-- C15: when the mapping and the two allocations succeed, `sgx_init_epc_bank` with a
page-aligned `addr` and an `index` below 256 returns 0 and fills the bank with
`size >> 12` descriptors: `free_cnt` is `size >> 12`, entry `i` of the free stack points to
descriptor `i`, the global free count grows by `size >> 12`, and descriptor `i` is
`(addr + i * 4096) | index` in 64-bit arithmetic, so that its low 8 bits are `index` and its
page frame number is that of `addr + i * 4096` (without the reduction modulo `2^64` when the
range `[addr, addr + size)` does not wrap). -/
theorem sgx_init_epc_bank_layout (e : InitEnv) (addr size index : Nat) (s : State) (va : Nat)
    (hio : e.ioremap_cache = some va) (hk1 : e.kzalloc_pages_data = true)
    (hk2 : e.kzalloc_pages = true) (ha : addr % PAGE_SIZE = 0) (hi : index < 256) :
    (sgx_init_epc_bank e addr size index s).1 = 0 ∧
    ∃ bank, (sgx_init_epc_bank e addr size index s).2.sgx_epc_banks
        = s.sgx_epc_banks ++ [bank] ∧
      bank.pa = addr ∧ bank.va = va ∧ bank.size = size ∧
      bank.pages_data.length = size >>> 12 ∧ bank.pages.length = size >>> 12 ∧
      bank.free_cnt = size >>> 12 ∧
      (sgx_init_epc_bank e addr size index s).2.sgx_nr_free_pages
        = s.sgx_nr_free_pages + ((size >>> 12 : Nat) : Int) ∧
      ∀ i, i < size >>> 12 →
        bank.pages[i]? = some ⟨s.sgx_epc_banks.length, i⟩ ∧
        ∃ pg, (sgx_init_epc_bank e addr size index s).2.page ⟨s.sgx_epc_banks.length, i⟩
            = some pg ∧ bank.pages_data[i]? = some pg ∧ pg.impl = none ∧
          pg.desc = ((addr + i * 4096) % 2 ^ 64) ||| index ∧
          pg.desc % 256 = index ∧
          SGX_EPC_PFN pg = ((addr + i * 4096) % 2 ^ 64) >>> 12 ∧
          (addr + size ≤ 2 ^ 64 →
            pg.desc = (addr + i * 4096) ||| index ∧
            SGX_EPC_PFN pg = (addr + i * 4096) >>> 12) :=
  sgx_init_epc_bank_spec e addr size index s va hio hk1 hk2 ha hi

/-- C15, instance: one bank of 2 MiB at `0x70000000` with index 0 has 512 descriptors and
a free count of 512; the low 8 bits of every descriptor are 0 and the page frame number of
descriptor `i` is `(0x70000000 + i * 4096) >> 12`. -/
theorem sgx_init_epc_bank_layout_witness :
    ∃ bank, (sgx_init_epc_bank ⟨some 0xffffc90000000000, true, true⟩ 0x70000000 0x200000 0
        (State.boot [] false)).2.sgx_epc_banks = [bank] ∧
      bank.pages_data.length = 512 ∧ bank.free_cnt = 512 ∧
      (sgx_init_epc_bank ⟨some 0xffffc90000000000, true, true⟩ 0x70000000 0x200000 0
        (State.boot [] false)).2.sgx_nr_free_pages = 512 ∧
      ∀ i, i < 512 → ∃ pg, bank.pages_data[i]? = some pg ∧ pg.desc % 256 = 0 ∧
        SGX_EPC_PFN pg = (0x70000000 + i * 4096) >>> 12 := by
  obtain ⟨_, bank, hb, _, _, _, hlen, _, hcnt, hfree, hpages⟩ :=
    sgx_init_epc_bank_layout ⟨some 0xffffc90000000000, true, true⟩ 0x70000000 0x200000 0
      (State.boot [] false) 0xffffc90000000000 rfl rfl rfl (by decide) (by decide)
  refine ⟨bank, hb, hlen, hcnt, ?_, ?_⟩
  · rw [hfree]
    rfl
  · intro i hi
    obtain ⟨_, pg, _, hpg, _, _, hlow, _, hfit⟩ := hpages i hi
    exact ⟨pg, hpg, hlow, (hfit (by norm_num)).2⟩

/-! ## Page resolution and pinning -/

theorem SGX_EPC_BANK_eq_mod (pg : sgx_epc_page) : SGX_EPC_BANK pg = pg.desc % 4096 := by
  unfold SGX_EPC_BANK
  have : PAGE_OFFSET_MASK = 2 ^ 12 - 1 := rfl
  rw [this, Nat.and_pow_two_sub_one_eq_mod]

theorem sgx_get_epc_section_eq_mod (page : Sections.sgx_epc_page) :
    Sections.sgx_get_epc_section page = page.desc % 256 := by
  unfold Sections.sgx_get_epc_section
  have : Sections.SGX_EPC_SECTION_MASK = 2 ^ 8 - 1 := rfl
  rw [this, Nat.and_pow_two_sub_one_eq_mod]

theorem mod_4096_eq_mod_256_iff (d : Nat) :
    d % 4096 = d % 256 ↔ ∀ i, 8 ≤ i → i < 12 → d.testBit i = false := by
  constructor
  · intro h i h1 h2
    have a := Nat.testBit_mod_two_pow d 12 i
    have b := Nat.testBit_mod_two_pow d 8 i
    have h' : d % 2 ^ 12 = d % 2 ^ 8 := h
    rw [h', b] at a
    have hn : ¬ i < 8 := by omega
    simpa [h2, hn] using a.symm
  · intro h
    have h' : d % 2 ^ 12 = d % 2 ^ 8 := by
      apply Nat.eq_of_testBit_eq
      intro i
      rw [Nat.testBit_mod_two_pow, Nat.testBit_mod_two_pow]
      by_cases h1 : i < 8
      · have : i < 12 := by omega
        simp [h1, this]
      · by_cases h2 : i < 12
        · simp [h1, h2, h i (by omega) h2]
        · simp [h1, h2]
    exact h'

theorem resolvers_spec (desc : Nat) (impl : Option ImplPtr) (owner : Option Nat) :
    Sections.sgx_get_epc_section ⟨desc, owner⟩ = desc % 256 ∧
    SGX_EPC_BANK ⟨desc, impl⟩ = desc % 4096 ∧
    (SGX_EPC_BANK ⟨desc, impl⟩ = desc % 256 ↔
      ∀ i, 8 ≤ i → i < 12 → desc.testBit i = false) ∧
    (∀ addr k index, addr % PAGE_SIZE = 0 → index < 256 →
      SGX_EPC_BANK ⟨((addr + (k <<< PAGE_SHIFT)) % 2 ^ 64) ||| index, impl⟩ = index ∧
      Sections.sgx_get_epc_section ⟨((addr + (k <<< PAGE_SHIFT)) % 2 ^ 64) ||| index, owner⟩
        = index) := by
  refine ⟨sgx_get_epc_section_eq_mod _, SGX_EPC_BANK_eq_mod _, ?_, ?_⟩
  · rw [SGX_EPC_BANK_eq_mod]
    exact mod_4096_eq_mod_256_iff desc
  · intro addr k index ha hi
    have hsh : k <<< PAGE_SHIFT = k * 4096 := by simp [PAGE_SHIFT, Nat.shiftLeft_eq]
    have hal := page_mod_aligned addr k ha
    rw [hsh, SGX_EPC_BANK_eq_mod, sgx_get_epc_section_eq_mod]
    exact ⟨or_index_low _ index 12 hal (by norm_num) (by norm_num; omega),
      or_index_low _ index 8 hal (by norm_num) (by norm_num; omega)⟩

/-- C16, as stated, fails: on a descriptor of section 0 with the flag bit 8
(`SGX_EPC_PAGE_RECLAIMABLE`) set, `sgx_get_epc_section` selects section 0, the low 8 bits,
but `SGX_EPC_BANK` selects bank 256. -/
theorem SGX_EPC_BANK_reads_flag_bits :
    (0x70001000 ||| Sections.SGX_EPC_PAGE_RECLAIMABLE) &&& 0xff = 0 ∧
    Sections.sgx_get_epc_section ⟨0x70001000 ||| Sections.SGX_EPC_PAGE_RECLAIMABLE, none⟩ = 0 ∧
    SGX_EPC_BANK ⟨0x70001000 ||| Sections.SGX_EPC_PAGE_RECLAIMABLE, none⟩ = 256 := by
  decide

/-- C16, amended: `sgx_get_epc_section` selects the section whose index is the low 8 bits
of the descriptor, whatever the flag bits 8 to 11 and the page-frame bits.  `SGX_EPC_BANK`,
the resolver of `sgx_free_page` and `sgx_get_page`, selects the bank whose index is the low
12 bits of the descriptor, whatever the page-frame bits; this is the low 8 bits exactly when
the bits 8 to 11 are clear, as they are in every descriptor that `sgx_init_epc_bank` builds
from a page-aligned address and an index below 256, on which both resolvers give the
index. -/
theorem resolvers_select_low_bits (desc : Nat) (impl : Option ImplPtr) (owner : Option Nat) :
    Sections.sgx_get_epc_section ⟨desc, owner⟩ = desc % 256 ∧
    SGX_EPC_BANK ⟨desc, impl⟩ = desc % 4096 ∧
    (SGX_EPC_BANK ⟨desc, impl⟩ = desc % 256 ↔
      ∀ i, 8 ≤ i → i < 12 → desc.testBit i = false) ∧
    (∀ addr k index, addr % PAGE_SIZE = 0 → index < 256 →
      SGX_EPC_BANK ⟨((addr + (k <<< PAGE_SHIFT)) % 2 ^ 64) ||| index, impl⟩ = index ∧
      Sections.sgx_get_epc_section ⟨((addr + (k <<< PAGE_SHIFT)) % 2 ^ 64) ||| index, owner⟩
        = index) :=
  resolvers_spec desc impl owner

/-- C16, amended, instance: the descriptor of page 1 of a bank at `0x70000000` with
index 3. -/
theorem resolvers_select_low_bits_witness :
    SGX_EPC_BANK ⟨((0x70000000 + (1 <<< PAGE_SHIFT)) % 2 ^ 64) ||| 3, none⟩ = 3 ∧
    Sections.sgx_get_epc_section ⟨((0x70000000 + (1 <<< PAGE_SHIFT)) % 2 ^ 64) ||| 3, none⟩
      = 3 :=
  (resolvers_select_low_bits 0 none none).2.2.2 0x70000000 1 3 (by decide) (by decide)

theorem page_mask_eq : PAGE_MASK = (2 ^ 52 - 1) <<< 12 := by decide

theorem or_index_and_page_mask (x index : Nat) (hx : x % 2 ^ 12 = 0) (hx64 : x < 2 ^ 64)
    (hi : index < 2 ^ 12) : (x ||| index) &&& PAGE_MASK = x := by
  apply Nat.eq_of_testBit_eq
  intro i
  rw [Nat.testBit_and, Nat.testBit_or, page_mask_eq, testBit_range_mask]
  by_cases h1 : 12 ≤ i
  · have hidx : index.testBit i = false := by
      apply Nat.testBit_eq_false_of_lt
      have h2 : 2 ^ 12 ≤ 2 ^ i := Nat.pow_le_pow_right (by norm_num) h1
      omega
    by_cases h2 : i < 12 + 52
    · simp [h1, h2, hidx]
    · have hxi : x.testBit i = false := by
        apply Nat.testBit_eq_false_of_lt
        have h3 : 2 ^ 64 ≤ 2 ^ i := Nat.pow_le_pow_right (by norm_num) (by omega)
        omega
      simp [h1, h2, hxi]
  · have hxi : x.testBit i = false := by
      have := Nat.testBit_mod_two_pow x 12 i
      rw [hx, Nat.zero_testBit] at this
      have hlt : i < 12 := by omega
      simpa [hlt] using this.symm
    simp [h1, hxi]

theorem sgx_get_page_of_layout {k : KmapEnv} {s : State} {p : PagePtr} {pg : sgx_epc_page}
    {bank : sgx_epc_bank} {index i : Nat} (kmaps : List Nat)
    (h64 : k.CONFIG_X86_64 = true) (ha : bank.pa % PAGE_SIZE = 0) (hidx : index < PAGE_SIZE)
    (hbank : s.sgx_epc_banks[index]? = some bank) (hp : s.page p = some pg)
    (hdesc : pg.desc = ((bank.pa + i * 4096) % 2 ^ 64) ||| index)
    (hfit : bank.va + i * 4096 < 2 ^ 64) :
    sgx_get_page k p s kmaps = .ok (bank.va + i * 4096, kmaps) := by
  have hal := page_mod_aligned bank.pa i ha
  have hb : SGX_EPC_BANK pg = index := by
    rw [SGX_EPC_BANK_eq_mod, hdesc]
    exact or_index_low _ index 12 hal (by norm_num) hidx
  have haddr : SGX_EPC_ADDR pg = (bank.pa + i * 4096) % 2 ^ 64 := by
    unfold SGX_EPC_ADDR
    rw [hdesc]
    exact or_index_and_page_mask _ index hal (Nat.mod_lt _ (by norm_num)) hidx
  unfold sgx_get_page
  rw [hp]
  simp only [h64, if_true]
  rw [hb, hbank]
  simp only
  rw [haddr]
  congr 2
  omega

theorem sgx_get_epc_addr_of_layout (sgx_epc_sections : Nat → Sections.sgx_epc_section)
    (index i : Nat) (owner : Option Nat)
    (ha : (sgx_epc_sections index).pa % PAGE_SIZE = 0) (hidx : index < 256)
    (hfit : (sgx_epc_sections index).va + i * 4096 < 2 ^ 64) :
    Sections.sgx_get_epc_addr sgx_epc_sections
      ⟨(((sgx_epc_sections index).pa + i * 4096) % 2 ^ 64) ||| index, owner⟩
      = (sgx_epc_sections index).va + i * 4096 := by
  have hal := page_mod_aligned (sgx_epc_sections index).pa i ha
  unfold Sections.sgx_get_epc_addr
  simp only
  rw [sgx_get_epc_section_eq_mod]
  simp only
  have hlow : ((((sgx_epc_sections index).pa + i * 4096) % 2 ^ 64) ||| index) % 256 = index :=
    or_index_low _ index 8 hal (by norm_num) (by norm_num; omega)
  rw [hlow,
    or_index_and_page_mask _ index hal (Nat.mod_lt _ (by norm_num)) (by norm_num; omega)]
  omega

theorem sgx_get_page_after_init (k : KmapEnv) (e : InitEnv) (addr size va i : Nat)
    (s : State) (kmaps : List Nat)
    (h64 : k.CONFIG_X86_64 = true) (hio : e.ioremap_cache = some va)
    (hk1 : e.kzalloc_pages_data = true) (hk2 : e.kzalloc_pages = true)
    (ha : addr % PAGE_SIZE = 0) (hslot : s.sgx_epc_banks.length < SGX_MAX_EPC_BANKS)
    (hfit : va + size ≤ 2 ^ 64) (hi : i < size >>> 12) :
    sgx_get_page k ⟨s.sgx_epc_banks.length, i⟩
        (sgx_init_epc_bank e addr size s.sgx_epc_banks.length s).2 kmaps
      = .ok (va + i * 4096, kmaps) ∧ va + i * 4096 < va + size := by
  have hsz : i * 4096 < size := by
    have : i < size / 4096 := by
      simpa [Nat.shiftRight_eq_div_pow] using hi
    omega
  have hidx : s.sgx_epc_banks.length < 256 := by
    have : SGX_MAX_EPC_BANKS = 8 := rfl
    omega
  obtain ⟨_, bank, hb, hpa, hva, _, _, _, _, _, hpages⟩ :=
    sgx_init_epc_bank_spec e addr size s.sgx_epc_banks.length s va hio hk1 hk2 ha hidx
  obtain ⟨_, pg, hpg, _, _, hdesc, _⟩ := hpages i hi
  have hbank : (sgx_init_epc_bank e addr size s.sgx_epc_banks.length s).2.sgx_epc_banks[
      s.sgx_epc_banks.length]? = some bank := by
    rw [hb, List.getElem?_append_right (Nat.le_refl _)]
    simp
  have := sgx_get_page_of_layout (k := k) (i := i) kmaps h64 (by rw [hpa]; exact ha)
    (by have : PAGE_SIZE = 4096 := rfl
        omega)
    hbank hpg (by rw [hpa]; exact hdesc) (by rw [hva]; omega)
  rw [hva] at this
  exact ⟨this, by omega⟩

/-- C17: on a 64-bit kernel, for the bank that `sgx_init_epc_bank` builds from a
page-aligned `addr`, the mapping `[va, va + size)` and the index of the next unused bank,
`sgx_get_page` on page `i` (`i < size >> 12`) returns `va + i * 4096`, the value of
`bank->va + (desc & PAGE_MASK) - bank->pa`, which lies in `[va, va + size)`; distinct pages
give distinct addresses; `sgx_put_page` changes nothing.  The same address comes out in
every state whose bank and descriptor have this layout, and out of `sgx_get_epc_addr` for a
section with this `pa` and `va`. -/
theorem sgx_get_page_address (k : KmapEnv) (e : InitEnv) (addr size va i j : Nat)
    (s : State) (kmaps : List Nat)
    (h64 : k.CONFIG_X86_64 = true) (hio : e.ioremap_cache = some va)
    (hk1 : e.kzalloc_pages_data = true) (hk2 : e.kzalloc_pages = true)
    (ha : addr % PAGE_SIZE = 0) (hslot : s.sgx_epc_banks.length < SGX_MAX_EPC_BANKS)
    (hfit : va + size ≤ 2 ^ 64) (hi : i < size >>> 12) (hj : j < size >>> 12) :
    sgx_get_page k ⟨s.sgx_epc_banks.length, i⟩
        (sgx_init_epc_bank e addr size s.sgx_epc_banks.length s).2 kmaps
      = .ok (va + i * 4096, kmaps) ∧
    va ≤ va + i * 4096 ∧ va + i * 4096 < va + size ∧
    (i ≠ j →
      sgx_get_page k ⟨s.sgx_epc_banks.length, i⟩
          (sgx_init_epc_bank e addr size s.sgx_epc_banks.length s).2 kmaps
        ≠ sgx_get_page k ⟨s.sgx_epc_banks.length, j⟩
          (sgx_init_epc_bank e addr size s.sgx_epc_banks.length s).2 kmaps) ∧
    (∀ ptr, sgx_put_page k ptr kmaps = kmaps) ∧
    (∀ (t : State) (p : PagePtr) (pg : sgx_epc_page) (bank : sgx_epc_bank) (index : Nat),
      bank.pa % PAGE_SIZE = 0 → index < PAGE_SIZE → t.sgx_epc_banks[index]? = some bank →
      t.page p = some pg → pg.desc = ((bank.pa + i * 4096) % 2 ^ 64) ||| index →
      bank.va + i * 4096 < 2 ^ 64 →
      sgx_get_page k p t kmaps = .ok (bank.va + i * 4096, kmaps)) ∧
    (∀ (sgx_epc_sections : Nat → Sections.sgx_epc_section) (index : Nat)
      (owner : Option Nat),
      index < 256 → (sgx_epc_sections index).pa = addr → (sgx_epc_sections index).va = va →
      Sections.sgx_get_epc_addr sgx_epc_sections ⟨((addr + i * 4096) % 2 ^ 64) ||| index, owner⟩
        = va + i * 4096) := by
  obtain ⟨h1, h2⟩ := sgx_get_page_after_init k e addr size va i s kmaps h64 hio hk1 hk2 ha
    hslot hfit hi
  obtain ⟨h3, _⟩ := sgx_get_page_after_init k e addr size va j s kmaps h64 hio hk1 hk2 ha
    hslot hfit hj
  refine ⟨h1, by omega, h2, ?_, ?_, ?_, ?_⟩
  · intro hne heq
    rw [h1, h3] at heq
    have : va + i * 4096 = va + j * 4096 := (Prod.mk.inj (Except.ok.inj heq)).1
    omega
  · intro ptr
    unfold sgx_put_page
    rw [if_pos h64]
  · intro t p pg bank index hpa hidx hbank hp hdesc hlt
    exact sgx_get_page_of_layout kmaps h64 hpa hidx hbank hp hdesc hlt
  · intro sections index owner hidx hpa hva
    have := sgx_get_epc_addr_of_layout sections index i owner (by rw [hpa]; exact ha) hidx
      (by rw [hva]; omega)
    rw [hpa, hva] at this
    exact this

/-- C17, instance: page 1 of the two-page bank mapped at `0xffffc90000000000`. -/
theorem sgx_get_page_address_witness :
    sgx_get_page example_kmap_env ⟨0, 1⟩ (example_init []) [] = .ok (0xffffc90000001000, []) ∧
    sgx_put_page example_kmap_env 0xffffc90000001000 [] = [] := by
  have h := sgx_get_page_address example_kmap_env ⟨some 0xffffc90000000000, true, true⟩
    0x70000000 0x2000 0xffffc90000000000 1 0 (State.boot [] false) [] rfl rfl rfl rfl
    (by decide) (by decide) (by decide) (by simp [Nat.shiftRight_eq_div_pow])
    (by simp [Nat.shiftRight_eq_div_pow])
  exact ⟨h.1, h.2.2.2.2.1 _⟩

/-! ## `sgx_einit` -/

theorem length_four {α : Type} {l : List α} (h : l.length = 4) :
    ∃ a b c d, l = [a, b, c, d] := by
  match l, h with
  | [a, b, c, d], _ => exact ⟨a, b, c, d, rfl⟩

theorem einit_write_hashes_spec (h c : List Nat) (l : LaunchControl)
    (hh : h.length = 4) (hc : l.sgx_le_pubkey_hash_cache l.smp_processor_id = c)
    (hcl : c.length = 4) :
    ∃ l', einit_write_hashes h [0, 1, 2, 3] l = .ok l' ∧
      l'.sgx_le_pubkey_hash_cache l.smp_processor_id = h ∧
      (∀ cpu, cpu ≠ l.smp_processor_id →
        l'.sgx_le_pubkey_hash_cache cpu = l.sgx_le_pubkey_hash_cache cpu) ∧
      l'.launch_log = l.launch_log ++ differing_words h c ∧
      l'.einit_results = l.einit_results ∧
      l'.smp_processor_id = l.smp_processor_id ∧ l'.sgx_lc_enabled = l.sgx_lc_enabled := by
  obtain ⟨h0, h1, h2, h3, rfl⟩ := length_four hh
  obtain ⟨c0, c1, c2, c3, rfl⟩ := length_four hcl
  obtain ⟨lc, cpu, cache, er, el⟩ := l
  simp only at hc
  by_cases e0 : h0 = c0 <;> by_cases e1 : h1 = c1 <;> by_cases e2 : h2 = c2 <;>
    by_cases e3 : h3 = c3 <;>
    simp [einit_write_hashes, einit_write_hash, hc, e0, e1, e2, e3, differing_words,
      List.range, List.range.loop, List.filter, Function.update] <;>
    intro a b c <;> exact absurd c b

theorem differing_words_self (h : List Nat) : differing_words h h = [] := by
  simp [differing_words]

theorem sgx_einit_spec (k : KmapEnv) (sigstruct token : Nat) (secs_page : PagePtr)
    (h : List Nat) (s : State) (kmaps : List Nat) (l : LaunchControl)
    (secs : Nat) (kmaps1 : List Nat)
    (hlc : l.sgx_lc_enabled = true)
    (hpin : sgx_get_page k secs_page s kmaps = .ok (secs, kmaps1))
    (hh : h.length = 4)
    (hc : (l.sgx_le_pubkey_hash_cache l.smp_processor_id).length = 4) :
    ∃ l', sgx_einit k sigstruct token secs_page h s kmaps l
        = .ok (l.einit_results.headD 0, sgx_put_page k secs kmaps1, l') ∧
      l'.sgx_le_pubkey_hash_cache l.smp_processor_id = h ∧
      (∀ cpu, cpu ≠ l.smp_processor_id →
        l'.sgx_le_pubkey_hash_cache cpu = l.sgx_le_pubkey_hash_cache cpu) ∧
      l'.launch_log = l.launch_log ++
        ((List.range 4).filter fun i => decide
          (h.getD i 0 ≠ (l.sgx_le_pubkey_hash_cache l.smp_processor_id).getD i 0)).map
          (fun i => LaunchOp.WRMSR (MSR_IA32_SGXLEPUBKEYHASH0 + i) (h.getD i 0)) ++
        [.EINIT sigstruct token secs] ∧
      l'.einit_results = l.einit_results.tail ∧
      l'.smp_processor_id = l.smp_processor_id ∧ l'.sgx_lc_enabled = true ∧
      (l.sgx_le_pubkey_hash_cache l.smp_processor_id = h →
        l'.launch_log = l.launch_log ++ [.EINIT sigstruct token secs]) ∧
      ∃ l'', sgx_einit k sigstruct token secs_page h s kmaps l'
          = .ok (l'.einit_results.headD 0, sgx_put_page k secs kmaps1, l'') ∧
        l''.launch_log = l'.launch_log ++ [.EINIT sigstruct token secs] := by
  have key : ∀ m : LaunchControl, m.sgx_lc_enabled = true →
      (m.sgx_le_pubkey_hash_cache m.smp_processor_id).length = 4 →
      ∃ m', sgx_einit k sigstruct token secs_page h s kmaps m
          = .ok (m.einit_results.headD 0, sgx_put_page k secs kmaps1, m') ∧
        m'.sgx_le_pubkey_hash_cache m.smp_processor_id = h ∧
        (∀ cpu, cpu ≠ m.smp_processor_id →
          m'.sgx_le_pubkey_hash_cache cpu = m.sgx_le_pubkey_hash_cache cpu) ∧
        m'.launch_log = m.launch_log ++
          differing_words h (m.sgx_le_pubkey_hash_cache m.smp_processor_id) ++
          [.EINIT sigstruct token secs] ∧
        m'.einit_results = m.einit_results.tail ∧
        m'.smp_processor_id = m.smp_processor_id ∧ m'.sgx_lc_enabled = true := by
    intro m hm hmc
    obtain ⟨m1, a1, a2, a3, a4, a6, a7, a8⟩ :=
      einit_write_hashes_spec h _ m hh rfl hmc
    refine ⟨(__einit sigstruct token secs m1).2, ?_, a2, a3, ?_, ?_, a7, ?_⟩
    · unfold sgx_einit
      rw [hpin]
      simp only [hm, Bool.not_true, Bool.false_eq_true, if_false]
      rw [a1]
      simp only [__einit, a6]
    · simp only [__einit, a4]
    · simp only [__einit, a6]
    · show m1.sgx_lc_enabled = true
      rw [a8, hm]
  obtain ⟨l', b1, b2, b3, b4, b6, b7, b8⟩ := key l hlc hc
  refine ⟨l', b1, b2, b3, b4, b6, b7, b8, ?_, ?_⟩
  · intro hsame
    rw [b4, hsame, differing_words_self, List.append_nil]
  · have hc' : (l'.sgx_le_pubkey_hash_cache l'.smp_processor_id).length = 4 := by
      rw [b7, b2, hh]
    obtain ⟨l'', d1, _, _, d4, _⟩ := key l' b8 hc'
    refine ⟨l'', d1, ?_⟩
    rw [d4, b7, b2, differing_words_self, List.append_nil]

/-- C18: with launch control enabled, `sgx_einit` with the desired hash `h` on a CPU whose
cache holds `c` pins the SECS page, calls `wrmsrl` for the register `i` exactly when
`h[i]` differs from `c[i]` (in the order of `i`, with the value `h[i]`), leaves the cache of
this CPU equal to `h` and those of the other CPUs alone, then issues `EINIT` exactly once
and returns its result, whatever that result is.  When the cache already holds `h` no
register is written, and so a second `sgx_einit` with the same hash on the same CPU issues
`EINIT` and writes no register. -/
theorem sgx_einit_writes_differing_words (k : KmapEnv) (sigstruct token : Nat)
    (secs_page : PagePtr) (h : List Nat) (s : State) (kmaps : List Nat) (l : LaunchControl)
    (secs : Nat) (kmaps1 : List Nat)
    (hlc : l.sgx_lc_enabled = true)
    (hpin : sgx_get_page k secs_page s kmaps = .ok (secs, kmaps1))
    (hh : h.length = 4)
    (hc : (l.sgx_le_pubkey_hash_cache l.smp_processor_id).length = 4) :
    ∃ l', sgx_einit k sigstruct token secs_page h s kmaps l
        = .ok (l.einit_results.headD 0, sgx_put_page k secs kmaps1, l') ∧
      l'.sgx_le_pubkey_hash_cache l.smp_processor_id = h ∧
      (∀ cpu, cpu ≠ l.smp_processor_id →
        l'.sgx_le_pubkey_hash_cache cpu = l.sgx_le_pubkey_hash_cache cpu) ∧
      l'.launch_log = l.launch_log ++
        ((List.range 4).filter fun i => decide
          (h.getD i 0 ≠ (l.sgx_le_pubkey_hash_cache l.smp_processor_id).getD i 0)).map
          (fun i => LaunchOp.WRMSR (MSR_IA32_SGXLEPUBKEYHASH0 + i) (h.getD i 0)) ++
        [.EINIT sigstruct token secs] ∧
      l'.einit_results = l.einit_results.tail ∧
      l'.smp_processor_id = l.smp_processor_id ∧ l'.sgx_lc_enabled = true ∧
      (l.sgx_le_pubkey_hash_cache l.smp_processor_id = h →
        l'.launch_log = l.launch_log ++ [.EINIT sigstruct token secs]) ∧
      ∃ l'', sgx_einit k sigstruct token secs_page h s kmaps l'
          = .ok (l'.einit_results.headD 0, sgx_put_page k secs kmaps1, l'') ∧
        l''.launch_log = l'.launch_log ++ [.EINIT sigstruct token secs] :=
  sgx_einit_spec k sigstruct token secs_page h s kmaps l secs kmaps1 hlc hpin hh hc

/-- C18, instance: the desired hash `[10, 11, 12, 13]` on a CPU whose cache holds
`[10, 21, 12, 13]`, with `EINIT` answering 128: one register, of index 1, is written, the
cache holds the desired hash, `EINIT` was issued once and its result is returned. -/
theorem sgx_einit_writes_differing_words_witness :
    ∃ l', sgx_einit example_kmap_env 1 2 ⟨0, 0⟩ [10, 11, 12, 13] (example_init []) []
        example_launch_control = .ok (128, [], l') ∧
      l'.launch_log = [.WRMSR (MSR_IA32_SGXLEPUBKEYHASH0 + 1) 11,
        .EINIT 1 2 0xffffc90000000000] ∧
      l'.sgx_le_pubkey_hash_cache 0 = [10, 11, 12, 13] := by
  obtain ⟨l', h1, h2, _, h4, _⟩ :=
    sgx_einit_writes_differing_words example_kmap_env 1 2 ⟨0, 0⟩ [10, 11, 12, 13]
      (example_init []) [] example_launch_control 0xffffc90000000000 [] rfl (by decide)
      rfl rfl
  exact ⟨l', h1, by rw [h4]; decide, h2⟩

/-! ## The low watermark -/

theorem sgx_try_alloc_page_wakeups {impl : Option ImplPtr} {s s' : State}
    {r : Option PagePtr} (h : sgx_try_alloc_page impl s = .ok (r, s')) :
    s'.ksgxswapd_wakeups = s.ksgxswapd_wakeups := by
  unfold sgx_try_alloc_page at h
  split at h
  · cases h
  · cases h
    rfl
  · split at h
    · cases h
    · cases h
      rfl

theorem sgx_free_page_wakeups {p : PagePtr} {s s' : State} {ret : Int}
    (h : sgx_free_page p s = .ok (ret, s')) :
    s'.ksgxswapd_wakeups = s.ksgxswapd_wakeups := by
  obtain ⟨pg, _, _, hcase⟩ := sgx_free_page_inv h
  rcases hcase with ⟨_, hs'⟩ | ⟨_, bank, _, _, hs'⟩
  · subst hs'
    rfl
  · subst hs'
    rfl

theorem sgx_alloc_page_page_inv {Ω : Type} {env : Env Ω} {P : State → Prop}
    (hlist : ∀ s l, P s → P (s.with_list l))
    (hfree : ∀ p s ret s', P s → sgx_free_page p s = .ok (ret, s') → P s')
    (htry : ∀ impl s r s', P s → sgx_try_alloc_page impl s = .ok (r, s') → P s')
    (henv : env.Preserves P) (impl : Option ImplPtr) (flags fuel : Nat)
    {p : PagePtr} {w w' : World Ω}
    (hP : P w.1) (h : sgx_alloc_page env impl flags fuel w = .ok (.page p, w')) :
    ∃ s0 s1, P s0 ∧ sgx_try_alloc_page impl s0 = .ok (some p, s1) ∧
      w'.1 = alloc_finish s1 := by
  induction fuel generalizing w with
  | zero => simp [sgx_alloc_page] at h
  | succ fuel ih =>
    unfold sgx_alloc_page at h
    split at h
    · cases h
    · rename_i entry s1 htry1
      cases h
      exact ⟨w.1, s1, hP, htry1, rfl⟩
    · rename_i s1 htry1
      have hP1 := htry _ _ _ _ hP htry1
      split at h
      · cases h
      · split at h
        · cases h
        · split at h
          · cases h
          · split at h
            · cases h
            · rename_i tr w2 hswap
              have hP2 : P w2.1 :=
                sgx_swap_cluster_preserves hlist hfree henv.1 (w := (s1, w.2)) hP1 hswap
              exact ih (henv.2 _ hP2) h

theorem alloc_finish_wakeups (s : State) :
    (alloc_finish s).sgx_nr_free_pages = s.sgx_nr_free_pages ∧
    (alloc_finish s).ksgxswapd_wakeups
      = s.ksgxswapd_wakeups + (if s.sgx_nr_free_pages < SGX_NR_LOW_PAGES then 1 else 0) := by
  unfold alloc_finish
  split <;> simp

theorem sgx_alloc_page_watermark_spec {Ω : Type} (env : Env Ω) (impl : Option ImplPtr)
    (flags fuel : Nat) (w w' : World Ω) (p : PagePtr)
    (h : sgx_alloc_page env impl flags fuel w = .ok (.page p, w')) :
    (∃ s0 s1, sgx_try_alloc_page impl s0 = .ok (some p, s1) ∧ w'.1 = alloc_finish s1 ∧
      w'.1.sgx_nr_free_pages = s1.sgx_nr_free_pages ∧
      (w'.1.sgx_nr_free_pages < SGX_NR_LOW_PAGES →
        w'.1.ksgxswapd_wakeups = s1.ksgxswapd_wakeups + 1) ∧
      (SGX_NR_LOW_PAGES ≤ w'.1.sgx_nr_free_pages →
        w'.1.ksgxswapd_wakeups = s1.ksgxswapd_wakeups)) ∧
    ((∀ n, env.Preserves fun s => s.ksgxswapd_wakeups = n) →
      (w'.1.sgx_nr_free_pages < SGX_NR_LOW_PAGES →
        w'.1.ksgxswapd_wakeups = w.1.ksgxswapd_wakeups + 1) ∧
      (SGX_NR_LOW_PAGES ≤ w'.1.sgx_nr_free_pages →
        w'.1.ksgxswapd_wakeups = w.1.ksgxswapd_wakeups)) ∧
    (∀ impl2 s r s', sgx_try_alloc_page impl2 s = .ok (r, s') →
      s'.ksgxswapd_wakeups = s.ksgxswapd_wakeups) := by
  have fin : ∀ s1, w'.1 = alloc_finish s1 →
      w'.1.sgx_nr_free_pages = s1.sgx_nr_free_pages ∧
      (w'.1.sgx_nr_free_pages < SGX_NR_LOW_PAGES →
        w'.1.ksgxswapd_wakeups = s1.ksgxswapd_wakeups + 1) ∧
      (SGX_NR_LOW_PAGES ≤ w'.1.sgx_nr_free_pages →
        w'.1.ksgxswapd_wakeups = s1.ksgxswapd_wakeups) := by
    intro s1 hw
    obtain ⟨a, b⟩ := alloc_finish_wakeups s1
    rw [hw, a, b]
    refine ⟨rfl, ?_, ?_⟩
    · intro hlt
      rw [if_pos hlt]
    · intro hge
      rw [if_neg (by omega)]
      rfl
  refine ⟨?_, ?_, ?_⟩
  · obtain ⟨s0, s1, _, h1, h2⟩ := sgx_alloc_page_page_inv (P := fun _ => True)
      (fun _ _ _ => trivial) (fun _ _ _ _ _ _ => trivial) (fun _ _ _ _ _ _ => trivial)
      ⟨fun _ => ⟨fun _ _ _ _ _ _ => trivial, fun _ _ _ _ _ => trivial,
        fun _ _ _ _ _ _ => trivial, fun _ _ _ _ _ => trivial, fun _ _ _ _ _ => trivial⟩,
       fun _ _ => trivial⟩ impl flags fuel trivial h
    exact ⟨s0, s1, h1, h2, fin s1 h2⟩
  · intro henv
    obtain ⟨s0, s1, h0, h1, h2⟩ := sgx_alloc_page_page_inv
      (P := fun s => s.ksgxswapd_wakeups = w.1.ksgxswapd_wakeups)
      (fun _ _ hs => hs)
      (fun _ _ _ _ hs hf => (sgx_free_page_wakeups hf).trans hs)
      (fun _ _ _ _ hs ht => (sgx_try_alloc_page_wakeups ht).trans hs)
      (henv _) impl flags fuel rfl h
    have h3 : s1.ksgxswapd_wakeups = w.1.ksgxswapd_wakeups :=
      (sgx_try_alloc_page_wakeups h1).trans h0
    obtain ⟨_, f2, f3⟩ := fin s1 h2
    rw [h3] at f2 f3
    exact ⟨f2, f3⟩
  · intro impl2 s r s' ht
    exact sgx_try_alloc_page_wakeups ht

set_option maxRecDepth 100000 in
/-- C19, as stated, fails: in `example_watermark_run` the free count drops from 32 to 31 in
a `sgx_try_alloc_page`, two `sgx_free_page` follow, and the next `sgx_alloc_page` returns a
page leaving a free count of 32; `ksgxswapd` has not been woken once when it returns. -/
theorem sgx_try_alloc_page_drop_not_signalled :
    example_watermark_run = .ok (32, 31, .page ⟨0, 32⟩, 32, 0) := by
  decide!

/-- C19, amended: when `sgx_alloc_page` returns a page, the last thing it did is the
watermark test on the state left by the successful `sgx_try_alloc_page`: it calls `wake_up`
exactly when the free count it leaves is below `SGX_NR_LOW_PAGES`.  When the owner callbacks
and the other threads do not wake `ksgxswapd` themselves, the number of wake-ups after the
call is that before the call plus one in the first case, and unchanged in the second.
`sgx_try_alloc_page` lowers the free count without any wake-up. -/
theorem sgx_alloc_page_watermark {Ω : Type} (env : Env Ω) (impl : Option ImplPtr)
    (flags fuel : Nat) (w w' : World Ω) (p : PagePtr)
    (h : sgx_alloc_page env impl flags fuel w = .ok (.page p, w')) :
    (∃ s0 s1, sgx_try_alloc_page impl s0 = .ok (some p, s1) ∧ w'.1 = alloc_finish s1 ∧
      w'.1.sgx_nr_free_pages = s1.sgx_nr_free_pages ∧
      (w'.1.sgx_nr_free_pages < SGX_NR_LOW_PAGES →
        w'.1.ksgxswapd_wakeups = s1.ksgxswapd_wakeups + 1) ∧
      (SGX_NR_LOW_PAGES ≤ w'.1.sgx_nr_free_pages →
        w'.1.ksgxswapd_wakeups = s1.ksgxswapd_wakeups)) ∧
    ((∀ n, env.Preserves fun s => s.ksgxswapd_wakeups = n) →
      (w'.1.sgx_nr_free_pages < SGX_NR_LOW_PAGES →
        w'.1.ksgxswapd_wakeups = w.1.ksgxswapd_wakeups + 1) ∧
      (SGX_NR_LOW_PAGES ≤ w'.1.sgx_nr_free_pages →
        w'.1.ksgxswapd_wakeups = w.1.ksgxswapd_wakeups)) ∧
    (∀ impl2 s r s', sgx_try_alloc_page impl2 s = .ok (r, s') →
      s'.ksgxswapd_wakeups = s.ksgxswapd_wakeups) :=
  sgx_alloc_page_watermark_spec env impl flags fuel w w' p h

/-- C19, amended, instance: the allocation on `example_reclaimable` leaves no free page
and wakes `ksgxswapd` once. -/
theorem sgx_alloc_page_watermark_witness :
    example_reclaimed_allocated.ksgxswapd_wakeups
      = example_reclaimable.ksgxswapd_wakeups + 1 :=
  ((sgx_alloc_page_watermark accept_env (some 9) 0 2 (example_reclaimable, ())
    (example_reclaimed_allocated, ()) ⟨0, 0⟩ (by decide)).2.1
      (fun _ => accept_env_preserves _)).1 (by decide)

/-! ## The atomic allocation on an empty pool -/

theorem all_zero_of_counters {s : State} (hc : s.CountersAgree)
    (h0 : s.sgx_nr_free_pages = 0) : ∀ b ∈ s.sgx_epc_banks, b.free_cnt = 0 := by
  unfold State.CountersAgree at hc
  rw [h0] at hc
  have hsum : sum_free_cnt s.sgx_epc_banks = 0 := by exact_mod_cast hc
  unfold sum_free_cnt at hsum
  intro b hb
  exact List.sum_eq_zero_iff.mp hsum _ (List.mem_map_of_mem _ hb)

theorem sgx_alloc_page_atomic_spec {Ω : Type} (env : Env Ω) (impl : Option ImplPtr)
    (flags fuel : Nat) (w : World Ω)
    (h0 : w.1.sgx_nr_free_pages = 0) (hc : w.1.CountersAgree)
    (hl : w.1.sgx_active_page_list ≠ []) (hf : flags &&& SGX_ALLOC_ATOMIC ≠ 0) :
    sgx_alloc_page env impl flags (fuel + 1) w
      = .ok (.err (-EBUSY),
          ({ w.1 with ksgxswapd_wakeups := w.1.ksgxswapd_wakeups + 1 }, w.2)) := by
  unfold sgx_alloc_page
  rw [sgx_try_alloc_page_all_zero impl (all_zero_of_counters hc h0)]
  simp only
  rw [if_neg hl, if_pos hf]
  unfold alloc_finish
  rw [if_pos (by rw [h0]; decide)]

/-- C20: in a state with a global free count of 0 (and in which the counters agree, so
that no bank has a free page) and a non-empty active page list, `sgx_alloc_page` with
`SGX_ALLOC_ATOMIC` returns `-EBUSY` in its first iteration.  The result does not depend on
the callbacks, which are therefore not called, and it is the same with callbacks that
fault; the banks, the active page list and the owner state are unchanged.  The only change
is the wake-up of `ksgxswapd` by the watermark test. -/
theorem sgx_alloc_page_atomic_busy {Ω : Type} (env : Env Ω) (impl : Option ImplPtr)
    (flags fuel : Nat) (w : World Ω)
    (h0 : w.1.sgx_nr_free_pages = 0) (hc : w.1.CountersAgree)
    (hl : w.1.sgx_active_page_list ≠ []) (hf : flags &&& SGX_ALLOC_ATOMIC ≠ 0) :
    sgx_alloc_page env impl flags (fuel + 1) w
      = .ok (.err (-EBUSY),
          ({ w.1 with ksgxswapd_wakeups := w.1.ksgxswapd_wakeups + 1 }, w.2)) ∧
    sgx_alloc_page (fault_env Ω) impl flags (fuel + 1) w
      = sgx_alloc_page env impl flags (fuel + 1) w :=
  ⟨sgx_alloc_page_atomic_spec env impl flags fuel w h0 hc hl hf,
   (sgx_alloc_page_atomic_spec (fault_env Ω) impl flags fuel w h0 hc hl hf).trans
     (sgx_alloc_page_atomic_spec env impl flags fuel w h0 hc hl hf).symm⟩

/-- C20, instance: an atomic allocation on `example_reclaimable`, whose only page is
allocated and on the active page list. -/
theorem sgx_alloc_page_atomic_busy_witness :
    sgx_alloc_page accept_env (some 9) SGX_ALLOC_ATOMIC 1 (example_reclaimable, ())
      = .ok (.err (-EBUSY),
          ({ example_reclaimable with ksgxswapd_wakeups := 1 }, ())) :=
  (sgx_alloc_page_atomic_busy accept_env (some 9) SGX_ALLOC_ATOMIC 0
    (example_reclaimable, ()) rfl (by decide) (by decide) (by decide)).1

/-! ## The slots of a VA page -/

theorem find_first_zero_bit_succ (bits n : Nat) :
    find_first_zero_bit bits (n + 1)
      = if find_first_zero_bit bits n < n then find_first_zero_bit bits n
        else if bits.testBit n then n + 1 else n := by
  unfold find_first_zero_bit
  rw [List.range_succ, List.find?_append]
  cases h : (List.range n).find? (fun i => !bits.testBit i) with
  | none =>
    simp only [Option.none_or, Option.getD_none, Nat.lt_irrefl, if_false]
    cases hb : bits.testBit n <;> simp [List.find?, hb]
  | some a =>
    have ha : a < n := List.mem_range.mp (List.mem_of_find?_eq_some h)
    simp [ha]

theorem find_first_zero_bit_spec (bits n : Nat) :
    find_first_zero_bit bits n ≤ n ∧
    (∀ j, j < find_first_zero_bit bits n → bits.testBit j = true) ∧
    (find_first_zero_bit bits n < n → bits.testBit (find_first_zero_bit bits n) = false) := by
  induction n with
  | zero => simp [find_first_zero_bit]
  | succ n ih =>
    obtain ⟨h1, h2, h3⟩ := ih
    rw [find_first_zero_bit_succ]
    split
    · rename_i hlt
      exact ⟨by omega, h2, fun _ => h3 hlt⟩
    · rename_i hge
      have heq : find_first_zero_bit bits n = n := by omega
      split
      · rename_i hb
        refine ⟨le_refl _, ?_, fun h => absurd h (lt_irrefl _)⟩
        intro j hj
        by_cases hjn : j < n
        · exact h2 j (by omega)
        · have : j = n := by omega
          rw [this]
          exact hb
      · rename_i hb
        refine ⟨by omega, ?_, fun _ => by simpa using hb⟩
        intro j hj
        exact h2 j (by omega)

theorem testBit_one_of_ne_zero {k : Nat} (h : k ≠ 0) : Nat.testBit 1 k = false := by
  cases hb : Nat.testBit 1 k with
  | false => rfl
  | true => exact absurd (Nat.testBit_one_eq_true_iff_self_eq_zero.mp hb) h

theorem set_bit_testBit (nr bits j : Nat) :
    (set_bit nr bits).testBit j = (bits.testBit j || decide (j = nr)) := by
  unfold set_bit
  rw [Nat.testBit_or, Nat.testBit_shiftLeft]
  by_cases h : j = nr
  · subst h
    simp
  · by_cases h2 : nr ≤ j
    · have : j - nr ≠ 0 := by omega
      simp [h, h2, testBit_one_of_ne_zero this]
    · simp [h, h2]

theorem clear_bit_testBit (nr bits j : Nat) :
    (clear_bit nr bits).testBit j = (bits.testBit j && !decide (j = nr)) := by
  unfold clear_bit
  rw [clear_bits_testBit, Nat.testBit_shiftLeft]
  by_cases h : j = nr
  · subst h
    simp
  · by_cases h2 : nr ≤ j
    · have : j - nr ≠ 0 := by omega
      simp [h, h2, testBit_one_of_ne_zero this]
    · simp [h, h2]

theorem clear_bit_set_bit (nr bits : Nat) (h : bits.testBit nr = false) :
    clear_bit nr (set_bit nr bits) = bits := by
  apply Nat.eq_of_testBit_eq
  intro j
  rw [clear_bit_testBit, set_bit_testBit]
  by_cases hj : j = nr
  · subst hj
    simp [h]
  · simp [hj]

theorem find_first_zero_bit_lt {bits n : Nat} (h : ∃ i, i < n ∧ bits.testBit i = false) :
    find_first_zero_bit bits n < n := by
  obtain ⟨h1, h2, _⟩ := find_first_zero_bit_spec bits n
  obtain ⟨i, hi, hb⟩ := h
  by_contra hge
  have heq : find_first_zero_bit bits n = n := by omega
  have := h2 i (by omega)
  rw [hb] at this
  cases this

theorem find_first_zero_bit_full {bits n : Nat} (h : ∀ i, i < n → bits.testBit i = true) :
    find_first_zero_bit bits n = n := by
  obtain ⟨h1, _, h3⟩ := find_first_zero_bit_spec bits n
  by_contra hne
  have hlt : find_first_zero_bit bits n < n := by omega
  have := h3 hlt
  rw [h _ hlt] at this
  cases this

theorem sgx_va_slot_spec (v : sgx_va_page) :
    ((∃ i, i < 32 ∧ v.slots.testBit i = false) →
      find_first_zero_bit v.slots SGX_VA_SLOT_COUNT < 32 ∧
      v.slots.testBit (find_first_zero_bit v.slots SGX_VA_SLOT_COUNT) = false ∧
      (∀ j, j < find_first_zero_bit v.slots SGX_VA_SLOT_COUNT → v.slots.testBit j = true) ∧
      (sgx_alloc_va_slot v).1 = find_first_zero_bit v.slots SGX_VA_SLOT_COUNT * 8 ∧
      (sgx_alloc_va_slot v).1 % 8 = 0 ∧ (sgx_alloc_va_slot v).1 < 256 ∧
      (∀ j, (sgx_alloc_va_slot v).2.slots.testBit j
        = (v.slots.testBit j ||
            decide (j = find_first_zero_bit v.slots SGX_VA_SLOT_COUNT))) ∧
      (sgx_alloc_va_slot v).2.epc_page = v.epc_page ∧
      sgx_free_va_slot (sgx_alloc_va_slot v).2 (sgx_alloc_va_slot v).1 = v) ∧
    ((∀ i, i < 32 → v.slots.testBit i = true) → sgx_alloc_va_slot v = (256, v)) ∧
    (sgx_va_page_full v = true ↔ ∀ i, i < 32 → v.slots.testBit i = true) ∧
    (∀ offset j, (sgx_free_va_slot v offset).slots.testBit j
      = (v.slots.testBit j && !decide (j = offset / 8))) := by
  have hcount : SGX_VA_SLOT_COUNT = 32 := rfl
  refine ⟨?_, ?_, ?_, ?_⟩
  · intro hfree
    have hlt := find_first_zero_bit_lt (n := SGX_VA_SLOT_COUNT) (by rw [hcount]; exact hfree)
    obtain ⟨_, h2, h3⟩ := find_first_zero_bit_spec v.slots SGX_VA_SLOT_COUNT
    have halloc : sgx_alloc_va_slot v
        = (find_first_zero_bit v.slots SGX_VA_SLOT_COUNT <<< 3,
           { v with slots :=
              set_bit (find_first_zero_bit v.slots SGX_VA_SLOT_COUNT) v.slots }) := by
      unfold sgx_alloc_va_slot
      simp only [if_pos hlt]
    have hsh : find_first_zero_bit v.slots SGX_VA_SLOT_COUNT <<< 3
        = find_first_zero_bit v.slots SGX_VA_SLOT_COUNT * 8 := by
      simp [Nat.shiftLeft_eq]
    have hlt' : find_first_zero_bit v.slots SGX_VA_SLOT_COUNT < 32 := hlt
    refine ⟨hlt', h3 hlt, h2, ?_, ?_, ?_, ?_, ?_, ?_⟩
    · rw [halloc, hsh]
    · rw [halloc, hsh]
      exact Nat.mul_mod_left _ _
    · rw [halloc, hsh]
      show find_first_zero_bit v.slots SGX_VA_SLOT_COUNT * 8 < 256
      omega
    · intro j
      rw [halloc]
      exact set_bit_testBit _ _ _
    · rw [halloc]
    · rw [halloc]
      unfold sgx_free_va_slot
      simp only
      have hback : (find_first_zero_bit v.slots SGX_VA_SLOT_COUNT <<< 3) >>> 3
          = find_first_zero_bit v.slots SGX_VA_SLOT_COUNT := by
        rw [hsh, Nat.shiftRight_eq_div_pow]
        omega
      rw [hback, clear_bit_set_bit _ _ (h3 hlt)]
  · intro hfull
    have := find_first_zero_bit_full (n := SGX_VA_SLOT_COUNT) (by rw [hcount]; exact hfull)
    unfold sgx_alloc_va_slot
    simp only [this, lt_irrefl, if_false]
    rfl
  · unfold sgx_va_page_full
    simp only [decide_eq_true_eq]
    constructor
    · intro heq i hi
      obtain ⟨_, h2, _⟩ := find_first_zero_bit_spec v.slots SGX_VA_SLOT_COUNT
      exact h2 i (by rw [heq, hcount]; exact hi)
    · intro hfull
      exact find_first_zero_bit_full (by rw [hcount]; exact hfull)
  · intro offset j
    unfold sgx_free_va_slot
    simp only
    rw [clear_bit_testBit, Nat.shiftRight_eq_div_pow]

/-- C21: on the 32-slot bitmap of a VA page with a clear bit, `sgx_alloc_va_slot` finds the
lowest clear bit, returns its index times 8 (a multiple of 8 below 256) and sets that bit
and no other; `sgx_free_va_slot` on the returned offset gives the VA page back as it was.
When all 32 bits are set, `sgx_alloc_va_slot` returns 256 and changes nothing.
`sgx_va_page_full` is true exactly when all 32 bits are set, and `sgx_free_va_slot` clears
the bit `offset / 8` and no other. -/
theorem sgx_va_slot_alloc_free (v : sgx_va_page) :
    ((∃ i, i < 32 ∧ v.slots.testBit i = false) →
      find_first_zero_bit v.slots SGX_VA_SLOT_COUNT < 32 ∧
      v.slots.testBit (find_first_zero_bit v.slots SGX_VA_SLOT_COUNT) = false ∧
      (∀ j, j < find_first_zero_bit v.slots SGX_VA_SLOT_COUNT → v.slots.testBit j = true) ∧
      (sgx_alloc_va_slot v).1 = find_first_zero_bit v.slots SGX_VA_SLOT_COUNT * 8 ∧
      (sgx_alloc_va_slot v).1 % 8 = 0 ∧ (sgx_alloc_va_slot v).1 < 256 ∧
      (∀ j, (sgx_alloc_va_slot v).2.slots.testBit j
        = (v.slots.testBit j ||
            decide (j = find_first_zero_bit v.slots SGX_VA_SLOT_COUNT))) ∧
      (sgx_alloc_va_slot v).2.epc_page = v.epc_page ∧
      sgx_free_va_slot (sgx_alloc_va_slot v).2 (sgx_alloc_va_slot v).1 = v) ∧
    ((∀ i, i < 32 → v.slots.testBit i = true) → sgx_alloc_va_slot v = (256, v)) ∧
    (sgx_va_page_full v = true ↔ ∀ i, i < 32 → v.slots.testBit i = true) ∧
    (∀ offset j, (sgx_free_va_slot v offset).slots.testBit j
      = (v.slots.testBit j && !decide (j = offset / 8))) :=
  sgx_va_slot_spec v

/-- C21, instance: on the bitmap `0b0111` the slot 3 is taken, at offset 24, and freeing the
offset 24 gives the bitmap back. -/
theorem sgx_va_slot_alloc_free_witness :
    (sgx_alloc_va_slot ⟨⟨0, 17⟩, 7⟩).1 = find_first_zero_bit 7 SGX_VA_SLOT_COUNT * 8 ∧
    (sgx_alloc_va_slot ⟨⟨0, 17⟩, 7⟩).1 < 256 ∧
    sgx_free_va_slot (sgx_alloc_va_slot ⟨⟨0, 17⟩, 7⟩).2 (sgx_alloc_va_slot ⟨⟨0, 17⟩, 7⟩).1
      = ⟨⟨0, 17⟩, 7⟩ :=
  have h := (sgx_va_slot_alloc_free ⟨⟨0, 17⟩, 7⟩).1 ⟨3, by decide, by decide⟩
  ⟨h.2.2.2.1, h.2.2.2.2.2.1, h.2.2.2.2.2.2.2.2⟩

/-! ## The blocks that `sgx_paging_fn` takes from the backing store -/

theorem pcmd_index_arith (index : Nat) :
    index &&& 0x1f = index % 32 ∧ index >>> 5 = index / 32 ∧
    (index &&& 0x1f) * 128 + 128 ≤ 4096 ∧
    (index >>> 5) * 4096 + (index &&& 0x1f) * 128 = index * 128 := by
  have h1 : index &&& 0x1f = index % 32 := by
    have : (0x1f : Nat) = 2 ^ 5 - 1 := by decide
    rw [this, Nat.and_pow_two_sub_one_eq_mod]
  have h2 : index >>> 5 = index / 32 := by
    rw [Nat.shiftRight_eq_div_pow]
  rw [h1, h2]
  refine ⟨rfl, rfl, ?_, ?_⟩
  · omega
  · omega

theorem sgx_paging_fn_spec (k : KmapEnv) (b : BackingEnv) (epc_page va_page : PagePtr)
    (va_offset : Nat) (secs_page : Option PagePtr) (backing_file pcmd_file index : Nat)
    (addr : Option Nat) (write : Bool) (fn : sgx_pageinfo → Nat → Nat → Int × sgx_pageinfo)
    (s : State) (kmaps : List Nat) (backing pcmd secs epc va : Nat)
    (kmaps1 kmaps2 kmaps3 : List Nat)
    (hb : b.shmem_read_mapping_page_gfp backing_file index = .ok backing)
    (hp : b.shmem_read_mapping_page_gfp pcmd_file (index / 32) = .ok pcmd)
    (hfit : b.kmap_atomic pcmd + 4096 ≤ 2 ^ 64)
    (hsecs : paging_pin_secs k secs_page s kmaps = .ok (secs, kmaps1))
    (hepc : sgx_get_page k epc_page s kmaps1 = .ok (epc, kmaps2))
    (hva : sgx_get_page k va_page s kmaps2 = .ok (va, kmaps3)) :
    ∃ ret addr' kmaps' rest,
      sgx_paging_fn k b epc_page va_page va_offset secs_page backing_file pcmd_file index
          addr write fn s kmaps
        = .ok (ret, addr', kmaps',
            [.get_backing backing_file index, .get_backing pcmd_file (index / 32),
             .kmap_atomic backing, .kmap_atomic pcmd,
             .fn ⟨addr.getD 0, b.kmap_atomic backing,
                   b.kmap_atomic pcmd + (index % 32) * 128, secs⟩
               epc ((va + va_offset) % 2 ^ 64)] ++ rest) ∧
      ret = (fn ⟨addr.getD 0, b.kmap_atomic backing,
                   b.kmap_atomic pcmd + (index % 32) * 128, secs⟩
               epc ((va + va_offset) % 2 ^ 64)).1 := by
  obtain ⟨a1, a2, a3, _⟩ := pcmd_index_arith index
  unfold sgx_paging_fn
  simp only [sgx_get_backing]
  rw [a2, hb, hp]
  simp only
  rw [hsecs]
  simp only
  rw [hepc]
  simp only
  rw [hva]
  simp only
  rw [a1]
  have hmod : (b.kmap_atomic pcmd + index % 32 * 128) % 2 ^ 64
      = b.kmap_atomic pcmd + index % 32 * 128 := Nat.mod_eq_of_lt (by omega)
  rw [hmod]
  exact ⟨_, _, _, _, rfl, rfl⟩

/-- C23: when both blocks can be read, `sgx_paging_fn` reads block `index` of the backing
file and block `index / 32` (`index >> 5`) of the metadata file, and calls `fn` with
`pginfo.srcpge` at the mapping of the first and `pginfo.pcmd` at the mapping of the second
plus `(index mod 32) * 128` (`(index & 0x1f) * 128`), and returns the result of `fn`.  The
record of 128 bytes ends inside the block of 4096 bytes, its position in the metadata file
is `index * 128`, and the records of two different indices do not overlap. -/
theorem sgx_paging_fn_blocks (k : KmapEnv) (b : BackingEnv) (epc_page va_page : PagePtr)
    (va_offset : Nat) (secs_page : Option PagePtr) (backing_file pcmd_file index : Nat)
    (addr : Option Nat) (write : Bool) (fn : sgx_pageinfo → Nat → Nat → Int × sgx_pageinfo)
    (s : State) (kmaps : List Nat) (backing pcmd secs epc va : Nat)
    (kmaps1 kmaps2 kmaps3 : List Nat)
    (hb : b.shmem_read_mapping_page_gfp backing_file index = .ok backing)
    (hp : b.shmem_read_mapping_page_gfp pcmd_file (index / 32) = .ok pcmd)
    (hfit : b.kmap_atomic pcmd + 4096 ≤ 2 ^ 64)
    (hsecs : paging_pin_secs k secs_page s kmaps = .ok (secs, kmaps1))
    (hepc : sgx_get_page k epc_page s kmaps1 = .ok (epc, kmaps2))
    (hva : sgx_get_page k va_page s kmaps2 = .ok (va, kmaps3)) :
    (∃ ret addr' kmaps' rest,
      sgx_paging_fn k b epc_page va_page va_offset secs_page backing_file pcmd_file index
          addr write fn s kmaps
        = .ok (ret, addr', kmaps',
            [.get_backing backing_file index, .get_backing pcmd_file (index / 32),
             .kmap_atomic backing, .kmap_atomic pcmd,
             .fn ⟨addr.getD 0, b.kmap_atomic backing,
                   b.kmap_atomic pcmd + (index % 32) * 128, secs⟩
               epc ((va + va_offset) % 2 ^ 64)] ++ rest) ∧
      ret = (fn ⟨addr.getD 0, b.kmap_atomic backing,
                   b.kmap_atomic pcmd + (index % 32) * 128, secs⟩
               epc ((va + va_offset) % 2 ^ 64)).1) ∧
    index &&& 0x1f = index % 32 ∧ index >>> 5 = index / 32 ∧
    (index &&& 0x1f) * 128 + 128 ≤ 4096 ∧
    (index >>> 5) * 4096 + (index &&& 0x1f) * 128 = index * 128 ∧
    (∀ index2, index2 ≠ index →
      index2 * 128 + 128 ≤ index * 128 ∨ index * 128 + 128 ≤ index2 * 128) := by
  obtain ⟨a1, a2, a3, a4⟩ := pcmd_index_arith index
  refine ⟨sgx_paging_fn_spec k b epc_page va_page va_offset secs_page backing_file pcmd_file
    index addr write fn s kmaps backing pcmd secs epc va kmaps1 kmaps2 kmaps3 hb hp hfit
    hsecs hepc hva, a1, a2, a3, a4, ?_⟩
  intro index2 hne
  omega

/-- C23, instance: the index 37 takes block 37 of the backing file 1 and the record at
offset `5 * 128` of block 1 of the metadata file 2. -/
theorem sgx_paging_fn_blocks_witness :
    ∃ ret addr' kmaps' rest,
      sgx_paging_fn example_kmap_env example_backing_env ⟨0, 0⟩ ⟨0, 1⟩ 8 none 1 2 37 none true
          (fun pg _ _ => (0, pg)) (example_init []) []
        = .ok (ret, addr', kmaps',
            [.get_backing 1 37, .get_backing 2 1, .kmap_atomic 1037, .kmap_atomic 2001,
             .fn ⟨0, 4096 * 1037, 4096 * 2001 + 5 * 128, 0⟩ 0xffffc90000000000
               0xffffc90000001008] ++ rest) := by
  obtain ⟨⟨ret, addr', kmaps', rest, h, _⟩, _⟩ :=
    sgx_paging_fn_blocks example_kmap_env example_backing_env ⟨0, 0⟩ ⟨0, 1⟩ 8 none 1 2 37
      none true (fun pg _ _ => (0, pg)) (example_init []) [] 1037 2001 0
      0xffffc90000000000 0xffffc90000001000 [] [] [] rfl rfl (by decide) rfl (by decide)
      (by decide)
  exact ⟨ret, addr', kmaps', rest, h⟩

/-! ## Marking a page reclaimable -/

theorem sgx_set_page_reclaimable_spec (ip : ImplPtr) (w : World Driver) (p : PagePtr)
    (hep : (w.2.encl_pages ip).epc_page = some p) :
    ∃ w', sgx_set_page_reclaimable ip w = .ok w' ∧
      w'.1.sgx_active_page_list = w.1.sgx_active_page_list ++ [p] ∧
      w'.1.sgx_active_page_list.getLast? = some p ∧
      w'.1.sgx_active_page_list.dropLast = w.1.sgx_active_page_list ∧
      w'.1.sgx_epc_banks = w.1.sgx_epc_banks ∧
      (∀ q, w'.1.page q = w.1.page q) ∧
      (w'.2.encl_pages ip).desc = (w.2.encl_pages ip).desc ∧
      (w'.2.encl_pages ip).young = false := by
  unfold sgx_set_page_reclaimable
  simp only [sgx_test_and_clear_young, set_encl_page_self, hep]
  refine ⟨_, rfl, rfl, ?_, ?_, rfl, fun q => rfl, ?_, ?_⟩
  · simp [State.with_list, list_add_tail]
  · simp [State.with_list, list_add_tail]
  · simp [set_encl_page_self]
  · simp [set_encl_page_self]

/-- C22, as stated, fails: `sgx_set_page_reclaimable` on the control page of the example
enclave puts its EPC page at the tail of the active page list, but bit 8
(`SGX_EPC_PAGE_RECLAIMABLE`) of the descriptor of that page is still clear. -/
theorem sgx_set_page_reclaimable_sets_no_bit :
    (sgx_set_page_reclaimable 100 (example_enclave_state, example_enclave_driver)).map
      (fun w' => (w'.1.sgx_active_page_list.getLast?,
        (w'.1.page ⟨0, 16⟩).map fun pg => pg.desc &&& Sections.SGX_EPC_PAGE_RECLAIMABLE))
      = .ok (some ⟨0, 16⟩, some 0) := by
  decide

/-- C22, amended: for an enclave page whose loaded EPC page `p` is not on the active page
list, `sgx_set_page_reclaimable` returns with `p` as the last element of the list and the
former elements, in their order, in front of it.  It clears the young state of the enclave
page and changes neither the banks, and so no descriptor of an EPC page, nor the `desc` of
the enclave page: being on the list is all that marks the page. -/
theorem sgx_set_page_reclaimable_appends (ip : ImplPtr) (w : World Driver) (p : PagePtr)
    (hep : (w.2.encl_pages ip).epc_page = some p)
    (hnot : p ∉ w.1.sgx_active_page_list) :
    ∃ w', sgx_set_page_reclaimable ip w = .ok w' ∧
      w'.1.sgx_active_page_list = w.1.sgx_active_page_list ++ [p] ∧
      w'.1.sgx_active_page_list.getLast? = some p ∧
      w'.1.sgx_active_page_list.dropLast = w.1.sgx_active_page_list ∧
      w'.1.sgx_active_page_list.count p = 1 ∧
      w'.1.sgx_epc_banks = w.1.sgx_epc_banks ∧
      (∀ q, w'.1.page q = w.1.page q) ∧
      (w'.2.encl_pages ip).desc = (w.2.encl_pages ip).desc ∧
      (w'.2.encl_pages ip).young = false := by
  obtain ⟨w', h1, h2, h3, h4, h5, h6, h7, h8⟩ := sgx_set_page_reclaimable_spec ip w p hep
  refine ⟨w', h1, h2, h3, h4, ?_, h5, h6, h7, h8⟩
  rw [h2, List.count_append, List.count_eq_zero_of_not_mem hnot]
  simp

/-- C22, amended, instance: the control page of the example enclave. -/
theorem sgx_set_page_reclaimable_appends_witness :
    ∃ w', sgx_set_page_reclaimable 100 (example_enclave_state, example_enclave_driver)
        = .ok w' ∧
      w'.1.sgx_active_page_list = example_enclave_state.sgx_active_page_list ++ [⟨0, 16⟩] ∧
      w'.1.sgx_epc_banks = example_enclave_state.sgx_epc_banks := by
  obtain ⟨w', h1, h2, _, _, _, h5, _⟩ :=
    sgx_set_page_reclaimable_appends 100 (example_enclave_state, example_enclave_driver)
      ⟨0, 16⟩ rfl (by decide)
  exact ⟨w', h1, h2, h5⟩

/-! ## The first `sgx_einit` on a CPU -/

theorem msr_value_append (boot : Nat → Nat) (a b : List LaunchOp) (msr : Nat) :
    msr_value boot (a ++ b) msr = msr_value (msr_value boot a) b msr := by
  induction a generalizing boot with
  | nil => rfl
  | cons op rest ih =>
    cases op with
    | WRMSR m v => exact ih _
    | EINIT x y z => exact ih _

theorem msr_value_append_fun (boot : Nat → Nat) (a b : List LaunchOp) :
    msr_value boot (a ++ b) = msr_value (msr_value boot a) b :=
  funext fun msr => msr_value_append boot a b msr

theorem msr_value_first_writes (boot : Nat → Nat) (h : List Nat) (hh : h.length = 4)
    (log : List LaunchOp) (x y z : Nat) (i : Nat) (hi : i < 4) :
    msr_value boot (log ++
        ((List.range 4).filter fun i => decide (h.getD i 0 ≠ 0)).map
          (fun i => LaunchOp.WRMSR (MSR_IA32_SGXLEPUBKEYHASH0 + i) (h.getD i 0)) ++
        [.EINIT x y z]) (MSR_IA32_SGXLEPUBKEYHASH0 + i)
      = if h.getD i 0 ≠ 0 then h.getD i 0
        else msr_value boot log (MSR_IA32_SGXLEPUBKEYHASH0 + i) := by
  obtain ⟨h0, h1, h2, h3, rfl⟩ := length_four hh
  rw [msr_value_append, msr_value_append_fun]
  generalize msr_value boot log = B
  interval_cases i <;>
    by_cases e0 : h0 = 0 <;> by_cases e1 : h1 = 0 <;> by_cases e2 : h2 = 0 <;>
    by_cases e3 : h3 = 0 <;>
    simp [msr_value, e0, e1, e2, e3, List.range, List.range.loop, List.filter,
      Function.update]

theorem sgx_einit_first_spec (k : KmapEnv) (sigstruct token : Nat) (secs_page : PagePtr)
    (h : List Nat) (s : State) (kmaps : List Nat) (l : LaunchControl)
    (secs : Nat) (kmaps1 : List Nat)
    (hlc : l.sgx_lc_enabled = true)
    (hpin : sgx_get_page k secs_page s kmaps = .ok (secs, kmaps1))
    (hh : h.length = 4)
    (hc : l.sgx_le_pubkey_hash_cache l.smp_processor_id = [0, 0, 0, 0]) :
    ∃ l', sgx_einit k sigstruct token secs_page h s kmaps l
        = .ok (l.einit_results.headD 0, sgx_put_page k secs kmaps1, l') ∧
      l'.sgx_le_pubkey_hash_cache l.smp_processor_id = h ∧
      l'.launch_log = l.launch_log ++
        ((List.range 4).filter fun i => decide (h.getD i 0 ≠ 0)).map
          (fun i => LaunchOp.WRMSR (MSR_IA32_SGXLEPUBKEYHASH0 + i) (h.getD i 0)) ++
        [.EINIT sigstruct token secs] ∧
      (∀ boot i, i < 4 → h.getD i 0 ≠ 0 →
        msr_value boot l'.launch_log (MSR_IA32_SGXLEPUBKEYHASH0 + i) = h.getD i 0) ∧
      (∀ boot i, i < 4 → h.getD i 0 = 0 →
        msr_value boot l'.launch_log (MSR_IA32_SGXLEPUBKEYHASH0 + i)
          = msr_value boot l.launch_log (MSR_IA32_SGXLEPUBKEYHASH0 + i)) ∧
      ((∀ i, i < 4 → h.getD i 0 ≠ 0) →
        l'.launch_log = l.launch_log ++
          (List.range 4).map
            (fun i => LaunchOp.WRMSR (MSR_IA32_SGXLEPUBKEYHASH0 + i) (h.getD i 0)) ++
          [.EINIT sigstruct token secs] ∧
        ∀ boot i, i < 4 →
          msr_value boot l'.launch_log (MSR_IA32_SGXLEPUBKEYHASH0 + i) = h.getD i 0) := by
  obtain ⟨l', b1, b2, _, b4, _⟩ := sgx_einit_spec k sigstruct token secs_page h s kmaps l
    secs kmaps1 hlc hpin hh (by rw [hc]; rfl)
  have hlog : l'.launch_log = l.launch_log ++
        ((List.range 4).filter fun i => decide (h.getD i 0 ≠ 0)).map
          (fun i => LaunchOp.WRMSR (MSR_IA32_SGXLEPUBKEYHASH0 + i) (h.getD i 0)) ++
        [.EINIT sigstruct token secs] := by
    rw [b4, hc]
    have hf : ∀ i, decide (h.getD i 0 ≠ [0, 0, 0, 0].getD i 0) = decide (h.getD i 0 ≠ 0) := by
      intro i
      have : ([0, 0, 0, 0] : List Nat).getD i 0 = 0 := by
        match i with
        | 0 => rfl
        | 1 => rfl
        | 2 => rfl
        | 3 => rfl
        | n + 4 => rfl
      rw [this]
    simp only [hf]
  refine ⟨l', b1, b2, hlog, ?_, ?_, ?_⟩
  · intro boot i hi hne
    rw [hlog, msr_value_first_writes boot h hh _ _ _ _ i hi, if_pos hne]
  · intro boot i hi hz
    rw [hlog, msr_value_first_writes boot h hh _ _ _ _ i hi, if_neg (by simpa using hz)]
  · intro hall
    constructor
    · rw [hlog]
      congr 2
      have : (List.range 4).filter (fun i => decide (h.getD i 0 ≠ 0)) = List.range 4 := by
        rw [List.filter_eq_self]
        intro i hi
        simpa using hall i (List.mem_range.mp hi)
      rw [this]
    · intro boot i hi
      rw [hlog, msr_value_first_writes boot h hh _ _ _ _ i hi, if_pos (hall i hi)]

/-- C29, as stated, fails: the first `sgx_einit` on a CPU whose cache is zeroed, with the
desired hash `[0, 11, 12, 13]`, writes three registers only; register 0, whose boot-time
value is 7 here, is not written and does not hold the desired word 0 afterwards. -/
theorem sgx_einit_first_skips_zero_word :
    (sgx_einit example_kmap_env 1 2 ⟨0, 0⟩ [0, 11, 12, 13] (example_init []) []
        example_launch_boot).map
      (fun r => (r.2.2.launch_log,
        msr_value (fun _ => 7) r.2.2.launch_log MSR_IA32_SGXLEPUBKEYHASH0))
      = .ok ([.WRMSR (MSR_IA32_SGXLEPUBKEYHASH0 + 1) 11,
          .WRMSR (MSR_IA32_SGXLEPUBKEYHASH0 + 2) 12,
          .WRMSR (MSR_IA32_SGXLEPUBKEYHASH0 + 3) 13, .EINIT 1 2 0xffffc90000000000], 7) := by
  decide

/-- C29, amended: with launch control enabled, the first `sgx_einit` on a CPU whose cache
still has its zeroed boot-time content writes the register `i` exactly when the desired
word `h[i]` is not 0.  After the call every register with a non-zero desired word holds
that word, whatever its boot-time value was, and a register whose desired word is 0 holds
what it held before.  So when no word of the desired hash is 0, all four registers are
written and hold the desired hash. -/
theorem sgx_einit_first_writes_nonzero_words (k : KmapEnv) (sigstruct token : Nat)
    (secs_page : PagePtr) (h : List Nat) (s : State) (kmaps : List Nat) (l : LaunchControl)
    (secs : Nat) (kmaps1 : List Nat)
    (hlc : l.sgx_lc_enabled = true)
    (hpin : sgx_get_page k secs_page s kmaps = .ok (secs, kmaps1))
    (hh : h.length = 4)
    (hc : l.sgx_le_pubkey_hash_cache l.smp_processor_id = [0, 0, 0, 0]) :
    ∃ l', sgx_einit k sigstruct token secs_page h s kmaps l
        = .ok (l.einit_results.headD 0, sgx_put_page k secs kmaps1, l') ∧
      l'.sgx_le_pubkey_hash_cache l.smp_processor_id = h ∧
      l'.launch_log = l.launch_log ++
        ((List.range 4).filter fun i => decide (h.getD i 0 ≠ 0)).map
          (fun i => LaunchOp.WRMSR (MSR_IA32_SGXLEPUBKEYHASH0 + i) (h.getD i 0)) ++
        [.EINIT sigstruct token secs] ∧
      (∀ boot i, i < 4 → h.getD i 0 ≠ 0 →
        msr_value boot l'.launch_log (MSR_IA32_SGXLEPUBKEYHASH0 + i) = h.getD i 0) ∧
      (∀ boot i, i < 4 → h.getD i 0 = 0 →
        msr_value boot l'.launch_log (MSR_IA32_SGXLEPUBKEYHASH0 + i)
          = msr_value boot l.launch_log (MSR_IA32_SGXLEPUBKEYHASH0 + i)) ∧
      ((∀ i, i < 4 → h.getD i 0 ≠ 0) →
        l'.launch_log = l.launch_log ++
          (List.range 4).map
            (fun i => LaunchOp.WRMSR (MSR_IA32_SGXLEPUBKEYHASH0 + i) (h.getD i 0)) ++
          [.EINIT sigstruct token secs] ∧
        ∀ boot i, i < 4 →
          msr_value boot l'.launch_log (MSR_IA32_SGXLEPUBKEYHASH0 + i) = h.getD i 0) :=
  sgx_einit_first_spec k sigstruct token secs_page h s kmaps l secs kmaps1 hlc hpin hh hc

/-- C29, amended, instance: the desired hash `[10, 11, 12, 13]` on the zeroed cache: all
four registers are written. -/
theorem sgx_einit_first_writes_nonzero_words_witness :
    ∃ l', sgx_einit example_kmap_env 1 2 ⟨0, 0⟩ [10, 11, 12, 13] (example_init []) []
        example_launch_boot = .ok (0, [], l') ∧
      l'.launch_log = [.WRMSR (MSR_IA32_SGXLEPUBKEYHASH0 + 0) 10,
        .WRMSR (MSR_IA32_SGXLEPUBKEYHASH0 + 1) 11, .WRMSR (MSR_IA32_SGXLEPUBKEYHASH0 + 2) 12,
        .WRMSR (MSR_IA32_SGXLEPUBKEYHASH0 + 3) 13, .EINIT 1 2 0xffffc90000000000] := by
  obtain ⟨l', h1, _, _, _, _, h6⟩ :=
    sgx_einit_first_writes_nonzero_words example_kmap_env 1 2 ⟨0, 0⟩ [10, 11, 12, 13]
      (example_init []) [] example_launch_boot 0xffffc90000000000 [] rfl (by decide) rfl rfl
  exact ⟨l', h1, (h6 (by intro i hi; interval_cases i <;> decide)).1⟩

/-! ## The free stacks stay inside their arrays -/

theorem shaped_iff (s : State) :
    s.Shaped ↔
      ∀ (i : Nat) (bank : sgx_epc_bank), s.sgx_epc_banks[i]? = some bank →
        bank.pages.length = bank.pages_data.length ∧
          ∀ (idx : Nat) (pg : sgx_epc_page), bank.pages_data[idx]? = some pg →
            SGX_EPC_BANK pg = i := by
  unfold State.Shaped
  constructor
  · intro h i bank hi
    have hm : (i, bank.shape) ∈ (s.sgx_epc_banks.map sgx_epc_bank.shape).enum := by
      apply List.mk_mem_enum_iff_getElem?.mpr
      rw [List.getElem?_map, hi]
      rfl
    obtain ⟨h1, h2⟩ := h _ hm
    refine ⟨by simpa [sgx_epc_bank.shape] using h1, ?_⟩
    intro idx pg hpg
    apply h2
    simp only [sgx_epc_bank.shape]
    exact List.mem_map.mpr ⟨pg, List.getElem?_mem hpg, rfl⟩
  · intro h x hx
    have hx' := List.mem_enum_iff_getElem?.mp hx
    rw [List.getElem?_map] at hx'
    cases hb : s.sgx_epc_banks[x.1]? with
    | none => rw [hb] at hx'; cases hx'
    | some bank =>
      rw [hb] at hx'
      simp only [Option.map_some', Option.some.injEq] at hx'
      obtain ⟨h1, h2⟩ := h x.1 bank hb
      rw [← hx']
      refine ⟨by simpa [sgx_epc_bank.shape] using h1, ?_⟩
      intro d hd
      simp only [sgx_epc_bank.shape] at hd
      obtain ⟨pg, hpg, rfl⟩ := List.mem_map.mp hd
      obtain ⟨idx, hidx⟩ := List.getElem?_of_mem hpg
      exact h2 idx pg hidx

theorem shaped_of_shape {s s' : State}
    (h : s'.sgx_epc_banks.map sgx_epc_bank.shape = s.sgx_epc_banks.map sgx_epc_bank.shape)
    (hs : s.Shaped) : s'.Shaped := by
  unfold State.Shaped at hs ⊢
  rw [h]
  exact hs

theorem store_impl_shape {banks banks' : List sgx_epc_bank} {p : PagePtr}
    {impl : Option ImplPtr} (h : store_impl banks p impl = .ok banks') :
    banks'.map sgx_epc_bank.shape = banks.map sgx_epc_bank.shape := by
  unfold store_impl at h
  split at h
  · cases h
  · rename_i bank hb
    split at h
    · cases h
    · rename_i pg hpg
      cases h
      rw [List.map_set]
      apply set_same
      rw [List.getElem?_map, hb]
      simp only [Option.map_some', Option.some.injEq, sgx_epc_bank.shape, Prod.mk.injEq,
        true_and]
      rw [List.map_set]
      symm
      apply set_same
      rw [List.getElem?_map, hpg]
      rfl

theorem shape_try_alloc {impl : Option ImplPtr} {s s' : State} {r : Option PagePtr}
    (h : sgx_try_alloc_page impl s = .ok (r, s')) :
    s'.sgx_epc_banks.map sgx_epc_bank.shape = s.sgx_epc_banks.map sgx_epc_bank.shape := by
  cases r with
  | none =>
    rw [(sgx_try_alloc_page_none_inv h).1]
  | some p =>
    obtain ⟨i, bank, banks', hi, _, _, _, hst, hs'⟩ := sgx_try_alloc_page_some_inv h
    rw [hs']
    simp only
    rw [store_impl_shape hst, List.map_set]
    apply set_same
    rw [List.getElem?_map, hi]
    rfl

theorem shape_free {p : PagePtr} {s s' : State} {ret : Int}
    (h : sgx_free_page p s = .ok (ret, s')) :
    s'.sgx_epc_banks.map sgx_epc_bank.shape = s.sgx_epc_banks.map sgx_epc_bank.shape := by
  obtain ⟨pg, _, _, hcase⟩ := sgx_free_page_inv h
  rcases hcase with ⟨_, hs'⟩ | ⟨_, bank, hb, _, hs'⟩
  · subst hs'
    rfl
  · subst hs'
    simp only
    rw [List.map_set]
    apply set_same
    rw [List.getElem?_map, hb]
    simp [sgx_epc_bank.shape]

theorem shaped_boot (hw : List Int) (sig : Bool) : (State.boot hw sig).Shaped := by
  intro x hx
  simp [State.boot] at hx

theorem shaped_init (e : InitEnv) (addr size : Nat) {s : State} (hs : s.Shaped)
    (ha : addr % PAGE_SIZE = 0) (hi : s.sgx_epc_banks.length < PAGE_SIZE) :
    (sgx_init_epc_bank e addr size s.sgx_epc_banks.length s).2.Shaped := by
  unfold sgx_init_epc_bank
  simp only
  split
  · exact hs
  · split
    · exact hs
    · split
      · exact hs
      · rename_i x va heq hk1 hk2
        rw [shaped_iff] at hs ⊢
        intro i bank hbank
        simp only at hbank
        by_cases hlt : i < s.sgx_epc_banks.length
        · rw [List.getElem?_append_left hlt] at hbank
          exact hs i bank hbank
        · have hi2 : i = s.sgx_epc_banks.length := by
            have := (List.getElem?_eq_some_iff.mp hbank).1
            simp at this
            omega
          subst hi2
          rw [List.getElem?_append_right (Nat.le_refl _)] at hbank
          simp only [Nat.sub_self, List.getElem?_cons_zero, Option.some.injEq] at hbank
          subst hbank
          refine ⟨by simp [init_pages_length, init_pages_data], ?_⟩
          intro idx pg hpg
          simp only [init_pages_data] at hpg
          rw [List.getElem?_map] at hpg
          cases hr : (List.range (size >>> PAGE_SHIFT))[idx]? with
          | none => rw [hr] at hpg; cases hpg
          | some k =>
            rw [hr] at hpg
            simp only [Option.map_some', Option.some.injEq] at hpg
            subst hpg
            exact desc_bank addr k _ ha hi

theorem ownerStep_shaped {P : List PagePtr} {s s' : State} (hstep : OwnerStep P s s')
    (hs : s.Shaped) : s'.Shaped := by
  cases hstep with
  | try_alloc impl r h => exact shaped_of_shape (shape_try_alloc h) hs
  | free q ret _ _ _ h => exact shaped_of_shape (shape_free h) hs
  | mark q _ _ _ _ => exact shaped_of_shape rfl hs
  | unmark q _ => exact shaped_of_shape rfl hs
  | frame hb _ => exact shaped_of_shape (by rw [hb]) hs

theorem ownerSteps_shaped {P : List PagePtr} {s s' : State} (hsteps : OwnerSteps P s s')
    (hs : s.Shaped) : s'.Shaped := by
  induction hsteps with
  | refl s => exact hs
  | step h1 _ ih => exact ih (ownerStep_shaped h1 hs)

theorem reach_shaped {Ω : Type} {env : Env Ω} (hd : Disciplined env)
    {H : List PagePtr} {w : World Ω} (hr : Reach env H w) : w.1.Shaped := by
  induction hr with
  | boot hw sig ω => exact shaped_boot hw sig
  | init e addr size _ ha hlen ih =>
    exact shaped_init e addr size ih ha
      (Nat.lt_trans hlen (by decide : SGX_MAX_EPC_BANKS < PAGE_SIZE))
  | owner s' ω' _ hstep ih => exact ownerStep_shaped hstep ih
  | schedule hr ih => exact ownerSteps_shaped (hd.2 _ hr) ih
  | get impl p r hr hcb ih => exact ownerSteps_shaped ((hd.1 _ _ impl p hr).1 _ _ hcb) ih
  | put impl p hr hcb ih => exact ownerSteps_shaped ((hd.1 _ _ impl p hr).2.1 _ hcb) ih
  | reclaim impl p r hr hcb ih =>
    exact ownerSteps_shaped ((hd.1 _ _ impl p hr).2.2.1 _ _ hcb) ih
  | block impl p hr hcb ih =>
    exact ownerSteps_shaped ((hd.1 _ _ impl p hr).2.2.2.1 _ hcb) ih
  | write impl p hr hcb ih =>
    exact ownerSteps_shaped ((hd.1 _ _ impl p hr).2.2.2.2 _ hcb) ih
  | detach p _ _ ih => exact shaped_of_shape rfl ih
  | reattach p _ ih => exact shaped_of_shape rfl ih
  | rotate p _ _ ih => exact shaped_of_shape rfl ih
  | free_held p ret s' _ hfree ih => exact shaped_of_shape (shape_free hfree) ih

theorem live_entry_in_bank {s : State} (hwf : s.WellFormed) (hs : s.Shaped) {i : Nat}
    {bank : sgx_epc_bank} (hi : s.sgx_epc_banks[i]? = some bank) {p : PagePtr}
    (hp : p ∈ bank.live) : p.bank = i ∧ p.idx < bank.pages_data.length := by
  have h1 := (wellFormed_at hwf hi).2 p hp
  unfold State.page page_at at h1
  cases hb : s.sgx_epc_banks[p.bank]? with
  | none => simp [hb] at h1
  | some b =>
    simp only [hb] at h1
    cases hpg : b.pages_data[p.idx]? with
    | none => simp [hpg] at h1
    | some pg =>
      simp only [hpg, Option.map_some', Option.some.injEq] at h1
      have h2 := ((shaped_iff s).mp hs p.bank b hb).2 p.idx pg hpg
      have hbank : p.bank = i := by rw [← h2, h1]
      rw [hbank] at hb
      rw [hi] at hb
      cases hb
      exact ⟨hbank, (List.getElem?_eq_some_iff.mp hpg).1⟩

theorem live_nodup {s : State} (hnd : (all_live s).Nodup) {i : Nat} {bank : sgx_epc_bank}
    (hi : s.sgx_epc_banks[i]? = some bank) : bank.live.Nodup := by
  unfold all_live at hnd
  have := (List.nodup_flatten.mp hnd).1
  apply this
  exact List.mem_map.mpr ⟨bank, List.getElem?_mem hi, rfl⟩

theorem live_subset_all_live {s : State} {i : Nat} {bank : sgx_epc_bank}
    (hi : s.sgx_epc_banks[i]? = some bank) {p : PagePtr} (hp : p ∈ bank.live) :
    p ∈ all_live s := by
  unfold all_live
  exact List.mem_flatten.mpr ⟨bank.live, List.mem_map.mpr ⟨bank, List.getElem?_mem hi, rfl⟩, hp⟩

theorem length_le_of_nodup_lt {l : List Nat} {n : Nat} (hnd : l.Nodup)
    (hlt : ∀ x ∈ l, x < n) : l.length ≤ n := by
  have h1 : l.toFinset ⊆ Finset.range n := by
    intro x hx
    exact Finset.mem_range.mpr (hlt x (List.mem_toFinset.mp hx))
  have h2 := Finset.card_le_card h1
  rw [List.toFinset_card_of_nodup hnd, Finset.card_range] at h2
  exact h2

theorem room_for_push {s : State} (hwf : s.WellFormed) (hs : s.Shaped)
    (hnd : (all_live s).Nodup) {p : PagePtr} {pg : sgx_epc_page}
    (hp : s.page p = some pg) (hnot : p ∉ all_live s) :
    ∃ bank, s.sgx_epc_banks[SGX_EPC_BANK pg]? = some bank ∧
      bank.free_cnt < bank.pages.length := by
  unfold State.page page_at at hp
  cases hb : s.sgx_epc_banks[p.bank]? with
  | none => simp [hb] at hp
  | some bank =>
    simp only [hb] at hp
    obtain ⟨hlen, hdesc⟩ := (shaped_iff s).mp hs p.bank bank hb
    have hres : SGX_EPC_BANK pg = p.bank := hdesc p.idx pg hp
    refine ⟨bank, by rw [hres]; exact hb, ?_⟩
    have hle := (wellFormed_at hwf hb).1
    have hpl : p ∉ bank.live := fun h => hnot (live_subset_all_live hb h)
    have hnd2 : (p :: bank.live).Nodup := List.nodup_cons.mpr ⟨hpl, live_nodup hnd hb⟩
    have hin : ∀ q ∈ p :: bank.live, q.bank = p.bank ∧ q.idx < bank.pages_data.length := by
      intro q hq
      rcases List.mem_cons.mp hq with rfl | hq
      · exact ⟨rfl, (List.getElem?_eq_some_iff.mp hp).1⟩
      · exact live_entry_in_bank hwf hs hb hq
    have hmap : ((p :: bank.live).map PagePtr.idx).Nodup := by
      apply List.Nodup.map_on _ hnd2
      intro x hx y hy hxy
      have hx' := (hin x hx).1
      have hy' := (hin y hy).1
      cases x
      cases y
      simp only at hx' hy' hxy
      rw [hx', hy', hxy]
    have hbound := length_le_of_nodup_lt hmap (by
      intro x hx
      obtain ⟨q, hq, rfl⟩ := List.mem_map.mp hx
      exact (hin q hq).2)
    have hll : bank.live.length = bank.free_cnt := by
      simp only [sgx_epc_bank.live, List.length_take]
      omega
    simp only [List.length_map, List.length_cons, hll] at hbound
    omega

theorem sgx_free_page_returns {s : State} (hwf : s.WellFormed) (hs : s.Shaped)
    (hnd : (all_live s).Nodup) {p : PagePtr} (hp : (s.page p).isSome)
    (hnot : p ∉ all_live s) : ∃ ret s', sgx_free_page p s = .ok (ret, s') := by
  cases hpg : s.page p with
  | none => simp [hpg] at hp
  | some pg =>
    obtain ⟨bank, hb, hroom⟩ := room_for_push hwf hs hnd hpg hnot
    unfold sgx_free_page
    simp only [hpg]
    split
    · exact ⟨_, _, rfl⟩
    · have hsame : (sgx_eremove p s).2.sgx_epc_banks = s.sgx_epc_banks := rfl
      rw [hsame, hb]
      simp only [hroom, if_true]
      exact ⟨_, _, rfl⟩

theorem sgx_try_alloc_page_returns (impl : Option ImplPtr) {s : State} (hwf : s.WellFormed) :
    ∃ r s', sgx_try_alloc_page impl s = .ok (r, s') := by
  by_cases hfree : ∃ b ∈ s.sgx_epc_banks, 0 < b.free_cnt
  · obtain ⟨_, _, p, s', _, _, _, _, h, _⟩ := sgx_try_alloc_page_first_free impl s hwf hfree
    exact ⟨some p, s', h⟩
  · refine ⟨none, s, sgx_try_alloc_page_all_zero impl ?_⟩
    intro b hb
    by_contra hne
    exact hfree ⟨b, hb, Nat.pos_of_ne_zero hne⟩

theorem free_stack_spec {Ω : Type} (env : Env Ω) (hd : Disciplined env) (H : List PagePtr)
    (w : World Ω) (hr : Reach env H w) :
    (∀ (i : Nat) (bank : sgx_epc_bank), w.1.sgx_epc_banks[i]? = some bank →
      bank.free_cnt ≤ bank.pages.length ∧ bank.pages.length = bank.pages_data.length ∧
      bank.live.length = bank.free_cnt ∧ bank.live.Nodup ∧
      ∀ p ∈ bank.live, p.bank = i ∧ p.idx < bank.pages_data.length) ∧
    (∀ impl, ∃ r s', sgx_try_alloc_page impl w.1 = .ok (r, s')) ∧
    (∀ p, (w.1.page p).isSome → p ∉ all_live w.1 →
      ∃ ret s', sgx_free_page p w.1 = .ok (ret, s')) := by
  have hwf := reach_wellFormed hd hr
  have hs := reach_shaped hd hr
  have hsep := reach_separated hd hr
  have hnd : (all_live w.1).Nodup :=
    (List.nodup_append.mp (List.nodup_append.mp hsep.1).1).2.1
  refine ⟨?_, fun impl => sgx_try_alloc_page_returns impl hwf,
    fun p hp hnot => sgx_free_page_returns hwf hs hnd hp hnot⟩
  intro i bank hi
  have hle := (wellFormed_at hwf hi).1
  refine ⟨hle, ((shaped_iff w.1).mp hs i bank hi).1, ?_, live_nodup hnd hi,
    fun p hp => live_entry_in_bank hwf hs hi hp⟩
  simp only [sgx_epc_bank.live, List.length_take]
  omega

/-- C24: in every world reachable from section initialisation by code that uses the
interface with discipline (`sgx_try_alloc_page`, `sgx_alloc_page` and its reclaim passes,
and `sgx_free_page` only on pages that are allocated), every bank has
`free_cnt` at most the length of its pointer array, which is the number of its descriptors;
the live entries of its free stack are `free_cnt` pairwise distinct pointers to descriptors
of that bank; so `sgx_try_alloc_page` returns, its pop being inside the array, and
`sgx_free_page` on an allocated page returns, its push being inside the array. -/
theorem free_stack_stays_in_bounds {Ω : Type} (env : Env Ω) (hd : Disciplined env)
    (H : List PagePtr) (w : World Ω) (hr : Reach env H w) :
    (∀ (i : Nat) (bank : sgx_epc_bank), w.1.sgx_epc_banks[i]? = some bank →
      bank.free_cnt ≤ bank.pages.length ∧ bank.pages.length = bank.pages_data.length ∧
      bank.live.length = bank.free_cnt ∧ bank.live.Nodup ∧
      ∀ p ∈ bank.live, p.bank = i ∧ p.idx < bank.pages_data.length) ∧
    (∀ impl, ∃ r s', sgx_try_alloc_page impl w.1 = .ok (r, s')) ∧
    (∀ p, (w.1.page p).isSome → p ∉ all_live w.1 →
      ∃ ret s', sgx_free_page p w.1 = .ok (ret, s')) :=
  free_stack_spec env hd H w hr

/-- C24, instance: the one-page bank of `example_reclaimable`, whose page is allocated. -/
theorem free_stack_stays_in_bounds_witness :
    (∃ r s', sgx_try_alloc_page (some 9) example_reclaimable = .ok (r, s')) ∧
    ∃ ret s', sgx_free_page ⟨0, 0⟩ example_reclaimable = .ok (ret, s') :=
  have h := free_stack_stays_in_bounds accept_env accept_env_disciplined []
    (example_reclaimable, ()) example_reclaimable_reach
  ⟨h.2.1 (some 9), h.2.2 ⟨0, 0⟩ (by decide) (by decide)⟩

/-! ## The shape of the trace of a reclaim pass -/

theorem swap_scan_iter_cases {Ω : Type} {env : Env Ω}
    {cluster cluster' : List PagePtr} {tr tr' : List Event} {w w' : World Ω}
    (h : swap_scan_iter env cluster tr w = .ok (some (cluster', tr', w'))) :
    ∃ p rest, w.1.sgx_active_page_list = p :: rest ∧
      ((∃ impl w1, (env.ops_of impl).get p w = .ok (false, w1) ∧
          cluster' = cluster ∧ tr' = tr ++ (Visit.refused p).events ∧
          w' = (w1.1.with_list (list_move_tail p w1.1.sgx_active_page_list), w1.2)) ∨
       (∃ impl impl2 w1, (env.ops_of impl).get p w = .ok (true, w1) ∧
          (env.ops_of impl2).reclaim p
            (w1.1.with_list (list_del p w1.1.sgx_active_page_list), w1.2) = .ok (true, w') ∧
          cluster' = cluster ++ [p] ∧ tr' = tr ++ (Visit.taken p).events) ∨
       (∃ impl impl2 impl3 w1 w3, (env.ops_of impl).get p w = .ok (true, w1) ∧
          (env.ops_of impl2).reclaim p
            (w1.1.with_list (list_del p w1.1.sgx_active_page_list), w1.2) = .ok (false, w3) ∧
          (env.ops_of impl3).put p
            (w3.1.with_list (list_add_tail p w3.1.sgx_active_page_list), w3.2) = .ok w' ∧
          cluster' = cluster ∧ tr' = tr ++ (Visit.vetoed p).events)) := by
  unfold swap_scan_iter at h
  split at h
  · cases h
  · rename_i epc_page rest hl
    refine ⟨epc_page, rest, hl, ?_⟩
    split at h
    · cases h
    · rename_i ops hops
      obtain ⟨_, impl, _, _, rfl⟩ := page_ops_inv hops
      split at h
      · cases h
      · rename_i w1 hget
        cases h
        exact Or.inl ⟨impl, w1, hget, rfl, rfl, rfl⟩
      · rename_i w1 hget
        simp only at h
        split at h
        · cases h
        · rename_i ops2 hops2
          obtain ⟨_, impl2, _, _, rfl⟩ := page_ops_inv hops2
          split at h
          · cases h
          · rename_i w3 hrec
            cases h
            exact Or.inr (Or.inl ⟨impl, impl2, w1, hget, hrec, rfl, rfl⟩)
          · rename_i w3 hrec
            split at h
            · cases h
            · rename_i ops3 hops3
              obtain ⟨_, impl3, _, _, rfl⟩ := page_ops_inv hops3
              split at h
              · cases h
              · rename_i w5 hput
                cases h
                exact Or.inr (Or.inr ⟨impl, impl2, impl3, w1, w3, hget, hrec, hput, rfl, rfl⟩)

theorem swap_scan_iter_visit {Ω : Type} {env : Env Ω}
    {cluster cluster' : List PagePtr} {tr tr' : List Event} {w w' : World Ω}
    (h : swap_scan_iter env cluster tr w = .ok (some (cluster', tr', w'))) :
    ∃ v : Visit, tr' = tr ++ v.events ∧ cluster' = cluster ++ v.clustered.toList := by
  obtain ⟨p, rest, _, hc⟩ := swap_scan_iter_cases h
  rcases hc with ⟨_, _, _, h1, h2, _⟩ | ⟨_, _, _, _, _, h1, h2⟩ |
    ⟨_, _, _, _, _, _, _, _, h1, h2⟩
  · exact ⟨.refused p, h2, by simp [Visit.clustered, h1]⟩
  · exact ⟨.taken p, h2, by simp [Visit.clustered, h1]⟩
  · exact ⟨.vetoed p, h2, by simp [Visit.clustered, h1]⟩

theorem swap_scan_visits {Ω : Type} {env : Env Ω} (n : Nat)
    {cluster cluster' : List PagePtr} {tr tr' : List Event} {w w' : World Ω}
    (h : swap_scan env n cluster tr w = .ok (cluster', tr', w')) :
    ∃ visits : List Visit, visits.length ≤ n ∧
      tr' = tr ++ (visits.map Visit.events).flatten ∧
      cluster' = cluster ++ visits.filterMap Visit.clustered := by
  induction n generalizing cluster tr w with
  | zero =>
    simp only [swap_scan] at h
    cases h
    exact ⟨[], by simp, by simp, by simp⟩
  | succ n ih =>
    unfold swap_scan at h
    split at h
    · cases h
    · cases h
      exact ⟨[], by simp, by simp, by simp⟩
    · rename_i c1 tr1 w1 hiter
      obtain ⟨v, rfl, rfl⟩ := swap_scan_iter_visit hiter
      obtain ⟨vs, hlen, rfl, rfl⟩ := ih h
      refine ⟨v :: vs, by simp; omega, by simp, ?_⟩
      cases v <;> simp [Visit.clustered]

theorem swap_write_events {Ω : Type} {env : Env Ω} (cluster : List PagePtr)
    {tr tr' : List Event} {w w' : World Ω}
    (h : swap_write env cluster tr w = .ok (tr', w')) :
    ∃ rets : List Int, rets.length = cluster.length ∧ tr' = tr ++ write_events cluster rets := by
  induction cluster generalizing tr w with
  | nil =>
    simp only [swap_write] at h
    cases h
    exact ⟨[], rfl, by simp [write_events]⟩
  | cons epc_page rest ih =>
    unfold swap_write at h
    split at h
    · cases h
    · rename_i tr1 w1 hiter
      obtain ⟨ret, rfl⟩ := swap_write_iter_trace hiter
      obtain ⟨rets, hlen, rfl⟩ := ih h
      exact ⟨ret :: rets, by simp [hlen], by simp [write_events]⟩

theorem sgx_swap_cluster_shape {Ω : Type} {env : Env Ω} {w w' : World Ω} {tr : List Event}
    (h : sgx_swap_cluster env w = .ok (tr, w')) :
    ∃ (visits : List Visit) (rets : List Int), visits.length ≤ SGX_NR_TO_SCAN ∧
      swap_cluster_pages env w = .ok (visits.filterMap Visit.clustered) ∧
      rets.length = (visits.filterMap Visit.clustered).length ∧
      tr = (visits.map Visit.events).flatten ++
        (visits.filterMap Visit.clustered).map Event.block ++
        write_events (visits.filterMap Visit.clustered) rets := by
  unfold sgx_swap_cluster at h
  split at h
  · cases h
  · rename_i cluster tr1 w1 hscan
    obtain ⟨visits, hlen, rfl, hcl⟩ := swap_scan_visits _ hscan
    simp only [List.nil_append] at hcl
    subst hcl
    split at h
    · cases h
    · rename_i tr2 w2 hblock
      rw [swap_block_trace _ hblock] at h
      obtain ⟨rets, hr, rfl⟩ := swap_write_events _ h
      refine ⟨visits, rets, hlen, ?_, hr, by simp⟩
      unfold swap_cluster_pages
      rw [hscan]


/-! ## Reference balance of a reclaim pass -/

theorem visit_balance (v : Visit) (p : PagePtr) (n : Nat) :
    ((v.events).take n).count (.put p) ≤ ((v.events).take n).count (.get p true) := by
  cases v with
  | refused q => rcases n with _ | n <;> simp [Visit.events, List.count_cons]
  | vetoed q =>
    rcases n with _ | _ | _ | n <;> simp [Visit.events, List.count_cons]
  | taken q =>
    rcases n with _ | _ | n <;> simp [Visit.events, List.count_cons]

theorem visit_count (v : Visit) (p : PagePtr) :
    v.events.count (.put p) + v.clustered.toList.count p = v.events.count (.get p true) := by
  cases v with
  | refused q => simp [Visit.events, Visit.clustered, List.count_cons]
  | vetoed q => simp [Visit.events, Visit.clustered, List.count_cons]
  | taken q => simp [Visit.events, Visit.clustered, List.count_cons]

theorem filterMap_clustered_cons (v : Visit) (vs : List Visit) :
    (v :: vs).filterMap Visit.clustered = v.clustered.toList ++ vs.filterMap Visit.clustered := by
  cases v <;> simp [Visit.clustered]

theorem visits_count (visits : List Visit) (p : PagePtr) :
    ((visits.map Visit.events).flatten).count (.put p)
        + (visits.filterMap Visit.clustered).count p
      = ((visits.map Visit.events).flatten).count (.get p true) := by
  induction visits with
  | nil => simp
  | cons v vs ih =>
    rw [filterMap_clustered_cons]
    simp only [List.map_cons, List.flatten_cons, List.count_append]
    have := visit_count v p
    omega

theorem visits_balance (visits : List Visit) (p : PagePtr) (n : Nat) :
    (((visits.map Visit.events).flatten).take n).count (.put p)
      ≤ (((visits.map Visit.events).flatten).take n).count (.get p true) := by
  induction visits generalizing n with
  | nil => simp
  | cons v vs ih =>
    simp only [List.map_cons, List.flatten_cons, List.take_append_eq_append_take,
      List.count_append]
    have h1 := visit_balance v p n
    have h2 := ih (n - v.events.length)
    omega

theorem write_events_cons (c : PagePtr) (cs : List PagePtr) (r : Int) (rs : List Int) :
    write_events (c :: cs) (r :: rs)
      = [Event.write c, .put c, .free_page c r] ++ write_events cs rs := by
  simp [write_events]

theorem write_events_count_get (cluster : List PagePtr) (rets : List Int) (p : PagePtr)
    (r : Bool) : (write_events cluster rets).count (.get p r) = 0 := by
  induction cluster generalizing rets with
  | nil => simp [write_events]
  | cons c cs ih =>
    cases rets with
    | nil => simp [write_events]
    | cons r rs =>
      rw [write_events_cons, List.count_append, ih]
      simp [List.count_cons]

theorem write_events_count_put (cluster : List PagePtr) (rets : List Int) (p : PagePtr)
    (h : rets.length = cluster.length) :
    (write_events cluster rets).count (.put p) = cluster.count p := by
  induction cluster generalizing rets with
  | nil => simp [write_events]
  | cons c cs ih =>
    cases rets with
    | nil => simp at h
    | cons r rs =>
      rw [write_events_cons, List.count_append, ih rs (by simpa using h)]
      simp only [List.count_cons, List.count_nil]
      by_cases hc : c = p <;> simp [hc]
      omega

theorem block_events_count (cluster : List PagePtr) (p : PagePtr) (r : Bool) :
    (cluster.map Event.block).count (.put p) = 0 ∧
      (cluster.map Event.block).count (.get p r) = 0 := by
  induction cluster with
  | nil => simp
  | cons c cs ih => simp [List.count_cons, ih.1, ih.2]

theorem pass_count (visits : List Visit) (rets : List Int) (p : PagePtr)
    (h : rets.length = (visits.filterMap Visit.clustered).length) :
    ((visits.map Visit.events).flatten ++
        (visits.filterMap Visit.clustered).map Event.block ++
        write_events (visits.filterMap Visit.clustered) rets).count (.put p)
      = ((visits.map Visit.events).flatten ++
        (visits.filterMap Visit.clustered).map Event.block ++
        write_events (visits.filterMap Visit.clustered) rets).count (.get p true) := by
  simp only [List.count_append]
  rw [write_events_count_put _ _ _ h, write_events_count_get,
    (block_events_count _ p true).1, (block_events_count _ p true).2]
  have := visits_count visits p
  omega

theorem pass_balance (visits : List Visit) (rets : List Int) (p : PagePtr) (n : Nat)
    (h : rets.length = (visits.filterMap Visit.clustered).length) :
    (((visits.map Visit.events).flatten ++
        (visits.filterMap Visit.clustered).map Event.block ++
        write_events (visits.filterMap Visit.clustered) rets).take n).count (.put p)
      ≤ (((visits.map Visit.events).flatten ++
        (visits.filterMap Visit.clustered).map Event.block ++
        write_events (visits.filterMap Visit.clustered) rets).take n).count (.get p true) := by
  rw [List.append_assoc, List.take_append_eq_append_take, List.count_append, List.count_append]
  by_cases hn : n ≤ ((visits.map Visit.events).flatten).length
  · have h0 : n - ((visits.map Visit.events).flatten).length = 0 := by omega
    rw [h0]
    have := visits_balance visits p n
    simp only [List.take_zero, List.count_nil, Nat.add_zero]
    exact this
  · rw [List.take_of_length_le (by omega)]
    have h1 := visits_count visits p
    have h2 : (((visits.filterMap Visit.clustered).map Event.block ++
          write_events (visits.filterMap Visit.clustered) rets).take
            (n - ((visits.map Visit.events).flatten).length)).count (.put p)
        ≤ ((visits.filterMap Visit.clustered).map Event.block ++
          write_events (visits.filterMap Visit.clustered) rets).count (.put p) :=
      (List.take_sublist _ _).count_le _
    rw [List.count_append, write_events_count_put _ _ _ h, (block_events_count _ p true).1]
      at h2
    omega

theorem chain_of_left {α : Type} {R : α → α → Prop} {l : List α}
    (h : ∀ a ∈ l, ∀ b, R a b) : List.Chain' R l := by
  induction l with
  | nil => exact List.chain'_nil
  | cons a l ih =>
    rw [List.chain'_cons']
    exact ⟨fun b _ => h a (List.mem_cons_self _ _) b,
      ih fun x hx => h x (List.mem_cons_of_mem _ hx)⟩

theorem write_events_not_get (cluster : List PagePtr) (rets : List Int) (a : Event)
    (ha : a ∈ write_events cluster rets) (b : Event) : after_refusal a b = true := by
  induction cluster generalizing rets with
  | nil => simp [write_events] at ha
  | cons c cs ih =>
    cases rets with
    | nil => simp [write_events] at ha
    | cons r rs =>
      rw [write_events_cons] at ha
      simp only [List.mem_append, List.mem_cons, List.mem_singleton, List.not_mem_nil,
        or_false] at ha
      rcases ha with (rfl | rfl | rfl) | ha
      · rfl
      · rfl
      · rfl
      · exact ih rs ha

theorem pass_tail_chain (cluster : List PagePtr) (rets : List Int) :
    List.Chain' (fun a b => after_refusal a b = true)
        (cluster.map Event.block ++ write_events cluster rets) ∧
      ∀ y ∈ (cluster.map Event.block ++ write_events cluster rets).head?, y.opens = true := by
  constructor
  · apply chain_of_left
    intro a ha b
    rcases List.mem_append.1 ha with ha | ha
    · obtain ⟨q, _, rfl⟩ := List.mem_map.1 ha
      rfl
    · exact write_events_not_get _ _ a ha b
  · cases cluster with
    | nil => simp [write_events]
    | cons c cs => simp [Event.opens]

theorem visits_chain (visits : List Visit) (T : List Event)
    (hT : List.Chain' (fun a b => after_refusal a b = true) T)
    (hhead : ∀ y ∈ T.head?, y.opens = true) :
    List.Chain' (fun a b => after_refusal a b = true)
        ((visits.map Visit.events).flatten ++ T) ∧
      ∀ y ∈ ((visits.map Visit.events).flatten ++ T).head?, y.opens = true := by
  induction visits with
  | nil => simpa using ⟨hT, hhead⟩
  | cons v vs ih =>
    obtain ⟨h1, h2⟩ := ih
    cases v with
    | refused q =>
      simp only [List.map_cons, List.flatten_cons, Visit.events, List.cons_append,
        List.nil_append, List.head?_cons, Option.mem_def, Option.some.injEq, forall_eq',
        Event.opens, and_true]
      rw [List.chain'_cons']
      exact ⟨fun y hy => h2 y hy, h1⟩
    | vetoed q =>
      simp only [List.map_cons, List.flatten_cons, Visit.events, List.cons_append,
        List.nil_append, List.head?_cons, Option.mem_def, Option.some.injEq, forall_eq',
        Event.opens, and_true]
      rw [List.chain'_cons', List.chain'_cons', List.chain'_cons']
      exact ⟨fun _ _ => rfl, fun _ _ => rfl, fun _ _ => rfl, h1⟩
    | taken q =>
      simp only [List.map_cons, List.flatten_cons, Visit.events, List.cons_append,
        List.nil_append, List.head?_cons, Option.mem_def, Option.some.injEq, forall_eq',
        Event.opens, and_true]
      rw [List.chain'_cons', List.chain'_cons']
      exact ⟨fun _ _ => rfl, fun _ _ => rfl, h1⟩

theorem pass_chain (visits : List Visit) (rets : List Int) :
    List.Chain' (fun a b => after_refusal a b = true)
      ((visits.map Visit.events).flatten ++
        (visits.filterMap Visit.clustered).map Event.block ++
        write_events (visits.filterMap Visit.clustered) rets) := by
  rw [List.append_assoc]
  exact (visits_chain visits _ (pass_tail_chain _ rets).1 (pass_tail_chain _ rets).2).1

theorem sgx_swap_cluster_balance {Ω : Type} {env : Env Ω} {w w' : World Ω} {tr : List Event}
    (h : sgx_swap_cluster env w = .ok (tr, w')) :
    (∀ p, tr.count (.put p) = tr.count (.get p true)) ∧
    (∀ p n, (tr.take n).count (.put p) ≤ (tr.take n).count (.get p true)) ∧
    List.Chain' (fun a b => after_refusal a b = true) tr ∧
    ∃ (visits : List Visit) (rets : List Int),
      visits.length ≤ SGX_NR_TO_SCAN ∧
      swap_cluster_pages env w = .ok (visits.filterMap Visit.clustered) ∧
      rets.length = (visits.filterMap Visit.clustered).length ∧
      tr = (visits.map Visit.events).flatten ++
        (visits.filterMap Visit.clustered).map Event.block ++
        write_events (visits.filterMap Visit.clustered) rets := by
  obtain ⟨visits, rets, hlen, hcl, hr, rfl⟩ := sgx_swap_cluster_shape h
  exact ⟨fun p => pass_count visits rets p hr, fun p n => pass_balance visits rets p n hr,
    pass_chain visits rets, visits, rets, hlen, hcl, hr, rfl⟩

/-- C26: reference balance of one `sgx_swap_cluster`.  In its trace every page has as many
`put` calls as `get` calls that answered `true`, and in every prefix of the trace no more
`put` than such `get` calls (each `put` has its `get` before it); a `get` that answered
`false` is followed at once by the `get` of the next visit or by the first `block`, so that
visit has no `reclaim`, `block`, `write` or `put`; and the trace is the visits (`get` refused,
or `get`, `reclaim` refused, `put`, or `get`, `reclaim` agreed), at most 16 of them, then one
`block` per clustered page, then `write`, `put`, `sgx_free_page` per clustered page in that
order. -/
theorem sgx_swap_cluster_reference_balance {Ω : Type} (env : Env Ω) (w w' : World Ω)
    (tr : List Event) (h : sgx_swap_cluster env w = .ok (tr, w')) :
    (∀ p, tr.count (.put p) = tr.count (.get p true)) ∧
    (∀ p n, (tr.take n).count (.put p) ≤ (tr.take n).count (.get p true)) ∧
    List.Chain' (fun a b => after_refusal a b = true) tr ∧
    ∃ (visits : List Visit) (rets : List Int),
      visits.length ≤ SGX_NR_TO_SCAN ∧
      swap_cluster_pages env w = .ok (visits.filterMap Visit.clustered) ∧
      rets.length = (visits.filterMap Visit.clustered).length ∧
      tr = (visits.map Visit.events).flatten ++
        (visits.filterMap Visit.clustered).map Event.block ++
        write_events (visits.filterMap Visit.clustered) rets :=
  sgx_swap_cluster_balance h


theorem example_young_result_ok :
    sgx_swap_cluster example_encl_env (example_young_state, example_young_driver)
      = .ok (example_young_result.1, example_young_result.2) := by
  rw [Prod.mk.eta]
  unfold example_young_result
  exact ok_of_toBool _ _ (by decide!)

theorem example_young_result_trace :
    example_young_result.1
      = [.get ⟨0, 0⟩ true, .reclaim ⟨0, 0⟩ false, .put ⟨0, 0⟩,
         .get ⟨0, 0⟩ true, .reclaim ⟨0, 0⟩ true, .block ⟨0, 0⟩,
         .write ⟨0, 0⟩, .put ⟨0, 0⟩, .free_page ⟨0, 0⟩ 0] := by
  unfold example_young_result
  decide!

/-- C26, instance: the pass over the one recently accessed enclave page of
`example_young_state`, which is vetoed at the first visit and taken at the second. -/
theorem sgx_swap_cluster_reference_balance_witness :
    (∀ p, example_young_result.1.count (.put p)
      = example_young_result.1.count (.get p true)) ∧
    (∀ p n, (example_young_result.1.take n).count (.put p)
      ≤ (example_young_result.1.take n).count (.get p true)) ∧
    List.Chain' (fun a b => after_refusal a b = true) example_young_result.1 ∧
    ∃ (visits : List Visit) (rets : List Int),
      visits.length ≤ SGX_NR_TO_SCAN ∧
      swap_cluster_pages example_encl_env (example_young_state, example_young_driver)
        = .ok (visits.filterMap Visit.clustered) ∧
      rets.length = (visits.filterMap Visit.clustered).length ∧
      example_young_result.1 = (visits.map Visit.events).flatten ++
        (visits.filterMap Visit.clustered).map Event.block ++
        write_events (visits.filterMap Visit.clustered) rets :=
  sgx_swap_cluster_reference_balance example_encl_env
    (example_young_state, example_young_driver) example_young_result.2
    example_young_result.1 example_young_result_ok

/-! ## The active page list after a reclaim pass -/

theorem sgx_free_page_list {p : PagePtr} {s s' : State} {ret : Int}
    (h : sgx_free_page p s = .ok (ret, s')) :
    s'.sgx_active_page_list = s.sgx_active_page_list := by
  obtain ⟨pg, _, _, h1 | ⟨_, bank, _, _, h1⟩⟩ := sgx_free_page_inv h
  · rw [h1.2]
    rfl
  · rw [h1]
    rfl

theorem swap_scan_iter_queue {Ω : Type} {env : Env Ω} (hkeep : env.KeepsList)
    {cluster cluster' : List PagePtr} {tr tr' : List Event} {w w' : World Ω}
    (h : swap_scan_iter env cluster tr w = .ok (some (cluster', tr', w'))) :
    ∃ (v : Visit) (rest : List PagePtr), w.1.sgx_active_page_list = v.page :: rest ∧
      tr' = tr ++ v.events ∧ cluster' = cluster ++ v.clustered.toList ∧
      w'.1.sgx_active_page_list = rest ++ v.requeued.toList := by
  obtain ⟨p, rest, hl, hc⟩ := swap_scan_iter_cases h
  rcases hc with ⟨impl, w1, hget, h1, h2, h3⟩ | ⟨impl, impl2, w1, hget, hrec, h1, h2⟩ |
    ⟨impl, impl2, impl3, w1, w3, hget, hrec, hput, h1, h2⟩
  · refine ⟨.refused p, rest, hl, h2, by simp [Visit.clustered, h1], ?_⟩
    have hl1 : w1.1.sgx_active_page_list = p :: rest := (hkeep _ impl).1 _ _ _ _ hl hget
    rw [h3]
    simp [State.with_list, list_move_tail, list_add_tail, list_del, hl1, Visit.requeued]
  · refine ⟨.taken p, rest, hl, h2, by simp [Visit.clustered, h1], ?_⟩
    have hl1 : w1.1.sgx_active_page_list = p :: rest := (hkeep _ impl).1 _ _ _ _ hl hget
    have hl2 := (hkeep rest impl2).2.2.1 p
      (w1.1.with_list (list_del p w1.1.sgx_active_page_list), w1.2) _ _
      (by simp [State.with_list, list_del, hl1]) hrec
    simpa [Visit.requeued] using hl2
  · refine ⟨.vetoed p, rest, hl, h2, by simp [Visit.clustered, h1], ?_⟩
    have hl1 : w1.1.sgx_active_page_list = p :: rest := (hkeep _ impl).1 _ _ _ _ hl hget
    have hl3 := (hkeep rest impl2).2.2.1 p
      (w1.1.with_list (list_del p w1.1.sgx_active_page_list), w1.2) _ _
      (by simp [State.with_list, list_del, hl1]) hrec
    have hl5 := (hkeep (rest ++ [p]) impl3).2.1 p
      (w3.1.with_list (list_add_tail p w3.1.sgx_active_page_list), w3.2) _
      (by simp [State.with_list, list_add_tail, hl3]) hput
    simpa [Visit.requeued] using hl5

theorem filterMap_requeued_cons (v : Visit) (vs : List Visit) :
    (v :: vs).filterMap Visit.requeued = v.requeued.toList ++ vs.filterMap Visit.requeued := by
  cases v <;> simp [Visit.requeued]

theorem visit_perm (v : Visit) (rest cluster : List PagePtr) :
    ((rest ++ v.requeued.toList) ++ (cluster ++ v.clustered.toList)).Perm
      ((v.page :: rest) ++ cluster) := by
  cases v with
  | refused p =>
    simp only [Visit.requeued, Visit.clustered, Visit.page, Option.toList, List.append_nil]
    exact (List.perm_append_comm.trans (List.Perm.refl _)).append_right cluster |>.trans
      (by simp)
  | vetoed p =>
    simp only [Visit.requeued, Visit.clustered, Visit.page, Option.toList, List.append_nil]
    exact (List.perm_append_comm.trans (List.Perm.refl _)).append_right cluster |>.trans
      (by simp)
  | taken p =>
    simp only [Visit.requeued, Visit.clustered, Visit.page, Option.toList, List.append_nil]
    rw [← List.append_assoc]
    exact List.perm_append_comm.trans (by simp)

theorem swap_scan_queue {Ω : Type} {env : Env Ω} (hkeep : env.KeepsList) (n : Nat)
    {cluster cluster' : List PagePtr} {tr tr' : List Event} {w w' : World Ω}
    (h : swap_scan env n cluster tr w = .ok (cluster', tr', w')) :
    ∃ visits : List Visit, visits.length ≤ n ∧
      tr' = tr ++ (visits.map Visit.events).flatten ∧
      cluster' = cluster ++ visits.filterMap Visit.clustered ∧
      visits.map Visit.page
        = (w.1.sgx_active_page_list ++ visits.filterMap Visit.requeued).take visits.length ∧
      w'.1.sgx_active_page_list
        = (w.1.sgx_active_page_list ++ visits.filterMap Visit.requeued).drop visits.length ∧
      (w'.1.sgx_active_page_list ++ cluster').Perm (w.1.sgx_active_page_list ++ cluster) := by
  induction n generalizing cluster tr w with
  | zero =>
    simp only [swap_scan] at h
    cases h
    exact ⟨[], by simp, by simp, by simp, by simp, by simp, List.Perm.refl _⟩
  | succ n ih =>
    unfold swap_scan at h
    split at h
    · cases h
    · cases h
      exact ⟨[], by simp, by simp, by simp, by simp, by simp, List.Perm.refl _⟩
    · rename_i c1 tr1 w1 hiter
      obtain ⟨v, rest, hl, rfl, rfl, hl1⟩ := swap_scan_iter_queue hkeep hiter
      obtain ⟨vs, hlen, rfl, rfl, hpages, hdrop, hperm⟩ := ih h
      refine ⟨v :: vs, by simp; omega, by simp, ?_, ?_, ?_, ?_⟩
      · rw [filterMap_clustered_cons, List.append_assoc]
      · rw [filterMap_requeued_cons, hl, List.map_cons, hpages, hl1]
        simp
      · rw [filterMap_requeued_cons, hl, hdrop, hl1]
        simp
      · refine hperm.trans ?_
        rw [hl1, hl]
        exact visit_perm v rest cluster

theorem visit_page_visited (v : Visit) : ∃ r, Event.get v.page r ∈ v.events := by
  cases v with
  | refused p => exact ⟨false, by simp [Visit.events, Visit.page]⟩
  | vetoed p => exact ⟨true, by simp [Visit.events, Visit.page]⟩
  | taken p => exact ⟨true, by simp [Visit.events, Visit.page]⟩

theorem visited_of_visit {visits : List Visit} {T : List Event} {q : PagePtr}
    (h : q ∈ visits.map Visit.page) :
    visited ((visits.map Visit.events).flatten ++ T) q = true := by
  obtain ⟨v, hv, rfl⟩ := List.mem_map.1 h
  obtain ⟨r, hr⟩ := visit_page_visited v
  unfold visited
  rw [List.any_eq_true]
  refine ⟨.get v.page r, ?_, by simp [Event.visits]⟩
  apply List.mem_append_left
  rw [List.mem_flatten]
  exact ⟨v.events, List.mem_map.2 ⟨v, hv, rfl⟩, hr⟩

theorem requeued_subset_page (visits : List Visit) (q : PagePtr)
    (h : q ∈ visits.filterMap Visit.requeued) : q ∈ visits.map Visit.page := by
  rw [List.mem_filterMap] at h
  obtain ⟨v, hv, hq⟩ := h
  refine List.mem_map.2 ⟨v, hv, ?_⟩
  cases v <;> simp [Visit.requeued] at hq <;> simp [Visit.page, hq]

theorem unvisited_filter {L R pages list' : List PagePtr} {k : Nat} (f : PagePtr → Bool)
    (hpages : pages = (L ++ R).take k) (hdrop : list' = (L ++ R).drop k)
    (hR : ∀ q ∈ R, q ∈ pages) (hf : ∀ q ∈ pages, f q = true) :
    list'.filter (fun q => !f q) = L.filter (fun q => !f q) := by
  have h1 : (L ++ R).filter (fun q => !f q) = L.filter (fun q => !f q) := by
    rw [List.filter_append]
    have : R.filter (fun q => !f q) = [] := by
      rw [List.filter_eq_nil_iff]
      intro q hq
      simp [hf q (hR q hq)]
    rw [this, List.append_nil]
  have h2 : (L ++ R).filter (fun q => !f q) = list'.filter (fun q => !f q) := by
    conv_lhs => rw [← List.take_append_drop k (L ++ R)]
    rw [List.filter_append, ← hpages, ← hdrop]
    have : pages.filter (fun q => !f q) = [] := by
      rw [List.filter_eq_nil_iff]
      intro q hq
      simp [hf q hq]
    rw [this, List.nil_append]
  rw [← h2, h1]

theorem sgx_swap_cluster_queue {Ω : Type} {env : Env Ω} (hkeep : env.KeepsList)
    {w w' : World Ω} {tr : List Event} (h : sgx_swap_cluster env w = .ok (tr, w')) :
    ∃ (visits : List Visit) (rets : List Int), visits.length ≤ SGX_NR_TO_SCAN ∧
      swap_cluster_pages env w = .ok (visits.filterMap Visit.clustered) ∧
      rets.length = (visits.filterMap Visit.clustered).length ∧
      tr = (visits.map Visit.events).flatten ++
        (visits.filterMap Visit.clustered).map Event.block ++
        write_events (visits.filterMap Visit.clustered) rets ∧
      visits.map Visit.page
        = (w.1.sgx_active_page_list ++ visits.filterMap Visit.requeued).take visits.length ∧
      w'.1.sgx_active_page_list
        = (w.1.sgx_active_page_list ++ visits.filterMap Visit.requeued).drop visits.length ∧
      (w'.1.sgx_active_page_list ++ visits.filterMap Visit.clustered).Perm
        w.1.sgx_active_page_list ∧
      w'.1.sgx_active_page_list.filter (fun q => !visited tr q)
        = w.1.sgx_active_page_list.filter (fun q => !visited tr q) := by
  unfold sgx_swap_cluster at h
  split at h
  · cases h
  · rename_i cluster tr1 w1 hscan
    obtain ⟨visits, hlen, rfl, hcl, hpages, hdrop, hperm⟩ := swap_scan_queue hkeep _ hscan
    simp only [List.nil_append] at hcl
    subst hcl
    split at h
    · cases h
    · rename_i tr2 w2 hblock
      have hl2 : w2.1.sgx_active_page_list = w1.1.sgx_active_page_list :=
        @swap_block_preserves Ω env (fun s => s.sgx_active_page_list = w1.1.sgx_active_page_list)
          (fun impl => hkeep _ impl) _ _ _ _ _ rfl hblock
      have hl3 : w'.1.sgx_active_page_list = w1.1.sgx_active_page_list :=
        @swap_write_preserves Ω env (fun s => s.sgx_active_page_list = w1.1.sgx_active_page_list)
          (fun p s ret s' hP hfr => (sgx_free_page_list hfr).trans hP)
          (fun impl => hkeep _ impl) _ _ _ _ _ hl2 h
      rw [swap_block_trace _ hblock] at h
      obtain ⟨rets, hr, rfl⟩ := swap_write_events _ h
      rw [hl3]
      refine ⟨visits, rets, hlen, ?_, hr, by simp, hpages, hdrop, by simpa using hperm, ?_⟩
      · unfold swap_cluster_pages
        rw [hscan]
      · refine unvisited_filter _ hpages hdrop (requeued_subset_page visits) ?_
        intro q hq
        simp only [List.nil_append, List.append_assoc]
        exact visited_of_visit hq

theorem sgx_swap_cluster_list {Ω : Type} {env : Env Ω} (hkeep : env.KeepsList)
    {w w' : World Ω} {tr : List Event} (hnd : w.1.sgx_active_page_list.Nodup)
    (h : sgx_swap_cluster env w = .ok (tr, w')) :
    ∃ (visits : List Visit) (rets : List Int), visits.length ≤ SGX_NR_TO_SCAN ∧
      swap_cluster_pages env w = .ok (visits.filterMap Visit.clustered) ∧
      tr = (visits.map Visit.events).flatten ++
        (visits.filterMap Visit.clustered).map Event.block ++
        write_events (visits.filterMap Visit.clustered) rets ∧
      w'.1.sgx_active_page_list.Nodup ∧
      (∀ q, q ∈ w'.1.sgx_active_page_list ↔
        q ∈ w.1.sgx_active_page_list ∧ q ∉ visits.filterMap Visit.clustered) ∧
      (∀ q ∈ visits.filterMap Visit.clustered, q ∉ w'.1.sgx_active_page_list) ∧
      visits.map Visit.page
        = (w.1.sgx_active_page_list ++ visits.filterMap Visit.requeued).take visits.length ∧
      w'.1.sgx_active_page_list
        = (w.1.sgx_active_page_list ++ visits.filterMap Visit.requeued).drop visits.length ∧
      w'.1.sgx_active_page_list.filter (fun q => !visited tr q)
        = w.1.sgx_active_page_list.filter (fun q => !visited tr q) := by
  obtain ⟨visits, rets, hlen, hcl, _, htr, hpages, hdrop, hperm, hfilter⟩ :=
    sgx_swap_cluster_queue hkeep h
  have hnd2 : (w'.1.sgx_active_page_list ++ visits.filterMap Visit.clustered).Nodup :=
    hperm.nodup_iff.2 hnd
  rw [List.nodup_append] at hnd2
  obtain ⟨n1, n2, n3⟩ := hnd2
  refine ⟨visits, rets, hlen, hcl, htr, n1, ?_, ?_, hpages, hdrop, hfilter⟩
  · intro q
    constructor
    · intro hq
      exact ⟨hperm.subset (List.mem_append_left _ hq), fun hc => n3 hq hc⟩
    · rintro ⟨hq, hc⟩
      rcases List.mem_append.1 (hperm.symm.subset hq) with h1 | h1
      · exact h1
      · exact absurd h1 hc
  · intro q hq hq2
    exact n3 hq2 hq

theorem accept_env_keepsList : accept_env.KeepsList :=
  fun L => (accept_env_preserves fun s => s.sgx_active_page_list = L).1

theorem sgx_write_page_list {c : DriverParams} {p : PagePtr} {do_free : Bool}
    {w w' : World Driver} (h : sgx_write_page c p do_free w = .ok w') :
    w'.1.sgx_active_page_list = w.1.sgx_active_page_list := by
  have hout : ∀ {ip : ImplPtr} {w1 w2 : World Driver},
      write_page_out c p ip do_free w1 = .ok w2 →
      w2.1.sgx_active_page_list = w1.1.sgx_active_page_list := by
    intro ip w1 w2 ho
    unfold write_page_out at ho
    simp only at ho
    split at ho
    · split at ho
      · cases ho
      · rename_i ret s2 hfr
        cases ho
        exact sgx_free_page_list hfr
    · cases ho
      rfl
  unfold sgx_write_page at h
  split at h
  · cases h
  · split at h
    · exact hout h
    · split at h
      · cases h
      · rename_i w1 hw1
        rw [hout h, (write_page_swap_frame hw1).2.2]

theorem encl_env_keepsList (c : DriverParams) (schedule : World Driver → World Driver)
    (hrel : ∀ encl w,
      (c.sgx_encl_release encl w).1.sgx_active_page_list = w.1.sgx_active_page_list) :
    (encl_env c schedule).KeepsList := by
  intro L impl
  refine ⟨?_, ?_, ?_, ?_, ?_⟩
  · intro p w r w' hP h
    have := sgx_encl_page_get_state h
    change w.1.sgx_active_page_list = L at hP
    change w'.1.sgx_active_page_list = L
    rw [this]
    exact hP
  · intro p w w' hP h
    change w.1.sgx_active_page_list = L at hP
    change w'.1.sgx_active_page_list = L
    rcases sgx_encl_page_put_state h with h1 | ⟨encl, d, h1⟩
    · rw [h1]
      exact hP
    · rw [h1, hrel]
      exact hP
  · intro p w r w' hP h
    have := sgx_encl_page_reclaim_state h
    change w.1.sgx_active_page_list = L at hP
    change w'.1.sgx_active_page_list = L
    rw [this]
    exact hP
  · intro p w w' hP h
    change w.1.sgx_active_page_list = L at hP
    change w'.1.sgx_active_page_list = L
    change sgx_encl_page_block p w = .ok w' at h
    unfold sgx_encl_page_block at h
    split at h
    · cases h
    · cases h
      exact hP
  · intro p w w' hP h
    change w.1.sgx_active_page_list = L at hP
    change w'.1.sgx_active_page_list = L
    change sgx_encl_page_write c p w = .ok w' at h
    unfold sgx_encl_page_write at h
    split at h
    · cases h
    · simp only at h
      split at h
      · cases h
      · rename_i w1 hw1
        have h1 := sgx_write_page_list hw1
        split at h
        · split at h
          · cases h
          · rw [sgx_write_page_list h]
            exact h1.trans hP
        · cases h
          exact h1.trans hP

/-- C25, amended: the active page list after one `sgx_swap_cluster`, for owner callbacks
that answer as they like and change what they like but leave the list itself alone (those of `sgx_encl_page_ops` do, provided
`sgx_encl_release` does).  Starting from a duplicate-free list `L`, the list afterwards is
duplicate-free and holds exactly the pages of `L` that were not put in `cluster[]`; no
clustered page is on it.  The pass works the list as a queue: the pages it visits are, in
order, the first entries of `L` followed by the pages put back (a page whose `get` or whose
`reclaim` answered `false` goes to the tail), and the list afterwards is what is left of
that queue; the pages the pass has not visited are in the same order as in `L`. -/
theorem sgx_swap_cluster_active_list {Ω : Type} (env : Env Ω) (hkeep : env.KeepsList)
    (w w' : World Ω) (tr : List Event) (hnd : w.1.sgx_active_page_list.Nodup)
    (h : sgx_swap_cluster env w = .ok (tr, w')) :
    (∃ (visits : List Visit) (rets : List Int), visits.length ≤ SGX_NR_TO_SCAN ∧
      swap_cluster_pages env w = .ok (visits.filterMap Visit.clustered) ∧
      tr = (visits.map Visit.events).flatten ++
        (visits.filterMap Visit.clustered).map Event.block ++
        write_events (visits.filterMap Visit.clustered) rets ∧
      w'.1.sgx_active_page_list.Nodup ∧
      (∀ q, q ∈ w'.1.sgx_active_page_list ↔
        q ∈ w.1.sgx_active_page_list ∧ q ∉ visits.filterMap Visit.clustered) ∧
      (∀ q ∈ visits.filterMap Visit.clustered, q ∉ w'.1.sgx_active_page_list) ∧
      visits.map Visit.page
        = (w.1.sgx_active_page_list ++ visits.filterMap Visit.requeued).take visits.length ∧
      w'.1.sgx_active_page_list
        = (w.1.sgx_active_page_list ++ visits.filterMap Visit.requeued).drop visits.length ∧
      w'.1.sgx_active_page_list.filter (fun q => !visited tr q)
        = w.1.sgx_active_page_list.filter (fun q => !visited tr q)) ∧
    (∀ (c : DriverParams) (schedule : World Driver → World Driver),
      (∀ encl v,
        (c.sgx_encl_release encl v).1.sgx_active_page_list = v.1.sgx_active_page_list) →
      (encl_env c schedule).KeepsList) :=
  ⟨sgx_swap_cluster_list hkeep hnd h, encl_env_keepsList⟩

theorem veto_env_keepsList (rej : PagePtr) : (veto_env rej).KeepsList := by
  intro L impl
  refine ⟨?_, ?_, ?_, ?_, ?_⟩
  · intro p w r w' hP h
    cases h
    exact hP
  · intro p w w' hP h
    cases h
    exact hP
  · intro p w r w' hP h
    cases h
    exact hP
  · intro p w w' hP h
    cases h
    exact hP
  · intro p w w' hP h
    cases h
    exact hP

theorem example_seventeen_result_ok :
    sgx_swap_cluster (veto_env ⟨0, 0⟩) (example_seventeen, ())
      = .ok (example_seventeen_result.1, example_seventeen_result.2) := by
  rw [Prod.mk.eta]
  unfold example_seventeen_result
  exact ok_of_toBool _ _ (by decide!)

theorem example_seventeen_result_list :
    example_seventeen_result.2.1.sgx_active_page_list = [⟨0, 16⟩, ⟨0, 0⟩] := by
  unfold example_seventeen_result
  decide!

/-- C25, amended, instance: the pass over the 17 listed pages of `example_seventeen`, the
owner refusing the `reclaim` of page 0: pages 1 to 15 are clustered, page 16 is not visited
and page 0 is behind it afterwards. -/
theorem sgx_swap_cluster_active_list_witness :
    example_seventeen_result.2.1.sgx_active_page_list = [⟨0, 16⟩, ⟨0, 0⟩] ∧
    ∃ (visits : List Visit) (rets : List Int), visits.length ≤ SGX_NR_TO_SCAN ∧
      swap_cluster_pages (veto_env ⟨0, 0⟩) (example_seventeen, ())
        = .ok (visits.filterMap Visit.clustered) ∧
      example_seventeen_result.1 = (visits.map Visit.events).flatten ++
        (visits.filterMap Visit.clustered).map Event.block ++
        write_events (visits.filterMap Visit.clustered) rets ∧
      example_seventeen_result.2.1.sgx_active_page_list.Nodup ∧
      (∀ q, q ∈ example_seventeen_result.2.1.sgx_active_page_list ↔
        q ∈ example_seventeen.sgx_active_page_list ∧
          q ∉ visits.filterMap Visit.clustered) ∧
      (∀ q ∈ visits.filterMap Visit.clustered,
        q ∉ example_seventeen_result.2.1.sgx_active_page_list) ∧
      visits.map Visit.page
        = (example_seventeen.sgx_active_page_list
            ++ visits.filterMap Visit.requeued).take visits.length ∧
      example_seventeen_result.2.1.sgx_active_page_list
        = (example_seventeen.sgx_active_page_list
            ++ visits.filterMap Visit.requeued).drop visits.length ∧
      example_seventeen_result.2.1.sgx_active_page_list.filter
          (fun q => !visited example_seventeen_result.1 q)
        = example_seventeen.sgx_active_page_list.filter
          (fun q => !visited example_seventeen_result.1 q) :=
  ⟨example_seventeen_result_list,
    (sgx_swap_cluster_active_list (veto_env ⟨0, 0⟩) (veto_env_keepsList ⟨0, 0⟩)
      (example_seventeen, ()) example_seventeen_result.2 example_seventeen_result.1
      (by decide) example_seventeen_result_ok).1⟩

/-! ## The VA slot of a write-back -/

theorem SGX_INVD_encls_va_pages (c : DriverParams) (ret : Int) (encl : Nat) (d : Driver)
    (e : Nat) : ((SGX_INVD c ret encl d).encls e).va_pages = (d.encls e).va_pages := by
  unfold SGX_INVD
  split
  · by_cases he : e = encl
    · subst he
      simp [Driver.set_encl]
    · simp [Driver.set_encl, Function.update_noteq he]
  · rfl

theorem SGX_INVD_va_store (c : DriverParams) (ret : Int) (encl : Nat) (d : Driver) :
    (SGX_INVD c ret encl d).va_store = d.va_store := by
  unfold SGX_INVD
  split <;> rfl

theorem write_page_swap_va {c : DriverParams} {p : PagePtr} {ip : ImplPtr}
    {w w' : World Driver} {va : Nat} {rest : List Nat}
    (hva : (w.2.encls (w.2.encl_pages ip).encl).va_pages = va :: rest)
    (h : write_page_swap c p ip w = .ok w') :
    w'.2.va_store = Function.update w.2.va_store va (sgx_alloc_va_slot (w.2.va_store va)).2 ∧
    (w'.2.encls (w.2.encl_pages ip).encl).va_pages
      = (if sgx_va_page_full (sgx_alloc_va_slot (w.2.va_store va)).2 then rest ++ [va]
          else va :: rest) ∧
    (w'.2.encl_pages ip).encl = (w.2.encl_pages ip).encl := by
  unfold write_page_swap at h
  simp only at h
  rw [hva] at h
  simp only at h
  cases h
  refine ⟨?_, ?_, ?_⟩
  · simp only [Driver.set_encl_page]
    rw [SGX_INVD_va_store]
    split <;> simp [Driver.set_encl, Driver.set_va_page]
  · simp only [Driver.set_encl_page]
    rw [SGX_INVD_encls_va_pages]
    split
    · simp [Driver.set_encl, Driver.set_va_page]
    · simp [Driver.set_va_page, hva]
  · simp only [set_encl_page_self]
    rw [SGX_INVD_encl_pages]
    split <;> rfl

theorem write_page_out_driver {c : DriverParams} {p : PagePtr} {ip : ImplPtr} {do_free : Bool}
    {w w' : World Driver} (h : write_page_out c p ip do_free w = .ok w') :
    w'.2.va_store = w.2.va_store ∧ w'.2.encls = w.2.encls ∧
      (w'.2.encl_pages ip).encl = (w.2.encl_pages ip).encl := by
  unfold write_page_out at h
  simp only at h
  split at h
  · split at h
    · cases h
    · cases h
      exact ⟨rfl, rfl, by simp [set_encl_page_self]⟩
  · cases h
    exact ⟨rfl, rfl, by simp [set_encl_page_self]⟩

theorem sgx_write_page_va {c : DriverParams} {p : PagePtr} {ip : ImplPtr} {do_free : Bool}
    {w w' : World Driver} {va : Nat} {rest : List Nat}
    (hip : encl_page_of w.1 p = .ok ip)
    (hlive : (w.2.encls (w.2.encl_pages ip).encl).flags &&& c.SGX_ENCL_DEAD = 0)
    (hva : (w.2.encls (w.2.encl_pages ip).encl).va_pages = va :: rest)
    (h : sgx_write_page c p do_free w = .ok w') :
    w'.2.va_store = Function.update w.2.va_store va (sgx_alloc_va_slot (w.2.va_store va)).2 ∧
    (w'.2.encls (w.2.encl_pages ip).encl).va_pages
      = (if sgx_va_page_full (sgx_alloc_va_slot (w.2.va_store va)).2 then rest ++ [va]
          else va :: rest) := by
  unfold sgx_write_page at h
  rw [hip] at h
  simp only at h
  rw [if_neg (by simpa using hlive)] at h
  split at h
  · cases h
  · rename_i w1 hw1
    obtain ⟨a1, a2, a3⟩ := write_page_swap_va hva hw1
    obtain ⟨b1, b2, b3⟩ := write_page_out_driver h
    exact ⟨by rw [b1, a1], by rw [b2, a2]⟩

theorem mem_ewb_attempts {c : DriverParams} {epc va : PagePtr} {va_offset encl : Nat}
    {r1 r2 : Int} {e v : PagePtr} {o : Nat}
    (h : HwOp.EWB e v o ∈ ewb_attempts c epc va va_offset encl r1 r2) :
    e = epc ∧ v = va ∧ o = va_offset := by
  unfold ewb_attempts at h
  split at h
  · split at h
    · simp at h
      exact h
    · simp at h
      exact h
  · simp at h
    exact h

theorem sgx_write_page_slot (c : DriverParams) (p : PagePtr) (ip : ImplPtr)
    (w : World Driver) (va : Nat) (rest : List Nat)
    (hip : encl_page_of w.1 p = .ok ip)
    (hlive : (w.2.encls (w.2.encl_pages ip).encl).flags &&& c.SGX_ENCL_DEAD = 0)
    (hva : (w.2.encls (w.2.encl_pages ip).encl).va_pages = va :: rest)
    (hfree : sgx_va_page_full (w.2.va_store va) = false) :
    (∃ w', sgx_write_page c p false w = .ok w') ∧
    ∀ do_free w', sgx_write_page c p do_free w = .ok w' →
      ∃ i, i < 32 ∧
        (∀ j, j < i → (w.2.va_store va).slots.testBit j = true) ∧
        (w.2.va_store va).slots.testBit i = false ∧
        (w'.2.va_store va).slots.testBit i = true ∧
        (∀ j, j ≠ i →
          (w'.2.va_store va).slots.testBit j = (w.2.va_store va).slots.testBit j) ∧
        (w'.2.va_store va).epc_page = (w.2.va_store va).epc_page ∧
        (∀ v, v ≠ va → w'.2.va_store v = w.2.va_store v) ∧
        w'.1.hw_log = w.1.hw_log
          ++ ewb_attempts c p (w.2.va_store va).epc_page (i * 8)
              (w.2.encl_pages ip).encl (w.1.hw_results.headD 0)
              ((w.1.hw_results.drop 2).headD 0)
          ++ (if do_free then [HwOp.EREMOVE p] else []) ∧
        HwOp.EWB p (w.2.va_store va).epc_page (i * 8) ∈ w'.1.hw_log.drop w.1.hw_log.length ∧
        (∀ e v o, HwOp.EWB e v o ∈ w'.1.hw_log.drop w.1.hw_log.length →
          e = p ∧ v = (w.2.va_store va).epc_page ∧ o = i * 8) ∧
        (w'.2.encl_pages ip).va_page = some va ∧
        (w'.2.encls (w.2.encl_pages ip).encl).va_pages
          = (if sgx_va_page_full (w'.2.va_store va) then rest ++ [va] else va :: rest) := by
  refine ⟨sgx_write_page_live_ok c p ip w hip hlive hva, ?_⟩
  intro do_free w' h
  have hex : ∃ i, i < 32 ∧ (w.2.va_store va).slots.testBit i = false := by
    by_contra hne
    have hall : ∀ i, i < 32 → (w.2.va_store va).slots.testBit i = true := by
      intro i hi
      by_contra hb
      exact hne ⟨i, hi, by simpa using hb⟩
    have := ((sgx_va_slot_spec (w.2.va_store va)).2.2.1).2 hall
    rw [this] at hfree
    cases hfree
  obtain ⟨s1, s2, s3, s4, _, _, s7, s8, _⟩ := (sgx_va_slot_spec (w.2.va_store va)).1 hex
  obtain ⟨l1, l2, l3⟩ := sgx_write_page_live hip hlive hva h
  obtain ⟨v1, v2⟩ := sgx_write_page_va hip hlive hva h
  have hst : w'.2.va_store va = (sgx_alloc_va_slot (w.2.va_store va)).2 := by
    rw [v1]
    simp
  rw [s4] at l3
  have hdrop : w'.1.hw_log.drop w.1.hw_log.length
      = ewb_attempts c p (w.2.va_store va).epc_page
          (find_first_zero_bit (w.2.va_store va).slots SGX_VA_SLOT_COUNT * 8)
          (w.2.encl_pages ip).encl (w.1.hw_results.headD 0)
          ((w.1.hw_results.drop 2).headD 0)
        ++ (if do_free then [HwOp.EREMOVE p] else []) := by
    rw [l3, List.append_assoc, List.drop_left]
  refine ⟨find_first_zero_bit (w.2.va_store va).slots SGX_VA_SLOT_COUNT, s1, s3, s2, ?_, ?_,
    ?_, ?_, l3, ?_, ?_, l2, ?_⟩
  · rw [hst, s7]
    simp
  · intro j hj
    rw [hst, s7]
    simp [hj]
  · rw [hst, s8]
  · intro v hv
    rw [v1, Function.update_noteq hv]
  · rw [hdrop]
    exact List.mem_append_left _ (ewb_mem_ewb_attempts _ _ _ _ _ _ _)
  · intro e v o hmem
    rw [hdrop] at hmem
    rcases List.mem_append.1 hmem with hm | hm
    · exact mem_ewb_attempts hm
    · split at hm <;> simp at hm
  · rw [hst]
    exact v2

/-- C28, as stated, fails: the ring of the example enclave is VA page 0, with all 32 slots
taken, followed by VA page 1, with all slots free.  `sgx_write_page` passes the EPC page of
the full VA page 0 and the offset 256 to `WRITEBACK`; it moves VA page 0 to the tail
afterwards and leaves both bitmaps as they were. -/
theorem sgx_write_page_uses_full_head :
    ((example_two_va_driver 0xffffffff).encls 0).flags &&& example_params.SGX_ENCL_DEAD = 0 ∧
    ((example_two_va_driver 0xffffffff).encls 0).va_pages = [0, 1] ∧
    sgx_va_page_full ((example_two_va_driver 0xffffffff).va_store 0) = true ∧
    sgx_va_page_full ((example_two_va_driver 0xffffffff).va_store 1) = false ∧
    (sgx_write_page example_params ⟨0, 0⟩ false
        (example_two_va_state, example_two_va_driver 0xffffffff)).map
      (fun w' => (w'.1.hw_log, (w'.2.encls 0).va_pages, (w'.2.va_store 0).slots,
        (w'.2.va_store 1).slots))
      = .ok ([.EWB ⟨0, 0⟩ ⟨0, 2⟩ 256], [1, 0], 0xffffffff, 0) := by
  decide

/-- C28, amended: for a live enclave whose VA page at the head of the ring has a free slot,
`sgx_write_page` returns, and the slot it passes to every `WRITEBACK` of the call is a free
slot of that head page: the offset is `8 * i` with `i < 32` the lowest clear bit of the
bitmap, bit `i` is clear before the call and set after it, no other bit and no other VA
page changes, the enclave page records the VA page, and when this allocation fills the
page the page is moved to the tail of the ring (otherwise the ring is unchanged). -/
theorem sgx_write_page_takes_head_slot (c : DriverParams) (p : PagePtr) (ip : ImplPtr)
    (w : World Driver) (va : Nat) (rest : List Nat)
    (hip : encl_page_of w.1 p = .ok ip)
    (hlive : (w.2.encls (w.2.encl_pages ip).encl).flags &&& c.SGX_ENCL_DEAD = 0)
    (hva : (w.2.encls (w.2.encl_pages ip).encl).va_pages = va :: rest)
    (hfree : sgx_va_page_full (w.2.va_store va) = false) :
    (∃ w', sgx_write_page c p false w = .ok w') ∧
    ∀ do_free w', sgx_write_page c p do_free w = .ok w' →
      ∃ i, i < 32 ∧
        (∀ j, j < i → (w.2.va_store va).slots.testBit j = true) ∧
        (w.2.va_store va).slots.testBit i = false ∧
        (w'.2.va_store va).slots.testBit i = true ∧
        (∀ j, j ≠ i →
          (w'.2.va_store va).slots.testBit j = (w.2.va_store va).slots.testBit j) ∧
        (w'.2.va_store va).epc_page = (w.2.va_store va).epc_page ∧
        (∀ v, v ≠ va → w'.2.va_store v = w.2.va_store v) ∧
        w'.1.hw_log = w.1.hw_log
          ++ ewb_attempts c p (w.2.va_store va).epc_page (i * 8)
              (w.2.encl_pages ip).encl (w.1.hw_results.headD 0)
              ((w.1.hw_results.drop 2).headD 0)
          ++ (if do_free then [HwOp.EREMOVE p] else []) ∧
        HwOp.EWB p (w.2.va_store va).epc_page (i * 8) ∈ w'.1.hw_log.drop w.1.hw_log.length ∧
        (∀ e v o, HwOp.EWB e v o ∈ w'.1.hw_log.drop w.1.hw_log.length →
          e = p ∧ v = (w.2.va_store va).epc_page ∧ o = i * 8) ∧
        (w'.2.encl_pages ip).va_page = some va ∧
        (w'.2.encls (w.2.encl_pages ip).encl).va_pages
          = (if sgx_va_page_full (w'.2.va_store va) then rest ++ [va] else va :: rest) :=
  sgx_write_page_slot c p ip w va rest hip hlive hva hfree

/-- C28, amended, instance: the head VA page of the example has only slot 31 free; the
write-back takes it (offset 248) and the page, now full, goes to the tail of the ring. -/
theorem sgx_write_page_takes_head_slot_witness :
    (∃ w', sgx_write_page example_params ⟨0, 0⟩ false
      (example_two_va_state, example_two_va_driver 0x7fffffff) = .ok w') ∧
    ∀ do_free w', sgx_write_page example_params ⟨0, 0⟩ do_free
        (example_two_va_state, example_two_va_driver 0x7fffffff) = .ok w' →
      ∃ i, i < 32 ∧
        (∀ j, j < i → ((example_two_va_driver 0x7fffffff).va_store 0).slots.testBit j = true) ∧
        ((example_two_va_driver 0x7fffffff).va_store 0).slots.testBit i = false ∧
        (w'.2.va_store 0).slots.testBit i = true ∧
        (∀ j, j ≠ i → (w'.2.va_store 0).slots.testBit j
          = ((example_two_va_driver 0x7fffffff).va_store 0).slots.testBit j) ∧
        (w'.2.va_store 0).epc_page = ((example_two_va_driver 0x7fffffff).va_store 0).epc_page ∧
        (∀ v, v ≠ 0 → w'.2.va_store v = (example_two_va_driver 0x7fffffff).va_store v) ∧
        w'.1.hw_log = example_two_va_state.hw_log
          ++ ewb_attempts example_params ⟨0, 0⟩
              ((example_two_va_driver 0x7fffffff).va_store 0).epc_page (i * 8)
              ((example_two_va_driver 0x7fffffff).encl_pages 0).encl
              (example_two_va_state.hw_results.headD 0)
              ((example_two_va_state.hw_results.drop 2).headD 0)
          ++ (if do_free then [HwOp.EREMOVE ⟨0, 0⟩] else []) ∧
        HwOp.EWB ⟨0, 0⟩ ((example_two_va_driver 0x7fffffff).va_store 0).epc_page (i * 8)
          ∈ w'.1.hw_log.drop example_two_va_state.hw_log.length ∧
        (∀ e v o, HwOp.EWB e v o ∈ w'.1.hw_log.drop example_two_va_state.hw_log.length →
          e = ⟨0, 0⟩ ∧ v = ((example_two_va_driver 0x7fffffff).va_store 0).epc_page ∧
            o = i * 8) ∧
        (w'.2.encl_pages 0).va_page = some 0 ∧
        (w'.2.encls ((example_two_va_driver 0x7fffffff).encl_pages 0).encl).va_pages
          = (if sgx_va_page_full (w'.2.va_store 0) then [1] ++ [0] else 0 :: [1]) :=
  sgx_write_page_takes_head_slot example_params ⟨0, 0⟩ 0
    (example_two_va_state, example_two_va_driver 0x7fffffff) 0 [1]
    (by decide) (by decide) (by decide) (by decide)

/-! ## A recently accessed page is reclaimed at its second visit -/

theorem page_ops_encl (c : DriverParams) (schedule : World Driver → World Driver)
    {s : State} {p : PagePtr} {ip : ImplPtr} (hip : encl_page_of s p = .ok ip) :
    page_ops (encl_env c schedule) s p = .ok (sgx_encl_page_ops c) := by
  unfold encl_page_of at hip
  unfold page_ops
  split at hip
  · cases hip
  · split at hip
    · cases hip
    · rfl

theorem encl_page_of_banks {s s' : State} (h : s'.sgx_epc_banks = s.sgx_epc_banks)
    (p : PagePtr) : encl_page_of s' p = encl_page_of s p := by
  unfold encl_page_of State.page
  rw [h]

theorem set_encl_twice (d : Driver) (e : Nat) (x y : sgx_encl) :
    (d.set_encl e x).set_encl e y = d.set_encl e y := by
  simp [Driver.set_encl]

theorem set_encl_self (d : Driver) (e : Nat) : d.set_encl e (d.encls e) = d := by
  simp [Driver.set_encl]

theorem set_encl_page_set_encl (d : Driver) (e : Nat) (x : sgx_encl) (ip : ImplPtr)
    (pg : sgx_encl_page) :
    (d.set_encl e x).set_encl_page ip pg = (d.set_encl_page ip pg).set_encl e x := by
  simp [Driver.set_encl, Driver.set_encl_page]

theorem sgx_encl_page_get_live {p : PagePtr} {ip : ImplPtr} {w : World Driver}
    (hip : encl_page_of w.1 p = .ok ip)
    (href : (w.2.encls (w.2.encl_pages ip).encl).refcount ≠ 0) :
    sgx_encl_page_get p w = .ok (true, (w.1, w.2.set_encl (w.2.encl_pages ip).encl
      { w.2.encls (w.2.encl_pages ip).encl with
        refcount := (w.2.encls (w.2.encl_pages ip).encl).refcount + 1 })) := by
  unfold sgx_encl_page_get
  rw [hip]
  simp only
  rw [if_neg href]

theorem sgx_encl_page_put_held (c : DriverParams) {p : PagePtr} {ip : ImplPtr}
    {w : World Driver} (hip : encl_page_of w.1 p = .ok ip)
    (href : (w.2.encls (w.2.encl_pages ip).encl).refcount ≠ 1) :
    sgx_encl_page_put c p w = .ok (w.1, w.2.set_encl (w.2.encl_pages ip).encl
      { w.2.encls (w.2.encl_pages ip).encl with
        refcount := (w.2.encls (w.2.encl_pages ip).encl).refcount - 1 }) := by
  unfold sgx_encl_page_put
  rw [hip]
  simp only
  rw [if_neg href]

theorem sgx_encl_page_reclaim_young (c : DriverParams) {p : PagePtr} {ip : ImplPtr}
    {w : World Driver} (hip : encl_page_of w.1 p = .ok ip)
    (hlive : (w.2.encls (w.2.encl_pages ip).encl).flags &&& c.SGX_ENCL_DEAD = 0)
    (hyoung : (w.2.encl_pages ip).young = true) :
    sgx_encl_page_reclaim c p w
      = .ok (false, (w.1, w.2.set_encl_page ip { w.2.encl_pages ip with young := false })) := by
  unfold sgx_encl_page_reclaim
  rw [hip]
  simp only
  rw [if_neg (by simpa using hlive)]
  simp [sgx_test_and_clear_young, hyoung]

theorem sgx_encl_page_reclaim_cold (c : DriverParams) {p : PagePtr} {ip : ImplPtr}
    {w : World Driver} (hip : encl_page_of w.1 p = .ok ip)
    (hlive : (w.2.encls (w.2.encl_pages ip).encl).flags &&& c.SGX_ENCL_DEAD = 0)
    (hyoung : (w.2.encl_pages ip).young = false)
    (hres : (w.2.encl_pages ip).desc &&& c.SGX_ENCL_PAGE_RESERVED = 0) :
    sgx_encl_page_reclaim c p w
      = .ok (true, (w.1, w.2.set_encl_page ip
          { w.2.encl_pages ip with
            desc := (w.2.encl_pages ip).desc ||| c.SGX_ENCL_PAGE_RESERVED,
            young := false })) := by
  unfold sgx_encl_page_reclaim
  rw [hip]
  simp only
  rw [if_neg (by simpa using hlive)]
  simp [sgx_test_and_clear_young, hyoung, hres, set_encl_page_self, Driver.set_encl_page]

theorem encl_scan_iter_young (c : DriverParams) (schedule : World Driver → World Driver)
    (cluster : List PagePtr) (tr : List Event) {w : World Driver} {p : PagePtr}
    {rest : List PagePtr} {ip : ImplPtr}
    (hl : w.1.sgx_active_page_list = p :: rest) (hip : encl_page_of w.1 p = .ok ip)
    (hlive : (w.2.encls (w.2.encl_pages ip).encl).flags &&& c.SGX_ENCL_DEAD = 0)
    (href : (w.2.encls (w.2.encl_pages ip).encl).refcount ≠ 0)
    (hyoung : (w.2.encl_pages ip).young = true) :
    ∃ w', swap_scan_iter (encl_env c schedule) cluster tr w
        = .ok (some (cluster, tr ++ [.get p true, .reclaim p false, .put p], w')) ∧
      w'.1 = w.1.with_list (rest ++ [p]) ∧
      w'.2.encl_pages ip = { w.2.encl_pages ip with young := false } ∧
      w'.2.encls = w.2.encls ∧ w'.2.va_store = w.2.va_store := by
  refine ⟨(w.1.with_list (rest ++ [p]),
    w.2.set_encl_page ip { w.2.encl_pages ip with young := false }), ?_, rfl,
    by simp [Driver.set_encl_page], rfl, rfl⟩
  unfold swap_scan_iter
  rw [hl]
  simp only
  rw [page_ops_encl c schedule hip]
  simp only [sgx_encl_page_ops]
  rw [sgx_encl_page_get_live hip href]
  simp only
  rw [page_ops_encl c schedule (by exact hip)]
  simp only [sgx_encl_page_ops]
  rw [sgx_encl_page_reclaim_young c (by exact hip) (by simpa [Driver.set_encl] using hlive)
    (by simpa [Driver.set_encl] using hyoung)]
  simp only
  rw [page_ops_encl c schedule (by exact hip)]
  simp only [sgx_encl_page_ops]
  rw [sgx_encl_page_put_held c (by exact hip) (by
    simp [Driver.set_encl, Driver.set_encl_page]
    omega)]
  simp [State.with_list, list_add_tail, list_del, hl, Driver.set_encl, Driver.set_encl_page]

theorem encl_scan_iter_cold (c : DriverParams) (schedule : World Driver → World Driver)
    (cluster : List PagePtr) (tr : List Event) {w : World Driver} {p : PagePtr}
    {rest : List PagePtr} {ip : ImplPtr}
    (hl : w.1.sgx_active_page_list = p :: rest) (hip : encl_page_of w.1 p = .ok ip)
    (hlive : (w.2.encls (w.2.encl_pages ip).encl).flags &&& c.SGX_ENCL_DEAD = 0)
    (href : (w.2.encls (w.2.encl_pages ip).encl).refcount ≠ 0)
    (hyoung : (w.2.encl_pages ip).young = false)
    (hres : (w.2.encl_pages ip).desc &&& c.SGX_ENCL_PAGE_RESERVED = 0) :
    ∃ w', swap_scan_iter (encl_env c schedule) cluster tr w
        = .ok (some (cluster ++ [p], tr ++ [.get p true, .reclaim p true], w')) ∧
      w'.1 = w.1.with_list rest ∧
      (w'.2.encl_pages ip).encl = (w.2.encl_pages ip).encl ∧
      (w'.2.encl_pages ip).young = false ∧
      w'.2.encls = Function.update w.2.encls (w.2.encl_pages ip).encl
        { w.2.encls (w.2.encl_pages ip).encl with
          refcount := (w.2.encls (w.2.encl_pages ip).encl).refcount + 1 } ∧
      w'.2.va_store = w.2.va_store := by
  refine ⟨(w.1.with_list rest,
    (w.2.set_encl (w.2.encl_pages ip).encl
      { w.2.encls (w.2.encl_pages ip).encl with
        refcount := (w.2.encls (w.2.encl_pages ip).encl).refcount + 1 }).set_encl_page
      ip { w.2.encl_pages ip with
        desc := (w.2.encl_pages ip).desc ||| c.SGX_ENCL_PAGE_RESERVED,
        young := false }), ?_, rfl, by simp [Driver.set_encl_page],
    by simp [Driver.set_encl_page], rfl, rfl⟩
  unfold swap_scan_iter
  rw [hl]
  simp only
  rw [page_ops_encl c schedule hip]
  simp only [sgx_encl_page_ops]
  rw [sgx_encl_page_get_live hip href]
  simp only
  rw [page_ops_encl c schedule (by exact hip)]
  simp only [sgx_encl_page_ops]
  rw [sgx_encl_page_reclaim_cold c (by exact hip) (by simpa [Driver.set_encl] using hlive)
    (by simpa [Driver.set_encl] using hyoung) (by simpa [Driver.set_encl] using hres)]
  simp [State.with_list, list_del, hl, Driver.set_encl, Driver.set_encl_page]

theorem swap_scan_empty {Ω : Type} (env : Env Ω) (n : Nat) (cluster : List PagePtr)
    (tr : List Event) {w : World Ω} (hl : w.1.sgx_active_page_list = []) :
    swap_scan env n cluster tr w = .ok (cluster, tr, w) := by
  cases n with
  | zero => rfl
  | succ n =>
    unfold swap_scan
    unfold swap_scan_iter
    rw [hl]

theorem encl_scan_young_page (c : DriverParams) (schedule : World Driver → World Driver)
    {w : World Driver} {p : PagePtr} {ip : ImplPtr}
    (hl : w.1.sgx_active_page_list = [p]) (hip : encl_page_of w.1 p = .ok ip)
    (hlive : (w.2.encls (w.2.encl_pages ip).encl).flags &&& c.SGX_ENCL_DEAD = 0)
    (href : (w.2.encls (w.2.encl_pages ip).encl).refcount ≠ 0)
    (hyoung : (w.2.encl_pages ip).young = true)
    (hres : (w.2.encl_pages ip).desc &&& c.SGX_ENCL_PAGE_RESERVED = 0) (n : Nat) :
    ∃ w', swap_scan (encl_env c schedule) (n + 2) [] [] w
        = .ok ([p], [.get p true, .reclaim p false, .put p, .get p true, .reclaim p true],
            w') ∧
      w'.1 = w.1.with_list [] ∧
      (w'.2.encl_pages ip).encl = (w.2.encl_pages ip).encl ∧
      (w'.2.encl_pages ip).young = false ∧
      w'.2.encls = Function.update w.2.encls (w.2.encl_pages ip).encl
        { w.2.encls (w.2.encl_pages ip).encl with
          refcount := (w.2.encls (w.2.encl_pages ip).encl).refcount + 1 } ∧
      w'.2.va_store = w.2.va_store := by
  obtain ⟨w5, h1, a1, a2, a3, a4⟩ :=
    encl_scan_iter_young c schedule [] [] hl hip hlive href hyoung
  have hl5 : w5.1.sgx_active_page_list = [p] := by rw [a1]; rfl
  have hip5 : encl_page_of w5.1 p = .ok ip := by rw [a1]; exact hip
  obtain ⟨w8, h2, b1, b2, b3, b4, b5⟩ :=
    encl_scan_iter_cold c schedule [] [.get p true, .reclaim p false, .put p] hl5 hip5
      (by rw [a2, a3]; exact hlive) (by rw [a2, a3]; exact href) (by rw [a2])
      (by rw [a2]; exact hres)
  have hl8 : w8.1.sgx_active_page_list = [] := by rw [b1]; rfl
  refine ⟨w8, ?_, ?_, ?_, b3, ?_, ?_⟩
  · simp only [List.nil_append, List.cons_append] at h1 h2
    rw [swap_scan, h1]
    simp only
    rw [swap_scan, h2]
    simp only
    rw [swap_scan_empty _ _ _ _ hl8]
  · rw [b1, a1]
    rfl
  · rw [b2, a2]
  · rw [b4, a2, a3]
  · rw [b5, a4]

theorem SGX_INVD_encls_fields (c : DriverParams) (ret : Int) (encl : Nat) (d : Driver)
    (e : Nat) :
    ((SGX_INVD c ret encl d).encls e).secs_child_cnt = (d.encls e).secs_child_cnt ∧
      ((SGX_INVD c ret encl d).encls e).refcount = (d.encls e).refcount := by
  unfold SGX_INVD
  split
  · by_cases he : e = encl
    · subst he
      simp [Driver.set_encl]
    · simp [Driver.set_encl, Function.update_noteq he]
  · exact ⟨rfl, rfl⟩

theorem write_page_swap_fields {c : DriverParams} {p : PagePtr} {ip : ImplPtr}
    {w w' : World Driver} (h : write_page_swap c p ip w = .ok w') (e : Nat) :
    (w'.2.encls e).secs_child_cnt = (w.2.encls e).secs_child_cnt ∧
      (w'.2.encls e).refcount = (w.2.encls e).refcount ∧
      (w'.2.encl_pages ip).young = (w.2.encl_pages ip).young := by
  unfold write_page_swap at h
  simp only at h
  split at h
  · cases h
  · cases h
    simp only [Driver.set_encl_page, Function.update_same]
    rw [(SGX_INVD_encls_fields _ _ _ _ _).1, (SGX_INVD_encls_fields _ _ _ _ _).2,
      SGX_INVD_encl_pages]
    refine ⟨?_, ?_, ?_⟩
    · split
      · by_cases he : e = (w.2.encl_pages ip).encl
        · subst he
          simp [Driver.set_encl, Driver.set_va_page]
        · simp [Driver.set_encl, Driver.set_va_page, Function.update_noteq he]
      · rfl
    · split
      · by_cases he : e = (w.2.encl_pages ip).encl
        · subst he
          simp [Driver.set_encl, Driver.set_va_page]
        · simp [Driver.set_encl, Driver.set_va_page, Function.update_noteq he]
      · rfl
    · split <;> rfl

theorem sgx_write_page_keep {c : DriverParams} {p : PagePtr} {ip : ImplPtr}
    {w w' : World Driver} (hip : encl_page_of w.1 p = .ok ip)
    (hlive : (w.2.encls (w.2.encl_pages ip).encl).flags &&& c.SGX_ENCL_DEAD = 0)
    (h : sgx_write_page c p false w = .ok w') :
    w'.1.sgx_epc_banks = w.1.sgx_epc_banks ∧
      w'.1.sgx_nr_free_pages = w.1.sgx_nr_free_pages ∧
      w'.1.sgx_active_page_list = w.1.sgx_active_page_list ∧
      (w'.2.encl_pages ip).encl = (w.2.encl_pages ip).encl ∧
      (w'.2.encl_pages ip).young = (w.2.encl_pages ip).young ∧
      ∀ e, (w'.2.encls e).secs_child_cnt = (w.2.encls e).secs_child_cnt ∧
        (w'.2.encls e).refcount = (w.2.encls e).refcount := by
  unfold sgx_write_page at h
  rw [hip] at h
  simp only at h
  rw [if_neg (by simpa using hlive)] at h
  split at h
  · cases h
  · rename_i w1 hw1
    obtain ⟨f1, f2, f3⟩ := write_page_swap_frame hw1
    unfold write_page_out at h
    simp only [Bool.false_eq_true, if_false] at h
    cases h
    obtain ⟨va, rest, hva⟩ : ∃ va rest,
        (w.2.encls (w.2.encl_pages ip).encl).va_pages = va :: rest := by
      unfold write_page_swap at hw1
      simp only at hw1
      split at hw1
      · cases hw1
      · rename_i va rest hva
        exact ⟨va, rest, hva⟩
    refine ⟨f1, f2, f3, ?_, ?_, ?_⟩
    · simp only [set_encl_page_self]
      exact (write_page_swap_va hva hw1).2.2
    · simp only [set_encl_page_self]
      exact (write_page_swap_fields hw1 0).2.2
    · intro e
      exact ⟨(write_page_swap_fields hw1 e).1, (write_page_swap_fields hw1 e).2.1⟩

theorem sgx_free_page_zero {p : PagePtr} {s s' : State}
    (h : sgx_free_page p s = .ok (0, s')) :
    (all_live s').Perm (p :: all_live s) ∧
      s'.sgx_nr_free_pages = s.sgx_nr_free_pages + 1 := by
  obtain ⟨pg, hp, _, hcase⟩ := sgx_free_page_inv h
  rcases hcase with ⟨hne, _⟩ | ⟨_, bank, hb, hlt, hs'⟩
  · exact absurd rfl hne
  · subst hs'
    refine ⟨?_, rfl⟩
    unfold all_live
    simp only
    rw [List.map_set]
    have hlive : (s.sgx_epc_banks.map sgx_epc_bank.live)[SGX_EPC_BANK pg]?
        = some (bank.pages.take bank.free_cnt) := by
      rw [List.getElem?_map, hb]
      rfl
    obtain ⟨pre, post, h1, h2⟩ := flatten_set_split hlive
    rw [h1, h2]
    simp only [sgx_epc_bank.live]
    rw [take_set_push _ _ _ hlt]
    rw [show pre ++ (List.take bank.free_cnt bank.pages ++ [p]) ++ post
      = (pre ++ List.take bank.free_cnt bank.pages) ++ p :: post by simp]
    exact List.perm_middle

theorem all_live_of_banks {s s' : State} (h : s'.sgx_epc_banks = s.sgx_epc_banks) :
    all_live s' = all_live s := by
  unfold all_live
  rw [h]

theorem encl_swap_block_one (c : DriverParams) (schedule : World Driver → World Driver)
    (tr : List Event) {w : World Driver} {p : PagePtr} {ip : ImplPtr}
    (hip : encl_page_of w.1 p = .ok ip) :
    swap_block (encl_env c schedule) [p] tr w
      = .ok (tr ++ [.block p], sgx_encl_block p w) := by
  unfold swap_block
  rw [page_ops_encl c schedule hip]
  simp only [sgx_encl_page_ops, sgx_encl_page_block]
  rw [hip]
  simp only
  unfold swap_block
  rfl

theorem sgx_encl_page_write_child (c : DriverParams) {p : PagePtr} {ip : ImplPtr}
    {w : World Driver} {va : Nat} {rest : List Nat}
    (hip : encl_page_of w.1 p = .ok ip)
    (hlive : (w.2.encls (w.2.encl_pages ip).encl).flags &&& c.SGX_ENCL_DEAD = 0)
    (hva : (w.2.encls (w.2.encl_pages ip).encl).va_pages = va :: rest)
    (hcnt : ((w.2.encls (w.2.encl_pages ip).encl).secs_child_cnt + 2 ^ 32 - 1) % 2 ^ 32 ≠ 0) :
    ∃ w', sgx_encl_page_write c p w = .ok w' ∧
      w'.1.sgx_epc_banks = w.1.sgx_epc_banks ∧
      w'.1.sgx_nr_free_pages = w.1.sgx_nr_free_pages ∧
      w'.1.sgx_active_page_list = w.1.sgx_active_page_list ∧
      w'.1.hw_log = w.1.hw_log
        ++ ewb_attempts c p (w.2.va_store va).epc_page (sgx_alloc_va_slot (w.2.va_store va)).1
            (w.2.encl_pages ip).encl (w.1.hw_results.headD 0)
            ((w.1.hw_results.drop 2).headD 0) ∧
      (w'.2.encl_pages ip).encl = (w.2.encl_pages ip).encl ∧
      (w'.2.encl_pages ip).young = (w.2.encl_pages ip).young ∧
      (w'.2.encls (w.2.encl_pages ip).encl).refcount
        = (w.2.encls (w.2.encl_pages ip).encl).refcount := by
  obtain ⟨w1, hw1⟩ := sgx_write_page_live_ok c p ip w hip hlive hva
  obtain ⟨k1, k2, k3, k4, k5, k6⟩ := sgx_write_page_keep hip hlive hw1
  obtain ⟨_, _, l3⟩ := sgx_write_page_live hip hlive hva hw1
  unfold sgx_encl_page_write
  rw [hip]
  simp only
  rw [hw1]
  simp only
  rw [if_neg (by
    rw [(k6 _).1]
    intro hc
    exact hcnt hc.1)]
  refine ⟨_, rfl, k1, k2, k3, by simpa using l3, ?_, ?_, ?_⟩
  · simpa [Driver.set_encl] using k4
  · simpa [Driver.set_encl] using k5
  · simp [Driver.set_encl, (k6 _).2]

theorem encl_swap_write_one (c : DriverParams) (schedule : World Driver → World Driver)
    (tr : List Event) {w : World Driver} {p : PagePtr} {ip : ImplPtr} {va : Nat}
    {rest : List Nat}
    (hip : encl_page_of w.1 p = .ok ip)
    (hlive : (w.2.encls (w.2.encl_pages ip).encl).flags &&& c.SGX_ENCL_DEAD = 0)
    (hva : (w.2.encls (w.2.encl_pages ip).encl).va_pages = va :: rest)
    (hcnt : ((w.2.encls (w.2.encl_pages ip).encl).secs_child_cnt + 2 ^ 32 - 1) % 2 ^ 32 ≠ 0)
    (href : (w.2.encls (w.2.encl_pages ip).encl).refcount ≠ 1)
    (hwf : w.1.WellFormed) (hs : w.1.Shaped) (hnd : (all_live w.1).Nodup)
    (hnot : p ∉ all_live w.1) :
    ∃ ret w', swap_write (encl_env c schedule) [p] tr w
        = .ok (tr ++ [.write p, .put p, .free_page p ret], w') ∧
      w'.1.sgx_active_page_list = w.1.sgx_active_page_list ∧
      w'.1.hw_log = w.1.hw_log
        ++ ewb_attempts c p (w.2.va_store va).epc_page (sgx_alloc_va_slot (w.2.va_store va)).1
            (w.2.encl_pages ip).encl (w.1.hw_results.headD 0)
            ((w.1.hw_results.drop 2).headD 0)
        ++ [.EREMOVE p] ∧
      (w'.2.encl_pages ip).young = (w.2.encl_pages ip).young ∧
      (ret = 0 → (all_live w'.1).Perm (p :: all_live w.1) ∧
        w'.1.sgx_nr_free_pages = w.1.sgx_nr_free_pages + 1) := by
  obtain ⟨w1, hw1, k1, k2, k3, k4, k5, k6, k7⟩ :=
    sgx_encl_page_write_child c hip hlive hva hcnt
  have hip1 : encl_page_of w1.1 p = .ok ip := by rw [encl_page_of_banks k1]; exact hip
  obtain ⟨d2, hput, hd2⟩ : ∃ d2, sgx_encl_page_put c p w1 = .ok (w1.1, d2) ∧
      (d2.encl_pages ip).young = (w1.2.encl_pages ip).young :=
    ⟨_, sgx_encl_page_put_held c hip1 (by rw [k5, k7]; exact href), by simp [Driver.set_encl]⟩
  have hpg : (w1.1.page p).isSome := by
    unfold encl_page_of at hip1
    split at hip1
    · cases hip1
    · rename_i pg hpg
      simp [hpg]
  obtain ⟨ret, s3, hfr⟩ := @sgx_free_page_returns w1.1 (wellFormed_of_banks k1 hwf)
    (shaped_of_shape (by rw [k1]) hs) (by rw [all_live_of_banks k1]; exact hnd) p hpg
    (by rw [all_live_of_banks k1]; exact hnot)
  refine ⟨ret, (s3, d2), ?_, ?_, ?_, ?_, ?_⟩
  · unfold swap_write swap_write_iter
    rw [page_ops_encl c schedule hip]
    simp only [sgx_encl_page_ops]
    rw [hw1]
    simp only
    rw [page_ops_encl c schedule hip1]
    simp only [sgx_encl_page_ops]
    rw [hput]
    simp only
    rw [hfr]
    simp only
    unfold swap_write
    rfl
  · simp only
    rw [sgx_free_page_list hfr, k3]
  · simp only
    rw [sgx_free_page_log hfr, k4]
  · simp only
    rw [hd2, k6]
  · intro h0
    subst h0
    obtain ⟨z1, z2⟩ := sgx_free_page_zero hfr
    simp only
    rw [all_live_of_banks k1] at z1
    exact ⟨z1, by rw [z2, k2]⟩

theorem encl_young_page_pass (c : DriverParams) (schedule : World Driver → World Driver)
    (w : World Driver) (p : PagePtr) (ip : ImplPtr) (va : Nat) (rest : List Nat)
    (hl : w.1.sgx_active_page_list = [p]) (hip : encl_page_of w.1 p = .ok ip)
    (hlive : (w.2.encls (w.2.encl_pages ip).encl).flags &&& c.SGX_ENCL_DEAD = 0)
    (href : (w.2.encls (w.2.encl_pages ip).encl).refcount ≠ 0)
    (hyoung : (w.2.encl_pages ip).young = true)
    (hres : (w.2.encl_pages ip).desc &&& c.SGX_ENCL_PAGE_RESERVED = 0)
    (hva : (w.2.encls (w.2.encl_pages ip).encl).va_pages = va :: rest)
    (hcnt : ((w.2.encls (w.2.encl_pages ip).encl).secs_child_cnt + 2 ^ 32 - 1) % 2 ^ 32 ≠ 0)
    (hwf : w.1.WellFormed) (hs : w.1.Shaped) (hnd : (all_live w.1).Nodup)
    (hnot : p ∉ all_live w.1) :
    ∃ ret w', sgx_swap_cluster (encl_env c schedule) w
        = .ok ([.get p true, .reclaim p false, .put p, .get p true, .reclaim p true,
            .block p, .write p, .put p, .free_page p ret], w') ∧
      swap_cluster_pages (encl_env c schedule) w = .ok [p] ∧
      w'.1.sgx_active_page_list = [] ∧
      (w'.2.encl_pages ip).young = false ∧
      w'.1.hw_log = w.1.hw_log ++ [.EBLOCK p]
        ++ ewb_attempts c p (w.2.va_store va).epc_page (sgx_alloc_va_slot (w.2.va_store va)).1
            (w.2.encl_pages ip).encl (w.1.hw_results.tail.headD 0)
            ((w.1.hw_results.tail.drop 2).headD 0)
        ++ [.EREMOVE p] ∧
      (ret = 0 → (all_live w'.1).Perm (p :: all_live w.1) ∧
        w'.1.sgx_nr_free_pages = w.1.sgx_nr_free_pages + 1) := by
  obtain ⟨w8, h8, a1, a2, a3, a4, a5⟩ :=
    encl_scan_young_page c schedule hl hip hlive href hyoung hres 14
  have hscan : swap_scan (encl_env c schedule) SGX_NR_TO_SCAN [] [] w
      = .ok ([p], [.get p true, .reclaim p false, .put p, .get p true, .reclaim p true],
          w8) := h8
  have hb8 : w8.1.sgx_epc_banks = w.1.sgx_epc_banks := by rw [a1]; rfl
  have hip8 : encl_page_of w8.1 p = .ok ip := by rw [encl_page_of_banks hb8]; exact hip
  have hblock := encl_swap_block_one c schedule
    [.get p true, .reclaim p false, .put p, .get p true, .reclaim p true] hip8
  have hb9 : (sgx_encl_block p w8).1.sgx_epc_banks = w.1.sgx_epc_banks := hb8
  have he9 : ((sgx_encl_block p w8).2.encl_pages ip).encl = (w.2.encl_pages ip).encl := a2
  have hE9 : (sgx_encl_block p w8).2.encls (w.2.encl_pages ip).encl
      = { w.2.encls (w.2.encl_pages ip).encl with
          refcount := (w.2.encls (w.2.encl_pages ip).encl).refcount + 1 } := by
    change w8.2.encls _ = _
    rw [a4]
    simp
  obtain ⟨ret, w', hwr, b1, b2, b3, b4⟩ := @encl_swap_write_one c schedule
    [.get p true, .reclaim p false, .put p, .get p true, .reclaim p true, .block p]
    (sgx_encl_block p w8) p ip va rest
    (by rw [encl_page_of_banks hb9]; exact hip)
    (by rw [he9, hE9]; exact hlive)
    (by rw [he9, hE9]; exact hva)
    (by rw [he9, hE9]; exact hcnt)
    (by rw [he9, hE9]; simpa using href)
    (wellFormed_of_banks hb9 hwf) (shaped_of_shape (by rw [hb9]) hs)
    (by rw [all_live_of_banks hb9]; exact hnd)
    (by rw [all_live_of_banks hb9]; exact hnot)
  refine ⟨ret, w', ?_, ?_, ?_, ?_, ?_, ?_⟩
  · unfold sgx_swap_cluster
    rw [hscan]
    simp only
    rw [hblock]
    simp only [List.cons_append, List.nil_append]
    rw [hwr]
    rfl
  · unfold swap_cluster_pages
    rw [hscan]
  · rw [b1]
    change w8.1.sgx_active_page_list = []
    rw [a1]
    rfl
  · rw [b3]
    exact a3
  · rw [b2]
    have h1 : (sgx_encl_block p w8).1.hw_log = w.1.hw_log ++ [.EBLOCK p] := by
      change w8.1.hw_log ++ [.EBLOCK p] = _
      rw [a1]
      rfl
    have h2 : (sgx_encl_block p w8).1.hw_results = w.1.hw_results.tail := by
      change w8.1.hw_results.tail = _
      rw [a1]
      rfl
    have h3 : (sgx_encl_block p w8).2.va_store = w.2.va_store := a5
    rw [h1, h2, h3, he9]
  · intro h0
    obtain ⟨z1, z2⟩ := b4 h0
    rw [all_live_of_banks hb9] at z1
    refine ⟨z1, ?_⟩
    rw [z2]
    change w8.1.sgx_nr_free_pages + 1 = _
    rw [a1]
    rfl

theorem encl_young_page_revisited (c : DriverParams) (schedule : World Driver → World Driver)
    (w : World Driver) (p : PagePtr) (ip : ImplPtr) (va : Nat) (rest : List Nat)
    (hl : w.1.sgx_active_page_list = [p]) (hip : encl_page_of w.1 p = .ok ip)
    (hlive : (w.2.encls (w.2.encl_pages ip).encl).flags &&& c.SGX_ENCL_DEAD = 0)
    (href : (w.2.encls (w.2.encl_pages ip).encl).refcount ≠ 0)
    (hyoung : (w.2.encl_pages ip).young = true)
    (hres : (w.2.encl_pages ip).desc &&& c.SGX_ENCL_PAGE_RESERVED = 0)
    (hva : (w.2.encls (w.2.encl_pages ip).encl).va_pages = va :: rest)
    (hcnt : ((w.2.encls (w.2.encl_pages ip).encl).secs_child_cnt + 2 ^ 32 - 1) % 2 ^ 32 ≠ 0)
    (hwf : w.1.WellFormed) (hs : w.1.Shaped) (hnd : (all_live w.1).Nodup)
    (hnot : p ∉ all_live w.1) :
    (∃ w1, swap_scan_iter (encl_env c schedule) [] [] w
        = .ok (some ([], [.get p true, .reclaim p false, .put p], w1)) ∧
      w1.1.sgx_active_page_list = [p] ∧ (w1.2.encl_pages ip).young = false) ∧
    ∃ ret w', sgx_swap_cluster (encl_env c schedule) w
        = .ok ([.get p true, .reclaim p false, .put p, .get p true, .reclaim p true,
            .block p, .write p, .put p, .free_page p ret], w') ∧
      swap_cluster_pages (encl_env c schedule) w = .ok [p] ∧
      w'.1.sgx_active_page_list = [] ∧
      (w'.2.encl_pages ip).young = false ∧
      w'.1.hw_log = w.1.hw_log ++ [.EBLOCK p]
        ++ ewb_attempts c p (w.2.va_store va).epc_page (sgx_alloc_va_slot (w.2.va_store va)).1
            (w.2.encl_pages ip).encl (w.1.hw_results.tail.headD 0)
            ((w.1.hw_results.tail.drop 2).headD 0)
        ++ [.EREMOVE p] ∧
      (ret = 0 → (all_live w'.1).Perm (p :: all_live w.1) ∧
        w'.1.sgx_nr_free_pages = w.1.sgx_nr_free_pages + 1) := by
  refine ⟨?_, encl_young_page_pass c schedule w p ip va rest hl hip hlive href hyoung hres
    hva hcnt hwf hs hnd hnot⟩
  obtain ⟨w1, h1, a1, a2, _, _⟩ :=
    encl_scan_iter_young c schedule [] [] hl hip hlive href hyoung
  refine ⟨w1, by simpa using h1, ?_, ?_⟩
  · rw [a1]
    rfl
  · rw [a2]

/-- C30: the scan of `sgx_swap_cluster` counts iterations, not pages.  When the active page
list holds the single page `p` of a live enclave with a reference, recently accessed (young)
and not reserved (the enclave has a VA page and `p` is not its last child; the banks are
well formed and `p` is allocated), the first iteration has `get` agree and `reclaim` clear
the young state and refuse, and puts `p` back on the list; the same pass then visits `p`
again, `reclaim` agrees, and `p` is blocked, written back and handed to `sgx_free_page`:
the pass returns with the nine calls below as its trace, `BLOCK`, the `WRITEBACK` attempts
and `REMOVE` issued on `p`, the list empty, and `p` on a free stack when `REMOVE`
succeeded. -/
theorem sgx_swap_cluster_revisits_young_page (c : DriverParams)
    (schedule : World Driver → World Driver)
    (w : World Driver) (p : PagePtr) (ip : ImplPtr) (va : Nat) (rest : List Nat)
    (hl : w.1.sgx_active_page_list = [p]) (hip : encl_page_of w.1 p = .ok ip)
    (hlive : (w.2.encls (w.2.encl_pages ip).encl).flags &&& c.SGX_ENCL_DEAD = 0)
    (href : (w.2.encls (w.2.encl_pages ip).encl).refcount ≠ 0)
    (hyoung : (w.2.encl_pages ip).young = true)
    (hres : (w.2.encl_pages ip).desc &&& c.SGX_ENCL_PAGE_RESERVED = 0)
    (hva : (w.2.encls (w.2.encl_pages ip).encl).va_pages = va :: rest)
    (hcnt : ((w.2.encls (w.2.encl_pages ip).encl).secs_child_cnt + 2 ^ 32 - 1) % 2 ^ 32 ≠ 0)
    (hwf : w.1.WellFormed) (hs : w.1.Shaped) (hnd : (all_live w.1).Nodup)
    (hnot : p ∉ all_live w.1) :
    (∃ w1, swap_scan_iter (encl_env c schedule) [] [] w
        = .ok (some ([], [.get p true, .reclaim p false, .put p], w1)) ∧
      w1.1.sgx_active_page_list = [p] ∧ (w1.2.encl_pages ip).young = false) ∧
    ∃ ret w', sgx_swap_cluster (encl_env c schedule) w
        = .ok ([.get p true, .reclaim p false, .put p, .get p true, .reclaim p true,
            .block p, .write p, .put p, .free_page p ret], w') ∧
      swap_cluster_pages (encl_env c schedule) w = .ok [p] ∧
      w'.1.sgx_active_page_list = [] ∧
      (w'.2.encl_pages ip).young = false ∧
      w'.1.hw_log = w.1.hw_log ++ [.EBLOCK p]
        ++ ewb_attempts c p (w.2.va_store va).epc_page (sgx_alloc_va_slot (w.2.va_store va)).1
            (w.2.encl_pages ip).encl (w.1.hw_results.tail.headD 0)
            ((w.1.hw_results.tail.drop 2).headD 0)
        ++ [.EREMOVE p] ∧
      (ret = 0 → (all_live w'.1).Perm (p :: all_live w.1) ∧
        w'.1.sgx_nr_free_pages = w.1.sgx_nr_free_pages + 1) :=
  encl_young_page_revisited c schedule w p ip va rest hl hip hlive href hyoung hres hva hcnt
    hwf hs hnd hnot

/-- C30, instance: the one listed page of `example_young_state`. -/
theorem sgx_swap_cluster_revisits_young_page_witness :
    (∃ w1, swap_scan_iter (encl_env example_params fun w => w) [] []
          (example_young_state, example_young_driver)
        = .ok (some ([], [.get ⟨0, 0⟩ true, .reclaim ⟨0, 0⟩ false, .put ⟨0, 0⟩], w1)) ∧
      w1.1.sgx_active_page_list = [⟨0, 0⟩] ∧ (w1.2.encl_pages 0).young = false) ∧
    ∃ ret w', sgx_swap_cluster (encl_env example_params fun w => w)
          (example_young_state, example_young_driver)
        = .ok ([.get ⟨0, 0⟩ true, .reclaim ⟨0, 0⟩ false, .put ⟨0, 0⟩, .get ⟨0, 0⟩ true,
            .reclaim ⟨0, 0⟩ true, .block ⟨0, 0⟩, .write ⟨0, 0⟩, .put ⟨0, 0⟩,
            .free_page ⟨0, 0⟩ ret], w') ∧
      swap_cluster_pages (encl_env example_params fun w => w)
          (example_young_state, example_young_driver) = .ok [⟨0, 0⟩] ∧
      w'.1.sgx_active_page_list = [] ∧
      (w'.2.encl_pages 0).young = false ∧
      w'.1.hw_log = example_young_state.hw_log ++ [.EBLOCK ⟨0, 0⟩]
        ++ ewb_attempts example_params ⟨0, 0⟩ (example_young_driver.va_store 0).epc_page
            (sgx_alloc_va_slot (example_young_driver.va_store 0)).1
            (example_young_driver.encl_pages 0).encl
            (example_young_state.hw_results.tail.headD 0)
            ((example_young_state.hw_results.tail.drop 2).headD 0)
        ++ [.EREMOVE ⟨0, 0⟩] ∧
      (ret = 0 → (all_live w'.1).Perm (⟨0, 0⟩ :: all_live example_young_state) ∧
        w'.1.sgx_nr_free_pages = example_young_state.sgx_nr_free_pages + 1) :=
  sgx_swap_cluster_revisits_young_page example_params (fun w => w)
    (example_young_state, example_young_driver) ⟨0, 0⟩ 0 0 []
    (by decide) (by decide) (by decide) (by decide) (by decide) (by decide) (by decide)
    (by decide) (by decide) (by decide) (by decide) (by decide)

/-! ## One reclaim pass over seventeen candidates -/

theorem frame_refl (s : State) : s.Frame s := ⟨rfl, rfl, rfl, fun h => h⟩

theorem frame_trans {s1 s2 s3 : State} (h1 : s1.Frame s2) (h2 : s2.Frame s3) :
    s1.Frame s3 :=
  ⟨h2.1.trans h1.1, h2.2.1.trans h1.2.1, h2.2.2.1.trans h1.2.2.1, fun h => h2.2.2.2 (h1.2.2.2 h)⟩

theorem owned_of_banks {s s' : State} (h : s'.sgx_epc_banks = s.sgx_epc_banks) (p : PagePtr) :
    s'.Owned p ↔ s.Owned p := by
  unfold State.Owned State.page
  rw [h]

theorem page_ops_owned {Ω : Type} (env : Env Ω) {s : State} {p : PagePtr} (h : s.Owned p) :
    ∃ impl, page_ops env s p = .ok (env.ops_of impl) := by
  unfold State.Owned at h
  unfold page_ops
  cases hp : s.page p with
  | none => simp [hp] at h
  | some pg =>
    cases hi : pg.impl with
    | none => simp [hp, hi] at h
    | some impl =>
      refine ⟨impl, ?_⟩
      simp only [hi]

theorem rejects_scan_iter {Ω : Type} {env : Env Ω} {rej : PagePtr} (hR : env.RejectsOnly rej)
    (cluster : List PagePtr) (tr : List Event) {w : World Ω} {p : PagePtr}
    {rest : List PagePtr} (hl : w.1.sgx_active_page_list = p :: rest) (hown : w.1.Owned p) :
    ∃ tr' w', swap_scan_iter env cluster tr w
        = .ok (some (cluster ++ (if p = rej then [] else [p]), tr', w')) ∧
      w'.1.sgx_epc_banks = w.1.sgx_epc_banks ∧
      w'.1.sgx_nr_free_pages = w.1.sgx_nr_free_pages ∧
      w'.1.sgx_active_page_list = rest ++ (if p = rej then [p] else []) ∧
      (w.1.HwQuiet → w'.1.HwQuiet) := by
  obtain ⟨impl, hops⟩ := page_ops_owned env hown
  obtain ⟨w1, hget, f1⟩ := hR.get impl p w
  have hl1 : w1.1.sgx_active_page_list = p :: rest := f1.2.2.1.trans hl
  have hown2 : (w1.1.with_list (list_del p w1.1.sgx_active_page_list)).Owned p :=
    (owned_of_banks (s := w.1) f1.1 p).2 hown
  obtain ⟨impl2, hops2⟩ := page_ops_owned env hown2
  obtain ⟨w3, hrec, f3⟩ := hR.reclaim impl2 p
    (w1.1.with_list (list_del p w1.1.sgx_active_page_list), w1.2)
  have hl3 : w3.1.sgx_active_page_list = rest := by
    rw [f3.2.2.1]
    simp [State.with_list, list_del, hl1]
  by_cases hp : p = rej
  · have hown4 : (w3.1.with_list (list_add_tail p w3.1.sgx_active_page_list)).Owned p :=
      (owned_of_banks (s := w.1) (f3.1.trans f1.1) p).2 hown
    obtain ⟨impl3, hops3⟩ := page_ops_owned env hown4
    obtain ⟨w5, hput, f5⟩ := hR.put impl3 p
      (w3.1.with_list (list_add_tail p w3.1.sgx_active_page_list), w3.2)
    refine ⟨tr ++ [.get p true, .reclaim p false, .put p], w5, ?_, f5.1.trans (f3.1.trans f1.1), f5.2.1.trans (f3.2.1.trans f1.2.1), ?_,
      fun h => f5.2.2.2 (f3.2.2.2 (f1.2.2.2 h))⟩
    · unfold swap_scan_iter
      rw [hl]
      simp only
      rw [hops]
      simp only
      rw [hget]
      simp only
      rw [hops2]
      simp only
      rw [hrec]
      simp only [hp, ne_eq, not_true_eq_false, decide_False]
      simp only [hp] at hops3 hput
      rw [hops3]
      simp only
      rw [hput]
      simp
    · rw [f5.2.2.1]
      simp [State.with_list, list_add_tail, hl3, hp]
  · refine ⟨tr ++ [.get p true, .reclaim p true], w3, ?_, f3.1.trans f1.1, f3.2.1.trans f1.2.1, ?_,
      fun h => f3.2.2.2 (f1.2.2.2 h)⟩
    · unfold swap_scan_iter
      rw [hl]
      simp only
      rw [hops]
      simp only
      rw [hget]
      simp only
      rw [hops2]
      simp only
      rw [hrec]
      simp [hp]
    · rw [hl3]
      simp [hp]

theorem rejects_scan {Ω : Type} {env : Env Ω} {rej : PagePtr} (hR : env.RejectsOnly rej)
    (n : Nat) (M R cluster : List PagePtr) (tr : List Event) (w : World Ω)
    (hl : w.1.sgx_active_page_list = M ++ R) (hn : n ≤ M.length)
    (hown : ∀ p ∈ M, w.1.Owned p) :
    ∃ tr' w', swap_scan env n cluster tr w
        = .ok (cluster ++ (M.take n).filter (fun p => decide (p ≠ rej)), tr', w') ∧
      w'.1.sgx_epc_banks = w.1.sgx_epc_banks ∧
      w'.1.sgx_nr_free_pages = w.1.sgx_nr_free_pages ∧
      w'.1.sgx_active_page_list
        = M.drop n ++ R ++ (M.take n).filter (fun p => decide (p = rej)) ∧
      (w.1.HwQuiet → w'.1.HwQuiet) := by
  induction n generalizing M R cluster tr w with
  | zero =>
    refine ⟨tr, w, ?_, rfl, rfl, by simpa using hl, fun h => h⟩
    simp [swap_scan]
  | succ n ih =>
    cases M with
    | nil => simp at hn
    | cons p M' =>
      obtain ⟨tr1, w1, h1, b1, c1, l1, q1⟩ :=
        rejects_scan_iter hR cluster tr (w := w) (p := p) hl (hown p (List.mem_cons_self _ _))
      obtain ⟨tr2, w2, h2, b2, c2, l2, q2⟩ := ih M' (R ++ (if p = rej then [p] else []))
        (cluster ++ (if p = rej then [] else [p])) tr1 w1
        (by rw [l1]; simp) (by simpa using hn)
        (fun q hq => (owned_of_banks b1 q).2 (hown q (List.mem_cons_of_mem _ hq)))
      refine ⟨tr2, w2, ?_, b2.trans b1, c2.trans c1, ?_, fun h => q2 (q1 h)⟩
      · rw [swap_scan, h1]
        simp only
        rw [h2]
        by_cases hp : p = rej <;> simp [hp, List.filter_cons]
      · rw [l2]
        by_cases hp : p = rej <;> simp [hp, List.filter_cons]

theorem rejects_block {Ω : Type} {env : Env Ω} {rej : PagePtr} (hR : env.RejectsOnly rej)
    (cluster : List PagePtr) (tr : List Event) (w : World Ω)
    (hown : ∀ p ∈ cluster, w.1.Owned p) :
    ∃ tr' w', swap_block env cluster tr w = .ok (tr', w') ∧ w.1.Frame w'.1 := by
  induction cluster generalizing tr w with
  | nil => exact ⟨tr, w, rfl, frame_refl _⟩
  | cons p rest ih =>
    obtain ⟨impl, hops⟩ := page_ops_owned env (hown p (List.mem_cons_self _ _))
    obtain ⟨w1, hb, f1⟩ := hR.block impl p w
    obtain ⟨tr2, w2, h2, f2⟩ := ih (tr ++ [.block p]) w1
      (fun q hq => (owned_of_banks f1.1 q).2 (hown q (List.mem_cons_of_mem _ hq)))
    refine ⟨tr2, w2, ?_, frame_trans f1 f2⟩
    rw [swap_block, hops]
    simp only
    rw [hb]
    exact h2

theorem sgx_free_page_page {p : PagePtr} {s s' : State} {ret : Int}
    (h : sgx_free_page p s = .ok (ret, s')) (q : PagePtr) : s'.page q = s.page q := by
  obtain ⟨pg, _, _, h1 | ⟨_, bank, hb, _, h1⟩⟩ := sgx_free_page_inv h
  · rw [h1.2]
    rfl
  · rw [h1]
    unfold State.page
    simp only
    exact page_at_set_stack hb _ _ q

theorem sgx_free_page_hw {p : PagePtr} {s s' : State} {ret : Int}
    (h : sgx_free_page p s = .ok (ret, s')) :
    ret = s.hw_results.headD 0 ∧ s'.hw_results = s.hw_results.tail := by
  obtain ⟨pg, _, hret, h1 | ⟨_, bank, hb, _, h1⟩⟩ := sgx_free_page_inv h
  · rw [h1.2]
    exact ⟨hret, rfl⟩
  · rw [h1]
    exact ⟨hret, rfl⟩

theorem hwQuiet_head {s : State} (h : s.HwQuiet) : s.hw_results.headD 0 = 0 := by
  unfold State.HwQuiet at h
  cases hr : s.hw_results with
  | nil => rfl
  | cons a l =>
    rw [hr] at h
    exact h a (List.mem_cons_self _ _)

theorem hwQuiet_tail {s s' : State} (h : s.HwQuiet) (ht : s'.hw_results = s.hw_results.tail) :
    s'.HwQuiet := by
  unfold State.HwQuiet at h ⊢
  rw [ht]
  intro r hr
  exact h r (List.mem_of_mem_tail hr)

theorem owned_free {p : PagePtr} {s s' : State} {ret : Int}
    (h : sgx_free_page p s = .ok (ret, s')) (q : PagePtr) : s'.Owned q ↔ s.Owned q := by
  unfold State.Owned
  rw [sgx_free_page_page h q]

theorem rejects_write {Ω : Type} {env : Env Ω} {rej : PagePtr} (hR : env.RejectsOnly rej)
    (cluster : List PagePtr) (tr : List Event) (w : World Ω)
    (hwf : w.1.WellFormed) (hs : w.1.Shaped) (hnd : (all_live w.1).Nodup)
    (hca : w.1.CountersAgree) (hq : w.1.HwQuiet) (hcl : cluster.Nodup)
    (hown : ∀ p ∈ cluster, w.1.Owned p) (hnot : ∀ p ∈ cluster, p ∉ all_live w.1) :
    ∃ w', swap_write env cluster tr w = .ok (tr ++ write_events cluster
        (List.replicate cluster.length 0), w') ∧
      w'.1.WellFormed ∧ w'.1.Shaped ∧ (all_live w'.1).Nodup ∧ w'.1.CountersAgree ∧
      w'.1.HwQuiet ∧
      w'.1.sgx_nr_free_pages = w.1.sgx_nr_free_pages + cluster.length ∧
      (all_live w'.1).Perm (cluster ++ all_live w.1) ∧
      w'.1.sgx_active_page_list = w.1.sgx_active_page_list := by
  induction cluster generalizing tr w with
  | nil =>
    exact ⟨w, by simp [swap_write, write_events], hwf, hs, hnd, hca, hq, by simp, by simp,
      rfl⟩
  | cons p rest ih =>
    have hownp := hown p (List.mem_cons_self _ _)
    obtain ⟨impl, hops⟩ := page_ops_owned env hownp
    obtain ⟨w1, hwr, f1⟩ := hR.write impl p w
    obtain ⟨impl2, hops2⟩ := page_ops_owned env ((owned_of_banks f1.1 p).2 hownp)
    obtain ⟨w2, hput, f2⟩ := hR.put impl2 p w1
    have f := frame_trans f1 f2
    have hwf2 : w2.1.WellFormed := wellFormed_of_banks f.1 hwf
    have hs2 : w2.1.Shaped := shaped_of_shape (by rw [f.1]) hs
    have hal2 : all_live w2.1 = all_live w.1 := all_live_of_banks f.1
    have hca2 : w2.1.CountersAgree := countersAgree_of_fields f.1 f.2.1 hca
    have hq2 : w2.1.HwQuiet := f.2.2.2 hq
    have hpg : (w2.1.page p).isSome := by
      have := (owned_of_banks f.1 p).2 hownp
      unfold State.Owned at this
      cases hp : w2.1.page p with
      | none => simp [hp] at this
      | some pg => rfl
    obtain ⟨ret, s3, hfr⟩ := sgx_free_page_returns hwf2 hs2 (by rw [hal2]; exact hnd) hpg
      (by rw [hal2]; exact hnot p (List.mem_cons_self _ _))
    obtain ⟨hret, htail⟩ := sgx_free_page_hw hfr
    have hret0 : ret = 0 := by rw [hret, hwQuiet_head hq2]
    subst hret0
    obtain ⟨z1, z2⟩ := sgx_free_page_zero hfr
    rw [hal2] at z1
    have hnd3 : (all_live s3).Nodup :=
      z1.nodup_iff.2 (List.nodup_cons.2 ⟨hnot p (List.mem_cons_self _ _), hnd⟩)
    obtain ⟨w4, h4, a1, a2, a3, a4, a5, a6, a7, a8⟩ :=
      ih (tr ++ [.write p, .put p, .free_page p 0]) (s3, w2.2)
        (wellFormed_free hwf2 hfr) (shaped_of_shape (shape_free hfr) hs2) hnd3
        (countersAgree_free _ _ _ _ hca2 hfr) (hwQuiet_tail hq2 htail)
        (List.nodup_cons.1 hcl).2
        (fun q hq' => (owned_free hfr q).2
          ((owned_of_banks f.1 q).2 (hown q (List.mem_cons_of_mem _ hq'))))
        (fun q hq' hmem => by
          rcases List.mem_cons.1 (z1.subset hmem) with h | h
          · subst h
            exact (List.nodup_cons.1 hcl).1 hq'
          · exact hnot q (List.mem_cons_of_mem _ hq') h)
    refine ⟨w4, ?_, a1, a2, a3, a4, a5, ?_, ?_, ?_⟩
    · rw [swap_write]
      unfold swap_write_iter
      rw [hops]
      simp only
      rw [hwr]
      simp only
      rw [hops2]
      simp only
      rw [hput]
      simp only
      rw [hfr]
      simp only
      rw [h4, List.length_cons, List.replicate_succ, write_events_cons]
      simp
    · rw [a6]
      simp only
      rw [z2, f.2.1]
      simp only [List.length_cons, Nat.cast_add, Nat.cast_one]
      omega
    · refine a7.trans ?_
      simp only
      refine (List.Perm.append_left rest z1).trans ?_
      simp only [List.cons_append]
      exact List.perm_middle
    · rw [a8]
      simp only
      rw [sgx_free_page_list hfr, f.2.2.1]

theorem all_live_nil_of_zero {s : State} (h : ∀ b ∈ s.sgx_epc_banks, b.free_cnt = 0) :
    all_live s = [] := by
  unfold all_live
  rw [List.flatten_eq_nil_iff]
  intro l hl
  obtain ⟨b, hb, rfl⟩ := List.mem_map.1 hl
  simp [sgx_epc_bank.live, h b hb]

theorem written_pages_of_pass {Ω : Type} {env : Env Ω} {w w' : World Ω} {tr : List Event}
    (h : sgx_swap_cluster env w = .ok (tr, w')) :
    swap_cluster_pages env w = .ok (written_pages tr) := by
  obtain ⟨cluster, t1, t3, hcl, htr, _, hw1, _, hw3⟩ := sgx_swap_cluster_trace h
  have hw : written_pages tr = cluster := by
    rw [htr]
    simp only [written_pages, List.filterMap_append] at hw1 hw3 ⊢
    rw [hw1, hw3]
    simpa [written_pages] using written_pages_map_block cluster
  rw [hw]
  exact hcl

theorem mem_write_events_free (cluster : List PagePtr) {p : PagePtr} (hp : p ∈ cluster) :
    Event.free_page p 0 ∈ write_events cluster (List.replicate cluster.length 0) := by
  induction cluster with
  | nil => simp at hp
  | cons c cs ih =>
    rw [List.length_cons, List.replicate_succ, write_events_cons]
    rcases List.mem_cons.1 hp with h | h
    · subst h
      simp
    · exact List.mem_append_right _ (ih h)

theorem rejects_pass {Ω : Type} {env : Env Ω} {rej : PagePtr} (hR : env.RejectsOnly rej)
    (w : World Ω) (hwf : w.1.WellFormed) (hs : w.1.Shaped) (hca : w.1.CountersAgree)
    (h0 : w.1.sgx_nr_free_pages = 0) (hq : w.1.HwQuiet)
    (hnd : w.1.sgx_active_page_list.Nodup)
    (hlen : SGX_NR_TO_SCAN ≤ w.1.sgx_active_page_list.length)
    (hown : ∀ p ∈ w.1.sgx_active_page_list, w.1.Owned p) :
    ∃ tr w', sgx_swap_cluster env w = .ok (tr, w') ∧
      written_pages tr = (w.1.sgx_active_page_list.take SGX_NR_TO_SCAN).filter
        (fun p => decide (p ≠ rej)) ∧
      (∀ p ∈ written_pages tr, Event.free_page p 0 ∈ tr) ∧
      w'.1.WellFormed ∧ w'.1.Shaped ∧ w'.1.CountersAgree ∧ w'.1.HwQuiet ∧
      w'.1.sgx_nr_free_pages = (written_pages tr).length ∧
      (all_live w'.1).Perm (written_pages tr) ∧
      w'.1.sgx_active_page_list = w.1.sgx_active_page_list.drop SGX_NR_TO_SCAN
        ++ (w.1.sgx_active_page_list.take SGX_NR_TO_SCAN).filter
          (fun p => decide (p = rej)) := by
  have hal : all_live w.1 = [] := all_live_nil_of_zero (all_zero_of_counters hca h0)
  obtain ⟨tr1, w1, h1, b1, c1, l1, q1⟩ := rejects_scan hR SGX_NR_TO_SCAN
    w.1.sgx_active_page_list [] [] [] w (by simp) hlen hown
  simp only [List.nil_append, List.append_nil] at h1 l1
  have hsub : ∀ p ∈ (w.1.sgx_active_page_list.take SGX_NR_TO_SCAN).filter
      (fun p => decide (p ≠ rej)), p ∈ w.1.sgx_active_page_list :=
    fun p hp => List.mem_of_mem_take (List.mem_of_mem_filter hp)
  have hcl : ((w.1.sgx_active_page_list.take SGX_NR_TO_SCAN).filter
      (fun p => decide (p ≠ rej))).Nodup :=
    ((List.take_sublist _ _).nodup hnd).filter _
  obtain ⟨C, hC⟩ : ∃ C, C = (w.1.sgx_active_page_list.take SGX_NR_TO_SCAN).filter
      (fun p => decide (p ≠ rej)) := ⟨_, rfl⟩
  rw [← hC] at h1 hsub hcl ⊢
  obtain ⟨tr2, w2, h2, f2⟩ := rejects_block hR C tr1 w1
    (fun p hp => (owned_of_banks b1 p).2 (hown p (hsub p hp)))
  have hb2 : w2.1.sgx_epc_banks = w.1.sgx_epc_banks := f2.1.trans b1
  obtain ⟨w3, h3, a1, a2, a3, a4, a5, a6, a7, a8⟩ := rejects_write hR C tr2 w2
    (wellFormed_of_banks hb2 hwf) (shaped_of_shape (by rw [hb2]) hs)
    (by rw [all_live_of_banks hb2, hal]; exact List.nodup_nil)
    (countersAgree_of_fields hb2 (f2.2.1.trans c1) hca) (f2.2.2.2 (q1 hq)) hcl
    (fun p hp => (owned_of_banks hb2 p).2 (hown p (hsub p hp)))
    (fun p _ => by rw [all_live_of_banks hb2, hal]; simp)
  have hpass : sgx_swap_cluster env w
      = .ok (tr2 ++ write_events C (List.replicate C.length 0), w3) := by
    unfold sgx_swap_cluster
    rw [h1]
    simp only
    rw [h2]
    simp only
    rw [h3]
  have hwp := written_pages_of_pass hpass
  have hwp2 : written_pages (tr2 ++ write_events C (List.replicate C.length 0)) = C := by
    unfold swap_cluster_pages at hwp
    rw [h1] at hwp
    simp only at hwp
    exact (Except.ok.inj hwp).symm
  refine ⟨_, w3, hpass, hwp2, ?_, a1, a2, a4, a5, ?_, ?_, ?_⟩
  · intro p hp
    rw [hwp2] at hp
    exact List.mem_append_right _ (mem_write_events_free _ hp)
  · rw [a6, hwp2, f2.2.1, c1, h0]
    simp
  · rw [hwp2]
    refine a7.trans ?_
    rw [all_live_of_banks hb2, hal, List.append_nil]
  · rw [a8, f2.2.2.1, l1]

theorem length_filter_ne (X : List PagePtr) (a : PagePtr) :
    (X.filter (fun p => decide (p ≠ a))).length + X.count a = X.length := by
  induction X with
  | nil => rfl
  | cons x xs ih =>
    simp only [ne_eq, decide_not] at ih ⊢
    by_cases hx : x = a
    · subst hx
      simp [List.filter_cons]
      omega
    · have hx' : ¬ (x == a) = true := by simpa using hx
      simp [List.filter_cons, hx, List.count_cons, hx']
      omega

theorem exists_free_of_counters {s : State} (hca : s.CountersAgree)
    (hpos : 0 < s.sgx_nr_free_pages) : ∃ b ∈ s.sgx_epc_banks, 0 < b.free_cnt := by
  by_contra hne
  have hall : ∀ b ∈ s.sgx_epc_banks, b.free_cnt = 0 := by
    intro b hb
    by_contra h
    exact hne ⟨b, hb, Nat.pos_of_ne_zero h⟩
  have hsum : sum_free_cnt s.sgx_epc_banks = 0 := by
    unfold sum_free_cnt
    apply List.sum_eq_zero
    intro x hx
    obtain ⟨b, hb, rfl⟩ := List.mem_map.1 hx
    exact hall b hb
  unfold State.CountersAgree at hca
  rw [hsum] at hca
  omega

theorem alloc_finish_nr_free (s : State) :
    (alloc_finish s).sgx_nr_free_pages = s.sgx_nr_free_pages := by
  unfold alloc_finish
  split <;> rfl

theorem rejects_alloc {Ω : Type} {env : Env Ω} {rej : PagePtr} (hR : env.RejectsOnly rej)
    (impl : Option ImplPtr) (flags fuel : Nat) (w : World Ω)
    (hwf : w.1.WellFormed) (hs : w.1.Shaped) (hca : w.1.CountersAgree)
    (h0 : w.1.sgx_nr_free_pages = 0) (hq : w.1.HwQuiet)
    (hnd : w.1.sgx_active_page_list.Nodup)
    (hlen : w.1.sgx_active_page_list.length = 17)
    (hrej : rej ∈ w.1.sgx_active_page_list)
    (hown : ∀ p ∈ w.1.sgx_active_page_list, w.1.Owned p)
    (hsig : w.1.signal_pending = false) (hflags : flags &&& SGX_ALLOC_ATOMIC = 0) :
    ∃ tr w1 q w', sgx_swap_cluster env w = .ok (tr, w1) ∧
      written_pages tr = (w.1.sgx_active_page_list.take SGX_NR_TO_SCAN).filter
        (fun p => decide (p ≠ rej)) ∧
      (∀ p ∈ written_pages tr, Event.free_page p 0 ∈ tr) ∧
      (all_live w1.1).Perm (written_pages tr) ∧
      w1.1.sgx_nr_free_pages = (written_pages tr).length ∧
      w1.1.sgx_active_page_list = w.1.sgx_active_page_list.drop SGX_NR_TO_SCAN
        ++ (w.1.sgx_active_page_list.take SGX_NR_TO_SCAN).filter
          (fun p => decide (p = rej)) ∧
      (rej ∈ w.1.sgx_active_page_list.take SGX_NR_TO_SCAN → (written_pages tr).length = 15) ∧
      (rej ∉ w.1.sgx_active_page_list.take SGX_NR_TO_SCAN → (written_pages tr).length = 16) ∧
      ((written_pages tr).length = 16 ↔ w.1.sgx_active_page_list.getLast? = some rej) ∧
      sgx_alloc_page env impl flags 1 w = .error .fuel ∧
      sgx_alloc_page env impl flags (fuel + 2) w = .ok (.page q, w') ∧
      w'.1.sgx_nr_free_pages = (written_pages tr).length - 1 ∧
      0 ≤ w'.1.sgx_nr_free_pages ∧ w'.1.sgx_nr_free_pages ≤ 15 := by
  obtain ⟨tr, w1, hpass, p1, p2, p3, p4, p5, p6, p7, p8, p9⟩ :=
    rejects_pass hR w hwf hs hca h0 hq hnd (by rw [hlen]; decide) hown
  have htake : (w.1.sgx_active_page_list.take SGX_NR_TO_SCAN).length = 16 := by
    rw [List.length_take, hlen]
    rfl
  have hcount := length_filter_ne (w.1.sgx_active_page_list.take SGX_NR_TO_SCAN) rej
  rw [← p1, htake] at hcount
  have hndt : (w.1.sgx_active_page_list.take SGX_NR_TO_SCAN).Nodup :=
    (List.take_sublist _ _).nodup hnd
  have hin : rej ∈ w.1.sgx_active_page_list.take SGX_NR_TO_SCAN →
      (written_pages tr).length = 15 := by
    intro h
    have := List.count_eq_one_of_mem hndt h
    omega
  have hout : rej ∉ w.1.sgx_active_page_list.take SGX_NR_TO_SCAN →
      (written_pages tr).length = 16 := by
    intro h
    have := List.count_eq_zero_of_not_mem h
    omega
  have hge : 15 ≤ (written_pages tr).length ∧ (written_pages tr).length ≤ 16 := by
    by_cases h : rej ∈ w.1.sgx_active_page_list.take SGX_NR_TO_SCAN
    · have := hin h
      omega
    · have := hout h
      omega
  have htry := sgx_try_alloc_page_all_zero impl (all_zero_of_counters hca h0)
  have hne : w.1.sgx_active_page_list ≠ [] := by
    intro h
    rw [h] at hlen
    simp at hlen
  have hpass' : sgx_swap_cluster env (w.1, w.2) = .ok (tr, w1) := hpass
  have fs := hR.schedule w1
  have hwf2 : (env.schedule w1).1.WellFormed := wellFormed_of_banks fs.1 p3
  have hca2 : (env.schedule w1).1.CountersAgree := countersAgree_of_fields fs.1 fs.2.1 p5
  have hnr2 : (env.schedule w1).1.sgx_nr_free_pages = (written_pages tr).length := by
    rw [fs.2.1, p7]
  obtain ⟨i, bank, q, s', _, _, _, _, halloc, _, hnr, _, _⟩ :=
    sgx_try_alloc_page_first_free impl (env.schedule w1).1 hwf2
      (exists_free_of_counters hca2 (by rw [hnr2]; omega))
  have hstep : ∀ f, sgx_alloc_page env impl flags (f + 1) w
      = sgx_alloc_page env impl flags f (env.schedule w1) := by
    intro f
    rw [sgx_alloc_page, htry]
    simp only
    rw [if_neg hne, if_neg (by simpa using hflags), if_neg (by simp [hsig]), hpass']
  have hlast : (written_pages tr).length = 16 ↔
      w.1.sgx_active_page_list.getLast? = some rej := by
    have hsplit := (List.take_append_drop SGX_NR_TO_SCAN w.1.sgx_active_page_list).symm
    have hd : (w.1.sgx_active_page_list.drop SGX_NR_TO_SCAN).length = 1 := by
      rw [List.length_drop, hlen]
      rfl
    obtain ⟨x, hx⟩ := List.length_eq_one.1 hd
    have hgl : w.1.sgx_active_page_list.getLast? = some x := by
      rw [hsplit, hx]
      simp
    have hdisj : x ∉ w.1.sgx_active_page_list.take SGX_NR_TO_SCAN := by
      have h2 := hnd
      rw [hsplit, hx, List.nodup_append] at h2
      exact fun h => h2.2.2 h (List.mem_singleton_self x)
    rw [hgl]
    constructor
    · intro h16
      have hnot : rej ∉ w.1.sgx_active_page_list.take SGX_NR_TO_SCAN := by
        intro h
        have := hin h
        omega
      have hmem := hrej
      rw [hsplit, hx, List.mem_append] at hmem
      rcases hmem with h | h
      · exact absurd h hnot
      · rw [List.mem_singleton.1 h]
    · intro h
      have hxr : x = rej := Option.some.inj h
      exact hout (hxr ▸ hdisj)
  refine ⟨tr, w1, q, (alloc_finish s', (env.schedule w1).2), hpass, p1, p2, p8, p7, p9, hin,
    hout, hlast, ?_, ?_, ?_, ?_, ?_⟩
  · rw [hstep 0]
    rfl
  · rw [hstep (fuel + 1), sgx_alloc_page, halloc]
  · simp only
    rw [alloc_finish_nr_free, hnr, hnr2]
  · simp only
    rw [alloc_finish_nr_free, hnr, hnr2]
    omega
  · simp only
    rw [alloc_finish_nr_free, hnr, hnr2]
    omega

theorem veto_env_rejectsOnly (rej : PagePtr) : (veto_env rej).RejectsOnly rej where
  get := fun _ _ w => ⟨w, rfl, frame_refl _⟩
  reclaim := fun _ _ w => ⟨w, rfl, frame_refl _⟩
  put := fun _ _ w => ⟨w, rfl, frame_refl _⟩
  block := fun _ _ w => ⟨w, rfl, frame_refl _⟩
  write := fun _ _ w => ⟨w, rfl, frame_refl _⟩
  schedule := fun _ => frame_refl _

theorem sgx_alloc_page_attempt {Ω : Type} {env : Env Ω}
    (henv : env.Preserves State.WellFormed) (impl : Option ImplPtr) (flags fuel : Nat)
    {p : PagePtr} {w w' : World Ω} (hwf : w.1.WellFormed)
    (h : sgx_alloc_page env impl flags fuel w = .ok (.page p, w')) :
    ∃ s0 s1, s0.WellFormed ∧ sgx_try_alloc_page impl s0 = .ok (some p, s1) ∧
      w'.1 = alloc_finish s1 ∧
      ((∃ q t, sgx_try_alloc_page impl w.1 = .ok (some q, t)) → s0 = w.1) ∧
      ((∀ q t, sgx_try_alloc_page impl w.1 ≠ .ok (some q, t)) →
        ∃ v tr v', sgx_swap_cluster env v = .ok (tr, v') ∧ s0 = (env.schedule v').1) := by
  induction fuel generalizing w with
  | zero => simp [sgx_alloc_page] at h
  | succ fuel ih =>
    unfold sgx_alloc_page at h
    split at h
    · cases h
    · rename_i entry s1 htry1
      cases h
      refine ⟨w.1, s1, hwf, htry1, rfl, fun _ => rfl, fun hno => ?_⟩
      exact absurd htry1 (hno _ _)
    · rename_i s1 htry1
      have hwf1 := wellFormed_try_alloc hwf htry1
      split at h
      · cases h
      · split at h
        · cases h
        · split at h
          · cases h
          · split at h
            · cases h
            · rename_i tr w2 hswap
              have hwf2 : w2.1.WellFormed :=
                sgx_swap_cluster_preserves
                  (fun s l hs => @wellFormed_of_banks s (s.with_list l) rfl hs)
                  (fun p s ret s' hs hfr => wellFormed_free hs hfr) henv.1
                  (w := (s1, w.2)) hwf1 hswap
              obtain ⟨s0, t1, a1, a2, a3, a4, a5⟩ := ih (henv.2 _ hwf2) h
              refine ⟨s0, t1, a1, a2, a3, ?_, fun _ => ?_⟩
              · rintro ⟨q, t, hq⟩
                rw [htry1] at hq
                cases hq
              · by_cases hsome : ∃ q t, sgx_try_alloc_page impl (env.schedule w2).1
                    = .ok (some q, t)
                · exact ⟨(s1, w.2), tr, w2, hswap, a4 hsome⟩
                · exact a5 fun q t hq => hsome ⟨q, t, hq⟩

theorem round_trip_general (impl : Option ImplPtr) (s : State) (hwf : s.WellFormed) :
    (∀ p s1, sgx_try_alloc_page impl s = .ok (some p, s1) → (sgx_eremove p s1).1 = 0 →
      (∃ s2, sgx_free_page p s1 = .ok (0, s2) ∧ pool_view s2 = pool_view s) ∧
      ∀ (Ω : Type) (env : Env Ω) (ω : Ω) (flags fuel : Nat),
        sgx_alloc_page env impl flags (fuel + 1) (s, ω)
          = .ok (.page p, (alloc_finish s1, ω)) ∧
        ∃ s2, sgx_free_page p (alloc_finish s1) = .ok (0, s2) ∧
          pool_view s2 = pool_view s) ∧
    (∀ (Ω : Type) (env : Env Ω), env.Preserves State.WellFormed →
      ∀ (ω : Ω) (flags fuel : Nat) (p : PagePtr) (w' : World Ω),
        sgx_alloc_page env impl flags fuel (s, ω) = .ok (.page p, w') →
        (sgx_eremove p w'.1).1 = 0 →
        ∃ s0 s1, s0.WellFormed ∧ sgx_try_alloc_page impl s0 = .ok (some p, s1) ∧
          w'.1 = alloc_finish s1 ∧
          ((∃ q t, sgx_try_alloc_page impl s = .ok (some q, t)) → s0 = s) ∧
          ((∀ q t, sgx_try_alloc_page impl s ≠ .ok (some q, t)) →
            ∃ v tr v', sgx_swap_cluster env v = .ok (tr, v') ∧
              s0 = (env.schedule v').1) ∧
          ∃ s2, sgx_free_page p w'.1 = .ok (0, s2) ∧ pool_view s2 = pool_view s0) := by
  refine ⟨fun p s1 h1 hrem => round_trip_first_attempt impl s s1 p hwf h1 hrem, ?_⟩
  intro Ω env henv ω flags fuel p w' h hrem
  obtain ⟨s0, s1, a1, a2, a3, a4, a5⟩ :=
    sgx_alloc_page_attempt henv impl flags fuel (w := (s, ω)) hwf h
  refine ⟨s0, s1, a1, a2, a3, a4, a5, ?_⟩
  rw [a3] at hrem ⊢
  have hrem' : s1.hw_results.headD 0 = 0 := by
    unfold alloc_finish at hrem
    split at hrem <;> exact hrem
  unfold alloc_finish
  split
  · exact round_trip_core a1 a2 s1.hw_results s1.hw_log s1.signal_pending
      (s1.ksgxswapd_wakeups + 1) hrem'
  · exact round_trip_core a1 a2 s1.hw_results s1.hw_log s1.signal_pending
      s1.ksgxswapd_wakeups hrem'

/-- C4, amended: in a well-formed state in which `sgx_try_alloc_page` returns a page `p`,
an immediately following `sgx_free_page(p)` whose `REMOVE` succeeds restores the global
free count and, in every bank, the pointer array and `free_cnt` (hence the live entries of
the free stack) to their values before the allocation; in such a state `sgx_alloc_page`
returns the same page without a reclaim pass and the same holds for it.  For every
`sgx_alloc_page` that returns a page `p` (the owner callbacks and `schedule()` keeping the
banks well formed), the `sgx_free_page(p)` that follows restores these values to those of
the state `s0` in which the successful attempt was made: the state of the call when its
first attempt succeeds, and otherwise a state left by a reclaim pass and `schedule()`. -/
theorem alloc_free_round_trip (impl : Option ImplPtr) (s : State) (hwf : s.WellFormed) :
    (∀ p s1, sgx_try_alloc_page impl s = .ok (some p, s1) → (sgx_eremove p s1).1 = 0 →
      (∃ s2, sgx_free_page p s1 = .ok (0, s2) ∧ pool_view s2 = pool_view s) ∧
      ∀ (Ω : Type) (env : Env Ω) (ω : Ω) (flags fuel : Nat),
        sgx_alloc_page env impl flags (fuel + 1) (s, ω)
          = .ok (.page p, (alloc_finish s1, ω)) ∧
        ∃ s2, sgx_free_page p (alloc_finish s1) = .ok (0, s2) ∧
          pool_view s2 = pool_view s) ∧
    (∀ (Ω : Type) (env : Env Ω), env.Preserves State.WellFormed →
      ∀ (ω : Ω) (flags fuel : Nat) (p : PagePtr) (w' : World Ω),
        sgx_alloc_page env impl flags fuel (s, ω) = .ok (.page p, w') →
        (sgx_eremove p w'.1).1 = 0 →
        ∃ s0 s1, s0.WellFormed ∧ sgx_try_alloc_page impl s0 = .ok (some p, s1) ∧
          w'.1 = alloc_finish s1 ∧
          ((∃ q t, sgx_try_alloc_page impl s = .ok (some q, t)) → s0 = s) ∧
          ((∀ q t, sgx_try_alloc_page impl s ≠ .ok (some q, t)) →
            ∃ v tr v', sgx_swap_cluster env v = .ok (tr, v') ∧
              s0 = (env.schedule v').1) ∧
          ∃ s2, sgx_free_page p w'.1 = .ok (0, s2) ∧ pool_view s2 = pool_view s0) :=
  round_trip_general impl s hwf

/-- C4, amended, instance: allocate page 1 of the two-page bank and free it again; and
`sgx_alloc_page` on `example_reclaimable`, which reclaims page 0 and returns it: the free
that follows restores the pool to its value after the reclaim pass. -/
theorem alloc_free_round_trip_witness :
    ((∃ s2, sgx_free_page ⟨0, 1⟩ (example_one_allocated []) = .ok (0, s2) ∧
        pool_view s2 = pool_view (example_init [])) ∧
      (∀ (Ω : Type) (env : Env Ω) (ω : Ω) (flags fuel : Nat),
        sgx_alloc_page env (some 7) flags (fuel + 1) (example_init [], ω)
          = .ok (.page ⟨0, 1⟩, (alloc_finish (example_one_allocated []), ω)) ∧
        ∃ s2, sgx_free_page ⟨0, 1⟩ (alloc_finish (example_one_allocated [])) = .ok (0, s2) ∧
          pool_view s2 = pool_view (example_init []))) ∧
    ∃ s0 s1, s0.WellFormed ∧ sgx_try_alloc_page (some 9) s0 = .ok (some ⟨0, 0⟩, s1) ∧
      example_reclaimed_allocated = alloc_finish s1 ∧
      ((∃ q t, sgx_try_alloc_page (some 9) example_reclaimable = .ok (some q, t)) →
        s0 = example_reclaimable) ∧
      ((∀ q t, sgx_try_alloc_page (some 9) example_reclaimable ≠ .ok (some q, t)) →
        ∃ v tr v', sgx_swap_cluster accept_env v = .ok (tr, v') ∧
          s0 = (accept_env.schedule v').1) ∧
      ∃ s2, sgx_free_page ⟨0, 0⟩ example_reclaimed_allocated = .ok (0, s2) ∧
        pool_view s2 = pool_view s0 :=
  ⟨(alloc_free_round_trip (some 7) (example_init []) (by decide)).1 ⟨0, 1⟩
      (example_one_allocated []) (by rfl) (by decide),
    (alloc_free_round_trip (some 9) example_reclaimable (by decide)).2 Unit accept_env
      (accept_env_preserves _) () 0 2 ⟨0, 0⟩ (example_reclaimed_allocated, ()) (by decide)
      (by decide)⟩

/-- C25, as stated, fails: a callback is code of the owner and can use the active page list.
With the owner whose `block` puts its page back on the list, the pass over the one listed
page of `example_reclaimable` clusters, writes back and frees page 0, and page 0 is on the
list afterwards. -/
theorem sgx_swap_cluster_callback_relists :
    example_reclaimable.sgx_active_page_list.Nodup ∧
    swap_cluster_pages relist_env (example_reclaimable, ()) = .ok [⟨0, 0⟩] ∧
    (sgx_swap_cluster relist_env (example_reclaimable, ())).map
        (fun r => (written_pages r.1, all_live r.2.1, r.2.1.sgx_active_page_list))
      = .ok ([⟨0, 0⟩], [⟨0, 0⟩], [⟨0, 0⟩]) := by
  decide

end Sgx
